import Mathlib

/-!
wgpu-odin `resources/odin.js`: the marshalling layer

A shallow embedding of the host side of the Odin/WASM bridge
(`src/resources/odin.js`): the typed memory accessors of
`WasmMemoryInterface`, the layout cursor (`off` / `align`), the event
encoder `init_event_raw`, the gamepad encoder `get_gamepad_state`, the
listener registry (`listener_key`, the imports that add and remove event
listeners, `onEventReceived`), the imports that act on the staged event,
`dispatch_custom_event` and `evaluate`, and the HTML console of
`writeToConsole`.

Conventions of the embedding.

* The shared buffer (`this.memory.buffer`) is a `List Byte`; a `DataView` or
  `Uint8Array` access outside of it raises `RangeError`, as in ECMAScript.
* A JavaScript number is a `Num`: a finite double is written `Num.fin q`
  with `q` the rational it denotes, next to `-0`, `NaN` and the two
  infinities.  Every arithmetic result is rounded to binary64 by
  `roundDouble` (round to nearest, ties to even, subnormals, overflow).
* Addresses and sizes are natural numbers (the code only ever adds and takes
  remainders of them; those operations are exact on integers below `2^53`).
  The cursor `offset` is a natural number or NaN, which an alignment of `0`
  makes of it.  `Binary64.off` and `Binary64.align` are the two cursor
  closures on Numbers; they agree with the exact ones up to `2^53`.
* A JavaScript string is its list of UTF-16 code units.
* Code that can throw returns its outcome together with the state it leaves
  behind, so a partial write before an exception stays visible.
* The page is a state `Dom`: the memory interface, the listener map, the
  staged event, the ids of the elements of the document and the listeners
  attached to the targets.  A closure is known by a number, its identity as
  a function object.
* The tokens `data` and `callback` of a listener are integers (wasm `i32`
  values); a value that comes from the guest as a length is a `JSValue`, a
  number or a BigInt according to the width of the guest `int`.
-/

namespace Odin

/-! ## JavaScript numbers -/

/-- A JavaScript Number.  `fin q` is the finite double whose value is the
rational `q` (`fin 0` is `+0`). -/
inductive Num where
  | fin (q : ℚ)
  | negZero
  | nan
  | posInf
  | negInf
  deriving DecidableEq

/-- The rational `2^e` for an integer exponent. -/
def pow2 (e : ℤ) : ℚ :=
  if 0 ≤ e then ((2 ^ e.toNat : ℕ) : ℚ) else 1 / ((2 ^ (-e).toNat : ℕ) : ℚ)

/-- Binary logarithm of a natural number, rounded down, by repeated halving
(`fuel` bounds the number of halvings). -/
def log2Aux : (fuel : ℕ) → ℕ → ℕ
  | 0, _ => 0
  | fuel + 1, n => if 2 ≤ n then log2Aux fuel (n / 2) + 1 else 0

/-- Binary logarithm of a natural number, rounded down. -/
def natLog2 (n : ℕ) : ℕ := log2Aux n n

/-- The exponent `e` with `2^e ≤ |q| < 2^(e+1)`, for `q ≠ 0`. -/
def floorLog2 (q : ℚ) : ℤ :=
  let e0 : ℤ := (natLog2 q.num.natAbs : ℤ) - (natLog2 q.den : ℤ)
  if pow2 e0 ≤ |q| then e0 else e0 - 1

/-- Nearest integer, ties to the even one. -/
def roundHalfEven (q : ℚ) : ℤ :=
  let f := ⌊q⌋
  if q - f < 1 / 2 then f
  else if 1 / 2 < q - f then f + 1
  else if f % 2 = 0 then f else f + 1

/-- Exponent of the unit in the last place of binary64 at `q`: 52 below the
leading bit, but never below the subnormal spacing `2^-1074`. -/
def ulpExp (q : ℚ) : ℤ := max (floorLog2 q - 52) (-1074)

/-- IEEE 754 binary64 rounding of a real (rational) result: round to nearest,
ties to even; a nonzero value that rounds to zero keeps its sign, a value
that rounds to `2^1024` or more becomes an infinity. -/
def roundDouble (q : ℚ) : Num :=
  if q = 0 then .fin 0
  else
    let u := ulpExp q
    let m := roundHalfEven (|q| / pow2 u)
    if m = 0 then (if q < 0 then .negZero else .fin 0)
    else if pow2 1024 ≤ m * pow2 u then (if q < 0 then .negInf else .posInf)
    else .fin (if q < 0 then -(m * pow2 u) else m * pow2 u)

namespace Num

/-- The number of a natural. -/
def ofNat (n : ℕ) : Num := .fin n

/-- The number of an integer. -/
def ofInt (z : ℤ) : Num := .fin z

/-- Sign bit. -/
def isNeg : Num → Bool
  | .fin q => decide (q < 0)
  | .negZero => true
  | .negInf => true
  | _ => false

/-- Is it one of the two zeros. -/
def isZero : Num → Bool
  | .fin q => decide (q = 0)
  | .negZero => true
  | _ => false

/-- Is it one of the two infinities. -/
def isInf : Num → Bool
  | .posInf => true
  | .negInf => true
  | _ => false

/-- The operator `x * y` on doubles. -/
def mul (x y : Num) : Num :=
  match x, y with
  | .fin a, .fin b =>
    if a * b = 0 then (if x.isNeg != y.isNeg then .negZero else .fin 0)
    else roundDouble (a * b)
  | _, _ =>
    if x = .nan ∨ y = .nan then .nan
    else if (x.isZero ∨ y.isZero) ∧ (x.isInf ∨ y.isInf) then .nan
    else if x.isInf ∨ y.isInf then (if x.isNeg != y.isNeg then .negInf else .posInf)
    else (if x.isNeg != y.isNeg then .negZero else .fin 0)

/-- The operator `x + y` on doubles. -/
def add (x y : Num) : Num :=
  match x, y with
  | .fin a, .fin b => if a + b = 0 then .fin 0 else roundDouble (a + b)
  | .negZero, .negZero => .negZero
  | .negZero, .fin b => .fin b
  | .fin a, .negZero => .fin a
  | _, _ =>
    if x = .nan ∨ y = .nan then .nan
    else if x.isInf ∧ y.isInf then (if x = y then x else .nan)
    else if x.isInf then x else y

/-- The operator `x / d` on doubles for a positive finite divisor `d` (the
code divides by the constant `4294967296` only). -/
def divPos (x : Num) (d : ℚ) : Num :=
  match x with
  | .fin q => roundDouble (q / d)
  | other => other

/-- Math.floor. -/
def floor : Num → Num
  | .fin q => .fin ⌊q⌋
  | other => other

/-- The mathematical value truncated toward zero, `0` for a value that is not
finite (the first steps of ECMAScript's ToInt32, ToUint32, ToUint8, ...). -/
def truncate : Num → ℤ
  | .fin q => if 0 ≤ q then ⌊q⌋ else -⌊-q⌋
  | _ => 0

/-- ECMAScript ToUint8 / ToUint16 / ToUint32: truncate, then modulo `2^bits`. -/
def toUintN (bits : ℕ) (x : Num) : ℕ := (x.truncate % (2 ^ bits : ℕ)).toNat

/-- ECMAScript ToInt8 / ToInt16 / ToInt32: truncate, modulo `2^bits`, and the
upper half of the range maps to the negatives. -/
def toIntN (bits : ℕ) (x : Num) : ℤ :=
  let u := x.truncate % (2 ^ bits : ℕ)
  if (2 ^ (bits - 1) : ℕ) ≤ u then u - (2 ^ bits : ℕ) else u

/-- The operator `-x` on doubles. -/
def neg : Num → Num
  | .fin q => if q = 0 then .negZero else .fin (-q)
  | .negZero => .fin 0
  | .nan => .nan
  | .posInf => .negInf
  | .negInf => .posInf

/-- The operator `x - y` on doubles: the sum of `x` and `-y`. -/
def sub (x y : Num) : Num := x.add y.neg

/-- The operator `n % d` on doubles (ECMAScript Number::remainder): NaN for
a NaN or infinite dividend and for a zero divisor, the dividend for an
infinite divisor or a zero dividend, else `n - d * q` for the quotient `q`
truncated toward zero, which is exact and has the sign of the dividend. -/
def rem (n d : Num) : Num :=
  match n, d with
  | .nan, _ => .nan
  | _, .nan => .nan
  | .posInf, _ => .nan
  | .negInf, _ => .nan
  | n, .posInf => n
  | n, .negInf => n
  | _, .negZero => .nan
  | .negZero, .fin b => if b = 0 then .nan else .negZero
  | .fin a, .fin b =>
    if b = 0 then .nan
    else if a = 0 then .fin 0
    else
      let r := a - b * (Num.truncate (.fin (a / b)) : ℤ)
      if r = 0 ∧ a < 0 then .negZero else .fin r

/-- The function `Math.min(x, y)`: NaN if one of the two is NaN, and `-0` is
below `+0`. -/
def min (x y : Num) : Num :=
  match x, y with
  | .nan, _ => .nan
  | _, .nan => .nan
  | .negInf, _ => .negInf
  | _, .negInf => .negInf
  | .posInf, y => y
  | x, .posInf => x
  | .negZero, .negZero => .negZero
  | .negZero, .fin b => if b < 0 then .fin b else .negZero
  | .fin a, .negZero => if a < 0 then .fin a else .negZero
  | .fin a, .fin b => if a ≤ b then .fin a else .fin b

end Num

/-! ## JavaScript values handed to the accessors -/

/-- The values the accessors are called with. -/
inductive JSValue where
  | number (x : Num)
  | bigint (z : ℤ)
  | boolean (b : Bool)
  | undefined
  deriving DecidableEq

/-- Exceptions. -/
inductive JSError where
  | RangeError
  | TypeError
  | Error (message : String)
  deriving DecidableEq

deriving instance DecidableEq for Except

/-- ECMAScript ToNumber (what `DataView.prototype.setUint32` and friends
apply to their value argument): a BigInt is rejected with a TypeError. -/
def toNumber : JSValue → Except JSError Num
  | .number x => .ok x
  | .bigint _ => .error .TypeError
  | .boolean b => .ok (if b then .fin 1 else .fin 0)
  | .undefined => .ok .nan

/-- The function `Number(value)`: a BigInt is converted (rounded to the
nearest double). -/
def Number : JSValue → Num
  | .number x => x
  | .bigint z => roundDouble z
  | .boolean b => if b then .fin 1 else .fin 0
  | .undefined => .nan

/-- The IEEE 754 binary64 bit pattern of a number (`DataView.setFloat64`):
sign bit, 11 exponent bits, 52 fraction bits.  NaN is written as the quiet
NaN `0x7ff8000000000000` (ECMAScript leaves the choice of the NaN pattern to
the implementation). -/
def f64Bits : Num → ℕ
  | .fin q =>
    if q = 0 then 0
    else
      let u := ulpExp q
      let m := roundHalfEven (|q| / pow2 u)
      let magnitude := min (((u + 1074) * 4503599627370496 + m).toNat) 0x7FF0000000000000
      if q < 0 then 0x8000000000000000 + magnitude else magnitude
  | .negZero => 0x8000000000000000
  | .nan => 0x7FF8000000000000
  | .posInf => 0x7FF0000000000000
  | .negInf => 0xFFF0000000000000

/-- The operand `value / div` of `storeU64` / `storeI64`, where `div` is
`4294967296`, turned into a BigInt when `value` is one: BigInt division
truncates toward zero, Number division is the IEEE one. -/
def divBy4294967296 : JSValue → JSValue
  | .bigint z => .bigint (z.tdiv 4294967296)
  | .number x => .number (x.divPos 4294967296)
  | .boolean b => .number ((Number (.boolean b)).divPos 4294967296)
  | .undefined => .number .nan

/-! ## State and exceptions -/

/-- A computation on a state `σ` that may throw: it yields its outcome
together with the state it leaves behind. -/
def JS (σ α : Type) : Type := σ → Except JSError α × σ

instance (σ : Type) : Monad (JS σ) where
  pure a := fun s => (.ok a, s)
  bind x f := fun s =>
    match x s with
    | (.ok a, s1) => f a s1
    | (.error e, s1) => (.error e, s1)

/-- Raise an exception. -/
def JS.throw {σ α : Type} (e : JSError) : JS σ α := fun s => (.error e, s)

/-! ## The shared buffer -/

/-- A byte of the shared buffer. -/
abbrev Byte : Type := Fin 256

/-- The `n` low bytes of `v`, least significant first. -/
def leBytes : (n : ℕ) → (v : ℕ) → List Byte
  | 0, _ => []
  | n + 1, v => ⟨v % 256, Nat.mod_lt _ (by decide)⟩ :: leBytes n (v / 256)

/-- The number whose little-endian bytes are given. -/
def leValue : List Byte → ℕ
  | [] => 0
  | b :: bs => b.val + 256 * leValue bs

/-- The buffer with the bytes `bs` placed at `addr` (used in bounds only). -/
def writeBytes (buf : List Byte) (addr : ℕ) (bs : List Byte) : List Byte :=
  buf.take addr ++ bs ++ buf.drop (addr + bs.length)

/-- The `n` bytes of the buffer from `addr` on. -/
def readBytes (buf : List Byte) (addr n : ℕ) : List Byte := (buf.drop addr).take n

/-! ## Strings: UTF-16 code units, TextEncoder and TextDecoder -/

/-- A UTF-16 code unit. -/
abbrev CodeUnit : Type := Fin 65536

/-- A JavaScript string: its UTF-16 code units (`s.length` is the length of
the list, `s.slice(0, n)` is `List.take n`, `+` is `++`). -/
abbrev JSString : Type := List CodeUnit

/-- The byte with the given value (the values passed are below 256). -/
def byte (n : ℕ) : Byte := ⟨n % 256, Nat.mod_lt _ (by decide)⟩

/-- The code unit with the given value (the values passed are below 65536). -/
def codeUnit (n : ℕ) : CodeUnit := ⟨n % 65536, Nat.mod_lt _ (by decide)⟩

/-- A leading (high) surrogate. -/
def isHighSurrogate (u : ℕ) : Bool := decide (0xD800 ≤ u ∧ u ≤ 0xDBFF)

/-- A trailing (low) surrogate. -/
def isLowSurrogate (u : ℕ) : Bool := decide (0xDC00 ≤ u ∧ u ≤ 0xDFFF)

/-- The scalar values of a string (WebIDL USVString conversion, the first
step of `TextEncoder.encode`): a surrogate pair is one code point, a lone
surrogate becomes U+FFFD. -/
def toScalarValues : JSString → List ℕ
  | [] => []
  | [u] => if isHighSurrogate u.val || isLowSurrogate u.val then [0xFFFD] else [u.val]
  | u :: v :: rest =>
    if isHighSurrogate u.val && isLowSurrogate v.val then
      (0x10000 + (u.val - 0xD800) * 0x400 + (v.val - 0xDC00)) :: toScalarValues rest
    else if isHighSurrogate u.val || isLowSurrogate u.val then
      0xFFFD :: toScalarValues (v :: rest)
    else u.val :: toScalarValues (v :: rest)

/-- The string of a list of scalar values (code points above U+FFFF as
surrogate pairs). -/
def fromScalarValues : List ℕ → JSString
  | [] => []
  | c :: cs =>
    if c < 0x10000 then codeUnit c :: fromScalarValues cs
    else codeUnit (0xD800 + (c - 0x10000) / 0x400)
      :: codeUnit (0xDC00 + (c - 0x10000) % 0x400) :: fromScalarValues cs

/-- UTF-8 encoding of one scalar value. -/
def utf8EncodeScalar (c : ℕ) : List Byte :=
  if c < 0x80 then [byte c]
  else if c < 0x800 then [byte (0xC0 + c / 64), byte (0x80 + c % 64)]
  else if c < 0x10000 then
    [byte (0xE0 + c / 4096), byte (0x80 + c / 64 % 64), byte (0x80 + c % 64)]
  else
    [byte (0xF0 + c / 262144), byte (0x80 + c / 4096 % 64), byte (0x80 + c / 64 % 64),
      byte (0x80 + c % 64)]

/-- The method `new TextEncoder().encode(value)`. -/
def TextEncoder.encode (value : JSString) : List Byte :=
  (toScalarValues value).flatMap utf8EncodeScalar

/-- State of the UTF-8 decoder of the WHATWG Encoding Standard. -/
structure Utf8Decoder where
  codePoint : ℕ
  bytesSeen : ℕ
  bytesNeeded : ℕ
  lowerBoundary : ℕ
  upperBoundary : ℕ
  deriving DecidableEq

/-- The decoder at the start of a stream and after each code point. -/
def Utf8Decoder.init : Utf8Decoder := ⟨0, 0, 0, 0x80, 0xBF⟩

/-- The decoder's handler on a byte when no code point is in progress:
the new state and the scalar values emitted. -/
def Utf8Decoder.first (b : ℕ) : Utf8Decoder × List ℕ :=
  if b ≤ 0x7F then (.init, [b])
  else if 0xC2 ≤ b ∧ b ≤ 0xDF then (⟨b % 32, 0, 1, 0x80, 0xBF⟩, [])
  else if 0xE0 ≤ b ∧ b ≤ 0xEF then
    (⟨b % 16, 0, 2, if b = 0xE0 then 0xA0 else 0x80, if b = 0xED then 0x9F else 0xBF⟩, [])
  else if 0xF0 ≤ b ∧ b ≤ 0xF4 then
    (⟨b % 8, 0, 3, if b = 0xF0 then 0x90 else 0x80, if b = 0xF4 then 0x8F else 0xBF⟩, [])
  else (.init, [0xFFFD])

/-- The decoder's handler on a byte.  A byte outside of the expected range
ends the sequence in progress with U+FFFD and is handled again from the
initial state. -/
def Utf8Decoder.step (d : Utf8Decoder) (b : ℕ) : Utf8Decoder × List ℕ :=
  if d.bytesNeeded = 0 then Utf8Decoder.first b
  else if b < d.lowerBoundary ∨ d.upperBoundary < b then
    ((Utf8Decoder.first b).1, 0xFFFD :: (Utf8Decoder.first b).2)
  else if d.bytesSeen + 1 = d.bytesNeeded then (.init, [d.codePoint * 64 + b % 64])
  else (⟨d.codePoint * 64 + b % 64, d.bytesSeen + 1, d.bytesNeeded, 0x80, 0xBF⟩, [])

/-- The decoder run over a byte sequence; a sequence in progress at the end of
the stream yields U+FFFD. -/
def utf8Decode : Utf8Decoder → List Byte → List ℕ
  | d, [] => if d.bytesNeeded ≠ 0 then [0xFFFD] else []
  | d, b :: bs => (d.step b.val).2 ++ utf8Decode (d.step b.val).1 bs

/-- The byte order mark is not part of the output of a TextDecoder (its
`ignoreBOM` option is false by default). -/
def stripBOM : List ℕ → List ℕ
  | 0xFEFF :: cs => cs
  | cs => cs

/-- The method `new TextDecoder().decode(bytes)`: UTF-8, replacement mode, a
leading U+FEFF dropped. -/
def TextDecoder.decode (bytes : List Byte) : JSString :=
  fromScalarValues (stripBOM (utf8Decode .init bytes))

/-! ## DataView (ECMAScript GetViewValue / SetViewValue, little-endian) -/

namespace DataView

/-- The methods getUint8, getUint16(_, true), getUint32(_, true): RangeError
unless the `width` bytes lie in the buffer. -/
def getUint (width : ℕ) (buf : List Byte) (addr : ℕ) : Except JSError ℕ :=
  if addr + width ≤ buf.length then .ok (leValue (readBytes buf addr width))
  else .error .RangeError

/-- The methods getInt8, getInt16(_, true), getInt32(_, true): the same bytes
read as two's complement. -/
def getInt (width : ℕ) (buf : List Byte) (addr : ℕ) : Except JSError ℤ :=
  match getUint width buf addr with
  | .ok u => .ok (if 2 ^ (8 * width - 1) ≤ u then (u : ℤ) - (2 ^ (8 * width) : ℕ) else u)
  | .error e => .error e

/-- The methods setUint8, setUint16(_, _, true), setUint32(_, _, true): the value
goes through ToNumber (TypeError for a BigInt) before the bounds are
checked, then ToUintN, and the bytes are written least significant first. -/
def setUint (width : ℕ) (addr : ℕ) (value : JSValue) : JS (List Byte) Unit := fun buf =>
  match toNumber value with
  | .error e => (.error e, buf)
  | .ok x =>
    if addr + width ≤ buf.length then
      (.ok (), writeBytes buf addr (leBytes width (x.toUintN (8 * width))))
    else (.error .RangeError, buf)

/-- The methods setInt8, setInt16(_, _, true), setInt32(_, _, true): as setUint
with ToIntN, the value written in two's complement. -/
def setInt (width : ℕ) (addr : ℕ) (value : JSValue) : JS (List Byte) Unit := fun buf =>
  match toNumber value with
  | .error e => (.error e, buf)
  | .ok x =>
    if addr + width ≤ buf.length then
      (.ok (), writeBytes buf addr
        (leBytes width ((x.toIntN (8 * width)) % (2 ^ (8 * width) : ℕ)).toNat))
    else (.error .RangeError, buf)

/-- The method setFloat64(_, _, true). -/
def setFloat64 (addr : ℕ) (value : JSValue) : JS (List Byte) Unit := fun buf =>
  match toNumber value with
  | .error e => (.error e, buf)
  | .ok x =>
    if addr + 8 ≤ buf.length then (.ok (), writeBytes buf addr (leBytes 8 (f64Bits x)))
    else (.error .RangeError, buf)

end DataView

/-! ## WasmMemoryInterface -/

/-- The class `WasmMemoryInterface`: the guest memory and the size in bytes
of the guest `int` (`4` on js_wasm32, `8` on js_wasm64p32). -/
structure WasmMemoryInterface where
  memory : List Byte
  intSize : ℕ
  deriving DecidableEq

namespace WasmMemoryInterface

/-- Run a DataView operation on `this.mem`, a fresh view of the buffer. -/
def onMem {α : Type} (f : JS (List Byte) α) : JS WasmMemoryInterface α := fun wmi =>
  ((f wmi.memory).1, { wmi with memory := (f wmi.memory).2 })

/-- Method loadU8. -/
def loadU8 (wmi : WasmMemoryInterface) (addr : ℕ) : Except JSError Num :=
  (DataView.getUint 1 wmi.memory addr).map Num.ofNat

/-- Method loadI8. -/
def loadI8 (wmi : WasmMemoryInterface) (addr : ℕ) : Except JSError Num :=
  (DataView.getInt 1 wmi.memory addr).map Num.ofInt

/-- Method loadU16. -/
def loadU16 (wmi : WasmMemoryInterface) (addr : ℕ) : Except JSError Num :=
  (DataView.getUint 2 wmi.memory addr).map Num.ofNat

/-- Method loadI16. -/
def loadI16 (wmi : WasmMemoryInterface) (addr : ℕ) : Except JSError Num :=
  (DataView.getInt 2 wmi.memory addr).map Num.ofInt

/-- Method loadU32. -/
def loadU32 (wmi : WasmMemoryInterface) (addr : ℕ) : Except JSError Num :=
  (DataView.getUint 4 wmi.memory addr).map Num.ofNat

/-- Method loadI32. -/
def loadI32 (wmi : WasmMemoryInterface) (addr : ℕ) : Except JSError Num :=
  (DataView.getInt 4 wmi.memory addr).map Num.ofInt

/-- Method loadU64: two u32 words, combined as `lo + hi*4294967296` in double
arithmetic. -/
def loadU64 (wmi : WasmMemoryInterface) (addr : ℕ) : Except JSError Num := do
  let lo ← DataView.getUint 4 wmi.memory (addr + 0)
  let hi ← DataView.getUint 4 wmi.memory (addr + 4)
  return Num.add (Num.ofNat lo) (Num.mul (Num.ofNat hi) (.fin 4294967296))

/-- Method loadI64: the high word is read signed. -/
def loadI64 (wmi : WasmMemoryInterface) (addr : ℕ) : Except JSError Num := do
  let lo ← DataView.getUint 4 wmi.memory (addr + 0)
  let hi ← DataView.getInt 4 wmi.memory (addr + 4)
  return Num.add (Num.ofNat lo) (Num.mul (Num.ofInt hi) (.fin 4294967296))

/-- The message of the error raised for an unsupported `intSize`. -/
def unhandledIntSize : JSError := .Error "Unhandled `intSize`, expected `4` or `8`"

/-- Method loadInt. -/
def loadInt (wmi : WasmMemoryInterface) (addr : ℕ) : Except JSError Num :=
  if wmi.intSize = 8 then wmi.loadI64 addr
  else if wmi.intSize = 4 then wmi.loadI32 addr
  else .error unhandledIntSize

/-- Method loadUint. -/
def loadUint (wmi : WasmMemoryInterface) (addr : ℕ) : Except JSError Num :=
  if wmi.intSize = 8 then wmi.loadU64 addr
  else if wmi.intSize = 4 then wmi.loadU32 addr
  else .error unhandledIntSize

/-- Method loadPtr. -/
def loadPtr (wmi : WasmMemoryInterface) (addr : ℕ) : Except JSError Num :=
  wmi.loadU32 addr

/-- Method loadBytes: a `Uint8Array` view of `len` bytes at `ptr`; RangeError
unless it lies in the buffer. -/
def loadBytes (wmi : WasmMemoryInterface) (ptr len : ℕ) : Except JSError (List Byte) :=
  if ptr + len ≤ wmi.memory.length then .ok (readBytes wmi.memory ptr len)
  else .error .RangeError

/-- Method loadString. -/
def loadString (wmi : WasmMemoryInterface) (ptr len : ℕ) : Except JSError JSString := do
  let bytes ← wmi.loadBytes ptr len
  return TextDecoder.decode bytes

/-- Method storeU8. -/
def storeU8 (addr : ℕ) (value : JSValue) : JS WasmMemoryInterface Unit :=
  onMem (DataView.setUint 1 addr value)

/-- Method storeI8. -/
def storeI8 (addr : ℕ) (value : JSValue) : JS WasmMemoryInterface Unit :=
  onMem (DataView.setInt 1 addr value)

/-- Method storeU16. -/
def storeU16 (addr : ℕ) (value : JSValue) : JS WasmMemoryInterface Unit :=
  onMem (DataView.setUint 2 addr value)

/-- Method storeI16. -/
def storeI16 (addr : ℕ) (value : JSValue) : JS WasmMemoryInterface Unit :=
  onMem (DataView.setInt 2 addr value)

/-- Method storeU32. -/
def storeU32 (addr : ℕ) (value : JSValue) : JS WasmMemoryInterface Unit :=
  onMem (DataView.setUint 4 addr value)

/-- Method storeI32. -/
def storeI32 (addr : ℕ) (value : JSValue) : JS WasmMemoryInterface Unit :=
  onMem (DataView.setInt 4 addr value)

/-- Method storeU64: the low word is `Number(value)`, the high word is
`Math.floor(Number(value / div))`. -/
def storeU64 (addr : ℕ) (value : JSValue) : JS WasmMemoryInterface Unit := do
  onMem (DataView.setUint 4 (addr + 0) (.number (Number value)))
  onMem (DataView.setUint 4 (addr + 4)
    (.number (Num.floor (Number (divBy4294967296 value)))))

/-- Method storeI64: as storeU64, the high word written with setInt32. -/
def storeI64 (addr : ℕ) (value : JSValue) : JS WasmMemoryInterface Unit := do
  onMem (DataView.setUint 4 (addr + 0) (.number (Number value)))
  onMem (DataView.setInt 4 (addr + 4)
    (.number (Num.floor (Number (divBy4294967296 value)))))

/-- Method storeF64. -/
def storeF64 (addr : ℕ) (value : JSValue) : JS WasmMemoryInterface Unit :=
  onMem (DataView.setFloat64 addr value)

/-- Method storeInt. -/
def storeInt (addr : ℕ) (value : JSValue) : JS WasmMemoryInterface Unit := fun wmi =>
  if wmi.intSize = 8 then storeI64 addr value wmi
  else if wmi.intSize = 4 then storeI32 addr value wmi
  else (.error unhandledIntSize, wmi)

/-- Method storeUint. -/
def storeUint (addr : ℕ) (value : JSValue) : JS WasmMemoryInterface Unit := fun wmi =>
  if wmi.intSize = 8 then storeU64 addr value wmi
  else if wmi.intSize = 4 then storeU32 addr value wmi
  else (.error unhandledIntSize, wmi)

/-- Method storeString: the UTF-8 bytes of `value` are copied to `addr`
(`dst.set(src)` on a view of exactly `src.length` bytes, RangeError unless
the view lies in the buffer); returns the number of bytes. -/
def storeString (addr : ℕ) (value : JSString) : JS WasmMemoryInterface ℕ := fun wmi =>
  let src := TextEncoder.encode value
  if addr + src.length ≤ wmi.memory.length then
    (.ok src.length, { wmi with memory := writeBytes wmi.memory addr src })
  else (.error .RangeError, wmi)

end WasmMemoryInterface

/-! ## The layout cursor (`off` and `align` of init_event_raw and get_gamepad_state) -/

/-- The variable `offset`: a non-negative integer, or `none` for NaN (which
`offset % 0` makes of it).  The variable is a Number (binary64); `off` and
`align` below compute on it with exact integer arithmetic, which is what
binary64 arithmetic gives as long as every operand and result is at most
2^53 (every address of a wasm memory is); past 2^53 the closures round and
these definitions do not follow them.  `Binary64.off` and `Binary64.align`
are the closures in the Number arithmetic itself. -/
abbrev Cursor : Type := Option ℕ

/-- ECMAScript ToIndex of a cursor used as an address: NaN becomes `0`. -/
def Cursor.toIndex : Cursor → ℕ
  | some p => p
  | none => 0

/-- ECMAScript ToInt32 of an integer. -/
def toInt32 (z : ℤ) : ℤ :=
  let u := z % 4294967296
  if 2147483648 ≤ u then u - 4294967296 else u

/-- The operator `x & y` on integers: both operands through ToInt32, the
32-bit patterns combined, the result read as a signed 32-bit integer. -/
def bitAnd (x y : ℤ) : ℤ :=
  toInt32 (((x % 4294967296).toNat &&& (y % 4294967296).toNat : ℕ) : ℤ)

/-- The closure `off(amount, alignment)` (the same text in init_event_raw and
in get_gamepad_state): `W` is `wasmMemoryInterface.intSize`, `alignment` is
`none` when the argument is omitted.  Returns `x` and the new `offset`.
Exact for `offset + alignment + amount < 2^53`. -/
def off (W : ℕ) (amount : ℕ) (alignment : Option ℕ) (offset : Cursor) : Cursor × Cursor :=
  let alignment := match alignment with
    | none => min amount W
    | some a => a
  let offset : Cursor := match offset with
    | none => none
    | some p =>
      if alignment = 0 then none
      else if p % alignment ≠ 0 then some (p + (alignment - p % alignment))
      else some p
  (offset, offset.map (fun p => p + amount))

/-- The closure `align(alignment)`: returns the new `offset`.  The operand
`alignment - 1` of `&` is computed exactly, as binary64 does for
`alignment ≤ 2^53`; the operator `&` itself works on the low 32 bits. -/
def align (alignment : ℕ) (offset : Cursor) : Cursor :=
  match offset with
  | none => none
  | some p =>
    let modulo := bitAnd p ((alignment : ℤ) - 1)
    if modulo ≠ 0 then some ((p : ℤ) + ((alignment : ℤ) - modulo)).toNat
    else some p

/-! ### The closures in the Number arithmetic of the source -/

namespace Binary64

/-- The closure `off(amount, alignment)` as the source computes it, on
Numbers (binary64): `offset % alignment != 0`, `offset += alignment -
(offset % alignment)`, `offset += amount`, each operation rounded.  Returns
`x` and the new `offset`. -/
def off (W amount : Num) (alignment : Option Num) (offset : Num) : Num × Num :=
  let alignment := match alignment with
    | none => Num.min amount W
    | some a => a
  let offset :=
    if (offset.rem alignment).isZero = false then
      offset.add (alignment.sub (offset.rem alignment))
    else offset
  (offset, offset.add amount)

/-- The closure `align(alignment)` as the source computes it: the operator
`&` takes both operands through ToInt32, `alignment - 1` and the sum are
rounded.  Returns the new `offset`. -/
def align (alignment : Num) (offset : Num) : Num :=
  let modulo := bitAnd offset.truncate (alignment.sub (.fin 1)).truncate
  if modulo ≠ 0 then offset.add (alignment.sub (Num.ofInt modulo)) else offset

end Binary64

/-! ## Events and `init_event_raw` -/

/-- What `e.target == document` and `e.target == window` see of a target. -/
inductive EventTarget where
  | document
  | window
  | other
  deriving DecidableEq

/-- The WheelEvent attributes read by the encoder. -/
structure WheelData where
  deltaX : Num
  deltaY : Num
  deltaZ : Num
  deltaMode : Num
  deriving DecidableEq

/-- The PointerEvent attributes read by the encoder (an attribute the browser
does not have reads as `undefined`, which every store treats as NaN). -/
structure PointerData where
  altitudeAngle : Num
  azimuthAngle : Num
  persistentDeviceId : Num
  pointerId : Num
  width : Num
  height : Num
  pressure : Num
  tangentialPressure : Num
  tiltX : Num
  tiltY : Num
  twist : Num
  pointerType : String
  isPrimary : Bool
  deriving DecidableEq

/-- The MouseEvent attributes read by the encoder; `pointer` is present when
the event is a PointerEvent. -/
structure MouseData where
  screenX : Num
  screenY : Num
  clientX : Num
  clientY : Num
  offsetX : Num
  offsetY : Num
  pageX : Num
  pageY : Num
  movementX : Num
  movementY : Num
  ctrlKey : Bool
  shiftKey : Bool
  altKey : Bool
  metaKey : Bool
  button : Num
  buttons : Num
  pointer : Option PointerData
  deriving DecidableEq

/-- The KeyboardEvent attributes read by the encoder (`repeat_` is the
attribute `repeat`). -/
structure KeyboardData where
  location : Num
  ctrlKey : Bool
  shiftKey : Bool
  altKey : Bool
  metaKey : Bool
  repeat_ : Bool
  charCode : Num
  key : JSString
  code : JSString
  deriving DecidableEq

/-- A GamepadButton. -/
structure GamepadButton where
  value : Num
  pressed : Bool
  touched : Bool
  deriving DecidableEq

/-- A Gamepad. -/
structure Gamepad where
  index : Num
  connected : Bool
  timestamp : Num
  buttons : List GamepadButton
  axes : List Num
  id : JSString
  mapping : JSString
  deriving DecidableEq

/-- The class of the native event, as the `instanceof` tests see it: a
WheelEvent is also a MouseEvent, a PointerEvent is a MouseEvent with
`pointer` present. -/
inductive EventInterface where
  | wheel (w : WheelData) (m : MouseData)
  | mouse (m : MouseData)
  | keyboard (k : KeyboardData)
  | gamepad (g : Gamepad)
  | other
  deriving DecidableEq

/-- The native event `e`; the boolean attributes are what `!!e.x` yields. -/
structure Event where
  target : EventTarget
  currentTarget : EventTarget
  timeStamp : Num
  eventPhase : Num
  bubbles : Bool
  cancelable : Bool
  composed : Bool
  isComposing : Bool
  isTrusted : Bool
  type : String
  interface : EventInterface
  deriving DecidableEq

/-- The object `event_temp.data` staged by a listener.  `id_len` is the
length as the guest passed it: a number when the guest `int` has 4 bytes, a
BigInt when it has 8. -/
structure EventData where
  id_ptr : Num
  id_len : JSValue
  event : Event
  name_code : Num
  deriving DecidableEq

/-- The globals the encoder reads: `window.scrollX`, `window.scrollY` and
`document.hidden`. -/
structure Host where
  scrollX : Num
  scrollY : Num
  hidden : Bool
  deriving DecidableEq

/-- The local state of one call of init_event_raw: the variable `offset` and
the memory interface. -/
structure Encoder where
  offset : Cursor
  wmi : WasmMemoryInterface
  deriving DecidableEq

namespace Encoder

/-- A call `off(amount, alignment)`, its result used as an address. -/
def off (W amount : ℕ) (alignment : Option ℕ) : JS Encoder ℕ := fun s =>
  (.ok (Odin.off W amount alignment s.offset).1.toIndex,
    { s with offset := (Odin.off W amount alignment s.offset).2 })

/-- A call `align(alignment)`. -/
def align (alignment : ℕ) : JS Encoder Unit := fun s =>
  (.ok (), { s with offset := Odin.align alignment s.offset })

/-- A call of a method of `wmi`. -/
def call {α : Type} (f : JS WasmMemoryInterface α) : JS Encoder α := fun s =>
  ((f s.wmi).1, { s with wmi := (f s.wmi).2 })

end Encoder

/-- The double `1e-3`. -/
def milli : Num := roundDouble (1 / 1000)

/-- The string `'...'`. -/
def ellipsis : JSString := [0x2E, 0x2E, 0x2E]

open WasmMemoryInterface in
/-- The body of `init_event_raw` once an event is known to be staged: the
common prefix, then the body selected by the class of the event. -/
def init_event_raw_staged (host : Host) (W : ℕ) (data : EventData) : JS Encoder Unit := do
  let e := data.event
  Encoder.call (storeU32 (← Encoder.off W 4 none) (.number data.name_code))
  if e.target = .document then
    Encoder.call (storeU32 (← Encoder.off W 4 none) (.number (.fin 1)))
  else if e.target = .window then
    Encoder.call (storeU32 (← Encoder.off W 4 none) (.number (.fin 2)))
  else
    Encoder.call (storeU32 (← Encoder.off W 4 none) (.number (.fin 0)))
  if e.currentTarget = .document then
    Encoder.call (storeU32 (← Encoder.off W 4 none) (.number (.fin 1)))
  else if e.currentTarget = .window then
    Encoder.call (storeU32 (← Encoder.off W 4 none) (.number (.fin 2)))
  else
    Encoder.call (storeU32 (← Encoder.off W 4 none) (.number (.fin 0)))

  Encoder.align W

  Encoder.call (storeI32 (← Encoder.off W W none) (.number data.id_ptr))
  Encoder.call (storeUint (← Encoder.off W W none) data.id_len)

  Encoder.align 8
  Encoder.call (storeF64 (← Encoder.off W 8 none) (.number (Num.mul e.timeStamp milli)))

  Encoder.call (storeU8 (← Encoder.off W 1 none) (.number e.eventPhase))
  let mut options : ℕ := 0
  if e.bubbles then options := options ||| (1 <<< 0)
  if e.cancelable then options := options ||| (1 <<< 1)
  if e.composed then options := options ||| (1 <<< 2)
  Encoder.call (storeU8 (← Encoder.off W 1 none) (.number (Num.ofNat options)))
  Encoder.call (storeU8 (← Encoder.off W 1 none) (.boolean e.isComposing))
  Encoder.call (storeU8 (← Encoder.off W 1 none) (.boolean e.isTrusted))

  Encoder.align 8
  match e.interface with
  | .wheel w _ =>
    Encoder.call (storeF64 (← Encoder.off W 8 none) (.number w.deltaX))
    Encoder.call (storeF64 (← Encoder.off W 8 none) (.number w.deltaY))
    Encoder.call (storeF64 (← Encoder.off W 8 none) (.number w.deltaZ))
    Encoder.call (storeU32 (← Encoder.off W 4 none) (.number w.deltaMode))
  | .mouse m =>
    Encoder.call (storeI64 (← Encoder.off W 8 none) (.number m.screenX))
    Encoder.call (storeI64 (← Encoder.off W 8 none) (.number m.screenY))
    Encoder.call (storeI64 (← Encoder.off W 8 none) (.number m.clientX))
    Encoder.call (storeI64 (← Encoder.off W 8 none) (.number m.clientY))
    Encoder.call (storeI64 (← Encoder.off W 8 none) (.number m.offsetX))
    Encoder.call (storeI64 (← Encoder.off W 8 none) (.number m.offsetY))
    Encoder.call (storeI64 (← Encoder.off W 8 none) (.number m.pageX))
    Encoder.call (storeI64 (← Encoder.off W 8 none) (.number m.pageY))
    Encoder.call (storeI64 (← Encoder.off W 8 none) (.number m.movementX))
    Encoder.call (storeI64 (← Encoder.off W 8 none) (.number m.movementY))

    Encoder.call (storeU8 (← Encoder.off W 1 none) (.boolean m.ctrlKey))
    Encoder.call (storeU8 (← Encoder.off W 1 none) (.boolean m.shiftKey))
    Encoder.call (storeU8 (← Encoder.off W 1 none) (.boolean m.altKey))
    Encoder.call (storeU8 (← Encoder.off W 1 none) (.boolean m.metaKey))

    Encoder.call (storeI16 (← Encoder.off W 2 none) (.number m.button))
    Encoder.call (storeU16 (← Encoder.off W 2 none) (.number m.buttons))

    match m.pointer with
    | some p =>
      Encoder.call (storeF64 (← Encoder.off W 8 none) (.number p.altitudeAngle))
      Encoder.call (storeF64 (← Encoder.off W 8 none) (.number p.azimuthAngle))
      Encoder.call (storeInt (← Encoder.off W W none) (.number p.persistentDeviceId))
      Encoder.call (storeInt (← Encoder.off W W none) (.number p.pointerId))
      Encoder.call (storeInt (← Encoder.off W W none) (.number p.width))
      Encoder.call (storeInt (← Encoder.off W W none) (.number p.height))
      Encoder.call (storeF64 (← Encoder.off W 8 none) (.number p.pressure))
      Encoder.call (storeF64 (← Encoder.off W 8 none) (.number p.tangentialPressure))
      Encoder.call (storeF64 (← Encoder.off W 8 none) (.number p.tiltX))
      Encoder.call (storeF64 (← Encoder.off W 8 none) (.number p.tiltY))
      Encoder.call (storeF64 (← Encoder.off W 8 none) (.number p.twist))
      if p.pointerType = "pen" then
        Encoder.call (storeU8 (← Encoder.off W 1 none) (.number (.fin 1)))
      else if p.pointerType = "touch" then
        Encoder.call (storeU8 (← Encoder.off W 1 none) (.number (.fin 2)))
      else
        Encoder.call (storeU8 (← Encoder.off W 1 none) (.number (.fin 0)))
      Encoder.call (storeU8 (← Encoder.off W 1 none) (.boolean p.isPrimary))
    | none => pure ()
  | .keyboard k =>
    -- Note: those strings are constructed on the native side from buffers
    -- that are filled later, so skip them
    let _keyPtr ← Encoder.off W (W * 2) (some W)
    let _codePtr ← Encoder.off W (W * 2) (some W)

    Encoder.call (storeU8 (← Encoder.off W 1 none) (.number k.location))

    Encoder.call (storeU8 (← Encoder.off W 1 none) (.boolean k.ctrlKey))
    Encoder.call (storeU8 (← Encoder.off W 1 none) (.boolean k.shiftKey))
    Encoder.call (storeU8 (← Encoder.off W 1 none) (.boolean k.altKey))
    Encoder.call (storeU8 (← Encoder.off W 1 none) (.boolean k.metaKey))

    Encoder.call (storeU8 (← Encoder.off W 1 none) (.boolean k.repeat_))

    Encoder.call (storeI32 (← Encoder.off W 4 none) (.number k.charCode))

    Encoder.call (storeInt (← Encoder.off W W (some W)) (.number (Num.ofNat k.key.length)))
    Encoder.call (storeInt (← Encoder.off W W (some W)) (.number (Num.ofNat k.code.length)))
    let _ ← Encoder.call (storeString (← Encoder.off W 32 (some 1)) k.key)
    let _ ← Encoder.call (storeString (← Encoder.off W 32 (some 1)) k.code)
  | .gamepad g =>
    if e.type = "scroll" then
      Encoder.call (storeF64 (← Encoder.off W 8 (some 8)) (.number host.scrollX))
      Encoder.call (storeF64 (← Encoder.off W 8 (some 8)) (.number host.scrollY))
    else if e.type = "visibilitychange" then
      Encoder.call (storeU8 (← Encoder.off W 1 none) (.boolean (!host.hidden)))
    else
      let _idPtr ← Encoder.off W (W * 2) (some W)
      let _mappingPtr ← Encoder.off W (W * 2) (some W)

      Encoder.call (storeI32 (← Encoder.off W W (some W)) (.number g.index))
      Encoder.call (storeU8 (← Encoder.off W 1 none) (.boolean g.connected))
      Encoder.call (storeF64 (← Encoder.off W 8 (some 8)) (.number g.timestamp))

      Encoder.call (storeInt (← Encoder.off W W (some W)) (.number (Num.ofNat g.buttons.length)))
      Encoder.call (storeInt (← Encoder.off W W (some W)) (.number (Num.ofNat g.axes.length)))

      for i in List.range 64 do
        if h : i < g.buttons.length then
          let b := g.buttons[i]
          Encoder.call (storeF64 (← Encoder.off W 8 (some 8)) (.number b.value))
          Encoder.call (storeU8 (← Encoder.off W 1 none) (.boolean b.pressed))
          Encoder.call (storeU8 (← Encoder.off W 1 none) (.boolean b.touched))
        else
          let _ ← Encoder.off W 16 (some 8)
      for i in List.range 16 do
        if h : i < g.axes.length then
          let a := g.axes[i]
          Encoder.call (storeF64 (← Encoder.off W 8 (some 8)) (.number a))
        else
          let _ ← Encoder.off W 8 (some 8)

      let mut idLength := g.id.length
      let mut id := g.id
      if idLength > 96 then
        idLength := 96
        id := id.take 93 ++ ellipsis

      let mut mappingLength := g.mapping.length
      let mut mapping := g.mapping
      if mappingLength > 64 then
        mappingLength := 61
        mapping := mapping.take 61 ++ ellipsis

      Encoder.call (storeInt (← Encoder.off W W (some W)) (.number (Num.ofNat idLength)))
      Encoder.call (storeInt (← Encoder.off W W (some W)) (.number (Num.ofNat mappingLength)))
      let _ ← Encoder.call (storeString (← Encoder.off W 96 (some 1)) id)
      let _ ← Encoder.call (storeString (← Encoder.off W 64 (some 1)) mapping)
  | .other =>
    if e.type = "scroll" then
      Encoder.call (storeF64 (← Encoder.off W 8 (some 8)) (.number host.scrollX))
      Encoder.call (storeF64 (← Encoder.off W 8 (some 8)) (.number host.scrollY))
    else if e.type = "visibilitychange" then
      Encoder.call (storeU8 (← Encoder.off W 1 none) (.boolean (!host.hidden)))
    else
      pure ()

/-- The import `odin_dom.init_event_raw(ep)`: nothing happens unless an event
is staged in `event_temp.data`. -/
def init_event_raw (host : Host) (event_temp : Option EventData) (ep : ℕ) :
    JS WasmMemoryInterface Unit := fun wmi =>
  match event_temp with
  | none => (.ok (), wmi)
  | some data =>
    ((init_event_raw_staged host wmi.intSize data ⟨some ep, wmi⟩).1,
      (init_event_raw_staged host wmi.intSize data ⟨some ep, wmi⟩).2.wmi)

open WasmMemoryInterface in
/-- The statements of `init_event_raw` from the first store up to the second
`align(8)`: the common prefix of every record. -/
def init_event_common (W : ℕ) (data : EventData) : JS Encoder Unit := do
  let e := data.event
  Encoder.call (storeU32 (← Encoder.off W 4 none) (.number data.name_code))
  if e.target = .document then
    Encoder.call (storeU32 (← Encoder.off W 4 none) (.number (.fin 1)))
  else if e.target = .window then
    Encoder.call (storeU32 (← Encoder.off W 4 none) (.number (.fin 2)))
  else
    Encoder.call (storeU32 (← Encoder.off W 4 none) (.number (.fin 0)))
  if e.currentTarget = .document then
    Encoder.call (storeU32 (← Encoder.off W 4 none) (.number (.fin 1)))
  else if e.currentTarget = .window then
    Encoder.call (storeU32 (← Encoder.off W 4 none) (.number (.fin 2)))
  else
    Encoder.call (storeU32 (← Encoder.off W 4 none) (.number (.fin 0)))

  Encoder.align W

  Encoder.call (storeI32 (← Encoder.off W W none) (.number data.id_ptr))
  Encoder.call (storeUint (← Encoder.off W W none) data.id_len)

  Encoder.align 8
  Encoder.call (storeF64 (← Encoder.off W 8 none) (.number (Num.mul e.timeStamp milli)))

  Encoder.call (storeU8 (← Encoder.off W 1 none) (.number e.eventPhase))
  let mut options : ℕ := 0
  if e.bubbles then options := options ||| (1 <<< 0)
  if e.cancelable then options := options ||| (1 <<< 1)
  if e.composed then options := options ||| (1 <<< 2)
  Encoder.call (storeU8 (← Encoder.off W 1 none) (.number (Num.ofNat options)))
  Encoder.call (storeU8 (← Encoder.off W 1 none) (.boolean e.isComposing))
  Encoder.call (storeU8 (← Encoder.off W 1 none) (.boolean e.isTrusted))

  Encoder.align 8

open WasmMemoryInterface in
/-- The statements of `init_event_raw` after the second `align(8)`: the body
selected by the class of the event. -/
def init_event_body (host : Host) (W : ℕ) (e : Event) : JS Encoder Unit := do
  match e.interface with
  | .wheel w _ =>
    Encoder.call (storeF64 (← Encoder.off W 8 none) (.number w.deltaX))
    Encoder.call (storeF64 (← Encoder.off W 8 none) (.number w.deltaY))
    Encoder.call (storeF64 (← Encoder.off W 8 none) (.number w.deltaZ))
    Encoder.call (storeU32 (← Encoder.off W 4 none) (.number w.deltaMode))
  | .mouse m =>
    Encoder.call (storeI64 (← Encoder.off W 8 none) (.number m.screenX))
    Encoder.call (storeI64 (← Encoder.off W 8 none) (.number m.screenY))
    Encoder.call (storeI64 (← Encoder.off W 8 none) (.number m.clientX))
    Encoder.call (storeI64 (← Encoder.off W 8 none) (.number m.clientY))
    Encoder.call (storeI64 (← Encoder.off W 8 none) (.number m.offsetX))
    Encoder.call (storeI64 (← Encoder.off W 8 none) (.number m.offsetY))
    Encoder.call (storeI64 (← Encoder.off W 8 none) (.number m.pageX))
    Encoder.call (storeI64 (← Encoder.off W 8 none) (.number m.pageY))
    Encoder.call (storeI64 (← Encoder.off W 8 none) (.number m.movementX))
    Encoder.call (storeI64 (← Encoder.off W 8 none) (.number m.movementY))

    Encoder.call (storeU8 (← Encoder.off W 1 none) (.boolean m.ctrlKey))
    Encoder.call (storeU8 (← Encoder.off W 1 none) (.boolean m.shiftKey))
    Encoder.call (storeU8 (← Encoder.off W 1 none) (.boolean m.altKey))
    Encoder.call (storeU8 (← Encoder.off W 1 none) (.boolean m.metaKey))

    Encoder.call (storeI16 (← Encoder.off W 2 none) (.number m.button))
    Encoder.call (storeU16 (← Encoder.off W 2 none) (.number m.buttons))

    match m.pointer with
    | some p =>
      Encoder.call (storeF64 (← Encoder.off W 8 none) (.number p.altitudeAngle))
      Encoder.call (storeF64 (← Encoder.off W 8 none) (.number p.azimuthAngle))
      Encoder.call (storeInt (← Encoder.off W W none) (.number p.persistentDeviceId))
      Encoder.call (storeInt (← Encoder.off W W none) (.number p.pointerId))
      Encoder.call (storeInt (← Encoder.off W W none) (.number p.width))
      Encoder.call (storeInt (← Encoder.off W W none) (.number p.height))
      Encoder.call (storeF64 (← Encoder.off W 8 none) (.number p.pressure))
      Encoder.call (storeF64 (← Encoder.off W 8 none) (.number p.tangentialPressure))
      Encoder.call (storeF64 (← Encoder.off W 8 none) (.number p.tiltX))
      Encoder.call (storeF64 (← Encoder.off W 8 none) (.number p.tiltY))
      Encoder.call (storeF64 (← Encoder.off W 8 none) (.number p.twist))
      if p.pointerType = "pen" then
        Encoder.call (storeU8 (← Encoder.off W 1 none) (.number (.fin 1)))
      else if p.pointerType = "touch" then
        Encoder.call (storeU8 (← Encoder.off W 1 none) (.number (.fin 2)))
      else
        Encoder.call (storeU8 (← Encoder.off W 1 none) (.number (.fin 0)))
      Encoder.call (storeU8 (← Encoder.off W 1 none) (.boolean p.isPrimary))
    | none => pure ()
  | .keyboard k =>
    -- Note: those strings are constructed on the native side from buffers
    -- that are filled later, so skip them
    let _keyPtr ← Encoder.off W (W * 2) (some W)
    let _codePtr ← Encoder.off W (W * 2) (some W)

    Encoder.call (storeU8 (← Encoder.off W 1 none) (.number k.location))

    Encoder.call (storeU8 (← Encoder.off W 1 none) (.boolean k.ctrlKey))
    Encoder.call (storeU8 (← Encoder.off W 1 none) (.boolean k.shiftKey))
    Encoder.call (storeU8 (← Encoder.off W 1 none) (.boolean k.altKey))
    Encoder.call (storeU8 (← Encoder.off W 1 none) (.boolean k.metaKey))

    Encoder.call (storeU8 (← Encoder.off W 1 none) (.boolean k.repeat_))

    Encoder.call (storeI32 (← Encoder.off W 4 none) (.number k.charCode))

    Encoder.call (storeInt (← Encoder.off W W (some W)) (.number (Num.ofNat k.key.length)))
    Encoder.call (storeInt (← Encoder.off W W (some W)) (.number (Num.ofNat k.code.length)))
    let _ ← Encoder.call (storeString (← Encoder.off W 32 (some 1)) k.key)
    let _ ← Encoder.call (storeString (← Encoder.off W 32 (some 1)) k.code)
  | .gamepad g =>
    if e.type = "scroll" then
      Encoder.call (storeF64 (← Encoder.off W 8 (some 8)) (.number host.scrollX))
      Encoder.call (storeF64 (← Encoder.off W 8 (some 8)) (.number host.scrollY))
    else if e.type = "visibilitychange" then
      Encoder.call (storeU8 (← Encoder.off W 1 none) (.boolean (!host.hidden)))
    else
      let _idPtr ← Encoder.off W (W * 2) (some W)
      let _mappingPtr ← Encoder.off W (W * 2) (some W)

      Encoder.call (storeI32 (← Encoder.off W W (some W)) (.number g.index))
      Encoder.call (storeU8 (← Encoder.off W 1 none) (.boolean g.connected))
      Encoder.call (storeF64 (← Encoder.off W 8 (some 8)) (.number g.timestamp))

      Encoder.call (storeInt (← Encoder.off W W (some W)) (.number (Num.ofNat g.buttons.length)))
      Encoder.call (storeInt (← Encoder.off W W (some W)) (.number (Num.ofNat g.axes.length)))

      for i in List.range 64 do
        if h : i < g.buttons.length then
          let b := g.buttons[i]
          Encoder.call (storeF64 (← Encoder.off W 8 (some 8)) (.number b.value))
          Encoder.call (storeU8 (← Encoder.off W 1 none) (.boolean b.pressed))
          Encoder.call (storeU8 (← Encoder.off W 1 none) (.boolean b.touched))
        else
          let _ ← Encoder.off W 16 (some 8)
      for i in List.range 16 do
        if h : i < g.axes.length then
          let a := g.axes[i]
          Encoder.call (storeF64 (← Encoder.off W 8 (some 8)) (.number a))
        else
          let _ ← Encoder.off W 8 (some 8)

      let mut idLength := g.id.length
      let mut id := g.id
      if idLength > 96 then
        idLength := 96
        id := id.take 93 ++ ellipsis

      let mut mappingLength := g.mapping.length
      let mut mapping := g.mapping
      if mappingLength > 64 then
        mappingLength := 61
        mapping := mapping.take 61 ++ ellipsis

      Encoder.call (storeInt (← Encoder.off W W (some W)) (.number (Num.ofNat idLength)))
      Encoder.call (storeInt (← Encoder.off W W (some W)) (.number (Num.ofNat mappingLength)))
      let _ ← Encoder.call (storeString (← Encoder.off W 96 (some 1)) id)
      let _ ← Encoder.call (storeString (← Encoder.off W 64 (some 1)) mapping)
  | .other =>
    if e.type = "scroll" then
      Encoder.call (storeF64 (← Encoder.off W 8 (some 8)) (.number host.scrollX))
      Encoder.call (storeF64 (← Encoder.off W 8 (some 8)) (.number host.scrollY))
    else if e.type = "visibilitychange" then
      Encoder.call (storeU8 (← Encoder.off W 1 none) (.boolean (!host.hidden)))
    else
      pure ()

/-! ## Layout tables -/

/-- The cursor `p` rounded up to a multiple of `a`. -/
def roundUp (p a : ℕ) : ℕ := if p % a ≠ 0 then p + (a - p % a) else p

/-- The buffer with the bytes `bs` at `addr`; unchanged when they do not fit. -/
def patch (buf : List Byte) (addr : ℕ) (bs : List Byte) : List Byte :=
  if addr + bs.length ≤ buf.length then writeBytes buf addr bs else buf

/-- The buffer after a list of writes (address and bytes), first to last. -/
def applyWrites (ws : List (ℕ × List Byte)) (buf : List Byte) : List Byte :=
  ws.foldl (fun b w => patch b w.1 w.2) buf

/-- The origin code of a target: 1 for the document, 2 for the window, 0 for
anything else. -/
def originCode : EventTarget → ℕ
  | .document => 1
  | .window => 2
  | .other => 0

/-- The packed option byte: bit 0 bubbles, bit 1 cancelable, bit 2 composed. -/
def optionsByte (e : Event) : ℕ :=
  (if e.bubbles then 1 else 0) + (if e.cancelable then 2 else 0) + (if e.composed then 4 else 0)

/-! ## Vocabulary of the statements -/

/-- A well-formed string: every surrogate code unit is part of a pair. -/
def wellFormed : JSString → Bool
  | [] => true
  | [u] => !(isHighSurrogate u.val || isLowSurrogate u.val)
  | u :: v :: rest =>
    if isHighSurrogate u.val then isLowSurrogate v.val && wellFormed rest
    else !isLowSurrogate u.val && wellFormed (v :: rest)

/-- Number of bytes of the UTF-8 encoding of a scalar value. -/
def utf8Length (c : ℕ) : ℕ :=
  if c < 0x80 then 1 else if c < 0x800 then 2 else if c < 0x10000 then 3 else 4

/-- The UTF-8 byte length of a string. -/
def byteLength (s : JSString) : ℕ := ((toScalarValues s).map utf8Length).sum

/-- A Unicode scalar value: a code point that is not a surrogate. -/
def IsScalarValue (c : ℕ) : Prop := c < 0x110000 ∧ ¬ (0xD800 ≤ c ∧ c ≤ 0xDFFF)

/-- Storing `v` at `addr` succeeds, and loading at `addr` right afterwards
returns the integer `n`. -/
def RoundTrips (store : ℕ → JSValue → JS WasmMemoryInterface Unit)
    (load : WasmMemoryInterface → ℕ → Except JSError Num)
    (wmi : WasmMemoryInterface) (addr : ℕ) (v : JSValue) (n : ℤ) : Prop :=
  (store addr v wmi).1 = .ok () ∧ load (store addr v wmi).2 addr = .ok (.fin n)

instance (store : ℕ → JSValue → JS WasmMemoryInterface Unit)
    (load : WasmMemoryInterface → ℕ → Except JSError Num)
    (wmi : WasmMemoryInterface) (addr : ℕ) (v : JSValue) (n : ℤ) :
    Decidable (RoundTrips store load wmi addr v n) := by
  unfold RoundTrips; infer_instance

/-- Byte `k` (least significant first) of the two's-complement representation
of the integer `v`. -/
def twosComplementByte (v : ℤ) (k : ℕ) : ℕ := ((v / 256 ^ k) % 256).toNat

/-- The store of the integer `v` at `addr` succeeds, leaves byte `k` of the
two's complement of `v` at `addr + k` for every `k < width`, and changes no
other byte (nor the length of the buffer). -/
def StoresLittleEndian (store : ℕ → JSValue → JS WasmMemoryInterface Unit) (width : ℕ)
    (wmi : WasmMemoryInterface) (addr : ℕ) (v : ℤ) : Prop :=
  (store addr (.number (.fin v)) wmi).1 = .ok () ∧
  (∀ k, k < width →
    ((store addr (.number (.fin v)) wmi).2.memory[addr + k]?).map Fin.val
      = some (twosComplementByte v k)) ∧
  (∀ i, i < addr ∨ addr + width ≤ i →
    (store addr (.number (.fin v)) wmi).2.memory[i]? = wmi.memory[i]?) ∧
  (store addr (.number (.fin v)) wmi).2.memory.length = wmi.memory.length

/-- Globals of a page that is visible and not scrolled. -/
def quietHost : Host := ⟨.fin 0, .fin 0, false⟩

/-- A keyboard event whose `key` is 40 times `a` and whose `code` is 40 times
`b` (each 40 bytes of UTF-8), registered with name_code 7. -/
def longKeyEvent : EventData where
  id_ptr := .fin 0
  id_len := .number (.fin 0)
  name_code := .fin 7
  event :=
    { target := .other
      currentTarget := .other
      timeStamp := .fin 1000
      eventPhase := .fin 2
      bubbles := true
      cancelable := true
      composed := false
      isComposing := false
      isTrusted := false
      type := "keydown"
      interface := .keyboard
        { location := .fin 0
          ctrlKey := false
          shiftKey := false
          altKey := false
          metaKey := false
          repeat_ := false
          charCode := .fin 0
          key := List.replicate 40 0x61
          code := List.replicate 40 0x62 } }

/-- A gamepad event whose pad has an `id` of 40 and a `mapping` of 30 code
units U+4E2D: both shorter than the limits 96 and 64 in UTF-16 code units,
but 120 and 90 bytes of UTF-8 (e4 b8 ad each). -/
def cjkGamepadEvent : EventData where
  id_ptr := .fin 0
  id_len := .number (.fin 0)
  name_code := .fin 7
  event :=
    { target := .window
      currentTarget := .window
      timeStamp := .fin 1000
      eventPhase := .fin 2
      bubbles := false
      cancelable := false
      composed := false
      isComposing := false
      isTrusted := true
      type := "gamepadconnected"
      interface := .gamepad
        { index := .fin 0
          connected := true
          timestamp := .fin 0
          buttons := [⟨.fin 1, true, true⟩]
          axes := [.fin 0]
          id := List.replicate 40 0x4E2D
          mapping := List.replicate 30 0x4E2D } }

end Odin

namespace Odin

/-- The number stored for a target: its origin code. -/
def originValue (t : EventTarget) : JSValue := .number (Num.ofNat (originCode t))

open WasmMemoryInterface in
/-- The common prefix as a straight line of stores: `init_event_common` with
its conditionals folded into the values stored. -/
def init_event_common_flat (W : ℕ) (data : EventData) : JS Encoder Unit := do
  Encoder.call (storeU32 (← Encoder.off W 4 none) (.number data.name_code))
  Encoder.call (storeU32 (← Encoder.off W 4 none) (originValue data.event.target))
  Encoder.call (storeU32 (← Encoder.off W 4 none) (originValue data.event.currentTarget))
  Encoder.align W
  Encoder.call (storeI32 (← Encoder.off W W none) (.number data.id_ptr))
  Encoder.call (storeUint (← Encoder.off W W none) data.id_len)
  Encoder.align 8
  Encoder.call (storeF64 (← Encoder.off W 8 none)
    (.number (Num.mul data.event.timeStamp milli)))
  Encoder.call (storeU8 (← Encoder.off W 1 none) (.number data.event.eventPhase))
  Encoder.call (storeU8 (← Encoder.off W 1 none) (.number (Num.ofNat (optionsByte data.event))))
  Encoder.call (storeU8 (← Encoder.off W 1 none) (.boolean data.event.isComposing))
  Encoder.call (storeU8 (← Encoder.off W 1 none) (.boolean data.event.isTrusted))
  Encoder.align 8

end Odin

namespace Odin

/-- The writes of `storeUint(a, v)`: one u32 when the guest `int` has 4
bytes, the low and the high word when it has 8. -/
def guestUintWrites (W a : ℕ) (v : JSValue) : List (ℕ × List Byte) :=
  if W = 8 then
    [(a, leBytes 4 ((Number v).toUintN 32)),
     (a + 4, leBytes 4 ((Num.floor (Number (divBy4294967296 v))).toUintN 32))]
  else [(a, leBytes 4 ((Number v).toUintN 32))]

/-- The layout of the common prefix of a record at `ep` (a multiple of 8), for
`W` in {4, 8}: name_code, the two origin codes, the id pointer in a slot of
`W` bytes, the id length as a guest uint, the timestamp in seconds as an f64,
and the four bytes eventPhase, options, isComposing, isTrusted.  The body
starts at `ep + 32 + 2 * W`. -/
def prefixWrites (W : ℕ) (data : EventData) (ep : ℕ) : List (ℕ × List Byte) :=
  [(ep, leBytes 4 (data.name_code.toUintN 32)),
   (ep + 4, leBytes 4 (originCode data.event.target)),
   (ep + 8, leBytes 4 (originCode data.event.currentTarget)),
   (ep + 8 + W, leBytes 4 ((data.id_ptr.toIntN 32) % (2 ^ 32 : ℕ)).toNat)]
  ++ guestUintWrites W (ep + 8 + 2 * W) data.id_len ++
  [(ep + 16 + 2 * W, leBytes 8 (f64Bits (Num.mul data.event.timeStamp milli))),
   (ep + 24 + 2 * W, leBytes 1 (data.event.eventPhase.toUintN 8)),
   (ep + 25 + 2 * W, leBytes 1 (optionsByte data.event)),
   (ep + 26 + 2 * W, leBytes 1 (if data.event.isComposing then 1 else 0)),
   (ep + 27 + 2 * W, leBytes 1 (if data.event.isTrusted then 1 else 0))]

end Odin

namespace Odin

/-- The program `p`, started with the cursor at or above `lo`, leaves the
cursor at or above `lo` and changes no byte below `lo`, nor the length of the
buffer, nor intSize; a value it returns satisfies `Q`. -/
def WritesAbove {α : Type} (lo : ℕ) (p : JS Encoder α) (Q : α → Prop) : Prop :=
  ∀ s : Encoder, (∃ c, s.offset = some c ∧ lo ≤ c) →
    (∃ c, (p s).2.offset = some c ∧ lo ≤ c) ∧
    (p s).2.wmi.intSize = s.wmi.intSize ∧
    (p s).2.wmi.memory.length = s.wmi.memory.length ∧
    (∀ i, i < lo → (p s).2.wmi.memory[i]? = s.wmi.memory[i]?) ∧
    (∀ a, (p s).1 = .ok a → Q a)

/-- The method call `f` changes no byte below `lo`, nor the length of the
buffer, nor intSize. -/
def StoresAbove {α : Type} (lo : ℕ) (f : JS WasmMemoryInterface α) : Prop :=
  ∀ wmi : WasmMemoryInterface,
    (f wmi).2.intSize = wmi.intSize ∧
    (f wmi).2.memory.length = wmi.memory.length ∧
    (∀ i, i < lo → (f wmi).2.memory[i]? = wmi.memory[i]?)

end Odin

namespace Odin

/-! ## Strings built by template literals -/

/-- The string of an ASCII literal of the source. -/
def ascii (s : String) : JSString := s.toList.map (fun c => codeUnit c.toNat)

/-- The decimal digits of `n`, most significant first (`fuel` bounds their
number); empty for `0` fuel. -/
def decimalAux : (fuel : ℕ) → ℕ → JSString
  | 0, _ => []
  | fuel + 1, n =>
    if n < 10 then [codeUnit (0x30 + n)]
    else decimalAux fuel (n / 10) ++ [codeUnit (0x30 + n % 10)]

/-- The decimal representation of a natural number. -/
def decimal (n : ℕ) : JSString := decimalAux (n + 1) n

/-- The string a template literal makes of an integer (a wasm `i32` seen as a
Number, or a BigInt): a minus sign for a negative one, then the decimal
digits. -/
def intToString (z : ℤ) : JSString :=
  if z < 0 then ascii "-" ++ decimal z.natAbs else decimal z.natAbs

/-- The string a template literal makes of a boolean. -/
def boolToString (b : Bool) : JSString := if b then ascii "true" else ascii "false"

/-- The function `listener_key`. -/
def listener_key (id name : JSString) (data callback : ℤ) (useCapture : Bool) : JSString :=
  id ++ ascii "-" ++ name ++ ascii "-data:" ++ intToString data ++ ascii "-callback:"
    ++ intToString callback ++ ascii "-useCapture:" ++ boolToString useCapture

end Odin

namespace Odin

/-! ## The listener registry and the staged event -/

/-- The object a listener is attached to: an element of the document (known
by its id), the window or the document. -/
inductive Target where
  | element (id : JSString)
  | window
  | document
  deriving DecidableEq

/-- The closure `listener` a registration creates.  `uid` is the identity of
the function object; the other fields are the variables it captures. -/
structure Listener where
  uid : ℕ
  id_ptr : Num
  id_len : JSValue
  name_code : Num
  data : ℤ
  callback : ℤ
  deriving DecidableEq

/-- An entry of the event listener list of a target. -/
structure Attached where
  target : Target
  type : JSString
  listener : Listener
  capture : Bool
  deriving DecidableEq

/-- The state the imports of `odin_dom` work on: the memory interface with
its `listenerMap` (a Map, in insertion order), the variable `event_temp.data`
(`none` for `undefined` and `null`), the globals read by the encoder, the ids
of the elements of the document, the event listeners attached to the targets,
and the number of closures created so far. -/
structure Dom where
  wmi : WasmMemoryInterface
  listenerMap : List (JSString × Listener)
  event_temp : Option EventData
  host : Host
  elements : List JSString
  attached : List Attached
  functions : ℕ
  deriving DecidableEq

/-- `Map.prototype.has`. -/
def mapHas (m : List (JSString × Listener)) (key : JSString) : Bool := (m.lookup key).isSome

/-- `Map.prototype.get`; `none` is `undefined`. -/
def mapGet (m : List (JSString × Listener)) (key : JSString) : Option Listener := m.lookup key

/-- `Map.prototype.set`: the value of an existing key is replaced in place, a
new key is appended. -/
def mapSet (m : List (JSString × Listener)) (key : JSString) (value : Listener) :
    List (JSString × Listener) :=
  if mapHas m key then m.map (fun p => if p.1 = key then (key, value) else p)
  else m ++ [(key, value)]

/-- `Map.prototype.delete`. -/
def mapDelete (m : List (JSString × Listener)) (key : JSString) : List (JSString × Listener) :=
  m.filter (fun p => p.1 ≠ key)

/-- ECMAScript ToIndex of a Number used as the offset or the length of a
typed array: RangeError outside `0 .. 2^53 - 1`. -/
def toIndex : Num → Except JSError ℕ
  | .posInf => .error .RangeError
  | .negInf => .error .RangeError
  | x =>
    if x.truncate < 0 ∨ 9007199254740991 < x.truncate then .error .RangeError
    else .ok x.truncate.toNat

namespace Dom

/-- A call `wasmMemoryInterface.loadString(ptr, len)` with the values the
guest passed: `len` goes through `Number(len)`, and both become indices of
the `Uint8Array` view. -/
def loadString (ptr : Num) (len : JSValue) : JS Dom JSString := fun s =>
  (do let p ← toIndex ptr
      let n ← toIndex (Number len)
      s.wmi.loadString p n, s)

/-- The function `getElement`: `undefined` for an empty name, else what
`document.getElementById` finds (`null` when there is no such element). -/
def getElement (name : JSString) : JS Dom (Option Target) := fun s =>
  (.ok (if name ≠ [] then (if name ∈ s.elements then some (.element name) else none)
    else none), s)

/-- `wasmMemoryInterface.listenerMap.has(key)`. -/
def has (key : JSString) : JS Dom Bool := fun s => (.ok (mapHas s.listenerMap key), s)

/-- `wasmMemoryInterface.listenerMap.get(key)`. -/
def get (key : JSString) : JS Dom (Option Listener) := fun s =>
  (.ok (mapGet s.listenerMap key), s)

/-- `wasmMemoryInterface.listenerMap.set(key, listener)`. -/
def set (key : JSString) (listener : Listener) : JS Dom Unit := fun s =>
  (.ok (), { s with listenerMap := mapSet s.listenerMap key listener })

/-- `wasmMemoryInterface.listenerMap.delete(key)`. -/
def delete (key : JSString) : JS Dom Unit := fun s =>
  (.ok (), { s with listenerMap := mapDelete s.listenerMap key })

/-- The evaluation of the arrow function `(e) => { ... }`: a new function
object capturing the variables in scope. -/
def closure (id_ptr : Num) (id_len : JSValue) (name_code : Num) (data callback : ℤ) :
    JS Dom Listener := fun s =>
  (.ok ⟨s.functions, id_ptr, id_len, name_code, data, callback⟩,
    { s with functions := s.functions + 1 })

/-- Do the entries denote the same listener of the same target: type,
callback (a function object, compared by identity) and capture agree. -/
def sameListener (a b : Attached) : Bool :=
  a.target = b.target ∧ a.type = b.type ∧ a.listener.uid = b.listener.uid
    ∧ a.capture = b.capture

/-- `element.addEventListener(name, listener, capture)`: appended to the
event listener list of the target unless the same listener is in it. -/
def addEventListener (element : Target) (name : JSString) (listener : Listener)
    (capture : Bool) : JS Dom Unit := fun s =>
  if s.attached.any (sameListener ⟨element, name, listener, capture⟩) then (.ok (), s)
  else (.ok (), { s with attached := s.attached ++ [⟨element, name, listener, capture⟩] })

/-- `element.removeEventListener(name, listener, capture)`. -/
def removeEventListener (element : Target) (name : JSString) (listener : Listener)
    (capture : Bool) : JS Dom Unit := fun s =>
  (.ok (), { s with attached :=
    s.attached.filter (fun a => !sameListener ⟨element, name, listener, capture⟩ a) })

/-- The import `odin_dom.init_event_raw(ep)` on the whole state. -/
def init_event_raw (ep : ℕ) : JS Dom Unit := fun s =>
  ((Odin.init_event_raw s.host s.event_temp ep s.wmi).1,
    { s with wmi := (Odin.init_event_raw s.host s.event_temp ep s.wmi).2 })

end Dom

/-- The function `onEventReceived`: the event is staged while the guest
callback `exports.odin_dom_do_event_callback(data, callback, odin_ctx)` runs
(`guest` stands for that export; the context pointer it is given comes from
the getter `exports.default_context_ptr()`, which is left out), and unstaged
afterwards.  When the callback throws, the event stays staged. -/
def onEventReceived (guest : ℤ → ℤ → JS Dom Unit) (event_data : EventData)
    (data callback : ℤ) : JS Dom Unit := do
  (fun s => (.ok (), { s with event_temp := some event_data }) : JS Dom Unit)
  guest data callback
  (fun s => (.ok (), { s with event_temp := none }) : JS Dom Unit)

/-- A call of the closure `listener` with the native event `e`. -/
def Listener.call (guest : ℤ → ℤ → JS Dom Unit) (listener : Listener) (e : Event) :
    JS Dom Unit :=
  onEventReceived guest ⟨listener.id_ptr, listener.id_len, e, listener.name_code⟩
    listener.data listener.callback

/-- The import `odin_dom.add_event_listener`; `use_capture` is what
`!!use_capture` yields. -/
def add_event_listener (id_ptr : Num) (id_len : JSValue) (name_ptr : Num) (name_len : JSValue)
    (name_code : Num) (data callback : ℤ) (use_capture : Bool) : JS Dom Bool := do
  let id ← Dom.loadString id_ptr id_len
  let name ← Dom.loadString name_ptr name_len
  match ← Dom.getElement id with
  | none => pure false
  | some element =>
    let key := listener_key id name data callback use_capture
    if ← Dom.has key then pure false
    else
      let listener ← Dom.closure id_ptr id_len name_code data callback
      Dom.set key listener
      Dom.addEventListener element name listener use_capture
      pure true

/-- The import `odin_dom.add_window_event_listener`. -/
def add_window_event_listener (name_ptr : Num) (name_len : JSValue)
    (name_code : Num) (data callback : ℤ) (use_capture : Bool) : JS Dom Bool := do
  let name ← Dom.loadString name_ptr name_len
  let element := Target.window
  let key := listener_key (ascii "window") name data callback use_capture
  if ← Dom.has key then pure false
  else
    let listener ← Dom.closure (.fin 0) (.number (.fin 0)) name_code data callback
    Dom.set key listener
    Dom.addEventListener element name listener use_capture
    pure true

/-- The import `odin_dom.add_document_event_listener`. -/
def add_document_event_listener (name_ptr : Num) (name_len : JSValue)
    (name_code : Num) (data callback : ℤ) (use_capture : Bool) : JS Dom Bool := do
  let name ← Dom.loadString name_ptr name_len
  let element := Target.document
  let key := listener_key (ascii "document") name data callback use_capture
  if ← Dom.has key then pure false
  else
    let listener ← Dom.closure (.fin 0) (.number (.fin 0)) name_code data callback
    Dom.set key listener
    Dom.addEventListener element name listener use_capture
    pure true

/-- The import `odin_dom.remove_event_listener`. -/
def remove_event_listener (id_ptr : Num) (id_len : JSValue) (name_ptr : Num)
    (name_len : JSValue) (data callback : ℤ) (use_capture : Bool) : JS Dom Bool := do
  let id ← Dom.loadString id_ptr id_len
  let name ← Dom.loadString name_ptr name_len
  match ← Dom.getElement id with
  | none => pure false
  | some element =>
    let key := listener_key id name data callback use_capture
    match ← Dom.get key with
    | none => pure false
    | some listener =>
      Dom.delete key
      Dom.removeEventListener element name listener use_capture
      pure true

/-- The import `odin_dom.remove_window_event_listener`. -/
def remove_window_event_listener (name_ptr : Num) (name_len : JSValue)
    (data callback : ℤ) (use_capture : Bool) : JS Dom Bool := do
  let name ← Dom.loadString name_ptr name_len
  let element := Target.window
  let key := listener_key (ascii "window") name data callback use_capture
  match ← Dom.get key with
  | none => pure false
  | some listener =>
    Dom.delete key
    Dom.removeEventListener element name listener use_capture
    pure true

/-- The import `odin_dom.remove_document_event_listener`. -/
def remove_document_event_listener (name_ptr : Num) (name_len : JSValue)
    (data callback : ℤ) (use_capture : Bool) : JS Dom Bool := do
  let name ← Dom.loadString name_ptr name_len
  let element := Target.document
  let key := listener_key (ascii "document") name data callback use_capture
  match ← Dom.get key with
  | none => pure false
  | some listener =>
    Dom.delete key
    Dom.removeEventListener element name listener use_capture
    pure true

end Odin

namespace Odin

/-! ## Vocabulary of the registry statements -/

/-- Every attached listener is a closure created earlier (so the next closure
is a function object that is attached nowhere).  This holds when nothing is
attached, and registrations and removals keep it. -/
def Dom.Fresh (s : Dom) : Prop := ∀ a ∈ s.attached, a.listener.uid < s.functions

instance (s : Dom) : Decidable s.Fresh := by unfold Dom.Fresh; infer_instance

/-- The state after a successful registration: the closure `listener` is the
value of `key` in the map, and is attached to `target` as the last entry. -/
def Dom.registered (s : Dom) (target : Target) (key name : JSString) (listener : Listener)
    (capture : Bool) : Dom :=
  { s with
    listenerMap := s.listenerMap ++ [(key, listener)]
    attached := s.attached ++ [⟨target, name, listener, capture⟩]
    functions := s.functions + 1 }

/-- The state after a successful removal: `key` is no longer in the map and
`listener` is no longer attached to `target`. -/
def Dom.unregistered (s : Dom) (target : Target) (key name : JSString) (listener : Listener)
    (capture : Bool) : Dom :=
  { s with
    listenerMap := mapDelete s.listenerMap key
    attached := s.attached.filter
      (fun a => !Dom.sameListener ⟨target, name, listener, capture⟩ a) }

end Odin

namespace Odin

/-- A page with one element, of id `btn`; the guest memory (intSize 4) holds
the strings `btn` at 0 and `click` at 3; nothing is registered. -/
def pageDom : Dom where
  wmi := ⟨ascii "btnclick" |>.map (fun u => byte u.val), 4⟩
  listenerMap := []
  event_temp := none
  host := quietHost
  elements := [ascii "btn"]
  attached := []
  functions := 0

end Odin

namespace Odin

/-- The first argument of `listener_key` for a target: the element id, or
the literal `'window'` or `'document'`. -/
def Target.id : Target → JSString
  | .element id => id
  | .window => ascii "window"
  | .document => ascii "document"

/-- A ListenerKey: the target scope, the event name, the data and callback
tokens and the capture flag of a registration. -/
structure ListenerKey where
  scope : Target
  name : JSString
  data : ℤ
  callback : ℤ
  capture : Bool
  deriving DecidableEq

/-- The map key of a ListenerKey. -/
def ListenerKey.key (k : ListenerKey) : JSString :=
  listener_key k.scope.id k.name k.data k.callback k.capture

/-- The string contains no `-`, the separator of `listener_key`. -/
def hyphenFree (s : JSString) : Prop := (0x2D : CodeUnit) ∉ s

instance (s : JSString) : Decidable (hyphenFree s) := by unfold hyphenFree; infer_instance

/-- The scope cannot be taken for another one: an element id is not one of
the literals used for the window and the document. -/
def Target.Unambiguous : Target → Prop
  | .element id => id ≠ ascii "window" ∧ id ≠ ascii "document"
  | _ => True

instance (t : Target) : Decidable t.Unambiguous := by
  cases t <;> unfold Target.Unambiguous <;> infer_instance

/-- A page with one element, of id `window`; the guest memory (intSize 4)
holds the strings `window` at 0 and `click` at 6; nothing is registered. -/
def windowIdDom : Dom where
  wmi := ⟨ascii "windowclick" |>.map (fun u => byte u.val), 4⟩
  listenerMap := []
  event_temp := none
  host := quietHost
  elements := [ascii "window"]
  attached := []
  functions := 0

end Odin

namespace Odin

/-- The memory interface after the listener has been called with the native
event `e` and the guest callback has called `init_event_raw(ep)`. -/
def recordAfter (s : Dom) (listener : Listener) (e : Event) (ep : ℕ) : WasmMemoryInterface :=
  (Listener.call (fun _ _ => Dom.init_event_raw ep) listener e s).2.wmi

/-- An event of a kind the encoder does not know (say a `FocusEvent`),
dispatched to the window. -/
def focusEvent : Event where
  target := .window
  currentTarget := .document
  timeStamp := .fin 1000
  eventPhase := .fin 2
  bubbles := true
  cancelable := false
  composed := true
  isComposing := false
  isTrusted := true
  type := "focus"
  interface := .other

end Odin

namespace Odin

/-- A page with nothing registered and a guest memory of 64 zero bytes,
intSize 4. -/
def blankDom : Dom where
  wmi := ⟨List.replicate 64 0, 4⟩
  listenerMap := []
  event_temp := none
  host := quietHost
  elements := []
  attached := []
  functions := 0

/-- A listener registered with name_code 7 for an element whose id is the 3
bytes at address 16. -/
def sampleListener : Listener := ⟨0, .fin 16, .number (.fin 3), .fin 7, 100, 200⟩

end Odin

namespace Odin

/-! ## Reading doubles -/

/-- The number whose IEEE 754 binary64 bit pattern is `b`
(`DataView.getFloat64`): sign bit, 11 exponent bits, 52 fraction bits; every
NaN pattern reads as NaN. -/
def f64OfBits (b : ℕ) : Num :=
  let sign := b / 0x8000000000000000 % 2
  let e := b / 0x10000000000000 % 2048
  let f := b % 0x10000000000000
  if e = 2047 then
    if f ≠ 0 then .nan else if sign = 1 then .negInf else .posInf
  else if e = 0 ∧ f = 0 then
    if sign = 1 then .negZero else .fin 0
  else
    let magnitude : ℚ :=
      if e = 0 then (f : ℚ) * pow2 (-1074)
      else ((0x10000000000000 + f : ℕ) : ℚ) * pow2 ((e : ℤ) - 1075)
    .fin (if sign = 1 then -magnitude else magnitude)

/-- The method getFloat64(_, true): RangeError unless the 8 bytes lie in the
buffer. -/
def DataView.getFloat64 (buf : List Byte) (addr : ℕ) : Except JSError Num :=
  if addr + 8 ≤ buf.length then .ok (f64OfBits (leValue (readBytes buf addr 8)))
  else .error .RangeError

/-- Method loadF64. -/
def WasmMemoryInterface.loadF64 (wmi : WasmMemoryInterface) (addr : ℕ) : Except JSError Num :=
  DataView.getFloat64 wmi.memory addr

/-- The value is one a double can hold: a finite value is its own binary64
rounding. -/
def Num.IsDouble : Num → Prop
  | .fin q => roundDouble q = .fin q
  | _ => True

instance (x : Num) : Decidable x.IsDouble := by
  cases x <;> unfold Num.IsDouble <;> infer_instance

/-- The layout of the body of a wheel event at `body`: deltaX, deltaY, deltaZ
as f64 and deltaMode as u32. -/
def wheelWrites (w : WheelData) (body : ℕ) : List (ℕ × List Byte) :=
  [(body, leBytes 8 (f64Bits w.deltaX)),
   (body + 8, leBytes 8 (f64Bits w.deltaY)),
   (body + 16, leBytes 8 (f64Bits w.deltaZ)),
   (body + 24, leBytes 4 (w.deltaMode.toUintN 32))]

end Odin

namespace Odin

/-- A wheel event with deltaY = 120 (one notch of a mouse wheel), staged by a
listener registered with name_code 7 for the window. -/
def wheelEvent : EventData where
  id_ptr := .fin 0
  id_len := .number (.fin 0)
  name_code := .fin 7
  event :=
    { target := .other
      currentTarget := .window
      timeStamp := .fin 1000
      eventPhase := .fin 3
      bubbles := true
      cancelable := true
      composed := true
      isComposing := false
      isTrusted := true
      type := "wheel"
      interface := .wheel ⟨.fin 0, .fin 120, .fin 0, .fin 0⟩
        { screenX := .fin 11
          screenY := .fin 12
          clientX := .fin 13
          clientY := .fin 14
          offsetX := .fin 15
          offsetY := .fin 16
          pageX := .fin 17
          pageY := .fin 18
          movementX := .fin 0
          movementY := .fin 0
          ctrlKey := false
          shiftKey := false
          altKey := false
          metaKey := false
          button := .fin 0
          buttons := .fin 0
          pointer := none } }

end Odin

namespace Odin

/-! ## `get_gamepad_state` -/

open WasmMemoryInterface in
/-- The statements of `get_gamepad_state` once the gamepad is found: the
gamepad record is written from the cursor on. -/
def get_gamepad_state_found (W : ℕ) (gamepad : Gamepad) : JS Encoder Bool := do
  let _idPtr ← Encoder.off W (W * 2) (some W)
  let _mappingPtr ← Encoder.off W (W * 2) (some W)

  Encoder.call (storeI32 (← Encoder.off W W none) (.number gamepad.index))
  Encoder.call (storeU8 (← Encoder.off W 1 none) (.boolean gamepad.connected))
  Encoder.call (storeF64 (← Encoder.off W 8 none) (.number gamepad.timestamp))

  Encoder.call (storeInt (← Encoder.off W W none)
    (.number (Num.ofNat gamepad.buttons.length)))
  Encoder.call (storeInt (← Encoder.off W W none) (.number (Num.ofNat gamepad.axes.length)))

  for i in List.range 64 do
    if h : i < gamepad.buttons.length then
      let b := gamepad.buttons[i]
      Encoder.call (storeF64 (← Encoder.off W 8 (some 8)) (.number b.value))
      Encoder.call (storeU8 (← Encoder.off W 1 none) (.boolean b.pressed))
      Encoder.call (storeU8 (← Encoder.off W 1 none) (.boolean b.touched))
    else
      let _ ← Encoder.off W 16 (some 8)
  for i in List.range 16 do
    if h : i < gamepad.axes.length then
      let a := gamepad.axes[i]
      Encoder.call (storeF64 (← Encoder.off W 8 (some 8)) (.number a))
    else
      let _ ← Encoder.off W 8 (some 8)

  let mut idLength := gamepad.id.length
  let mut id := gamepad.id
  if idLength > 96 then
    idLength := 96
    id := id.take 93 ++ ellipsis

  let mut mappingLength := gamepad.mapping.length
  let mut mapping := gamepad.mapping
  if mappingLength > 64 then
    mappingLength := 61
    mapping := mapping.take 61 ++ ellipsis

  Encoder.call (storeInt (← Encoder.off W W (some W)) (.number (Num.ofNat idLength)))
  Encoder.call (storeInt (← Encoder.off W W (some W)) (.number (Num.ofNat mappingLength)))
  let _ ← Encoder.call (storeString (← Encoder.off W 96 (some 1)) id)
  let _ ← Encoder.call (storeString (← Encoder.off W 64 (some 1)) mapping)

  return true

/-- The import `odin_dom.get_gamepad_state(gamepad_id, ep)`; `gps` is the
array `navigator.getGamepads()`, with `none` for a `null` entry, and
`gamepad_id` the index as the guest passed it. -/
def get_gamepad_state (gps : List (Option Gamepad)) (gamepad_id : ℤ) (ep : ℕ) :
    JS WasmMemoryInterface Bool := fun wmi =>
  let index := gamepad_id
  if 0 ≤ index ∧ index < gps.length then
    match gps[index.toNat]? with
    | some (some gamepad) =>
      ((get_gamepad_state_found wmi.intSize gamepad ⟨some ep, wmi⟩).1,
        (get_gamepad_state_found wmi.intSize gamepad ⟨some ep, wmi⟩).2.wmi)
    | _ => (.ok false, wmi)
  else (.ok false, wmi)

/-- A gamepad with one button and one axis, with the given id and mapping. -/
def padWith (id mapping : JSString) : Gamepad where
  index := .fin 0
  connected := true
  timestamp := .fin 0
  buttons := [⟨.fin 1, true, true⟩]
  axes := [.fin 0]
  id := id
  mapping := mapping

/-- The event `gamepadconnected` of a gamepad, staged by a listener of the
window registered with name_code 7. -/
def padEvent (g : Gamepad) : EventData where
  id_ptr := .fin 0
  id_len := .number (.fin 0)
  name_code := .fin 7
  event :=
    { target := .window
      currentTarget := .window
      timeStamp := .fin 1000
      eventPhase := .fin 2
      bubbles := false
      cancelable := false
      composed := false
      isComposing := false
      isTrusted := true
      type := "gamepadconnected"
      interface := .gamepad g }

/-- A gamepad whose id is 120 times U+4E2D (360 bytes of UTF-8) and whose
mapping is 80 times `a`. -/
def cjkIdPad : Gamepad := padWith (List.replicate 120 0x4E2D) (List.replicate 80 0x61)

/-- A gamepad whose id is 120 times `b` and whose mapping is 80 times `a`. -/
def longAsciiPad : Gamepad := padWith (List.replicate 120 0x62) (List.replicate 80 0x61)

end Odin

namespace Odin

/-! ## The gamepad record -/

/-- The program `p`, started in the state `s`, returns normally, with a
result and a final state that satisfy `Q`. -/
def Runs {α : Type} (p : JS Encoder α) (s : Encoder) (Q : α → Encoder → Prop) : Prop :=
  ∃ a s', p s = (.ok a, s') ∧ Q a s'

/-- The writes of `storeInt(a, v)`: one i32 when the guest `int` has 4 bytes,
the low and the high word when it has 8. -/
def guestIntWrites (W a : ℕ) (v : JSValue) : List (ℕ × List Byte) :=
  if W = 8 then
    [(a, leBytes 4 ((Number v).toUintN 32)),
     (a + 4, leBytes 4 (((Num.floor (Number (divBy4294967296 v))).toIntN 32)
        % (2 ^ 32 : ℕ)).toNat)]
  else [(a, leBytes 4 (((Number v).toIntN 32) % (2 ^ 32 : ℕ)).toNat)]

/-- The writes of button slot `i` of a gamepad record whose slots start at
`base`: value, pressed and touched of the button at `base + 16 * i`, `+ 8` and
`+ 9`; nothing when the gamepad has no button `i`. -/
def buttonSlotWrites (base : ℕ) (buttons : List GamepadButton) (i : ℕ) : List (ℕ × List Byte) :=
  match buttons[i]? with
  | some b =>
    [(base + 16 * i, leBytes 8 (f64Bits b.value)),
     (base + 16 * i + 8, leBytes 1 (if b.pressed then 1 else 0)),
     (base + 16 * i + 9, leBytes 1 (if b.touched then 1 else 0))]
  | none => []

/-- The writes of the first `n` button slots. -/
def buttonWrites (base : ℕ) (buttons : List GamepadButton) (n : ℕ) : List (ℕ × List Byte) :=
  (List.range n).flatMap (buttonSlotWrites base buttons)

/-- The writes of axis slot `j`: the axis value at `base + 1024 + 8 * j`;
nothing when the gamepad has no axis `j`. -/
def axisSlotWrites (base : ℕ) (axes : List Num) (j : ℕ) : List (ℕ × List Byte) :=
  match axes[j]? with
  | some a => [(base + 1024 + 8 * j, leBytes 8 (f64Bits a))]
  | none => []

/-- The writes of the first `n` axis slots. -/
def axisWrites (base : ℕ) (axes : List Num) (n : ℕ) : List (ℕ × List Byte) :=
  (List.range n).flatMap (axisSlotWrites base axes)

/-- The id string the encoder stores: cut to 93 code units and `...` when it
has more than 96 code units. -/
def storedId (g : Gamepad) : JSString :=
  if g.id.length > 96 then g.id.take 93 ++ ellipsis else g.id

/-- The id length the encoder stores. -/
def storedIdLength (g : Gamepad) : ℕ := if g.id.length > 96 then 96 else g.id.length

/-- The mapping string the encoder stores: cut to 61 code units and `...`
when it has more than 64 code units. -/
def storedMapping (g : Gamepad) : JSString :=
  if g.mapping.length > 64 then g.mapping.take 61 ++ ellipsis else g.mapping

/-- The mapping length the encoder stores. -/
def storedMappingLength (g : Gamepad) : ℕ :=
  if g.mapping.length > 64 then 61 else g.mapping.length

/-- The start of the button slots of a gamepad record at `body`. -/
def buttonsBase (W body : ℕ) : ℕ := body + 8 * W + 8

/-- The layout of a gamepad record at `body` (a multiple of 8), for `W` in
{4, 8}: two pointer pairs that are skipped, index, connected, timestamp, the
numbers of buttons and axes, 64 button slots of 16 bytes from `buttonsBase`,
16 axis slots of 8 bytes, the id length, the mapping length, the id (a field
of 96 bytes) and the mapping (a field of 64 bytes). -/
def gamepadWrites (W : ℕ) (g : Gamepad) (body : ℕ) : List (ℕ × List Byte) :=
  [(body + 4 * W, leBytes 4 ((g.index.toIntN 32) % (2 ^ 32 : ℕ)).toNat),
   (body + 5 * W, leBytes 1 (if g.connected then 1 else 0)),
   (body + 6 * W, leBytes 8 (f64Bits g.timestamp))]
  ++ guestIntWrites W (body + 6 * W + 8) (.number (Num.ofNat g.buttons.length))
  ++ guestIntWrites W (body + 7 * W + 8) (.number (Num.ofNat g.axes.length))
  ++ buttonWrites (buttonsBase W body) g.buttons 64
  ++ axisWrites (buttonsBase W body) g.axes 16
  ++ guestIntWrites W (buttonsBase W body + 1152) (.number (Num.ofNat (storedIdLength g)))
  ++ guestIntWrites W (buttonsBase W body + 1152 + W)
      (.number (Num.ofNat (storedMappingLength g)))
  ++ [(buttonsBase W body + 1152 + 2 * W, TextEncoder.encode (storedId g)),
      (buttonsBase W body + 1152 + 2 * W + 96, TextEncoder.encode (storedMapping g))]

end Odin

namespace Odin

/-- The state before button slot `i`: the first `i` slots are written and the
cursor, once aligned to 8, is at the start of slot `i`. -/
def ButtonInv (W base : ℕ) (buttons : List GamepadButton) (m0 : List Byte) (i : ℕ)
    (s : Encoder) : Prop :=
  ∃ c, s = ⟨some c, ⟨applyWrites (buttonWrites base buttons i) m0, W⟩⟩ ∧
    roundUp c 8 = base + 16 * i

/-- The state before axis slot `j`: the first `j` slots are written and the
cursor, once aligned to 8, is at the start of slot `j` (it is there already
after a slot). -/
def AxisInv (W base : ℕ) (axes : List Num) (m0 : List Byte) (j : ℕ) (s : Encoder) : Prop :=
  ∃ c, s = ⟨some c, ⟨applyWrites (axisWrites base axes j) m0, W⟩⟩ ∧
    roundUp c 8 = base + 1024 + 8 * j ∧ (0 < j → c = base + 1024 + 8 * j)

end Odin
namespace Odin

/-! ## Null-terminated strings -/

namespace WasmMemoryInterface

/-- The loop `for (; this.mem.getUint8(ptr+len) != 0; len += 1) {}` of
loadCstring, started with the given `len` and run for at most `fuel` tests of
its condition: the final `len`, the RangeError of a read past the end of the
buffer, or `none` when the tests are used up. -/
def loadCstring.scan (wmi : WasmMemoryInterface) (ptr : ℕ) : (fuel : ℕ) → (len : ℕ) →
    Option (Except JSError ℕ)
  | 0, _ => none
  | fuel + 1, len =>
    match DataView.getUint 1 wmi.memory (ptr + len) with
    | .error e => some (.error e)
    | .ok b => if b ≠ 0 then loadCstring.scan wmi ptr fuel (len + 1) else some (.ok len)

/-- Method loadCstring: `null` (the inner `none`) for the pointer 0, else the
string of the bytes up to the first zero byte.  The outer `none` says that
`fuel` tests of the loop condition were not enough. -/
def loadCstring (fuel : ℕ) (wmi : WasmMemoryInterface) (ptr : ℕ) :
    Option (Except JSError (Option JSString)) :=
  if ptr = 0 then some (.ok none)
  else
    match loadCstring.scan wmi ptr fuel 0 with
    | none => none
    | some (.error e) => some (.error e)
    | some (.ok len) => some ((wmi.loadString ptr len).map some)

end WasmMemoryInterface

/-! ## Sample inputs: fractional coordinates, stale bytes -/

/-- A gamepad with index 1, one button and one axis. -/
def indexOnePad : Gamepad where
  index := .fin 1
  connected := true
  timestamp := .fin 0
  buttons := [⟨.fin 1, true, true⟩]
  axes := [.fin 0]
  id := ascii "pad"
  mapping := ascii "standard"

/-- The event `mousemove` on an element, half a pixel left of its padding
edge: `offsetX` is -0.5, every other coordinate is 0. -/
def mouseLeftOfEdge : EventData where
  id_ptr := .fin 0
  id_len := .number (.fin 0)
  name_code := .fin 7
  event :=
    { target := .other
      currentTarget := .other
      timeStamp := .fin 1000
      eventPhase := .fin 2
      bubbles := true
      cancelable := true
      composed := true
      isComposing := false
      isTrusted := true
      type := "mousemove"
      interface := .mouse
        { screenX := .fin 0
          screenY := .fin 0
          clientX := .fin 0
          clientY := .fin 0
          offsetX := .fin (-1 / 2)
          offsetY := .fin 0
          pageX := .fin 0
          pageY := .fin 0
          movementX := .fin 0
          movementY := .fin 0
          ctrlKey := false
          shiftKey := false
          altKey := false
          metaKey := false
          button := .fin 0
          buttons := .fin 0
          pointer := none } }

/-! ## The HTML console of `writeToConsole` -/

/-- The constant MAX_INFO_CONSOLE_LINES. -/
def MAX_INFO_CONSOLE_LINES : ℕ := 512

/-- The variables of the HTML console: the array `infoConsoleLines` and the
property `innerHTML` of the console element. -/
structure HtmlConsole where
  infoConsoleLines : List JSString
  innerHTML : JSString
  deriving DecidableEq

/-- The code unit of a newline. -/
def newline : CodeUnit := 0x0A

/-- `line.split("\n")`: the pieces between the newlines, one more than there
are newlines. -/
def splitNewline : JSString → List JSString
  | [] => [[]]
  | c :: cs =>
    if c = newline then [] :: splitNewline cs
    else
      match splitNewline cs with
      | [] => [[c]]
      | piece :: pieces => (c :: piece) :: pieces

/-- `line.endsWith("\n")`. -/
def endsWithNewline (line : JSString) : Bool := line.getLast? = some newline

/-- The function `wrap` of writeToConsole. -/
def wrap (isError : Bool) (x : JSString) : JSString :=
  if isError then
    ascii "<span style=" ++ [0x22] ++ ascii "color:#f21" ++ [0x22] ++ ascii ">" ++ x
      ++ ascii "</span>"
  else x

/-- `Array.prototype.pop` as the code uses it: the last entry, and the array
without it. -/
def arrayPop (a : List JSString) : JSString × List JSString :=
  (a.getLast?.getD [], a.dropLast)

/-- `Array.prototype.shift`: the first entry is removed.  The method takes no
parameter, the argument of `shift(MAX_INFO_CONSOLE_LINES)` is not looked at. -/
def arrayShift (a : List JSString) : List JSString := a.tail

/-- The part of `writeToConsole(line, isError)` that keeps the HTML console,
from the test of `consoleElement` on (`consoleElement` says whether a console
element was given).  The part before it prints to the browser console; it
reads and writes the variables `currentLine` and `prevIsError` only and is
left out. -/
def writeToConsole (consoleElement : Bool) (line : JSString) (isError : Bool)
    (s : HtmlConsole) : HtmlConsole := Id.run do
  if line = [] then
    return s
  if !consoleElement then
    return s
  let mut infoConsoleLines := s.infoConsoleLines
  if line = [newline] then
    infoConsoleLines := infoConsoleLines ++ [line]
  else if newline ∉ line then
    let mut prevLine : JSString := []
    if infoConsoleLines.length > 0 then
      prevLine := (arrayPop infoConsoleLines).1
      infoConsoleLines := (arrayPop infoConsoleLines).2
    infoConsoleLines := infoConsoleLines ++ [prevLine ++ wrap isError line]
  else
    let lines := splitNewline line
    let lastHasNewline := decide (lines.length > 1) && endsWithNewline line
    let mut prevLine : JSString := []
    if infoConsoleLines.length > 0 then
      prevLine := (arrayPop infoConsoleLines).1
      infoConsoleLines := (arrayPop infoConsoleLines).2
    infoConsoleLines :=
      infoConsoleLines ++ [prevLine ++ (wrap isError (lines.getD 0 []) ++ [newline])]
    for i in List.range' 1 (lines.length - 1 - 1) do
      infoConsoleLines := infoConsoleLines ++ [wrap isError (lines.getD i []) ++ [newline]]
    let last := lines.getD (lines.length - 1) []
    if lastHasNewline then
      infoConsoleLines := infoConsoleLines ++ [last ++ [newline]]
    else
      infoConsoleLines := infoConsoleLines ++ [last]
  if infoConsoleLines.length > MAX_INFO_CONSOLE_LINES then
    infoConsoleLines := arrayShift infoConsoleLines
  let mut data : JSString := []
  for entry in infoConsoleLines do
    data := data ++ entry
  return ⟨infoConsoleLines, data⟩

/-! ## The two gamepad encoders -/

/-- The writes `ws`, whose addresses are offsets into a record, for the record
that starts at `base`. -/
def placeAt (base : ℕ) (ws : List (ℕ × List Byte)) : List (ℕ × List Byte) :=
  ws.map (fun w => (base + w.1, w.2))

/-- The end of the last write of a gamepad record at `body`: the end of the
two length fields, of the id or of the mapping, whichever is last (the id and
the mapping take the bytes of their UTF-8 encoding). -/
def gamepadRecordEnd (W : ℕ) (g : Gamepad) (body : ℕ) : ℕ :=
  buttonsBase W body + 1152 + 2 * W
    + max (TextEncoder.encode (storedId g)).length
        (96 + (TextEncoder.encode (storedMapping g)).length)

end Odin
namespace Odin

/-! ## The staged event while a guest callback runs

The imports that read `event_temp.data`, `dispatch_custom_event`, and the
dispatch of an event by the browser, on a page whose event objects carry the
flags that stopPropagation, stopImmediatePropagation and preventDefault set.
A guest callback is the list of the imports it calls.  The imports that hand
control to code of the page (`evaluate`, and any import that touches the
document) are known by what that code does: the events it dispatches and the
changes it makes. -/

/-- The flags of an event object that its methods set, and the "in passive
listener" flag that the dispatch sets around the call of a passive
listener. -/
structure EventFlags where
  stopPropagation : Bool
  stopImmediatePropagation : Bool
  canceled : Bool
  inPassiveListener : Bool
  deriving DecidableEq

/-- The page: the state of the imports, the number of the event object that
`event_temp.data.event` refers to (event objects are numbered as they are
created), the flags of every event object, the ancestors that carry an id of
the elements with an id (innermost first), the ids of the document element
and of the body (when they carry one), the array `navigator.getGamepads()`
and the clock that stamps new events. -/
structure Page where
  dom : Dom
  staged : Option ℕ
  flags : List EventFlags
  ancestors : List (JSString × List JSString)
  roots : List JSString
  gamepads : List (Option Gamepad)
  now : Num
  deriving DecidableEq

/-- One thing that code of the page does when an import hands control to it
(the script of `evaluate`, a setter or a reaction of a custom element):
it dispatches an event, it changes the page, or it throws.  The change is
any function of the page; `Page.outside` keeps from it what page code
cannot reach. -/
inductive ScriptStep where
  | dispatchEvent (target : Target) (name : JSString) (e : Event)
  | update (f : Page → Page)
  | throw (error : JSError)

/-- An import with its arguments, as a guest callback calls it: the twelve
functions of `odin_dom` that work on the staged event, the listeners and the
gamepads; `odin_env.evaluate` with what the script at `str_ptr` does; and
any other import of `odin_env` and `odin_dom` (write, trap, alert, abort,
open, the clock and the math functions, rand_bytes, the get_element and
set_element imports, get_bounding_client_rect, the window imports,
device_pixel_ratio) by what it does to the page.  None of these others names
`event_temp` or `listeners`. -/
inductive HostCall where
  | init_event_raw (ep : ℕ)
  | event_stop_propagation
  | event_stop_immediate_propagation
  | event_prevent_default
  | dispatch_custom_event (id_ptr : Num) (id_len : JSValue) (name_ptr : Num)
      (name_len : JSValue) (options_bits : ℤ)
  | add_event_listener (id_ptr : Num) (id_len : JSValue) (name_ptr : Num)
      (name_len : JSValue) (name_code : Num) (data callback : ℤ) (use_capture : Bool)
  | add_window_event_listener (name_ptr : Num) (name_len : JSValue) (name_code : Num)
      (data callback : ℤ) (use_capture : Bool)
  | add_document_event_listener (name_ptr : Num) (name_len : JSValue) (name_code : Num)
      (data callback : ℤ) (use_capture : Bool)
  | remove_event_listener (id_ptr : Num) (id_len : JSValue) (name_ptr : Num)
      (name_len : JSValue) (data callback : ℤ) (use_capture : Bool)
  | remove_window_event_listener (name_ptr : Num) (name_len : JSValue)
      (data callback : ℤ) (use_capture : Bool)
  | remove_document_event_listener (name_ptr : Num) (name_len : JSValue)
      (data callback : ℤ) (use_capture : Bool)
  | get_gamepad_state (gamepad_id : ℤ) (ep : ℕ)
  | evaluate (str_ptr : Num) (str_len : JSValue) (script : List ScriptStep)
  | other (effect : List ScriptStep)

/-- The guest: the imports the export `odin_dom_do_event_callback(data,
callback, ctx)` calls, in order, for each pair of tokens. -/
abbrev Guest : Type := ℤ → ℤ → List HostCall

/-- A stop of an event on its path: the object whose listeners are invoked,
whether they are the capturing ones, and the value of `eventPhase` there. -/
structure PathStop where
  object : Target
  capture : Bool
  eventPhase : ℕ
  deriving DecidableEq

/-- What `e.target == document` and `e.target == window` see of an object. -/
def Target.origin : Target → EventTarget
  | .element _ => .other
  | .document => .document
  | .window => .window

/-- The string of a sequence of code units, for the comparisons of
`e.type` with `'scroll'` and `'visibilitychange'`. -/
def jsToString (s : JSString) : String := String.mk ((toScalarValues s).map Char.ofNat)

namespace Page

/-- An import that works on the state of `Dom`, run on the page. -/
def lift {α : Type} (p : JS Dom α) : JS Page α := fun s =>
  ((p s.dom).1, { s with dom := (p s.dom).2 })

/-- The flags of event object `k`. -/
def flagsOf (s : Page) (k : ℕ) : EventFlags := s.flags.getD k ⟨false, false, false, false⟩

/-- The "in passive listener" flag of event object `k` is set or unset. -/
def setInPassiveListener (k : ℕ) (b : Bool) (s : Page) : Page :=
  { s with flags := s.flags.set k { s.flagsOf k with inPassiveListener := b } }

/-- The "default passive value" of the DOM standard, which is the `passive`
of a listener added as here with a boolean third argument,
`addEventListener(name, listener, !!use_capture)`: true for the types
touchstart, touchmove, wheel and mousewheel on the window, the document, the
document element and the body. -/
def defaultPassive (s : Page) (type : JSString) (target : Target) : Bool :=
  decide (type = ascii "touchstart" ∨ type = ascii "touchmove" ∨ type = ascii "wheel"
    ∨ type = ascii "mousewheel") &&
  match target with
  | .window => true
  | .document => true
  | .element id => decide (id ∈ s.roots)

/-- What a change made by code of the page leaves as it was: the variables
`event_temp` and `listeners` are local to `odinSetupDefaultImports` (and the
script of `evaluate` runs in the global scope, `eval.call(null, ...)`), the
closures attached as listeners are held by nothing else, so page code can
neither read nor replace nor detach them; a change creates no event object
and loses none; the document element and the body stay the same. -/
def outside (f : Page → Page) (s : Page) : Page :=
  let t := f s
  let flags := if t.flags.length = s.flags.length then t.flags else s.flags
  let dom : Dom := { t.dom with listenerMap := s.dom.listenerMap, event_temp := s.dom.event_temp }
  let dom : Dom := { dom with attached := s.dom.attached, functions := s.dom.functions }
  { t with dom := dom, staged := s.staged, flags := flags, roots := s.roots }

/-- A method of `event_temp.data.event` that sets flags, called if an event
is staged: `if (event_temp.data && event_temp.data.event) { ... }`. -/
def onStaged (f : Event → EventFlags → EventFlags) : JS Page Unit := fun s =>
  match s.dom.event_temp, s.staged with
  | some data, some k => (.ok (), { s with flags := s.flags.set k (f data.event (s.flagsOf k)) })
  | _, _ => (.ok (), s)

/-- The import `odin_dom.event_stop_propagation`. -/
def event_stop_propagation : JS Page Unit :=
  onStaged (fun _ f => { f with stopPropagation := true })

/-- The import `odin_dom.event_stop_immediate_propagation`: the method sets
both flags. -/
def event_stop_immediate_propagation : JS Page Unit :=
  onStaged (fun _ f => { f with stopPropagation := true, stopImmediatePropagation := true })

/-- The import `odin_dom.event_prevent_default`: the method sets the canceled
flag of a cancelable event, unless the event is in a passive listener. -/
def event_prevent_default : JS Page Unit :=
  onStaged (fun e f =>
    if e.cancelable ∧ f.inPassiveListener = false then { f with canceled := true } else f)

/-- The function `onEventReceived` on the page: `k` is the number of the
event object `event_data.event`. -/
def onEventReceived (guest : ℤ → ℤ → JS Page Unit) (k : ℕ) (event_data : EventData)
    (data callback : ℤ) : JS Page Unit := do
  (fun s => (.ok (), { s with dom := { s.dom with event_temp := some event_data },
                              staged := some k }) : JS Page Unit)
  guest data callback
  (fun s => (.ok (), { s with dom := { s.dom with event_temp := none },
                              staged := none }) : JS Page Unit)

/-- A call of the closure `listener` with event object `k`, whose attributes
are `e`. -/
def call (guest : ℤ → ℤ → JS Page Unit) (listener : Listener) (k : ℕ) (e : Event) :
    JS Page Unit :=
  onEventReceived guest k ⟨listener.id_ptr, listener.id_len, e, listener.name_code⟩
    listener.data listener.callback

/-- The event path of a target: the target, its ancestors, the document and
the window. -/
def eventPath (s : Page) : Target → List Target
  | .element id =>
    .element id :: ((s.ancestors.lookup id).getD []).map Target.element ++ [.document, .window]
  | .document => [.document, .window]
  | .window => [.window]

/-- The stops of a dispatch along a path (the target first): the capturing
listeners from the outermost object down to the target, then the other
listeners of the target, then, for an event that bubbles, those of the
objects above it. -/
def pathStops (bubbles : Bool) : List Target → List PathStop
  | [] => []
  | target :: above =>
    above.reverse.map (fun o => ⟨o, true, 1⟩) ++ [⟨target, true, 2⟩, ⟨target, false, 2⟩]
      ++ (if bubbles then above.map (fun o => ⟨o, false, 3⟩) else [])

/-- The listeners of a stop are called in turn ("inner invoke" of the DOM
standard): a listener that was removed meanwhile, one of another type or of
the other phase is skipped; the "in passive listener" flag of the event is
set for the call of a passive listener and unset after the call; an
exception of a listener is reported, not propagated; after a listener that
set the stop immediate propagation flag the rest is skipped. -/
def innerInvoke (guest : ℤ → ℤ → JS Page Unit) (k : ℕ) (name : JSString) (e : Event)
    (capture : Bool) : List Attached → JS Page Unit
  | [] => pure ()
  | a :: rest => fun s =>
    if s.dom.attached.any (Dom.sameListener a) ∧ a.type = name ∧ a.capture = capture then
      let s0 := s.setInPassiveListener k (s.defaultPassive a.type a.target)
      let s1 := ((call guest a.listener k e s0).2).setInPassiveListener k false
      if (s1.flagsOf k).stopImmediatePropagation then (.ok (), s1)
      else innerInvoke guest k name e capture rest s1
    else innerInvoke guest k name e capture rest s

/-- One stop of a dispatch ("invoke" of the DOM standard): nothing once the
stop propagation flag is set, else the listeners the object has at this
moment are called with `currentTarget` and `eventPhase` set. -/
def invoke (guest : ℤ → ℤ → JS Page Unit) (k : ℕ) (name : JSString) (e : Event)
    (stop : PathStop) : JS Page Unit := fun s =>
  if (s.flagsOf k).stopPropagation then (.ok (), s)
  else
    innerInvoke guest k name
      { e with currentTarget := stop.object.origin, eventPhase := Num.ofNat stop.eventPhase }
      stop.capture (s.dom.attached.filter (fun a => a.target = stop.object)) s

/-- The stops of a dispatch, one after the other. -/
def invokeAll (guest : ℤ → ℤ → JS Page Unit) (k : ℕ) (name : JSString) (e : Event) :
    List PathStop → JS Page Unit
  | [] => pure ()
  | stop :: stops => do
    invoke guest k name e stop
    invokeAll guest k name e stops

/-- The method `target.dispatchEvent(event)` for a new event object with the
attributes `e` and the type `name`, and the dispatch of a native event by the
browser: the event object gets the next number and clear flags, `target` is
set, and the listeners along the event path are called synchronously. -/
def dispatchEvent (guest : ℤ → ℤ → JS Page Unit) (target : Target) (name : JSString)
    (e : Event) : JS Page Unit := fun s =>
  invokeAll guest s.flags.length name { e with target := target.origin }
    (pathStops e.bubbles (s.eventPath target))
    { s with flags := s.flags ++ [⟨false, false, false, false⟩] }

/-- The expression `new Event(name, options)`: a plain event, not trusted,
stamped with the current time. -/
def newEvent (name : JSString) (bubbles cancelable composed : Bool) (now : Num) : Event where
  target := .other
  currentTarget := .other
  timeStamp := now
  eventPhase := .fin 0
  bubbles := bubbles
  cancelable := cancelable
  composed := composed
  isComposing := false
  isTrusted := false
  type := jsToString name
  interface := .other

/-- The import `odin_dom.dispatch_custom_event`; `guest` runs the callback
of a listener that the dispatch calls. -/
def dispatch_custom_event (guest : ℤ → ℤ → JS Page Unit) (id_ptr : Num) (id_len : JSValue)
    (name_ptr : Num) (name_len : JSValue) (options_bits : ℤ) : JS Page Bool := do
  let id ← lift (Dom.loadString id_ptr id_len)
  let name ← lift (Dom.loadString name_ptr name_len)
  let bubbles := decide (bitAnd options_bits 1 ≠ 0)
  let cancelable := decide (bitAnd options_bits 2 ≠ 0)
  let composed := decide (bitAnd options_bits 4 ≠ 0)
  match ← lift (Dom.getElement id) with
  | some element =>
    let now ← (fun s => (.ok s.now, s) : JS Page Num)
    dispatchEvent guest element name (newEvent name bubbles cancelable composed now)
    pure true
  | none => pure false

/-- The import `odin_dom.get_gamepad_state` on the page. -/
def get_gamepad_state (gamepad_id : ℤ) (ep : ℕ) : JS Page Bool := fun s =>
  ((Odin.get_gamepad_state s.gamepads gamepad_id ep s.dom.wmi).1,
    { s with dom := { s.dom with
        wmi := (Odin.get_gamepad_state s.gamepads gamepad_id ep s.dom.wmi).2 } })

/-- Code of the page runs: its steps one after the other, up to the first
that throws.  `nested` runs the guest callback of a listener that one of its
events fires. -/
def runScript (nested : ℤ → ℤ → JS Page Unit) : List ScriptStep → JS Page Unit
  | [] => pure ()
  | .dispatchEvent target name e :: rest => do
    dispatchEvent nested target name e
    runScript nested rest
  | .update f :: rest => do
    (fun s => (.ok (), s.outside f) : JS Page Unit)
    runScript nested rest
  | .throw error :: _ => JS.throw error

/-- The import `odin_env.evaluate`: the string is read from the guest memory
and handed to `eval`; `script` is what it does. -/
def evaluate (nested : ℤ → ℤ → JS Page Unit) (str_ptr : Num) (str_len : JSValue)
    (script : List ScriptStep) : JS Page Unit := do
  let _ ← lift (Dom.loadString str_ptr str_len)
  runScript nested script

/-- One import called by the guest; its result goes to the guest.  `nested`
runs the guest callback of a listener fired from within the import. -/
def hostCall (nested : ℤ → ℤ → JS Page Unit) : HostCall → JS Page Unit
  | .init_event_raw ep => lift (Dom.init_event_raw ep)
  | .event_stop_propagation => event_stop_propagation
  | .event_stop_immediate_propagation => event_stop_immediate_propagation
  | .event_prevent_default => event_prevent_default
  | .dispatch_custom_event id_ptr id_len name_ptr name_len options_bits => do
    let _ ← dispatch_custom_event nested id_ptr id_len name_ptr name_len options_bits
  | .add_event_listener id_ptr id_len name_ptr name_len name_code data callback use_capture => do
    let _ ← lift (Odin.add_event_listener id_ptr id_len name_ptr name_len name_code data
      callback use_capture)
  | .add_window_event_listener name_ptr name_len name_code data callback use_capture => do
    let _ ← lift (Odin.add_window_event_listener name_ptr name_len name_code data callback
      use_capture)
  | .add_document_event_listener name_ptr name_len name_code data callback use_capture => do
    let _ ← lift (Odin.add_document_event_listener name_ptr name_len name_code data callback
      use_capture)
  | .remove_event_listener id_ptr id_len name_ptr name_len data callback use_capture => do
    let _ ← lift (Odin.remove_event_listener id_ptr id_len name_ptr name_len data callback
      use_capture)
  | .remove_window_event_listener name_ptr name_len data callback use_capture => do
    let _ ← lift (Odin.remove_window_event_listener name_ptr name_len data callback
      use_capture)
  | .remove_document_event_listener name_ptr name_len data callback use_capture => do
    let _ ← lift (Odin.remove_document_event_listener name_ptr name_len data callback
      use_capture)
  | .get_gamepad_state gamepad_id ep => do
    let _ ← get_gamepad_state gamepad_id ep
  | .evaluate str_ptr str_len script => evaluate nested str_ptr str_len script
  | .other effect => runScript nested effect

/-- The imports of a guest callback, one after the other; an exception of
one of them ends the callback. -/
def runCalls (nested : ℤ → ℤ → JS Page Unit) : List HostCall → JS Page Unit
  | [] => pure ()
  | c :: cs => do
    hostCall nested c
    runCalls nested cs

/-- The export `odin_dom_do_event_callback(data, callback, ctx)` when the
call stack has room for `depth` guest callbacks inside each other: without
room the call throws a RangeError. -/
def callback (guest : Guest) : (depth : ℕ) → ℤ → ℤ → JS Page Unit
  | 0, _, _ => JS.throw .RangeError
  | depth + 1, data, cb => runCalls (callback guest depth) (guest data cb)

/-- The state in which the callback of `listener` starts when the listener
is called with event object `k`, whose attributes are `e`. -/
def staging (listener : Listener) (k : ℕ) (e : Event) (s : Page) : Page :=
  let event_data : EventData := ⟨listener.id_ptr, listener.id_len, e, listener.name_code⟩
  { s with dom := { s.dom with event_temp := some event_data }, staged := some k }

/-- Is the event with the attributes `e` of `listener`, as event object `k`,
the staged event. -/
def Staged (listener : Listener) (k : ℕ) (e : Event) (s : Page) : Prop :=
  s.dom.event_temp = some ⟨listener.id_ptr, listener.id_len, e, listener.name_code⟩
    ∧ s.staged = some k

instance (listener : Listener) (k : ℕ) (e : Event) (s : Page) :
    Decidable (Staged listener k e s) := by
  unfold Staged; infer_instance

/-- The event is staged when each import of the list is called and when the
last one has returned (the imports after one that throws are not called). -/
def StagedAtEveryCall (nested : ℤ → ℤ → JS Page Unit) (listener : Listener) (k : ℕ)
    (e : Event) : List HostCall → Page → Prop
  | [], s => Staged listener k e s
  | c :: cs, s =>
    Staged listener k e s ∧
      match hostCall nested c s with
      | (.ok _, s1) => StagedAtEveryCall nested listener k e cs s1
      | (.error _, _) => True

/-- A dispatch on the element `id` of an event of type `name` reaches no
bridging listener: no listener of that type is attached to an object of the
event path.  An id or a name that cannot be read ends the import before it
dispatches. -/
def quietDispatch (s : Page) : Except JSError JSString → Except JSError JSString → Prop
  | .ok id, .ok name =>
    ∀ a ∈ s.dom.attached, a.type = name → a.target ∉ s.eventPath (.element id)
  | _, _ => True

/-- Code of the page reaches no bridging listener: when it dispatches an
event, no listener of the type of the event is attached to an object of the
event path at that moment (such a dispatch only creates the event object). -/
def QuietScript : List ScriptStep → Page → Prop
  | [], _ => True
  | .dispatchEvent target name _ :: rest, s =>
    (∀ a ∈ s.dom.attached, a.type = name → a.target ∉ s.eventPath target) ∧
      QuietScript rest { s with flags := s.flags ++ [⟨false, false, false, false⟩] }
  | .update f :: rest, s => QuietScript rest (s.outside f)
  | .throw _ :: _, _ => True

/-- The script of an `evaluate` is quiet; a string that cannot be read ends
the import before the script runs. -/
def quietEvaluate (s : Page) (script : List ScriptStep) : Except JSError JSString → Prop
  | .ok _ => QuietScript script s
  | .error _ => True

/-- The import reaches no bridging listener: its dispatch or its script is
quiet. -/
def Quiet : HostCall → Page → Prop
  | .dispatch_custom_event id_ptr id_len name_ptr name_len _, s =>
    quietDispatch s (Dom.loadString id_ptr id_len s.dom).1
      (Dom.loadString name_ptr name_len s.dom).1
  | .evaluate str_ptr str_len script, s =>
    quietEvaluate s script (Dom.loadString str_ptr str_len s.dom).1
  | .other effect, s => QuietScript effect s
  | _, _ => True

/-- Every import of the list is quiet when it is called. -/
def QuietCalls (nested : ℤ → ℤ → JS Page Unit) : List HostCall → Page → Prop
  | [], _ => True
  | c :: cs, s =>
    Quiet c s ∧
      match hostCall nested c s with
      | (.ok _, s1) => QuietCalls nested cs s1
      | (.error _, _) => True

instance decStagedAtEveryCall (nested : ℤ → ℤ → JS Page Unit) (listener : Listener) (k : ℕ)
    (e : Event) : (cs : List HostCall) → (s : Page) →
    Decidable (StagedAtEveryCall nested listener k e cs s)
  | [], s => inferInstanceAs (Decidable (Staged listener k e s))
  | c :: cs, s =>
    match h : hostCall nested c s with
    | (.ok _, s1) =>
      have := decStagedAtEveryCall nested listener k e cs s1
      decidable_of_iff (Staged listener k e s ∧ StagedAtEveryCall nested listener k e cs s1)
        (by simp only [StagedAtEveryCall, h])
    | (.error _, _) =>
      decidable_of_iff (Staged listener k e s) (by simp only [StagedAtEveryCall, h, and_true])

instance (s : Page) : (r1 r2 : Except JSError JSString) → Decidable (quietDispatch s r1 r2)
  | .ok id, .ok name =>
    inferInstanceAs (Decidable
      (∀ a ∈ s.dom.attached, a.type = name → a.target ∉ s.eventPath (.element id)))
  | .error _, _ => isTrue trivial
  | .ok _, .error _ => isTrue trivial

instance decQuietScript : (script : List ScriptStep) → (s : Page) →
    Decidable (QuietScript script s)
  | [], _ => isTrue trivial
  | .dispatchEvent target name _ :: rest, s =>
    have := decQuietScript rest { s with flags := s.flags ++ [⟨false, false, false, false⟩] }
    inferInstanceAs (Decidable
      ((∀ a ∈ s.dom.attached, a.type = name → a.target ∉ s.eventPath target) ∧
        QuietScript rest { s with flags := s.flags ++ [⟨false, false, false, false⟩] }))
  | .update f :: rest, s => decQuietScript rest (s.outside f)
  | .throw _ :: _, _ => isTrue trivial

instance (s : Page) (script : List ScriptStep) :
    (r : Except JSError JSString) → Decidable (quietEvaluate s script r)
  | .ok _ => inferInstanceAs (Decidable (QuietScript script s))
  | .error _ => isTrue trivial

instance : (c : HostCall) → (s : Page) → Decidable (Quiet c s)
  | .dispatch_custom_event id_ptr id_len name_ptr name_len _, s =>
    inferInstanceAs (Decidable (quietDispatch s (Dom.loadString id_ptr id_len s.dom).1
      (Dom.loadString name_ptr name_len s.dom).1))
  | .evaluate str_ptr str_len script, s =>
    inferInstanceAs (Decidable
      (quietEvaluate s script (Dom.loadString str_ptr str_len s.dom).1))
  | .other effect, s => inferInstanceAs (Decidable (QuietScript effect s))
  | .init_event_raw _, _ => isTrue trivial
  | .event_stop_propagation, _ => isTrue trivial
  | .event_stop_immediate_propagation, _ => isTrue trivial
  | .event_prevent_default, _ => isTrue trivial
  | .add_event_listener _ _ _ _ _ _ _ _, _ => isTrue trivial
  | .add_window_event_listener _ _ _ _ _ _, _ => isTrue trivial
  | .add_document_event_listener _ _ _ _ _ _, _ => isTrue trivial
  | .remove_event_listener _ _ _ _ _ _ _, _ => isTrue trivial
  | .remove_window_event_listener _ _ _ _ _, _ => isTrue trivial
  | .remove_document_event_listener _ _ _ _ _, _ => isTrue trivial
  | .get_gamepad_state _ _, _ => isTrue trivial

instance decQuietCalls (nested : ℤ → ℤ → JS Page Unit) : (cs : List HostCall) → (s : Page) →
    Decidable (QuietCalls nested cs s)
  | [], _ => isTrue trivial
  | c :: cs, s =>
    match h : hostCall nested c s with
    | (.ok _, s1) =>
      have := decQuietCalls nested cs s1
      decidable_of_iff (Quiet c s ∧ QuietCalls nested cs s1) (by simp only [QuietCalls, h])
    | (.error _, _) =>
      decidable_of_iff (Quiet c s) (by simp only [QuietCalls, h, and_true])

end Page

/-! ### A page with a form -/

/-- The listener of the form for `submit`, registered with name_code 5, data
1 and callback 10. -/
def submitListener : Listener := ⟨0, .fin 0, .number (.fin 4), .fin 5, 1, 10⟩

/-- The listener of the form for the custom event `ping`, registered with
name_code 6, data 2 and callback 20. -/
def pingListener : Listener := ⟨1, .fin 0, .number (.fin 4), .fin 6, 2, 20⟩

/-- A page with one element, `form`, that has the two listeners.  The guest
memory (128 bytes, intSize 4) holds the strings `form` at 0, `ping` at 4 and
`idle` at 8.  Event object 0 is a native event that is about to be
dispatched. -/
def formPage : Page where
  dom :=
    { wmi := ⟨"formpingidle".toList.map (fun c => byte c.toNat) ++ List.replicate 116 0, 4⟩
      listenerMap :=
        [(listener_key (ascii "form") (ascii "submit") 1 10 false, submitListener),
         (listener_key (ascii "form") (ascii "ping") 2 20 false, pingListener)]
      event_temp := none
      host := quietHost
      elements := [ascii "form"]
      attached :=
        [⟨.element (ascii "form"), ascii "submit", submitListener, false⟩,
         ⟨.element (ascii "form"), ascii "ping", pingListener, false⟩]
      functions := 2 }
  staged := none
  flags := [⟨false, false, false, false⟩]
  ancestors := []
  roots := []
  gamepads := []
  now := .fin 2000

/-- The native event `submit` of the form: it bubbles and can be canceled. -/
def submitEvent : Event where
  target := .other
  currentTarget := .other
  timeStamp := .fin 1000
  eventPhase := .fin 2
  bubbles := true
  cancelable := true
  composed := false
  isComposing := false
  isTrusted := true
  type := "submit"
  interface := .other

/-- A guest whose callback 10 dispatches a custom event on the form, with
the name of four bytes at `name_ptr`, then calls event_prevent_default and
init_event_raw(64); its other callbacks call nothing. -/
def dispatchingGuest (name_ptr : ℕ) : Guest := fun _ callback =>
  if callback = 10 then
    [.dispatch_custom_event (.fin 0) (.number (.fin 4)) (Num.ofNat name_ptr) (.number (.fin 4)) 0,
     .event_prevent_default,
     .init_event_raw 64]
  else []

/-- The custom event that a script of the page dispatches with
`dispatchEvent(new Event(name))`. -/
def scriptEvent (name : JSString) : Event := Page.newEvent name false false false (.fin 2000)

/-- A guest whose callback 10 calls evaluate (the script text is the four
bytes at 0) and then event_prevent_default and init_event_raw(64); the
script dispatches an event of type `name` on the form and moves the clock.
Its other callbacks call nothing. -/
def evaluatingGuest (name : JSString) : Guest := fun _ callback =>
  if callback = 10 then
    [.evaluate (.fin 0) (.number (.fin 4))
       [.dispatchEvent (.element (ascii "form")) name (scriptEvent name),
        .update (fun s => { s with now := .fin 3000 })],
     .other [.update (fun s => { s with now := .fin 3001 })],
     .event_prevent_default,
     .init_event_raw 64]
  else []

/-- The listener of the window for `wheel`, registered with name_code 7, data
3 and callback 30. -/
def wheelListener : Listener := ⟨2, .fin 0, .number (.fin 4), .fin 7, 3, 30⟩

/-- The page with a form and, in addition, the `wheel` listener on the window
and on the form. -/
def wheelPage : Page :=
  let attached : List Attached :=
    [⟨.window, ascii "wheel", wheelListener, false⟩,
     ⟨.element (ascii "form"), ascii "wheel", wheelListener, false⟩]
  { formPage with dom := { formPage.dom with attached := attached } }

/-- A native `wheel` event: it bubbles and can be canceled. -/
def nativeWheel : Event := { submitEvent with type := "wheel" }

/-- A guest whose callback 30 calls event_prevent_default. -/
def cancellingGuest : Guest := fun _ callback =>
  if callback = 30 then [.event_prevent_default] else []

/-- The imports of `Dom` that leave `event_temp` as it is. -/
def DomKeeps {α : Type} (p : JS Dom α) : Prop := ∀ s, (p s).2.event_temp = s.event_temp

/-- The computations on the page that keep a staged event staged. -/
def PageKeeps {α : Type} (listener : Listener) (k : ℕ) (e : Event) (p : JS Page α) : Prop :=
  ∀ s, Page.Staged listener k e s → Page.Staged listener k e (p s).2

end Odin

namespace Odin

theorem pow2_eq (e : ℤ) : pow2 e = (2:ℚ)^e := by
  unfold pow2
  split
  · rename_i h
    obtain ⟨n, rfl⟩ := Int.eq_ofNat_of_zero_le h
    simp
  · rename_i h
    obtain ⟨n, hn⟩ := Int.exists_eq_neg_ofNat (le_of_lt (not_le.mp h))
    subst hn
    simp

theorem pow2_pos (e : ℤ) : 0 < pow2 e := by
  rw [pow2_eq]; positivity

theorem pow2_add (a b : ℤ) : pow2 (a + b) = pow2 a * pow2 b := by
  simp only [pow2_eq]; exact zpow_add₀ (by norm_num) a b

theorem pow2_le_pow2 {a b : ℤ} (h : a ≤ b) : pow2 a ≤ pow2 b := by
  simp only [pow2_eq]; exact zpow_le_zpow_right₀ (by norm_num) h

theorem pow2_lt_pow2 {a b : ℤ} (h : a < b) : pow2 a < pow2 b := by
  simp only [pow2_eq]; exact zpow_lt_zpow_right₀ (by norm_num) h

theorem pow2_natCast (n : ℕ) : pow2 (n : ℤ) = (2:ℚ)^n := by
  rw [pow2_eq]; exact zpow_natCast 2 n

theorem log2Aux_eq (fuel n : ℕ) (h : n ≤ fuel) : log2Aux fuel n = Nat.log 2 n := by
  induction fuel generalizing n with
  | zero =>
    have : n = 0 := by omega
    subst this; simp [log2Aux]
  | succ k ih =>
    unfold log2Aux
    split
    · rename_i h2
      rw [ih (n / 2) (by omega), Nat.log_of_one_lt_of_le (by norm_num) h2]
    · rename_i h2
      rw [Nat.log_of_lt (by omega)]

theorem natLog2_eq (n : ℕ) : natLog2 n = Nat.log 2 n := log2Aux_eq n n le_rfl

theorem natLog2_le (n : ℕ) (h : n ≠ 0) : (2:ℚ) ^ natLog2 n ≤ n := by
  rw [natLog2_eq]
  exact_mod_cast Nat.pow_log_le_self 2 h

theorem natLog2_lt (n : ℕ) : (n : ℚ) < (2:ℚ) ^ (natLog2 n + 1) := by
  rw [natLog2_eq]
  exact_mod_cast Nat.lt_pow_succ_log_self (by norm_num) n

theorem floorLog2_spec (q : ℚ) (hq : q ≠ 0) :
    pow2 (floorLog2 q) ≤ |q| ∧ |q| < pow2 (floorLog2 q + 1) := by
  have hnum : q.num.natAbs ≠ 0 := by simpa using hq
  have hden : q.den ≠ 0 := q.den_nz
  have hdpos : (0:ℚ) < q.den := by exact_mod_cast Nat.pos_of_ne_zero hden
  have habs : |q| = (q.num.natAbs : ℚ) / q.den := by
    conv_lhs => rw [← Rat.num_div_den q]
    rw [abs_div, Nat.abs_cast, Nat.cast_natAbs, Int.cast_abs]
  have h1 := natLog2_le _ hnum
  have h2 := natLog2_lt q.num.natAbs
  have h3 := natLog2_le _ hden
  have h4 := natLog2_lt q.den
  set a := natLog2 q.num.natAbs
  set b := natLog2 q.den
  set n : ℚ := (q.num.natAbs : ℚ)
  set d : ℚ := (q.den : ℚ)
  have hpa : pow2 ((a:ℤ) - b) = (2:ℚ)^a / 2^b := by
    rw [pow2_eq, zpow_sub₀ (by norm_num)]; simp
  unfold floorLog2
  simp only []
  split
  · rename_i h
    refine ⟨h, ?_⟩
    rw [habs, pow2_add, hpa, div_lt_iff₀ hdpos]
    have : pow2 1 = 2 := by rw [pow2_eq]; norm_num
    rw [this]
    have hb : (0:ℚ) < 2^b := by positivity
    calc n < 2^(a+1) := h2
      _ = 2^a / 2^b * 2 * 2^b := by field_simp; ring
      _ ≤ 2^a / 2^b * 2 * d := by
          apply mul_le_mul_of_nonneg_left h3; positivity
  · rename_i h
    have h' := not_le.mp h
    constructor
    · rw [habs, show ((a:ℤ) - b - 1) = ((a:ℤ) - b) + (-1) by ring, pow2_add, hpa, le_div_iff₀ hdpos]
      have : pow2 (-1) = 1/2 := by rw [pow2_eq]; norm_num
      rw [this]
      have hb : (0:ℚ) < 2^b := by positivity
      calc 2^a / 2^b * (1/2) * d ≤ 2^a / 2^b * (1/2) * 2^(b+1) := by
            apply mul_le_mul_of_nonneg_left (le_of_lt h4); positivity
        _ = 2^a := by field_simp; ring
        _ ≤ n := h1
    · simpa using h'

theorem roundHalfEven_intCast (z : ℤ) : roundHalfEven (z : ℚ) = z := by
  simp [roundHalfEven]

theorem roundDouble_exact (m k : ℤ) (hm : |m| < 2 ^ 53) (hk : -1074 ≤ k) (hk2 : k ≤ 970) :
    roundDouble (m * pow2 k) = .fin (m * pow2 k) := by
  by_cases hm0 : m = 0
  · subst hm0; simp [roundDouble]
  have hpk := pow2_pos k
  have hq : (m : ℚ) * pow2 k ≠ 0 := by
    have : (m : ℚ) ≠ 0 := by exact_mod_cast hm0
    positivity
  have habs : |(m : ℚ) * pow2 k| = ((|m| : ℤ) : ℚ) * pow2 k := by
    rw [abs_mul, abs_of_pos hpk, Int.cast_abs]
  have hmq : ((|m| : ℤ) : ℚ) < 2 ^ 53 := by exact_mod_cast hm
  obtain ⟨hlo, -⟩ := floorLog2_spec _ hq
  have he : floorLog2 ((m : ℚ) * pow2 k) < 53 + k := by
    by_contra hcon
    have h1 := pow2_le_pow2 (not_lt.mp hcon)
    have h2 : pow2 (53 + k) = 2 ^ 53 * pow2 k := by
      rw [pow2_add, pow2_eq 53]; norm_num
    have h3 : ((|m| : ℤ) : ℚ) * pow2 k < 2 ^ 53 * pow2 k :=
      mul_lt_mul_of_pos_right hmq hpk
    rw [habs] at hlo
    linarith
  have hu : ulpExp ((m : ℚ) * pow2 k) ≤ k := by
    unfold ulpExp; omega
  obtain ⟨n, hn⟩ := Int.eq_ofNat_of_zero_le (sub_nonneg.mpr hu)
  have hk' : k = ulpExp ((m : ℚ) * pow2 k) + n := by omega
  have hdiv : |(m : ℚ) * pow2 k| / pow2 (ulpExp ((m : ℚ) * pow2 k))
      = ((|m| * 2 ^ n : ℤ) : ℚ) := by
    rw [habs]
    have hpu := pow2_pos (ulpExp ((m : ℚ) * pow2 k))
    rw [div_eq_iff (ne_of_gt hpu)]
    conv_lhs => rw [hk', pow2_add, pow2_natCast]
    push_cast; ring
  have hback : ((|m| * 2 ^ n : ℤ) : ℚ) * pow2 (ulpExp ((m : ℚ) * pow2 k))
      = |(m : ℚ) * pow2 k| := by
    rw [← hdiv]
    exact div_mul_cancel₀ _ (ne_of_gt (pow2_pos _))
  have hne : |m| * 2 ^ n ≠ 0 := by
    have : |m| ≠ 0 := by simpa using hm0
    positivity
  have hbig : ¬ pow2 1024 ≤ |(m : ℚ) * pow2 k| := by
    rw [habs, not_le]
    have h1 : pow2 k ≤ pow2 970 := pow2_le_pow2 hk2
    have h2 : (0:ℚ) ≤ ((|m| : ℤ) : ℚ) := by exact_mod_cast abs_nonneg m
    have h3 : pow2 1024 = 2 ^ 54 * pow2 970 := by
      rw [show (1024 : ℤ) = 54 + 970 by norm_num, pow2_add, pow2_eq 54]; norm_num
    have h4 := pow2_pos 970
    rw [h3]
    nlinarith
  unfold roundDouble
  rw [if_neg hq]
  simp only []
  rw [hdiv, roundHalfEven_intCast, if_neg hne, hback, if_neg hbig]
  congr 1
  split
  · rename_i hneg; rw [abs_of_neg hneg]; ring
  · rename_i hneg; rw [abs_of_nonneg (not_lt.mp hneg)]

theorem roundDouble_intCast (z : ℤ) (hz : |z| < 2 ^ 53) : roundDouble (z : ℚ) = .fin z := by
  have := roundDouble_exact z 0 hz (by norm_num) (by norm_num)
  simpa [pow2] using this

end Odin

namespace Odin

/-! ## Buffer lemmas -/

theorem length_leBytes (n v : ℕ) : (leBytes n v).length = n := by
  induction n generalizing v with
  | zero => rfl
  | succ k ih => simp [leBytes, ih]

theorem leValue_leBytes (n v : ℕ) : leValue (leBytes n v) = v % 256 ^ n := by
  induction n generalizing v with
  | zero => simp [leBytes, leValue, Nat.mod_one]
  | succ k ih =>
    simp only [leBytes, leValue, ih]
    rw [pow_succ, mul_comm (256 ^ k) 256, Nat.mod_mul]

theorem getElem?_leBytes (n v k : ℕ) (hk : k < n) :
    ((leBytes n v)[k]?).map Fin.val = some (v / 256 ^ k % 256) := by
  induction n generalizing v k with
  | zero => omega
  | succ m ih =>
    cases k with
    | zero => simp [leBytes]
    | succ j =>
      simp only [leBytes, List.getElem?_cons_succ]
      rw [ih (v / 256) j (by omega), Nat.div_div_eq_div_mul, pow_succ, mul_comm]

theorem length_writeBytes (buf : List Byte) (addr : ℕ) (bs : List Byte)
    (h : addr + bs.length ≤ buf.length) : (writeBytes buf addr bs).length = buf.length := by
  simp [writeBytes]; omega

theorem readBytes_writeBytes_same (buf : List Byte) (addr : ℕ) (bs : List Byte)
    (h : addr + bs.length ≤ buf.length) :
    readBytes (writeBytes buf addr bs) addr bs.length = bs := by
  have h1 : (buf.take addr).length = addr := by simp; omega
  unfold readBytes writeBytes
  rw [List.append_assoc, List.drop_append_of_le_length (by omega)]
  rw [List.drop_of_length_le (by omega), List.nil_append]
  simp

theorem getElem?_writeBytes_inside (buf : List Byte) (addr : ℕ) (bs : List Byte) (k : ℕ)
    (h : addr + bs.length ≤ buf.length) (hk : k < bs.length) :
    (writeBytes buf addr bs)[addr + k]? = bs[k]? := by
  have h1 : (buf.take addr).length = addr := by simp; omega
  unfold writeBytes
  rw [List.append_assoc, List.getElem?_append_right (by omega), h1]
  rw [List.getElem?_append_left (by omega)]
  congr 1; omega

theorem getElem?_writeBytes_outside (buf : List Byte) (addr : ℕ) (bs : List Byte) (i : ℕ)
    (h : addr + bs.length ≤ buf.length) (hi : i < addr ∨ addr + bs.length ≤ i) :
    (writeBytes buf addr bs)[i]? = buf[i]? := by
  have h1 : (buf.take addr).length = addr := by simp; omega
  unfold writeBytes
  rcases hi with hi | hi
  · rw [List.append_assoc, List.getElem?_append_left (by omega)]
    rw [List.getElem?_take_of_lt hi]
  · rw [List.getElem?_append_right (by simp; omega)]
    simp only [List.length_append, h1, List.getElem?_drop]
    congr 1; omega

theorem readBytes_writeBytes_disjoint (buf : List Byte) (addr : ℕ) (bs : List Byte) (b n : ℕ)
    (h : addr + bs.length ≤ buf.length) (hd : b + n ≤ addr ∨ addr + bs.length ≤ b) :
    readBytes (writeBytes buf addr bs) b n = readBytes buf b n := by
  apply List.ext_getElem?
  intro i
  unfold readBytes
  by_cases hi : i < n
  · rw [List.getElem?_take_of_lt hi, List.getElem?_take_of_lt hi, List.getElem?_drop,
      List.getElem?_drop]
    exact getElem?_writeBytes_outside buf addr bs (b + i) h (by omega)
  · rw [List.getElem?_eq_none (by simp; omega), List.getElem?_eq_none (by simp; omega)]

end Odin

namespace Odin

/-! ## Conversions on integer-valued numbers -/

theorem truncate_intCast (n : ℤ) : Num.truncate (.fin (n : ℚ)) = n := by
  simp only [Num.truncate]
  split
  · exact Int.floor_intCast n
  · rw [← Int.cast_neg, Int.floor_intCast]; ring

theorem toUintN_intCast (bits : ℕ) (n : ℤ) :
    Num.toUintN bits (.fin (n : ℚ)) = (n % (2 ^ bits : ℕ)).toNat := by
  simp only [Num.toUintN, truncate_intCast]

theorem toIntN_intCast (bits : ℕ) (n : ℤ) :
    Num.toIntN bits (.fin (n : ℚ)) =
      if ((2 ^ (bits - 1) : ℕ) : ℤ) ≤ n % (2 ^ bits : ℕ) then n % (2 ^ bits : ℕ) - (2 ^ bits : ℕ)
      else n % (2 ^ bits : ℕ) := by
  simp only [Num.toIntN, truncate_intCast]

/-! ## DataView lemmas -/

theorem setUint_number (w addr : ℕ) (x : Num) (buf : List Byte) (h : addr + w ≤ buf.length) :
    DataView.setUint w addr (.number x) buf
      = (.ok (), writeBytes buf addr (leBytes w (x.toUintN (8 * w)))) := by
  simp [DataView.setUint, toNumber, h]

theorem setInt_number (w addr : ℕ) (x : Num) (buf : List Byte) (h : addr + w ≤ buf.length) :
    DataView.setInt w addr (.number x) buf
      = (.ok (), writeBytes buf addr
          (leBytes w ((x.toIntN (8 * w)) % (2 ^ (8 * w) : ℕ)).toNat)) := by
  simp [DataView.setInt, toNumber, h]

theorem getUint_writeBytes_same (w addr v : ℕ) (buf : List Byte) (h : addr + w ≤ buf.length) :
    DataView.getUint w (writeBytes buf addr (leBytes w v)) addr = .ok (v % 256 ^ w) := by
  have hl := length_leBytes w v
  have h1 := length_writeBytes buf addr (leBytes w v) (by omega)
  have h2 := readBytes_writeBytes_same buf addr (leBytes w v) (by omega)
  rw [hl] at h2
  simp [DataView.getUint, h1, h, h2, leValue_leBytes]

theorem getUint_writeBytes_disjoint (w addr b : ℕ) (bs : List Byte) (buf : List Byte)
    (h : addr + bs.length ≤ buf.length) (hd : b + w ≤ addr ∨ addr + bs.length ≤ b) :
    DataView.getUint w (writeBytes buf addr bs) b = DataView.getUint w buf b := by
  simp [DataView.getUint, length_writeBytes buf addr bs h,
    readBytes_writeBytes_disjoint buf addr bs b w h hd]

/-- Unsigned round trip through a DataView, widths 1, 2 and 4. -/
theorem getUint_setUint (w addr : ℕ) (n : ℤ) (buf : List Byte) (hw : w = 1 ∨ w = 2 ∨ w = 4)
    (h : addr + w ≤ buf.length) (h0 : 0 ≤ n) (h1 : n < 2 ^ (8 * w)) :
    (DataView.setUint w addr (.number (.fin n)) buf).1 = .ok () ∧
    DataView.getUint w (DataView.setUint w addr (.number (.fin n)) buf).2 addr
      = .ok n.toNat := by
  rw [setUint_number w addr _ buf h]
  refine ⟨rfl, ?_⟩
  simp only []
  rw [getUint_writeBytes_same w addr _ buf h, toUintN_intCast]
  congr 1
  rcases hw with rfl | rfl | rfl <;> norm_num at h1 ⊢ <;> omega

/-- Signed round trip through a DataView, widths 1, 2 and 4. -/
theorem getInt_setInt (w addr : ℕ) (n : ℤ) (buf : List Byte) (hw : w = 1 ∨ w = 2 ∨ w = 4)
    (h : addr + w ≤ buf.length) (h0 : -(2 ^ (8 * w - 1)) ≤ n) (h1 : n < 2 ^ (8 * w - 1)) :
    (DataView.setInt w addr (.number (.fin n)) buf).1 = .ok () ∧
    DataView.getInt w (DataView.setInt w addr (.number (.fin n)) buf).2 addr = .ok n := by
  rw [setInt_number w addr _ buf h]
  refine ⟨rfl, ?_⟩
  simp only [DataView.getInt]
  rw [getUint_writeBytes_same w addr _ buf h, toIntN_intCast]
  simp only []
  congr 1
  rcases hw with rfl | rfl | rfl <;> norm_num at h0 h1 ⊢ <;> split <;> split <;> omega

end Odin

namespace Odin

open WasmMemoryInterface

theorem ofNat_toNat (n : ℤ) (h : 0 ≤ n) : Num.ofNat n.toNat = .fin (n : ℚ) := by
  obtain ⟨k, rfl⟩ := Int.eq_ofNat_of_zero_le h
  simp [Num.ofNat]

theorem roundTrips_unsigned (w : ℕ) (wmi : WasmMemoryInterface) (addr : ℕ) (n : ℤ)
    (hw : w = 1 ∨ w = 2 ∨ w = 4) (h : addr + w ≤ wmi.memory.length)
    (h0 : 0 ≤ n) (h1 : n < 2 ^ (8 * w)) :
    RoundTrips (fun a v => onMem (DataView.setUint w a v))
      (fun m a => (DataView.getUint w m.memory a).map Num.ofNat) wmi addr (.number (.fin n)) n := by
  obtain ⟨hs, hl⟩ := getUint_setUint w addr n wmi.memory hw h h0 h1
  refine ⟨hs, ?_⟩
  simp only [onMem, hl, Except.map, ofNat_toNat n h0]

theorem roundTrips_signed (w : ℕ) (wmi : WasmMemoryInterface) (addr : ℕ) (n : ℤ)
    (hw : w = 1 ∨ w = 2 ∨ w = 4) (h : addr + w ≤ wmi.memory.length)
    (h0 : -(2 ^ (8 * w - 1)) ≤ n) (h1 : n < 2 ^ (8 * w - 1)) :
    RoundTrips (fun a v => onMem (DataView.setInt w a v))
      (fun m a => (DataView.getInt w m.memory a).map Num.ofInt) wmi addr (.number (.fin n)) n := by
  obtain ⟨hs, hl⟩ := getInt_setInt w addr n wmi.memory hw h h0 h1
  refine ⟨hs, ?_⟩
  simp only [onMem, hl, Except.map, Num.ofInt]

theorem roundTrips_storeInt_4 (wmi : WasmMemoryInterface) (addr : ℕ) (v : JSValue) (n : ℤ)
    (hW : wmi.intSize = 4) :
    RoundTrips storeInt loadInt wmi addr v n ↔ RoundTrips storeI32 loadI32 wmi addr v n := by
  have hi : (storeI32 addr v wmi).2.intSize = 4 := hW
  simp [RoundTrips, storeInt, loadInt, hW, hi]

theorem roundTrips_storeUint_4 (wmi : WasmMemoryInterface) (addr : ℕ) (v : JSValue) (n : ℤ)
    (hW : wmi.intSize = 4) :
    RoundTrips storeUint loadUint wmi addr v n ↔ RoundTrips storeU32 loadU32 wmi addr v n := by
  have hi : (storeU32 addr v wmi).2.intSize = 4 := hW
  simp [RoundTrips, storeUint, loadUint, hW, hi]

/-- C1: every fixed-width integer accessor pair (storeU8/loadU8, storeI8/loadI8,
storeU16/loadU16, storeI16/loadI16, storeU32/loadU32, storeI32/loadI32) and,
with intSize = 4, storeInt/loadInt and storeUint/loadUint round-trips: at an
in-bounds address, loading right after storing an integer n representable in
the accessor's width and signedness returns n. -/
theorem C1_fixed_width_round_trip (wmi : WasmMemoryInterface) (addr : ℕ) (n : ℤ) :
    (addr + 1 ≤ wmi.memory.length → 0 ≤ n → n < 2 ^ 8 →
      RoundTrips storeU8 loadU8 wmi addr (.number (.fin n)) n) ∧
    (addr + 1 ≤ wmi.memory.length → -(2 ^ 7) ≤ n → n < 2 ^ 7 →
      RoundTrips storeI8 loadI8 wmi addr (.number (.fin n)) n) ∧
    (addr + 2 ≤ wmi.memory.length → 0 ≤ n → n < 2 ^ 16 →
      RoundTrips storeU16 loadU16 wmi addr (.number (.fin n)) n) ∧
    (addr + 2 ≤ wmi.memory.length → -(2 ^ 15) ≤ n → n < 2 ^ 15 →
      RoundTrips storeI16 loadI16 wmi addr (.number (.fin n)) n) ∧
    (addr + 4 ≤ wmi.memory.length → 0 ≤ n → n < 2 ^ 32 →
      RoundTrips storeU32 loadU32 wmi addr (.number (.fin n)) n) ∧
    (addr + 4 ≤ wmi.memory.length → -(2 ^ 31) ≤ n → n < 2 ^ 31 →
      RoundTrips storeI32 loadI32 wmi addr (.number (.fin n)) n) ∧
    (wmi.intSize = 4 → addr + 4 ≤ wmi.memory.length → -(2 ^ 31) ≤ n → n < 2 ^ 31 →
      RoundTrips storeInt loadInt wmi addr (.number (.fin n)) n) ∧
    (wmi.intSize = 4 → addr + 4 ≤ wmi.memory.length → 0 ≤ n → n < 2 ^ 32 →
      RoundTrips storeUint loadUint wmi addr (.number (.fin n)) n) := by
  refine ⟨?_, ?_, ?_, ?_, ?_, ?_, ?_, ?_⟩
  · intro h h0 h1
    exact roundTrips_unsigned 1 wmi addr n (by simp) h h0 h1
  · intro h h0 h1
    exact roundTrips_signed 1 wmi addr n (by simp) h h0 h1
  · intro h h0 h1
    exact roundTrips_unsigned 2 wmi addr n (by simp) h h0 h1
  · intro h h0 h1
    exact roundTrips_signed 2 wmi addr n (by simp) h h0 h1
  · intro h h0 h1
    exact roundTrips_unsigned 4 wmi addr n (by simp) h h0 h1
  · intro h h0 h1
    exact roundTrips_signed 4 wmi addr n (by simp) h h0 h1
  · intro hW h h0 h1
    exact (roundTrips_storeInt_4 wmi addr _ n hW).mpr
      (roundTrips_signed 4 wmi addr n (by simp) h h0 h1)
  · intro hW h h0 h1
    exact (roundTrips_storeUint_4 wmi addr _ n hW).mpr
      (roundTrips_unsigned 4 wmi addr n (by simp) h h0 h1)

/-- Witness of C1 at the value 100 and address 2 of a 8-byte buffer. -/
theorem C1_fixed_width_round_trip_witness :
    RoundTrips storeU8 loadU8 ⟨List.replicate 8 0, 4⟩ 2 (.number (.fin (100 : ℤ))) 100 ∧
    RoundTrips storeI8 loadI8 ⟨List.replicate 8 0, 4⟩ 2 (.number (.fin (100 : ℤ))) 100 ∧
    RoundTrips storeU16 loadU16 ⟨List.replicate 8 0, 4⟩ 2 (.number (.fin (100 : ℤ))) 100 ∧
    RoundTrips storeI16 loadI16 ⟨List.replicate 8 0, 4⟩ 2 (.number (.fin (100 : ℤ))) 100 ∧
    RoundTrips storeU32 loadU32 ⟨List.replicate 8 0, 4⟩ 2 (.number (.fin (100 : ℤ))) 100 ∧
    RoundTrips storeI32 loadI32 ⟨List.replicate 8 0, 4⟩ 2 (.number (.fin (100 : ℤ))) 100 ∧
    RoundTrips storeInt loadInt ⟨List.replicate 8 0, 4⟩ 2 (.number (.fin (100 : ℤ))) 100 ∧
    RoundTrips storeUint loadUint ⟨List.replicate 8 0, 4⟩ 2 (.number (.fin (100 : ℤ))) 100 :=
  have h := C1_fixed_width_round_trip ⟨List.replicate 8 0, 4⟩ 2 100
  ⟨h.1 (by decide) (by decide) (by decide),
   h.2.1 (by decide) (by decide) (by decide),
   h.2.2.1 (by decide) (by decide) (by decide),
   h.2.2.2.1 (by decide) (by decide) (by decide),
   h.2.2.2.2.1 (by decide) (by decide) (by decide),
   h.2.2.2.2.2.1 (by decide) (by decide) (by decide),
   h.2.2.2.2.2.2.1 rfl (by decide) (by decide) (by decide),
   h.2.2.2.2.2.2.2 rfl (by decide) (by decide) (by decide)⟩

end Odin

namespace Odin

open WasmMemoryInterface

theorem storesLittleEndian_of_bytes (store : ℕ → JSValue → JS WasmMemoryInterface Unit)
    (w : ℕ) (wmi : WasmMemoryInterface) (addr : ℕ) (v : ℤ) (u : ℕ)
    (h : addr + w ≤ wmi.memory.length)
    (hstore : store addr (.number (.fin v)) wmi
      = (.ok (), { wmi with memory := writeBytes wmi.memory addr (leBytes w u) }))
    (hu : ∀ k, k < w → u / 256 ^ k % 256 = twosComplementByte v k) :
    StoresLittleEndian store w wmi addr v := by
  have hl := length_leBytes w u
  unfold StoresLittleEndian
  rw [hstore]
  refine ⟨rfl, ?_, ?_, ?_⟩
  · intro k hk
    simp only []
    rw [getElem?_writeBytes_inside _ _ _ _ (by omega) (by omega), getElem?_leBytes w u k hk,
      hu k hk]
  · intro i hi
    exact getElem?_writeBytes_outside _ _ _ _ (by omega) (by omega)
  · exact length_writeBytes _ _ _ (by omega)

/-- C3: the multi-byte integer stores are little-endian.  At an in-bounds
address, storeU16 / storeI16 leave byte k of the two's complement of v at
addr + k for k = 0, 1 and storeU32 / storeI32 for k = 0..3, and every byte
outside [addr, addr + width) is unchanged. -/
theorem C3_stores_little_endian (wmi : WasmMemoryInterface) (addr : ℕ) (v : ℤ) :
    (addr + 2 ≤ wmi.memory.length → 0 ≤ v → v < 2 ^ 16 →
      StoresLittleEndian storeU16 2 wmi addr v) ∧
    (addr + 2 ≤ wmi.memory.length → -(2 ^ 15) ≤ v → v < 2 ^ 15 →
      StoresLittleEndian storeI16 2 wmi addr v) ∧
    (addr + 4 ≤ wmi.memory.length → 0 ≤ v → v < 2 ^ 32 →
      StoresLittleEndian storeU32 4 wmi addr v) ∧
    (addr + 4 ≤ wmi.memory.length → -(2 ^ 31) ≤ v → v < 2 ^ 31 →
      StoresLittleEndian storeI32 4 wmi addr v) := by
  refine ⟨?_, ?_, ?_, ?_⟩
  · intro h _ _
    refine storesLittleEndian_of_bytes _ 2 wmi addr v
      (Num.toUintN (8 * 2) (.fin v)) h ?_ ?_
    · simp only [storeU16, onMem, setUint_number 2 addr _ _ h]
    · intro k hk
      rw [toUintN_intCast]
      unfold twosComplementByte
      interval_cases k <;> norm_num <;> omega
  · intro h _ _
    refine storesLittleEndian_of_bytes _ 2 wmi addr v
      (((Num.toIntN (8 * 2) (.fin v)) % (2 ^ (8 * 2) : ℕ)).toNat) h ?_ ?_
    · simp only [storeI16, onMem, setInt_number 2 addr _ _ h]
    · intro k hk
      rw [toIntN_intCast]
      unfold twosComplementByte
      interval_cases k <;> norm_num <;> split <;> omega
  · intro h _ _
    refine storesLittleEndian_of_bytes _ 4 wmi addr v
      (Num.toUintN (8 * 4) (.fin v)) h ?_ ?_
    · simp only [storeU32, onMem, setUint_number 4 addr _ _ h]
    · intro k hk
      rw [toUintN_intCast]
      unfold twosComplementByte
      interval_cases k <;> norm_num <;> omega
  · intro h _ _
    refine storesLittleEndian_of_bytes _ 4 wmi addr v
      (((Num.toIntN (8 * 4) (.fin v)) % (2 ^ (8 * 4) : ℕ)).toNat) h ?_ ?_
    · simp only [storeI32, onMem, setInt_number 4 addr _ _ h]
    · intro k hk
      rw [toIntN_intCast]
      unfold twosComplementByte
      interval_cases k <;> norm_num <;> split <;> omega

/-- Witness of C3 at the value 258 = 0x0102 and address 1 of a 6-byte buffer. -/
theorem C3_stores_little_endian_witness :
    StoresLittleEndian storeU16 2 ⟨List.replicate 6 0, 4⟩ 1 258 ∧
    StoresLittleEndian storeI16 2 ⟨List.replicate 6 0, 4⟩ 1 258 ∧
    StoresLittleEndian storeU32 4 ⟨List.replicate 6 0, 4⟩ 1 258 ∧
    StoresLittleEndian storeI32 4 ⟨List.replicate 6 0, 4⟩ 1 258 :=
  have h := C3_stores_little_endian ⟨List.replicate 6 0, 4⟩ 1 258
  ⟨h.1 (by decide) (by decide) (by decide),
   h.2.1 (by decide) (by decide) (by decide),
   h.2.2.1 (by decide) (by decide) (by decide),
   h.2.2.2 (by decide) (by decide) (by decide)⟩

end Odin

namespace Odin

open WasmMemoryInterface

/-! ## Doubles that are integers -/

theorem roundHalfEven_bounds (x : ℚ) (N : ℤ) (h0 : 0 ≤ x) (h1 : x < N) :
    0 ≤ roundHalfEven x ∧ roundHalfEven x ≤ N := by
  have hf0 : 0 ≤ ⌊x⌋ := Int.floor_nonneg.mpr h0
  have hf1 : ⌊x⌋ < N := Int.floor_lt.mpr h1
  unfold roundHalfEven
  simp only []
  split
  · omega
  · split
    · omega
    · split <;> omega

/-- An integer that a double holds exactly is `m * 2^k` with a 53-bit `m`. -/
theorem representable_decomp (n : ℤ) (hn : n ≠ 0) (hrep : roundDouble (n : ℚ) = .fin n) :
    ∃ m k : ℤ, |m| < 2 ^ 53 ∧ m ≠ 0 ∧ -52 ≤ k ∧ (n : ℚ) = m * pow2 k := by
  have hq : (n : ℚ) ≠ 0 := by exact_mod_cast hn
  obtain ⟨hlo, hhi⟩ := floorLog2_spec _ hq
  have habs1 : (1 : ℚ) ≤ |(n : ℚ)| := by
    rw [← Int.cast_abs]
    have : (1 : ℤ) ≤ |n| := Int.one_le_abs hn
    exact_mod_cast this
  have he : 0 ≤ floorLog2 (n : ℚ) := by
    by_contra hcon
    have h1 : pow2 (floorLog2 (n : ℚ) + 1) ≤ pow2 0 := pow2_le_pow2 (by omega)
    have h2 : pow2 0 = 1 := by simp [pow2]
    linarith
  have hu1 : floorLog2 (n : ℚ) - 52 ≤ ulpExp (n : ℚ) := le_max_left _ _
  have hu2 : -52 ≤ ulpExp (n : ℚ) := by omega
  have hpu := pow2_pos (ulpExp (n : ℚ))
  have hx0 : 0 ≤ |(n : ℚ)| / pow2 (ulpExp (n : ℚ)) := by positivity
  have hx1 : |(n : ℚ)| / pow2 (ulpExp (n : ℚ)) < ((2 ^ 53 : ℤ) : ℚ) := by
    rw [div_lt_iff₀ hpu]
    have h3 : pow2 (floorLog2 (n : ℚ) + 1) ≤ pow2 (53 + ulpExp (n : ℚ)) :=
      pow2_le_pow2 (by omega)
    have h4 : pow2 (53 + ulpExp (n : ℚ)) = 2 ^ 53 * pow2 (ulpExp (n : ℚ)) := by
      rw [pow2_add, pow2_eq 53]; norm_num
    push_cast
    linarith
  obtain ⟨hm0, hm1⟩ := roundHalfEven_bounds _ _ hx0 hx1
  set mr := roundHalfEven (|(n : ℚ)| / pow2 (ulpExp (n : ℚ))) with hmr
  have hval : ∃ s : ℤ, (s = 1 ∨ s = -1) ∧ mr ≠ 0 ∧
      (n : ℚ) = (s * mr : ℤ) * pow2 (ulpExp (n : ℚ)) := by
    unfold roundDouble at hrep
    rw [if_neg hq] at hrep
    simp only [] at hrep
    rw [← hmr] at hrep
    by_cases hz : mr = 0
    · rw [if_pos hz] at hrep
      split at hrep
      · exact absurd hrep (by simp)
      · simp only [Num.fin.injEq] at hrep
        exact absurd hrep.symm hq
    · rw [if_neg hz] at hrep
      split at hrep
      · split at hrep <;> exact absurd hrep (by simp)
      · split at hrep
        · refine ⟨-1, Or.inr rfl, hz, ?_⟩
          simp only [Num.fin.injEq] at hrep
          refine hrep.symm.trans ?_
          push_cast; ring
        · refine ⟨1, Or.inl rfl, hz, ?_⟩
          simp only [Num.fin.injEq] at hrep
          refine hrep.symm.trans ?_
          push_cast; ring
  obtain ⟨s, hs, hmrz, hn'⟩ := hval
  by_cases hlt : mr < 2 ^ 53
  · refine ⟨s * mr, ulpExp (n : ℚ), ?_, ?_, hu2, hn'⟩
    · rcases hs with rfl | rfl
      · rw [one_mul, abs_of_nonneg hm0]; exact hlt
      · rw [neg_one_mul, abs_neg, abs_of_nonneg hm0]; exact hlt
    · rcases hs with rfl | rfl <;> simpa using hmrz
  · have hmr' : mr = 2 ^ 53 := by omega
    refine ⟨s, ulpExp (n : ℚ) + 53, ?_, ?_, by omega, ?_⟩
    · rcases hs with rfl | rfl <;> norm_num
    · rcases hs with rfl | rfl <;> norm_num
    · refine hn'.trans ?_
      rw [hmr', pow2_add, pow2_eq 53]; push_cast; ring

theorem representable_div (n : ℤ) (hrep : roundDouble (n : ℚ) = .fin n) (hb : |n| ≤ 2 ^ 64) :
    roundDouble ((n : ℚ) / 4294967296) = .fin ((n : ℚ) / 4294967296) := by
  by_cases hn : n = 0
  · subst hn; simp [roundDouble]
  obtain ⟨m, k, hm, hm0, hk, hnk⟩ := representable_decomp n hn hrep
  have hpk := pow2_pos k
  have hk64 : k ≤ 64 := by
    by_contra hcon
    have h1 : pow2 65 ≤ pow2 k := pow2_le_pow2 (by omega)
    have h2 : pow2 65 = 2 ^ 65 := by rw [pow2_eq]; norm_num
    have h3 : (1 : ℚ) ≤ |(m : ℚ)| := by
      rw [← Int.cast_abs]
      have : (1 : ℤ) ≤ |m| := Int.one_le_abs hm0
      exact_mod_cast this
    have h4 : |(n : ℚ)| = |(m : ℚ)| * pow2 k := by
      rw [hnk, abs_mul, abs_of_pos hpk]
    have h5 : |(n : ℚ)| ≤ 2 ^ 64 := by
      rw [← Int.cast_abs]; exact_mod_cast hb
    nlinarith
  have h32 : (n : ℚ) / 4294967296 = m * pow2 (k - 32) := by
    rw [hnk, show k - 32 = k + (-32) by ring, pow2_add, pow2_eq (-32)]
    norm_num; ring
  rw [h32]
  exact roundDouble_exact m (k - 32) hm (by omega) (by omega)

theorem floor_div_pow32 (n : ℤ) : ⌊(n : ℚ) / 4294967296⌋ = n / 4294967296 := by
  have := Rat.floor_intCast_div_natCast n 4294967296
  simpa using this

end Odin

namespace Odin

open WasmMemoryInterface

theorem setUint32_number (addr : ℕ) (x : Num) (buf : List Byte) (h : addr + 4 ≤ buf.length) :
    DataView.setUint 4 addr (.number x) buf
      = (.ok (), writeBytes buf addr (leBytes 4 (x.toUintN 32))) :=
  setUint_number 4 addr x buf h

theorem setInt32_number (addr : ℕ) (x : Num) (buf : List Byte) (h : addr + 4 ≤ buf.length) :
    DataView.setInt 4 addr (.number x) buf
      = (.ok (), writeBytes buf addr (leBytes 4 ((x.toIntN 32) % (2 ^ 32 : ℕ)).toNat)) :=
  setInt_number 4 addr x buf h

/-- The buffer after two adjacent 32-bit words have been written at `addr`. -/
theorem storeU64_eval (wmi : WasmMemoryInterface) (addr : ℕ) (value : JSValue)
    (h : addr + 8 ≤ wmi.memory.length) :
    storeU64 addr value wmi = (.ok (), { wmi with memory :=
      (writeBytes (writeBytes wmi.memory addr (leBytes 4 ((Number value).toUintN 32)))
        (addr + 4) (leBytes 4 ((Num.floor (Number (divBy4294967296 value))).toUintN 32))) }) := by
  have hl := length_leBytes 4 ((Number value).toUintN 32)
  have h1 := length_writeBytes wmi.memory addr (leBytes 4 ((Number value).toUintN 32))
    (by omega)
  simp only [storeU64, bind, onMem, Nat.add_zero]
  rw [setUint32_number addr _ _ (by omega)]
  simp only []
  rw [setUint32_number (addr + 4) _ _ (by omega)]

theorem storeI64_eval (wmi : WasmMemoryInterface) (addr : ℕ) (value : JSValue)
    (h : addr + 8 ≤ wmi.memory.length) :
    storeI64 addr value wmi = (.ok (), { wmi with memory :=
      (writeBytes (writeBytes wmi.memory addr (leBytes 4 ((Number value).toUintN 32)))
        (addr + 4) (leBytes 4 (((Num.floor (Number (divBy4294967296 value))).toIntN 32)
          % (2 ^ 32 : ℕ)).toNat)) }) := by
  have hl := length_leBytes 4 ((Number value).toUintN 32)
  have h1 := length_writeBytes wmi.memory addr (leBytes 4 ((Number value).toUintN 32))
    (by omega)
  simp only [storeI64, bind, onMem, Nat.add_zero]
  rw [setUint32_number addr _ _ (by omega)]
  simp only []
  rw [setInt32_number (addr + 4) _ _ (by omega)]

/-- Reading back the two words of a 64-bit slot. -/
theorem getUint_words (buf : List Byte) (addr lo hi : ℕ) (h : addr + 8 ≤ buf.length) :
    DataView.getUint 4 (writeBytes (writeBytes buf addr (leBytes 4 lo)) (addr + 4)
        (leBytes 4 hi)) addr = .ok (lo % 4294967296) ∧
    DataView.getUint 4 (writeBytes (writeBytes buf addr (leBytes 4 lo)) (addr + 4)
        (leBytes 4 hi)) (addr + 4) = .ok (hi % 4294967296) := by
  have hl := length_leBytes 4 lo
  have hh := length_leBytes 4 hi
  have h1 := length_writeBytes buf addr (leBytes 4 lo) (by omega)
  constructor
  · rw [getUint_writeBytes_disjoint 4 (addr + 4) addr _ _ (by omega) (by omega),
      getUint_writeBytes_same 4 addr lo buf (by omega)]
    norm_num
  · rw [getUint_writeBytes_same 4 (addr + 4) hi _ (by omega)]
    norm_num

/-- The expression `lo + hi*4294967296` is exact when its value is a double. -/
theorem add_mul_exact (lo : ℕ) (hi n : ℤ) (hhi : |hi| < 2 ^ 53)
    (hn : n = lo + hi * 4294967296) (hrep : roundDouble (n : ℚ) = .fin n) :
    Num.add (Num.ofNat lo) (Num.mul (Num.ofInt hi) (.fin 4294967296)) = .fin n := by
  have hmul : Num.mul (Num.ofInt hi) (.fin 4294967296) = .fin ((hi : ℚ) * 4294967296) := by
    simp only [Num.mul, Num.ofInt]
    split
    · rename_i h0
      have : (hi : ℚ) = 0 := by
        rcases mul_eq_zero.mp h0 with h | h
        · exact h
        · norm_num at h
      simp [Num.isNeg, this]
    · have h := roundDouble_exact hi 32 hhi (by norm_num) (by norm_num)
      rw [pow2_eq] at h
      norm_num at h ⊢
      exact h
  rw [hmul]
  have hsum : ((lo : ℕ) : ℚ) + (hi : ℚ) * 4294967296 = (n : ℚ) := by
    rw [hn]; push_cast; ring
  simp only [Num.add, Num.ofNat, hsum]
  split
  · rename_i h0; rw [h0]
  · exact hrep

end Odin

namespace Odin

open WasmMemoryInterface

theorem roundTrips_U64_of_values (wmi : WasmMemoryInterface) (addr : ℕ) (value : JSValue)
    (n : ℤ) (h : addr + 8 ≤ wmi.memory.length) (h0 : 0 ≤ n) (h1 : n < 2 ^ 64)
    (hrep : roundDouble (n : ℚ) = .fin n) (hx : Number value = .fin n)
    (hhi : Num.floor (Number (divBy4294967296 value)) = .fin ((n / 4294967296 : ℤ) : ℚ)) :
    RoundTrips storeU64 loadU64 wmi addr value n := by
  unfold RoundTrips
  rw [storeU64_eval wmi addr value h, hx, hhi, toUintN_intCast, toUintN_intCast]
  refine ⟨rfl, ?_⟩
  obtain ⟨hw0, hw1⟩ := getUint_words wmi.memory addr (n % (2 ^ 32 : ℕ)).toNat
    (n / 4294967296 % (2 ^ 32 : ℕ)).toNat h
  simp only [loadU64, Nat.add_zero, hw0, hw1, bind, Except.bind, pure, Except.pure]
  congr 1
  have e : (((n / 4294967296 % (2 ^ 32 : ℕ)).toNat % 4294967296 : ℕ) : ℤ)
      = n / 4294967296 := by
    norm_num; omega
  have e2 : Num.ofNat ((n / 4294967296 % (2 ^ 32 : ℕ)).toNat % 4294967296)
      = Num.ofInt (n / 4294967296) := by
    simp only [Num.ofNat, Num.ofInt]
    congr 1
    conv_rhs => rw [← e]
    exact (Int.cast_natCast _).symm
  rw [e2]
  exact add_mul_exact ((n % (2 ^ 32 : ℕ)).toNat % 4294967296) (n / 4294967296) n
    (by rw [abs_lt]; constructor <;> omega) (by norm_num; omega) hrep

theorem roundTrips_I64_of_values (wmi : WasmMemoryInterface) (addr : ℕ) (value : JSValue)
    (n : ℤ) (h : addr + 8 ≤ wmi.memory.length) (h0 : -(2 ^ 63) ≤ n) (h1 : n < 2 ^ 63)
    (hrep : roundDouble (n : ℚ) = .fin n) (hx : Number value = .fin n)
    (hhi : Num.floor (Number (divBy4294967296 value)) = .fin ((n / 4294967296 : ℤ) : ℚ)) :
    RoundTrips storeI64 loadI64 wmi addr value n := by
  unfold RoundTrips
  rw [storeI64_eval wmi addr value h, hx, hhi, toUintN_intCast, toIntN_intCast]
  refine ⟨rfl, ?_⟩
  obtain ⟨hw0, hw1⟩ := getUint_words wmi.memory addr (n % (2 ^ 32 : ℕ)).toNat
    ((if ((2 ^ (32 - 1) : ℕ) : ℤ) ≤ n / 4294967296 % (2 ^ 32 : ℕ)
      then n / 4294967296 % (2 ^ 32 : ℕ) - (2 ^ 32 : ℕ)
      else n / 4294967296 % (2 ^ 32 : ℕ)) % (2 ^ 32 : ℕ)).toNat h
  simp only [loadI64, DataView.getInt, Nat.add_zero, hw0, hw1, bind, Except.bind, pure,
    Except.pure]
  congr 1
  set u : ℕ := ((if ((2 ^ (32 - 1) : ℕ) : ℤ) ≤ n / 4294967296 % (2 ^ 32 : ℕ)
      then n / 4294967296 % (2 ^ 32 : ℕ) - (2 ^ 32 : ℕ)
      else n / 4294967296 % (2 ^ 32 : ℕ)) % (2 ^ 32 : ℕ)).toNat % 4294967296 with hu
  have e : (if 2 ^ (8 * 4 - 1) ≤ u then (u : ℤ) - (2 ^ (8 * 4) : ℕ) else (u : ℤ))
      = n / 4294967296 := by
    rw [hu]
    norm_num
    split <;> split <;> omega
  rw [e]
  exact add_mul_exact ((n % (2 ^ 32 : ℕ)).toNat % 4294967296) (n / 4294967296) n
    (by rw [abs_lt]; constructor <;> omega) (by norm_num; omega) hrep

theorem hi_of_number (n : ℤ) (hrep : roundDouble (n : ℚ) = .fin n) (hb : |n| ≤ 2 ^ 64) :
    Num.floor (Number (divBy4294967296 (.number (.fin n))))
      = .fin ((n / 4294967296 : ℤ) : ℚ) := by
  simp only [divBy4294967296, Number, Num.divPos, representable_div n hrep hb, Num.floor,
    floor_div_pow32]

theorem hi_of_bigint (n : ℤ) (h0 : 0 ≤ n) (h1 : n < 2 ^ 64) :
    Num.floor (Number (divBy4294967296 (.bigint n)))
      = .fin ((n / 4294967296 : ℤ) : ℚ) := by
  simp only [divBy4294967296, Number]
  rw [Int.tdiv_eq_ediv h0 (by norm_num)]
  rw [roundDouble_intCast _ (by rw [abs_lt]; constructor <;> omega)]
  simp [Num.floor]

end Odin

namespace Odin

open WasmMemoryInterface

/-- C4: for an integer 0 ≤ n < 2^53 given as a number, storeU64(addr, n) writes
n mod 2^32 as a little-endian u32 at addr and floor(n / 2^32) as a
little-endian u32 at addr + 4, and loadU64(addr) then returns lo + hi * 2^32
for the two words lo and hi it reads (which is n). -/
theorem C4_storeU64_number_words (wmi : WasmMemoryInterface) (addr : ℕ) (n : ℤ)
    (h : addr + 8 ≤ wmi.memory.length) (h0 : 0 ≤ n) (h1 : n < 2 ^ 53) :
    (storeU64 addr (.number (.fin n)) wmi).1 = .ok () ∧
    (∀ k, k < 4 →
      ((storeU64 addr (.number (.fin n)) wmi).2.memory[addr + k]?).map Fin.val
        = some (twosComplementByte (n % 2 ^ 32) k)) ∧
    (∀ k, k < 4 →
      ((storeU64 addr (.number (.fin n)) wmi).2.memory[addr + 4 + k]?).map Fin.val
        = some (twosComplementByte (n / 2 ^ 32) k)) ∧
    loadU32 (storeU64 addr (.number (.fin n)) wmi).2 addr = .ok (.fin ((n % 2 ^ 32 : ℤ) : ℚ)) ∧
    loadU32 (storeU64 addr (.number (.fin n)) wmi).2 (addr + 4)
      = .ok (.fin ((n / 2 ^ 32 : ℤ) : ℚ)) ∧
    loadU64 (storeU64 addr (.number (.fin n)) wmi).2 addr
      = .ok (.fin ((n % 2 ^ 32 + n / 2 ^ 32 * 2 ^ 32 : ℤ) : ℚ)) ∧
    n % 2 ^ 32 + n / 2 ^ 32 * 2 ^ 32 = n := by
  have hrep : roundDouble (n : ℚ) = .fin n :=
    roundDouble_intCast n (by rw [abs_lt]; constructor <;> omega)
  have hhi := hi_of_number n hrep (by rw [abs_le]; constructor <;> omega)
  have hrt := roundTrips_U64_of_values wmi addr (.number (.fin n)) n h h0 (by omega) hrep rfl hhi
  have hsum : n % 2 ^ 32 + n / 2 ^ 32 * 2 ^ 32 = n := by omega
  have hev := storeU64_eval wmi addr (.number (.fin n)) h
  rw [hhi] at hev
  simp only [Number, toUintN_intCast] at hev
  have hl1 := length_leBytes 4 (n % (2 ^ 32 : ℕ)).toNat
  have hl2 := length_leBytes 4 (n / 4294967296 % (2 ^ 32 : ℕ)).toNat
  have hlen := length_writeBytes wmi.memory addr (leBytes 4 (n % (2 ^ 32 : ℕ)).toNat) (by omega)
  obtain ⟨hw0, hw1⟩ := getUint_words wmi.memory addr (n % (2 ^ 32 : ℕ)).toNat
    (n / 4294967296 % (2 ^ 32 : ℕ)).toNat h
  refine ⟨hrt.1, ?_, ?_, ?_, ?_, ?_, hsum⟩
  · intro k hk
    rw [hev]
    simp only []
    rw [getElem?_writeBytes_outside _ _ _ _ (by omega) (by omega),
      getElem?_writeBytes_inside _ _ _ _ (by omega) (by omega), getElem?_leBytes 4 _ k hk]
    unfold twosComplementByte
    interval_cases k <;> norm_num <;> omega
  · intro k hk
    rw [hev]
    simp only []
    rw [getElem?_writeBytes_inside _ _ _ _ (by omega) (by omega), getElem?_leBytes 4 _ k hk]
    unfold twosComplementByte
    interval_cases k <;> norm_num <;> omega
  · rw [hev]
    simp only [loadU32, hw0, Except.map]
    congr 1
    rw [← ofNat_toNat _ (by omega)]
    congr 1
    norm_num; omega
  · rw [hev]
    simp only [loadU32, hw1, Except.map]
    congr 1
    rw [← ofNat_toNat _ (by omega)]
    congr 1
    norm_num; omega
  · rw [hsum]; exact hrt.2

/-- Witness of C4 at n = 2^32 + 5 and address 1 of a 9-byte buffer. -/
theorem C4_storeU64_number_words_witness :
    loadU64 (storeU64 1 (.number (.fin ((4294967301 : ℤ) : ℚ))) ⟨List.replicate 9 0, 8⟩).2 1
      = .ok (.fin (((4294967301 : ℤ) % 2 ^ 32 + 4294967301 / 2 ^ 32 * 2 ^ 32 : ℤ) : ℚ)) :=
  (C4_storeU64_number_words ⟨List.replicate 9 0, 8⟩ 1 4294967301
    (by decide) (by decide) (by decide)).2.2.2.2.2.1

end Odin

namespace Odin

open WasmMemoryInterface

theorem roundTrips_storeInt_8 (wmi : WasmMemoryInterface) (addr : ℕ) (v : JSValue) (n : ℤ)
    (hW : wmi.intSize = 8) (h : addr + 8 ≤ wmi.memory.length) :
    RoundTrips storeInt loadInt wmi addr v n ↔ RoundTrips storeI64 loadI64 wmi addr v n := by
  have hi : (storeI64 addr v wmi).2.intSize = 8 := by
    rw [storeI64_eval wmi addr v h]; exact hW
  simp [RoundTrips, storeInt, loadInt, hW, hi]

theorem roundTrips_storeUint_8 (wmi : WasmMemoryInterface) (addr : ℕ) (v : JSValue) (n : ℤ)
    (hW : wmi.intSize = 8) (h : addr + 8 ≤ wmi.memory.length) :
    RoundTrips storeUint loadUint wmi addr v n ↔ RoundTrips storeU64 loadU64 wmi addr v n := by
  have hi : (storeU64 addr v wmi).2.intSize = 8 := by
    rw [storeU64_eval wmi addr v h]; exact hW
  simp [RoundTrips, storeUint, loadUint, hW, hi]

/-- C2 as stated fails: with intSize = 8, the 64-bit integer 2^53 + 1 passed as
a bigint to storeUint does not come back from loadUint (the load returns the
double 2^53). -/
theorem C2_counterexample_bigint_above_2_pow_53 :
    ¬ RoundTrips storeUint loadUint ⟨List.replicate 8 0, 8⟩ 0
        (.bigint 9007199254740993) 9007199254740993 ∧
    loadUint (storeUint 0 (.bigint 9007199254740993) ⟨List.replicate 8 0, 8⟩).2 0
      = .ok (.fin 9007199254740992) := by
  decide!

/-- C2 (amended): with intSize = 8, every integer n of the 64-bit range that a
double holds exactly (`roundDouble n = n`, e.g. every |n| < 2^53) round-trips:
through storeInt/loadInt and storeI64/loadI64 in the signed range, through
storeUint/loadUint and storeU64/loadU64 in the unsigned range, when passed as
a number, and also when passed as a bigint provided n ≥ 0. -/
theorem C2_int64_round_trip_representable (wmi : WasmMemoryInterface) (addr : ℕ) (n : ℤ)
    (hW : wmi.intSize = 8) (h : addr + 8 ≤ wmi.memory.length)
    (hrep : roundDouble (n : ℚ) = .fin n) :
    (-(2 ^ 63) ≤ n → n < 2 ^ 63 →
      RoundTrips storeInt loadInt wmi addr (.number (.fin n)) n ∧
      RoundTrips storeI64 loadI64 wmi addr (.number (.fin n)) n) ∧
    (0 ≤ n → n < 2 ^ 63 →
      RoundTrips storeInt loadInt wmi addr (.bigint n) n ∧
      RoundTrips storeI64 loadI64 wmi addr (.bigint n) n) ∧
    (0 ≤ n → n < 2 ^ 64 →
      RoundTrips storeUint loadUint wmi addr (.number (.fin n)) n ∧
      RoundTrips storeU64 loadU64 wmi addr (.number (.fin n)) n ∧
      RoundTrips storeUint loadUint wmi addr (.bigint n) n ∧
      RoundTrips storeU64 loadU64 wmi addr (.bigint n) n) := by
  refine ⟨?_, ?_, ?_⟩
  · intro h0 h1
    have hr := roundTrips_I64_of_values wmi addr (.number (.fin n)) n h h0 h1 hrep rfl
      (hi_of_number n hrep (by rw [abs_le]; constructor <;> omega))
    exact ⟨(roundTrips_storeInt_8 wmi addr _ n hW h).mpr hr, hr⟩
  · intro h0 h1
    have hr := roundTrips_I64_of_values wmi addr (.bigint n) n h (by omega) h1 hrep hrep
      (hi_of_bigint n h0 (by omega))
    exact ⟨(roundTrips_storeInt_8 wmi addr _ n hW h).mpr hr, hr⟩
  · intro h0 h1
    have hr := roundTrips_U64_of_values wmi addr (.number (.fin n)) n h h0 h1 hrep rfl
      (hi_of_number n hrep (by rw [abs_le]; constructor <;> omega))
    have hb := roundTrips_U64_of_values wmi addr (.bigint n) n h h0 h1 hrep hrep
      (hi_of_bigint n h0 h1)
    exact ⟨(roundTrips_storeUint_8 wmi addr _ n hW h).mpr hr, hr,
      (roundTrips_storeUint_8 wmi addr _ n hW h).mpr hb, hb⟩

/-- Witness of the amended C2 at n = 2^60 + 2^32, a double beyond 2^53. -/
theorem C2_int64_round_trip_representable_witness :
    RoundTrips storeInt loadInt ⟨List.replicate 8 0, 8⟩ 0
      (.bigint 1152921508901814272) 1152921508901814272 ∧
    RoundTrips storeUint loadUint ⟨List.replicate 8 0, 8⟩ 0
      (.number (.fin ((1152921508901814272 : ℤ) : ℚ))) 1152921508901814272 :=
  have h := C2_int64_round_trip_representable ⟨List.replicate 8 0, 8⟩ 0 1152921508901814272
    rfl (by decide) (by decide!)
  ⟨((h.2.1) (by decide) (by decide)).1, ((h.2.2) (by decide) (by decide)).1⟩

/-- C5 fails on the code for negative values: storeI64 of the number -1 writes
ff ff ff ff ff ff ff ff, storeI64 of the bigint -1 writes ff ff ff ff 00 00 00 00
(BigInt division truncates toward zero, so `Math.floor` no longer floors), and
loadI64 then returns 4294967295 instead of -1. -/
theorem C5_storeI64_bigint_minus_one :
    (storeI64 0 (.number (.fin (-1))) ⟨List.replicate 8 0, 8⟩).2.memory
      = [255, 255, 255, 255, 255, 255, 255, 255] ∧
    (storeI64 0 (.bigint (-1)) ⟨List.replicate 8 0, 8⟩).2.memory
      = [255, 255, 255, 255, 0, 0, 0, 0] ∧
    loadI64 (storeI64 0 (.number (.fin (-1))) ⟨List.replicate 8 0, 8⟩).2 0 = .ok (.fin (-1)) ∧
    loadI64 (storeI64 0 (.bigint (-1)) ⟨List.replicate 8 0, 8⟩).2 0
      = .ok (.fin 4294967295) := by
  decide!

end Odin

namespace Odin

open WasmMemoryInterface

theorem getUint_ne_unhandled (w : ℕ) (buf : List Byte) (addr : ℕ) :
    DataView.getUint w buf addr = .error .RangeError ∨ ∃ u, DataView.getUint w buf addr = .ok u := by
  unfold DataView.getUint
  split
  · exact Or.inr ⟨_, rfl⟩
  · exact Or.inl rfl

theorem getInt_ne_unhandled (w : ℕ) (buf : List Byte) (addr : ℕ) :
    DataView.getInt w buf addr = .error .RangeError ∨ ∃ u, DataView.getInt w buf addr = .ok u := by
  unfold DataView.getInt
  rcases getUint_ne_unhandled w buf addr with h | ⟨u, h⟩
  · rw [h]; exact Or.inl rfl
  · rw [h]; exact Or.inr ⟨_, rfl⟩

theorem setUint_cases (w addr : ℕ) (value : JSValue) (buf : List Byte) :
    (DataView.setUint w addr value buf).1 = .ok () ∨
    (DataView.setUint w addr value buf).1 = .error .RangeError ∨
    (DataView.setUint w addr value buf).1 = .error .TypeError := by
  unfold DataView.setUint
  cases value <;> simp only [toNumber] <;> first
    | (split <;> simp)
    | simp

theorem setInt_cases (w addr : ℕ) (value : JSValue) (buf : List Byte) :
    (DataView.setInt w addr value buf).1 = .ok () ∨
    (DataView.setInt w addr value buf).1 = .error .RangeError ∨
    (DataView.setInt w addr value buf).1 = .error .TypeError := by
  unfold DataView.setInt
  cases value <;> simp only [toNumber] <;> first
    | (split <;> simp)
    | simp

theorem unhandled_ne : unhandledIntSize ≠ .RangeError ∧ unhandledIntSize ≠ .TypeError := by
  constructor <;> simp [unhandledIntSize]

theorem loadI32_ne_unhandled (wmi : WasmMemoryInterface) (addr : ℕ) :
    loadI32 wmi addr ≠ .error unhandledIntSize := by
  unfold loadI32
  rcases getInt_ne_unhandled 4 wmi.memory addr with h | ⟨u, h⟩ <;>
    simp [h, Except.map, unhandledIntSize]

theorem loadU32_ne_unhandled (wmi : WasmMemoryInterface) (addr : ℕ) :
    loadU32 wmi addr ≠ .error unhandledIntSize := by
  unfold loadU32
  rcases getUint_ne_unhandled 4 wmi.memory addr with h | ⟨u, h⟩ <;>
    simp [h, Except.map, unhandledIntSize]

theorem loadI64_ne_unhandled (wmi : WasmMemoryInterface) (addr : ℕ) :
    loadI64 wmi addr ≠ .error unhandledIntSize := by
  unfold loadI64
  rcases getUint_ne_unhandled 4 wmi.memory addr with h | ⟨u, h⟩ <;>
  rcases getInt_ne_unhandled 4 wmi.memory (addr + 4) with h' | ⟨u', h'⟩ <;>
    simp [h, h', bind, Except.bind, pure, Except.pure, unhandledIntSize]

theorem loadU64_ne_unhandled (wmi : WasmMemoryInterface) (addr : ℕ) :
    loadU64 wmi addr ≠ .error unhandledIntSize := by
  unfold loadU64
  rcases getUint_ne_unhandled 4 wmi.memory addr with h | ⟨u, h⟩ <;>
  rcases getUint_ne_unhandled 4 wmi.memory (addr + 4) with h' | ⟨u', h'⟩ <;>
    simp [h, h', bind, Except.bind, pure, Except.pure, unhandledIntSize]

theorem storeI32_ne_unhandled (wmi : WasmMemoryInterface) (addr : ℕ) (value : JSValue) :
    (storeI32 addr value wmi).1 ≠ .error unhandledIntSize := by
  simp only [storeI32, onMem]
  rcases setInt_cases 4 addr value wmi.memory with h | h | h <;>
    simp [h, unhandledIntSize]

theorem storeU32_ne_unhandled (wmi : WasmMemoryInterface) (addr : ℕ) (value : JSValue) :
    (storeU32 addr value wmi).1 ≠ .error unhandledIntSize := by
  simp only [storeU32, onMem]
  rcases setUint_cases 4 addr value wmi.memory with h | h | h <;>
    simp [h, unhandledIntSize]

end Odin

namespace Odin

open WasmMemoryInterface

theorem JS.bind_fst {σ α β : Type} (x : JS σ α) (f : α → JS σ β) (s : σ) (e : JSError)
    (h : ((x >>= f) s).1 = .error e) :
    (x s).1 = .error e ∨ ∃ a, (x s).1 = .ok a ∧ (f a (x s).2).1 = .error e := by
  simp only [bind] at h
  rcases hx : x s with ⟨r, s1⟩
  rw [hx] at h
  cases r with
  | error e1 => left; simpa using h
  | ok a => right; exact ⟨a, rfl, by simpa using h⟩

theorem onMem_setUint_ne_unhandled (w addr : ℕ) (value : JSValue) (wmi : WasmMemoryInterface) :
    (onMem (DataView.setUint w addr value) wmi).1 ≠ .error unhandledIntSize := by
  simp only [onMem]
  rcases setUint_cases w addr value wmi.memory with h | h | h <;>
    simp [h, unhandledIntSize]

theorem onMem_setInt_ne_unhandled (w addr : ℕ) (value : JSValue) (wmi : WasmMemoryInterface) :
    (onMem (DataView.setInt w addr value) wmi).1 ≠ .error unhandledIntSize := by
  simp only [onMem]
  rcases setInt_cases w addr value wmi.memory with h | h | h <;>
    simp [h, unhandledIntSize]

theorem storeU64_ne_unhandled (wmi : WasmMemoryInterface) (addr : ℕ) (value : JSValue) :
    (storeU64 addr value wmi).1 ≠ .error unhandledIntSize := by
  intro h
  unfold storeU64 at h
  rcases JS.bind_fst _ _ _ _ h with h1 | ⟨a, -, h2⟩
  · exact onMem_setUint_ne_unhandled _ _ _ _ h1
  · exact onMem_setUint_ne_unhandled _ _ _ _ h2

theorem storeI64_ne_unhandled (wmi : WasmMemoryInterface) (addr : ℕ) (value : JSValue) :
    (storeI64 addr value wmi).1 ≠ .error unhandledIntSize := by
  intro h
  unfold storeI64 at h
  rcases JS.bind_fst _ _ _ _ h with h1 | ⟨a, -, h2⟩
  · exact onMem_setUint_ne_unhandled _ _ _ _ h1
  · exact onMem_setInt_ne_unhandled _ _ _ _ h2

theorem setUint_ok_iff (w addr : ℕ) (value : JSValue) (buf : List Byte) :
    (DataView.setUint w addr value buf).1 = .ok () ↔
      addr + w ≤ buf.length ∧ ∀ z, value ≠ .bigint z := by
  unfold DataView.setUint
  by_cases hb : addr + w ≤ buf.length <;> cases value <;> simp [toNumber, hb]

theorem setInt_ok_iff (w addr : ℕ) (value : JSValue) (buf : List Byte) :
    (DataView.setInt w addr value buf).1 = .ok () ↔
      addr + w ≤ buf.length ∧ ∀ z, value ≠ .bigint z := by
  unfold DataView.setInt
  by_cases hb : addr + w ≤ buf.length <;> cases value <;> simp [toNumber, hb]

theorem setUint_fail_state (w addr : ℕ) (value : JSValue) (buf : List Byte)
    (h : (DataView.setUint w addr value buf).1 ≠ .ok ()) :
    (DataView.setUint w addr value buf).2 = buf := by
  unfold DataView.setUint at h ⊢
  by_cases hb : addr + w ≤ buf.length <;> cases value <;> simp [toNumber, hb] at h ⊢

theorem setInt_fail_state (w addr : ℕ) (value : JSValue) (buf : List Byte)
    (h : (DataView.setInt w addr value buf).1 ≠ .ok ()) :
    (DataView.setInt w addr value buf).2 = buf := by
  unfold DataView.setInt at h ⊢
  by_cases hb : addr + w ≤ buf.length <;> cases value <;> simp [toNumber, hb] at h ⊢

theorem getUint_ok_iff (w : ℕ) (buf : List Byte) (addr : ℕ) :
    (∃ u, DataView.getUint w buf addr = .ok u) ↔ addr + w ≤ buf.length := by
  unfold DataView.getUint
  by_cases hb : addr + w ≤ buf.length <;> simp [hb]

theorem getInt_ok_iff (w : ℕ) (buf : List Byte) (addr : ℕ) :
    (∃ u, DataView.getInt w buf addr = .ok u) ↔ addr + w ≤ buf.length := by
  unfold DataView.getInt DataView.getUint
  by_cases hb : addr + w ≤ buf.length <;> simp [hb]

theorem load32_ok_iff (wmi : WasmMemoryInterface) (addr : ℕ) :
    ((∃ r, loadI32 wmi addr = .ok r) ↔ addr + 4 ≤ wmi.memory.length) ∧
    ((∃ r, loadU32 wmi addr = .ok r) ↔ addr + 4 ≤ wmi.memory.length) := by
  unfold loadI32 loadU32 DataView.getInt DataView.getUint
  by_cases hb : addr + 4 ≤ wmi.memory.length <;> simp [hb, Except.map]

theorem load64_ok_iff (wmi : WasmMemoryInterface) (addr : ℕ) :
    ((∃ r, loadI64 wmi addr = .ok r) ↔ addr + 8 ≤ wmi.memory.length) ∧
    ((∃ r, loadU64 wmi addr = .ok r) ↔ addr + 8 ≤ wmi.memory.length) := by
  unfold loadI64 loadU64 DataView.getInt DataView.getUint
  by_cases hb : addr + 8 ≤ wmi.memory.length
  · simp [hb, show addr + 4 ≤ wmi.memory.length by omega,
      show addr + 4 + 4 ≤ wmi.memory.length by omega, bind, Except.bind, pure, Except.pure]
  · by_cases hb4 : addr + 4 ≤ wmi.memory.length
    · simp [hb, hb4, show ¬ addr + 4 + 4 ≤ wmi.memory.length by omega, bind, Except.bind,
        pure, Except.pure]
    · simp [hb, hb4, bind, Except.bind, pure, Except.pure]

theorem store32_ok_iff (wmi : WasmMemoryInterface) (addr : ℕ) (value : JSValue) :
    ((storeI32 addr value wmi).1 = .ok () ↔
      addr + 4 ≤ wmi.memory.length ∧ ∀ z, value ≠ .bigint z) ∧
    ((storeU32 addr value wmi).1 = .ok () ↔
      addr + 4 ≤ wmi.memory.length ∧ ∀ z, value ≠ .bigint z) :=
  ⟨setInt_ok_iff 4 addr value wmi.memory, setUint_ok_iff 4 addr value wmi.memory⟩

theorem store32_fail_state (wmi : WasmMemoryInterface) (addr : ℕ) (value : JSValue) :
    ((storeI32 addr value wmi).1 ≠ .ok () → (storeI32 addr value wmi).2 = wmi) ∧
    ((storeU32 addr value wmi).1 ≠ .ok () → (storeU32 addr value wmi).2 = wmi) := by
  constructor
  · intro h
    simp only [storeI32, onMem, setInt_fail_state 4 addr value wmi.memory h]
  · intro h
    simp only [storeU32, onMem, setUint_fail_state 4 addr value wmi.memory h]

/-- A 64-bit store whose low word is out of bounds fails at once. -/
theorem store64_low_out (wmi : WasmMemoryInterface) (addr : ℕ) (value : JSValue)
    (h : wmi.memory.length < addr + 4) :
    storeI64 addr value wmi = (.error .RangeError, wmi) ∧
    storeU64 addr value wmi = (.error .RangeError, wmi) := by
  have e : DataView.setUint 4 addr (.number (Number value)) wmi.memory
      = (.error .RangeError, wmi.memory) := by
    simp [DataView.setUint, toNumber, show ¬ addr + 4 ≤ wmi.memory.length by omega]
  constructor
  · simp only [storeI64, bind, onMem, Nat.add_zero, e]
  · simp only [storeU64, bind, onMem, Nat.add_zero, e]

/-- A 64-bit store whose low word is in bounds and whose high word is not
writes the low word and then fails. -/
theorem store64_high_out (wmi : WasmMemoryInterface) (addr : ℕ) (value : JSValue)
    (h4 : addr + 4 ≤ wmi.memory.length) (h8 : wmi.memory.length < addr + 8) :
    storeI64 addr value wmi = (.error .RangeError, { wmi with memory :=
      (writeBytes wmi.memory addr (leBytes 4 ((Number value).toUintN 32))) }) ∧
    storeU64 addr value wmi = (.error .RangeError, { wmi with memory :=
      (writeBytes wmi.memory addr (leBytes 4 ((Number value).toUintN 32))) }) := by
  have hl := length_leBytes 4 ((Number value).toUintN 32)
  have h1 := length_writeBytes wmi.memory addr (leBytes 4 ((Number value).toUintN 32))
    (by omega)
  constructor
  · simp only [storeI64, bind, onMem, Nat.add_zero]
    rw [setUint32_number addr _ _ (by omega)]
    simp [DataView.setInt, toNumber, h1, show ¬ addr + 4 + 4 ≤ wmi.memory.length by omega]
  · simp only [storeU64, bind, onMem, Nat.add_zero]
    rw [setUint32_number addr _ _ (by omega)]
    simp [DataView.setUint, toNumber, h1, show ¬ addr + 4 + 4 ≤ wmi.memory.length by omega]

theorem store64_ok_iff (wmi : WasmMemoryInterface) (addr : ℕ) (value : JSValue) :
    ((storeI64 addr value wmi).1 = .ok () ↔ addr + 8 ≤ wmi.memory.length) ∧
    ((storeU64 addr value wmi).1 = .ok () ↔ addr + 8 ≤ wmi.memory.length) := by
  by_cases h8 : addr + 8 ≤ wmi.memory.length
  · simp [storeI64_eval wmi addr value h8, storeU64_eval wmi addr value h8, h8]
  · by_cases h4 : addr + 4 ≤ wmi.memory.length
    · obtain ⟨e1, e2⟩ := store64_high_out wmi addr value h4 (by omega)
      simp [e1, e2, h8]
    · obtain ⟨e1, e2⟩ := store64_low_out wmi addr value (by omega)
      simp [e1, e2, h8]

/-- C6 as stated fails on the code.  With intSize = 8, storeInt(4, 5) on a
buffer of 8 bytes fails although intSize is 8 (the RangeError of the 64-bit
accessor, whose high word would lie at bytes 8..11), and the failed call has
changed the buffer: the low word 5 is already written at bytes 4..7.
loadInt(4) fails in the same way. -/
theorem C6_counterexample_store_past_the_end :
    (storeInt 4 (.number (.fin 5)) ⟨List.replicate 8 0, 8⟩).1 = .error .RangeError ∧
    (storeInt 4 (.number (.fin 5)) ⟨List.replicate 8 0, 8⟩).2.memory
      = [0, 0, 0, 0, 5, 0, 0, 0] ∧
    (storeInt 4 (.number (.fin 5)) ⟨List.replicate 8 0, 8⟩).2.memory ≠ List.replicate 8 0 ∧
    loadInt ⟨List.replicate 8 0, 8⟩ 4 = .error .RangeError ∧
    ¬ ((8 : ℕ) ≠ 4 ∧ (8 : ℕ) ≠ 8) := by
  decide!

/-- C6 (amended): loadInt, loadUint, storeInt and storeUint raise the
`Unhandled intSize` error if and only if intSize is neither 4 nor 8, and then
leave the buffer (the whole interface state) unchanged; with intSize = 4
(resp. 8) they are exactly the 32-bit (resp. 64-bit) accessor of the same
signedness; with intSize 4 or 8 the loads succeed exactly when the intSize
bytes at the address lie in the buffer, and the stores exactly when they do
and, for intSize = 4, the value is not a BigInt; a store that fails leaves the
state unchanged unless intSize is 8 and the low word is in bounds; then the
low word is written before the store fails. -/
theorem C6_guest_int_dispatch (wmi : WasmMemoryInterface) (addr : ℕ) (value : JSValue) :
    (loadInt wmi addr = .error unhandledIntSize ↔ (wmi.intSize ≠ 4 ∧ wmi.intSize ≠ 8)) ∧
    (loadUint wmi addr = .error unhandledIntSize ↔ (wmi.intSize ≠ 4 ∧ wmi.intSize ≠ 8)) ∧
    ((storeInt addr value wmi).1 = .error unhandledIntSize
      ↔ (wmi.intSize ≠ 4 ∧ wmi.intSize ≠ 8)) ∧
    ((storeUint addr value wmi).1 = .error unhandledIntSize
      ↔ (wmi.intSize ≠ 4 ∧ wmi.intSize ≠ 8)) ∧
    ((wmi.intSize ≠ 4 ∧ wmi.intSize ≠ 8) →
      (storeInt addr value wmi).2 = wmi ∧ (storeUint addr value wmi).2 = wmi) ∧
    (wmi.intSize = 4 →
      loadInt wmi addr = loadI32 wmi addr ∧ loadUint wmi addr = loadU32 wmi addr ∧
      storeInt addr value wmi = storeI32 addr value wmi ∧
      storeUint addr value wmi = storeU32 addr value wmi) ∧
    (wmi.intSize = 8 →
      loadInt wmi addr = loadI64 wmi addr ∧ loadUint wmi addr = loadU64 wmi addr ∧
      storeInt addr value wmi = storeI64 addr value wmi ∧
      storeUint addr value wmi = storeU64 addr value wmi) ∧
    ((wmi.intSize = 4 ∨ wmi.intSize = 8) →
      ((∃ r, loadInt wmi addr = .ok r) ↔ addr + wmi.intSize ≤ wmi.memory.length) ∧
      ((∃ r, loadUint wmi addr = .ok r) ↔ addr + wmi.intSize ≤ wmi.memory.length) ∧
      ((storeInt addr value wmi).1 = .ok () ↔
        addr + wmi.intSize ≤ wmi.memory.length ∧
          (wmi.intSize = 4 → ∀ z, value ≠ .bigint z)) ∧
      ((storeUint addr value wmi).1 = .ok () ↔
        addr + wmi.intSize ≤ wmi.memory.length ∧
          (wmi.intSize = 4 → ∀ z, value ≠ .bigint z))) ∧
    ((wmi.intSize ≠ 8 ∨ wmi.memory.length < addr + 4) →
      ((storeInt addr value wmi).1 ≠ .ok () → (storeInt addr value wmi).2 = wmi) ∧
      ((storeUint addr value wmi).1 ≠ .ok () → (storeUint addr value wmi).2 = wmi)) ∧
    (wmi.intSize = 8 → addr + 4 ≤ wmi.memory.length → wmi.memory.length < addr + 8 →
      (storeInt addr value wmi).2.memory
        = writeBytes wmi.memory addr (leBytes 4 ((Number value).toUintN 32)) ∧
      (storeUint addr value wmi).2.memory
        = writeBytes wmi.memory addr (leBytes 4 ((Number value).toUintN 32))) := by
  refine ⟨?_, ?_, ?_, ?_, ?_, ?_, ?_, ?_, ?_, ?_⟩
  · unfold loadInt
    by_cases h8 : wmi.intSize = 8
    · simp [h8, loadI64_ne_unhandled]
    · by_cases h4 : wmi.intSize = 4
      · simp [h4, loadI32_ne_unhandled]
      · simp [h4, h8]
  · unfold loadUint
    by_cases h8 : wmi.intSize = 8
    · simp [h8, loadU64_ne_unhandled]
    · by_cases h4 : wmi.intSize = 4
      · simp [h4, loadU32_ne_unhandled]
      · simp [h4, h8]
  · unfold storeInt
    by_cases h8 : wmi.intSize = 8
    · simp [h8, storeI64_ne_unhandled]
    · by_cases h4 : wmi.intSize = 4
      · simp [h4, storeI32_ne_unhandled]
      · simp [h4, h8]
  · unfold storeUint
    by_cases h8 : wmi.intSize = 8
    · simp [h8, storeU64_ne_unhandled]
    · by_cases h4 : wmi.intSize = 4
      · simp [h4, storeU32_ne_unhandled]
      · simp [h4, h8]
  · rintro ⟨h4, h8⟩
    simp [storeInt, storeUint, h4, h8]
  · intro h4
    simp [loadInt, loadUint, storeInt, storeUint, h4]
  · intro h8
    simp [loadInt, loadUint, storeInt, storeUint, h8]
  · intro hW
    rcases hW with h4 | h8
    · obtain ⟨l1, l2⟩ := load32_ok_iff wmi addr
      obtain ⟨s1, s2⟩ := store32_ok_iff wmi addr value
      simp only [loadInt, loadUint, storeInt, storeUint, h4, if_true,
        show ¬ (4 : ℕ) = 8 by decide, if_false, true_implies]
      exact ⟨l1, l2, s1, s2⟩
    · obtain ⟨l1, l2⟩ := load64_ok_iff wmi addr
      obtain ⟨s1, s2⟩ := store64_ok_iff wmi addr value
      simp only [loadInt, loadUint, storeInt, storeUint, h8, if_true,
        show ¬ (8 : ℕ) = 4 by decide, false_implies, and_true]
      exact ⟨l1, l2, s1, s2⟩
  · intro hc
    by_cases h8 : wmi.intSize = 8
    · have hlow : wmi.memory.length < addr + 4 := by
        rcases hc with hc | hc
        · exact absurd h8 hc
        · exact hc
      obtain ⟨e1, e2⟩ := store64_low_out wmi addr value hlow
      simp [storeInt, storeUint, h8, e1, e2]
    · by_cases h4 : wmi.intSize = 4
      · obtain ⟨f1, f2⟩ := store32_fail_state wmi addr value
        simp only [storeInt, storeUint, h4, if_true, show ¬ (4 : ℕ) = 8 by decide, if_false]
        exact ⟨f1, f2⟩
      · simp [storeInt, storeUint, h4, h8]
  · intro h8 hlo hhi
    obtain ⟨e1, e2⟩ := store64_high_out wmi addr value hlo hhi
    simp only [storeInt, storeUint, h8, if_true, e1, e2, and_self]

/-- Witness of the amended C6: the error with the state unchanged at
intSize = 3, the 32-bit and 64-bit accessors at intSize 4 and 8, and a
successful 64-bit store at an address with 8 bytes in bounds. -/
theorem C6_guest_int_dispatch_witness :
    ((storeInt 0 (.number (.fin 7)) ⟨List.replicate 8 0, 3⟩).2 = ⟨List.replicate 8 0, 3⟩ ∧
      (storeUint 0 (.number (.fin 7)) ⟨List.replicate 8 0, 3⟩).2 = ⟨List.replicate 8 0, 3⟩) ∧
    (storeInt 0 (.number (.fin 7)) ⟨List.replicate 8 0, 4⟩
      = storeI32 0 (.number (.fin 7)) ⟨List.replicate 8 0, 4⟩) ∧
    (storeInt 0 (.number (.fin 7)) ⟨List.replicate 8 0, 8⟩
      = storeI64 0 (.number (.fin 7)) ⟨List.replicate 8 0, 8⟩) ∧
    (storeInt 0 (.number (.fin 7)) ⟨List.replicate 8 0, 8⟩).1 = .ok () ∧
    (storeInt 6 (.bigint 7) ⟨List.replicate 8 0, 4⟩).2 = ⟨List.replicate 8 0, 4⟩ :=
  ⟨(C6_guest_int_dispatch ⟨List.replicate 8 0, 3⟩ 0 (.number (.fin 7))).2.2.2.2.1
      ⟨by decide, by decide⟩,
   ((C6_guest_int_dispatch ⟨List.replicate 8 0, 4⟩ 0 (.number (.fin 7))).2.2.2.2.2.1 rfl).2.2.1,
   ((C6_guest_int_dispatch ⟨List.replicate 8 0, 8⟩ 0 (.number (.fin 7))).2.2.2.2.2.2.1
      rfl).2.2.1,
   ((C6_guest_int_dispatch ⟨List.replicate 8 0, 8⟩ 0 (.number (.fin 7))).2.2.2.2.2.2.2.1
      (Or.inr rfl)).2.2.1.mpr ⟨by decide, fun h => absurd h (by decide)⟩,
   ((C6_guest_int_dispatch ⟨List.replicate 8 0, 4⟩ 6 (.bigint 7)).2.2.2.2.2.2.2.2.1
      (Or.inl (by decide))).1 (by decide)⟩

end Odin

namespace Odin

theorem roundUp_spec (p a : ℕ) (ha : 1 ≤ a) :
    a ∣ (if p % a ≠ 0 then p + (a - p % a) else p) ∧
    p ≤ (if p % a ≠ 0 then p + (a - p % a) else p) ∧
    ∀ m, a ∣ m → p ≤ m → (if p % a ≠ 0 then p + (a - p % a) else p) ≤ m := by
  have hmod : p % a < a := Nat.mod_lt _ (by omega)
  have hdm := Nat.div_add_mod p a
  by_cases h : p % a = 0
  · simp only [h, ne_eq, not_true_eq_false, if_false]
    exact ⟨Nat.dvd_of_mod_eq_zero h, le_rfl, fun m _ hm => hm⟩
  · simp only [ne_eq, h, not_false_eq_true, if_true]
    have hr : p + (a - p % a) = a * (p / a + 1) := by
      rw [Nat.mul_add, Nat.mul_one]; omega
    refine ⟨⟨p / a + 1, hr⟩, by omega, ?_⟩
    rintro m ⟨j, rfl⟩ hm
    rw [hr]
    apply Nat.mul_le_mul_left
    by_contra hcon
    have hj : j ≤ p / a := by omega
    have : a * j ≤ a * (p / a) := Nat.mul_le_mul_left _ hj
    omega

end Odin

namespace Odin

theorem bitAnd_pow2_sub_one (k p : ℕ) (hp : p < 2 ^ 31) :
    bitAnd (p : ℤ) (((2 ^ k : ℕ) : ℤ) - 1) = ((p % 2 ^ k : ℕ) : ℤ) := by
  have hp1 : ((p : ℤ) % 4294967296).toNat = p := by omega
  have h2k : 0 < 2 ^ k := Nat.pow_pos (by norm_num)
  unfold bitAnd
  rw [hp1]
  by_cases hk : k < 32
  · have hlt : 2 ^ k ≤ 2 ^ 31 := Nat.pow_le_pow_right (by norm_num) (by omega)
    have h1 : ((((2 ^ k : ℕ) : ℤ) - 1) % 4294967296).toNat = 2 ^ k - 1 := by omega
    rw [h1, Nat.and_pow_two_sub_one_eq_mod]
    have hm : p % 2 ^ k < 2 ^ k := Nat.mod_lt _ h2k
    unfold toInt32
    simp only []
    split <;> omega
  · have hge : 32 ≤ k := by omega
    obtain ⟨j, rfl⟩ := Nat.exists_eq_add_of_le hge
    have hpow : 2 ^ (32 + j) = 4294967296 * 2 ^ j := by rw [pow_add]; norm_num
    have hj : 0 < 2 ^ j := Nat.pow_pos (by norm_num)
    have h1 : ((((2 ^ (32 + j) : ℕ) : ℤ) - 1) % 4294967296).toNat = 2 ^ 32 - 1 := by
      rw [hpow]
      push_cast
      have : ((4294967296 : ℤ) * 2 ^ j - 1) % 4294967296 = 4294967295 := by
        have e : (4294967296 : ℤ) * 2 ^ j - 1 = 4294967295 + 4294967296 * (2 ^ j - 1) := by ring
        rw [e, Int.add_mul_emod_self_left]; norm_num
      rw [this]; rfl
    rw [h1, Nat.and_pow_two_sub_one_eq_mod]
    have hbig : p < 2 ^ (32 + j) := by
      rw [hpow]; nlinarith
    rw [Nat.mod_eq_of_lt hbig]
    have hp32 : p % 2 ^ 32 = p := Nat.mod_eq_of_lt (by omega)
    rw [hp32]
    unfold toInt32
    simp only []
    split <;> omega

theorem align_pow2 (k p : ℕ) (hp : p < 2 ^ 31) :
    align (2 ^ k) (some p)
      = some (if p % 2 ^ k ≠ 0 then p + (2 ^ k - p % 2 ^ k) else p) := by
  have h2k : 0 < 2 ^ k := Nat.pow_pos (by norm_num)
  have hm : p % 2 ^ k < 2 ^ k := Nat.mod_lt _ h2k
  have hb := bitAnd_pow2_sub_one k p hp
  simp only [align]
  rw [hb]
  by_cases h : p % 2 ^ k = 0
  · simp [h]
  · have h' : ((p % 2 ^ k : ℕ) : ℤ) ≠ 0 := by exact_mod_cast h
    rw [if_pos h', if_pos h]
    congr 1
    omega

theorem roundDouble_natCast (n : ℕ) (h : n ≤ 2 ^ 53) : roundDouble (n : ℚ) = .fin n := by
  by_cases hlt : n < 2 ^ 53
  · have := roundDouble_intCast (n : ℤ) (by rw [abs_lt]; constructor <;> omega)
    simpa using this
  · have hn : n = 2 ^ 53 := by omega
    subst hn
    have := roundDouble_exact (2 ^ 52) 1 (by norm_num) (by norm_num) (by norm_num)
    rw [pow2_eq] at this
    norm_num at this ⊢
    exact this

theorem Num.add_ofNat (m n : ℕ) (h : m + n ≤ 2 ^ 53) :
    Num.add (.ofNat m) (.ofNat n) = .ofNat (m + n) := by
  simp only [Num.add, Num.ofNat]
  split
  · rename_i h0
    have : ((m + n : ℕ) : ℚ) = 0 := by push_cast; exact h0
    rw [this]
  · have := roundDouble_natCast (m + n) h
    push_cast at this
    rw [this, Nat.cast_add]

theorem Num.sub_ofNat (m n : ℕ) (hn : n ≤ m) (h : m ≤ 2 ^ 53) :
    Num.sub (.ofNat m) (.ofNat n) = .ofNat (m - n) := by
  have hcast : ((m - n : ℕ) : ℚ) = (m : ℚ) - (n : ℚ) := Nat.cast_sub hn
  by_cases hz : n = 0
  · subst hz
    simp [Num.sub, Num.neg, Num.add, Num.ofNat]
  · have hq : (n : ℚ) ≠ 0 := by exact_mod_cast hz
    simp only [Num.sub, Num.neg, Num.ofNat, hq, if_false, Num.add]
    split
    · rename_i h0
      have : ((m - n : ℕ) : ℚ) = 0 := by rw [hcast]; linarith
      rw [this]
    · have := roundDouble_natCast (m - n) (by omega)
      rw [hcast] at this
      rw [← sub_eq_add_neg, this, hcast]

theorem Num.truncate_ofNat (n : ℕ) : Num.truncate (.ofNat n) = n := by
  simp [Num.truncate, Num.ofNat]

theorem Num.isZero_ofNat (n : ℕ) : Num.isZero (.ofNat n) = decide (n = 0) := by
  simp [Num.isZero, Num.ofNat]

theorem Num.rem_ofNat (p a : ℕ) (ha : a ≠ 0) :
    Num.rem (.ofNat p) (.ofNat a) = .ofNat (p % a) := by
  have haq : (a : ℚ) ≠ 0 := by exact_mod_cast ha
  simp only [Num.rem, Num.ofNat, haq, if_false]
  by_cases hp : p = 0
  · subst hp
    simp
  · have hpq : (p : ℚ) ≠ 0 := by exact_mod_cast hp
    rw [if_neg hpq]
    have h0 : (0 : ℚ) ≤ (p : ℚ) / (a : ℚ) := by positivity
    have hfl : ⌊(p : ℚ) / (a : ℚ)⌋ = ((p / a : ℕ) : ℤ) := by
      have := Rat.floor_intCast_div_natCast (p : ℤ) a
      simpa using this
    have hval : (p : ℚ) - (a : ℚ) * ((Num.truncate (.fin ((p : ℚ) / (a : ℚ))) : ℤ) : ℚ)
        = ((p % a : ℕ) : ℚ) := by
      simp only [Num.truncate, h0, if_true, hfl, Int.cast_natCast]
      have := Nat.div_add_mod p a
      have hc : ((a * (p / a) + p % a : ℕ) : ℚ) = (p : ℚ) := by rw [this]
      rw [Nat.cast_add, Nat.cast_mul] at hc
      linarith
    simp only [hval]
    have hnn : ¬ ((p : ℚ) < 0) := by
      have : (0 : ℚ) ≤ (p : ℚ) := Nat.cast_nonneg p
      linarith
    rw [if_neg (fun h => hnn h.2)]

theorem Num.min_ofNat (m n : ℕ) :
    Num.min (.ofNat m) (.ofNat n) = .ofNat (Min.min m n) := by
  simp only [Num.min, Num.ofNat]
  by_cases h : m ≤ n
  · rw [if_pos (by exact_mod_cast h), Nat.min_eq_left h]
  · rw [if_neg (by exact_mod_cast h), Nat.min_eq_right (by omega)]

/-- Below 2^53 the closure `off` of the source computes what the exact closure
computes. -/
theorem Binary64.off_ofNat (W p s a : ℕ) (ha : 1 ≤ a) (ha2 : a ≤ 2 ^ 53)
    (hr : roundUp p a + s ≤ 2 ^ 53) :
    Binary64.off (.ofNat W) (.ofNat s) (some (.ofNat a)) (.ofNat p)
      = (.ofNat (roundUp p a), .ofNat (roundUp p a + s)) := by
  have hmod : p % a < a := Nat.mod_lt _ (by omega)
  unfold roundUp at hr ⊢
  simp only [Binary64.off, Num.rem_ofNat p a (by omega), Num.isZero_ofNat]
  by_cases hm : p % a = 0
  · simp only [hm, decide_True, ne_eq, not_true_eq_false, if_false, Bool.true_eq_false] at hr ⊢
    rw [Num.add_ofNat p s hr]
  · simp only [hm, decide_False, ne_eq, not_false_eq_true, if_true] at hr ⊢
    rw [Num.sub_ofNat a (p % a) (by omega) ha2, Num.add_ofNat p (a - p % a) (by omega),
      Num.add_ofNat _ s hr]

theorem Binary64.off_omitted (W s : ℕ) (offset : Num) :
    Binary64.off (.ofNat W) (.ofNat s) none offset
      = Binary64.off (.ofNat W) (.ofNat s) (some (.ofNat (min s W))) offset := by
  simp only [Binary64.off, Num.min_ofNat]

theorem roundUp_pow2_le (k p : ℕ) (hk : k ≤ 53) (hp : p < 2 ^ 31) :
    roundUp p (2 ^ k) ≤ 2 ^ 53 := by
  have h2k : 0 < 2 ^ k := Nat.pow_pos (by norm_num)
  have hkle : 2 ^ k ≤ 2 ^ 53 := Nat.pow_le_pow_right (by norm_num) hk
  have hmod : p % 2 ^ k < 2 ^ k := Nat.mod_lt _ h2k
  have hmle : p % 2 ^ k ≤ p := Nat.mod_le _ _
  unfold roundUp
  by_cases hlt : p < 2 ^ k
  · rw [Nat.mod_eq_of_lt hlt]
    split <;> omega
  · have h31 : (2 : ℕ) ^ 31 ≤ 2 ^ 53 := Nat.pow_le_pow_right (by norm_num) (by norm_num)
    split <;> omega

/-- For a power of two up to 2^53 and a cursor below 2^31 the closure `align`
of the source computes what the exact closure computes. -/
theorem Binary64.align_ofNat (k p : ℕ) (hk : k ≤ 53) (hp : p < 2 ^ 31) :
    Binary64.align (.ofNat (2 ^ k)) (.ofNat p) = .ofNat (roundUp p (2 ^ k)) := by
  have h2k : 0 < 2 ^ k := Nat.pow_pos (by norm_num)
  have hkle : 2 ^ k ≤ 2 ^ 53 := Nat.pow_le_pow_right (by norm_num) hk
  have hmod : p % 2 ^ k < 2 ^ k := Nat.mod_lt _ h2k
  have hle := roundUp_pow2_le k p hk hp
  have h1 : Num.sub (.ofNat (2 ^ k)) (.fin 1) = .ofNat (2 ^ k - 1) := by
    have := Num.sub_ofNat (2 ^ k) 1 (by omega) hkle
    simpa [Num.ofNat] using this
  have hcast : (((2 ^ k - 1 : ℕ) : ℕ) : ℤ) = ((2 ^ k : ℕ) : ℤ) - 1 := by
    rw [Nat.cast_sub (by omega)]; rfl
  unfold roundUp at hle ⊢
  simp only [Binary64.align]
  rw [h1, Num.truncate_ofNat, Num.truncate_ofNat, hcast, bitAnd_pow2_sub_one k p hp]
  by_cases hm : p % 2 ^ k = 0
  · simp [hm]
  · have hm' : ((p % 2 ^ k : ℕ) : ℤ) ≠ 0 := by exact_mod_cast hm
    have hofInt : Num.ofInt ((p % 2 ^ k : ℕ) : ℤ) = Num.ofNat (p % 2 ^ k) := by
      show Num.fin (((p % 2 ^ k : ℕ) : ℤ) : ℚ) = Num.fin ((p % 2 ^ k : ℕ) : ℚ)
      rw [Int.cast_natCast]
    rw [if_pos hm', if_pos hm] at *
    rw [hofInt, Num.sub_ofNat _ _ (by omega) hkle, Num.add_ofNat _ _ hle]

set_option maxRecDepth 1000000 in
/-- C9 as stated fails on the code for a cursor beyond 2^53, where the
Number arithmetic of the closure rounds.  From the cursor 2^53 + 2 (a
Number), off(1, 4) returns r = 2^53 + 4, the least multiple of 4 that is not
below the cursor, but `offset += 1` leaves the cursor at r: the sum
2^53 + 5 is not a Number and rounds to 2^53 + 4.  The cursor afterwards is
not r + s. -/
theorem C9_counterexample_cursor_past_2_pow_53 :
    roundDouble 9007199254740994 = .fin 9007199254740994 ∧
    Binary64.off (.fin 4) (.fin 1) (some (.fin 4)) (.fin 9007199254740994)
      = (.fin 9007199254740996, .fin 9007199254740996) ∧
    (Binary64.off (.fin 4) (.fin 1) (some (.fin 4)) (.fin 9007199254740994)).2
      ≠ .fin (9007199254740996 + 1) := by
  decide!

/-- C9 (amended): reserve (the closure `off`).  For every cursor position p,
size s and alignment a ≥ 1 with p + a + s < 2^53 the closure, computed in
the Number arithmetic of the source, returns the least multiple r of a with
r ≥ p and leaves the cursor at r + s (and the exact closure `off` computes
the same); with the alignment omitted it behaves as a = min(s, W). -/
theorem C9_reserve (W p s a : ℕ) (ha : 1 ≤ a) (hexact : p + a + s < 2 ^ 53) :
    (∃ r, Binary64.off (.ofNat W) (.ofNat s) (some (.ofNat a)) (.ofNat p)
          = (.ofNat r, .ofNat (r + s)) ∧
      off W s (some a) (some p) = (some r, some (r + s)) ∧
      a ∣ r ∧ p ≤ r ∧ ∀ m, a ∣ m → p ≤ m → r ≤ m) ∧
    Binary64.off (.ofNat W) (.ofNat s) none (.ofNat p)
      = Binary64.off (.ofNat W) (.ofNat s) (some (.ofNat (min s W))) (.ofNat p) ∧
    off W s none (some p) = off W s (some (min s W)) (some p) := by
  have hmod : p % a < a := Nat.mod_lt _ (by omega)
  have hle : roundUp p a + s ≤ 2 ^ 53 := by
    unfold roundUp
    split <;> omega
  refine ⟨⟨roundUp p a, Binary64.off_ofNat W p s a ha (by omega) hle, ?_, roundUp_spec p a ha⟩,
    Binary64.off_omitted W s _, rfl⟩
  have ha0 : a ≠ 0 := by omega
  simp only [off, roundUp, ha0, if_false]
  split <;> rfl

/-- Witness of C9: from cursor 13, reserving 8 bytes aligned to 8 returns 16
and leaves the cursor at 24. -/
theorem C9_reserve_witness :
    (∃ r, Binary64.off (.ofNat 4) (.ofNat 8) (some (.ofNat 8)) (.ofNat 13)
          = (.ofNat r, .ofNat (r + 8)) ∧
      off 4 8 (some 8) (some 13) = (some r, some (r + 8)) ∧
      8 ∣ r ∧ 13 ≤ r ∧ ∀ m, 8 ∣ m → 13 ≤ m → r ≤ m) ∧
    Binary64.off (.ofNat 4) (.ofNat 8) none (.ofNat 13)
      = Binary64.off (.ofNat 4) (.ofNat 8) (some (.ofNat (min 8 4))) (.ofNat 13) ∧
    off 4 8 none (some 13) = off 4 8 (some (min 8 4)) (some 13) :=
  C9_reserve 4 13 8 8 (by decide) (by decide)

set_option maxRecDepth 1000000 in
/-- C10 as stated fails on the code for the power of two 2^54: `alignment - 1`
is not a Number and rounds to 2^54, whose low 32 bits are zero, so
`offset & (alignment - 1)` is 0 and align(2^54) leaves the cursor at 13,
which is not a multiple of 2^54. -/
theorem C10_counterexample_alignment_2_pow_54 :
    roundDouble 18014398509481984 = .fin 18014398509481984 ∧
    Num.sub (.fin 18014398509481984) (.fin 1) = .fin 18014398509481984 ∧
    Binary64.align (.fin 18014398509481984) (.fin 13) = .fin 13 ∧
    ¬ (18014398509481984 ∣ 13) := by
  decide!

/-- C10 (amended): alignTo (the closure `align`).  For every power of two
a = 2^k with k ≤ 53 and every cursor position p < 2^31, after align(a),
computed in the Number arithmetic of the source, the cursor is the least
multiple of a that is ≥ p (and the exact closure `align` computes the same);
it is the address that off(_, a) would return, nothing is reserved (the
cursor is the one off(0, a) leaves), and a cursor that is already a multiple
of a is unchanged. -/
theorem C10_alignTo (k p : ℕ) (hk : k ≤ 53) (hp : p < 2 ^ 31) :
    ∃ r, Binary64.align (.ofNat (2 ^ k)) (.ofNat p) = .ofNat r ∧
      align (2 ^ k) (some p) = some r ∧
      2 ^ k ∣ r ∧ p ≤ r ∧ (∀ m, 2 ^ k ∣ m → p ≤ m → r ≤ m) ∧
      (∀ W s, (Binary64.off (.ofNat W) (.ofNat s) (some (.ofNat (2 ^ k))) (.ofNat p)).1
        = .ofNat r) ∧
      (∀ W, (Binary64.off (.ofNat W) (.ofNat 0) (some (.ofNat (2 ^ k))) (.ofNat p)).2
        = .ofNat r) ∧
      (∀ W s, (off W s (some (2 ^ k)) (some p)).1 = some r) ∧
      (∀ W, (off W 0 (some (2 ^ k)) (some p)).2 = some r) ∧
      (2 ^ k ∣ p → r = p) := by
  have h2k : 0 < 2 ^ k := Nat.pow_pos (by norm_num)
  have h2k0 : 2 ^ k ≠ 0 := by omega
  have hkle : 2 ^ k ≤ 2 ^ 53 := Nat.pow_le_pow_right (by norm_num) hk
  have hle := roundUp_pow2_le k p hk hp
  obtain ⟨hd, hle2, hmin⟩ := roundUp_spec p (2 ^ k) h2k
  have hoff : ∀ W, Binary64.off (.ofNat W) (.ofNat 0) (some (.ofNat (2 ^ k))) (.ofNat p)
      = (.ofNat (roundUp p (2 ^ k)), .ofNat (roundUp p (2 ^ k) + 0)) :=
    fun W => Binary64.off_ofNat W p 0 (2 ^ k) h2k hkle (by omega)
  refine ⟨roundUp p (2 ^ k), Binary64.align_ofNat k p hk hp, align_pow2 k p hp, hd, hle2, hmin,
    ?_, ?_, ?_, ?_, ?_⟩
  · intro W s
    have h1 : (Binary64.off (.ofNat W) (.ofNat s) (some (.ofNat (2 ^ k))) (.ofNat p)).1
        = (Binary64.off (.ofNat W) (.ofNat 0) (some (.ofNat (2 ^ k))) (.ofNat p)).1 := rfl
    rw [h1, hoff W]
  · intro W
    rw [hoff W]
    rfl
  · intro W s
    simp only [off, roundUp, h2k0, if_false]
    split <;> rfl
  · intro W
    simp only [off, roundUp, h2k0, if_false]
    split <;> rfl
  · intro hdiv
    unfold roundUp
    rw [if_neg (by simpa using Nat.mod_eq_zero_of_dvd hdiv)]

/-- Witness of C10: align(8) moves the cursor from 13 to 16. -/
theorem C10_alignTo_witness :
    ∃ r, Binary64.align (.ofNat (2 ^ 3)) (.ofNat 13) = .ofNat r ∧
      align (2 ^ 3) (some 13) = some r ∧
      2 ^ 3 ∣ r ∧ 13 ≤ r ∧ (∀ m, 2 ^ 3 ∣ m → 13 ≤ m → r ≤ m) ∧
      (∀ W s, (Binary64.off (.ofNat W) (.ofNat s) (some (.ofNat (2 ^ 3))) (.ofNat 13)).1
        = .ofNat r) ∧
      (∀ W, (Binary64.off (.ofNat W) (.ofNat 0) (some (.ofNat (2 ^ 3))) (.ofNat 13)).2
        = .ofNat r) ∧
      (∀ W s, (off W s (some (2 ^ 3)) (some 13)).1 = some r) ∧
      (∀ W, (off W 0 (some (2 ^ 3)) (some 13)).2 = some r) ∧
      (2 ^ 3 ∣ 13 → r = 13) :=
  C10_alignTo 3 13 (by decide) (by decide)

end Odin

namespace Odin
open WasmMemoryInterface

/-! ## UTF-8 -/

theorem step_init (b : ℕ) : Utf8Decoder.step .init b = Utf8Decoder.first b := by
  unfold Utf8Decoder.step
  exact if_pos rfl

theorem step_cont (d : Utf8Decoder) (b : ℕ) (hn : d.bytesNeeded ≠ 0)
    (hr : d.lowerBoundary ≤ b ∧ b ≤ d.upperBoundary) :
    d.step b = if d.bytesSeen + 1 = d.bytesNeeded then (.init, [d.codePoint * 64 + b % 64])
      else (⟨d.codePoint * 64 + b % 64, d.bytesSeen + 1, d.bytesNeeded, 0x80, 0xBF⟩, []) := by
  unfold Utf8Decoder.step
  rw [if_neg hn, if_neg (by omega)]

theorem first_one (b : ℕ) (h : b ≤ 0x7F) : Utf8Decoder.first b = (.init, [b]) := by
  unfold Utf8Decoder.first
  rw [if_pos h]

theorem first_two (b : ℕ) (h : 0xC2 ≤ b ∧ b ≤ 0xDF) :
    Utf8Decoder.first b = (⟨b % 32, 0, 1, 0x80, 0xBF⟩, []) := by
  unfold Utf8Decoder.first
  rw [if_neg (by omega), if_pos h]

theorem first_three (b : ℕ) (h : 0xE0 ≤ b ∧ b ≤ 0xEF) :
    Utf8Decoder.first b = (⟨b % 16, 0, 2, if b = 0xE0 then 0xA0 else 0x80,
      if b = 0xED then 0x9F else 0xBF⟩, []) := by
  unfold Utf8Decoder.first
  rw [if_neg (by omega), if_neg (by omega), if_pos h]

theorem first_four (b : ℕ) (h : 0xF0 ≤ b ∧ b ≤ 0xF4) :
    Utf8Decoder.first b = (⟨b % 8, 0, 3, if b = 0xF0 then 0x90 else 0x80,
      if b = 0xF4 then 0x8F else 0xBF⟩, []) := by
  unfold Utf8Decoder.first
  rw [if_neg (by omega), if_neg (by omega), if_neg (by omega), if_pos h]

theorem utf8Decode_cons (d : Utf8Decoder) (b : Byte) (bs : List Byte) :
    utf8Decode d (b :: bs) = (d.step b.val).2 ++ utf8Decode (d.step b.val).1 bs := rfl

theorem utf8Decode_one (b1 : Byte) (rest : List Byte) (h1 : b1.val ≤ 0x7F) :
    utf8Decode .init (b1 :: rest) = b1.val :: utf8Decode .init rest := by
  rw [utf8Decode_cons, step_init, first_one _ h1]
  rfl

theorem utf8Decode_two (b1 b2 : Byte) (rest : List Byte)
    (h1 : 0xC2 ≤ b1.val ∧ b1.val ≤ 0xDF) (h2 : 0x80 ≤ b2.val ∧ b2.val ≤ 0xBF) :
    utf8Decode .init (b1 :: b2 :: rest)
      = (b1.val % 32 * 64 + b2.val % 64) :: utf8Decode .init rest := by
  rw [utf8Decode_cons, step_init, first_two _ h1, utf8Decode_cons,
    step_cont _ _ (by simp) h2]
  rfl

theorem utf8Decode_three (b1 b2 b3 : Byte) (rest : List Byte)
    (h1 : 0xE0 ≤ b1.val ∧ b1.val ≤ 0xEF)
    (h2 : (if b1.val = 0xE0 then 0xA0 else 0x80) ≤ b2.val ∧
      b2.val ≤ (if b1.val = 0xED then 0x9F else 0xBF))
    (h3 : 0x80 ≤ b3.val ∧ b3.val ≤ 0xBF) :
    utf8Decode .init (b1 :: b2 :: b3 :: rest)
      = ((b1.val % 16 * 64 + b2.val % 64) * 64 + b3.val % 64) :: utf8Decode .init rest := by
  rw [utf8Decode_cons, step_init, first_three _ h1, utf8Decode_cons,
    step_cont _ _ (by simp) h2]
  simp only []
  rw [if_neg (by decide), utf8Decode_cons, step_cont _ _ (by simp) h3]
  rfl

theorem utf8Decode_four (b1 b2 b3 b4 : Byte) (rest : List Byte)
    (h1 : 0xF0 ≤ b1.val ∧ b1.val ≤ 0xF4)
    (h2 : (if b1.val = 0xF0 then 0x90 else 0x80) ≤ b2.val ∧
      b2.val ≤ (if b1.val = 0xF4 then 0x8F else 0xBF))
    (h3 : 0x80 ≤ b3.val ∧ b3.val ≤ 0xBF) (h4 : 0x80 ≤ b4.val ∧ b4.val ≤ 0xBF) :
    utf8Decode .init (b1 :: b2 :: b3 :: b4 :: rest)
      = (((b1.val % 8 * 64 + b2.val % 64) * 64 + b3.val % 64) * 64 + b4.val % 64)
        :: utf8Decode .init rest := by
  rw [utf8Decode_cons, step_init, first_four _ h1, utf8Decode_cons,
    step_cont _ _ (by simp) h2]
  simp only []
  rw [if_neg (by decide), utf8Decode_cons, step_cont _ _ (by simp) h3]
  simp only []
  rw [if_neg (by decide), utf8Decode_cons, step_cont _ _ (by simp) h4]
  rfl

/-- Decoding the UTF-8 encoding of a scalar value gives it back. -/
theorem utf8Decode_encodeScalar (c : ℕ) (rest : List Byte) (hc : IsScalarValue c) :
    utf8Decode .init (utf8EncodeScalar c ++ rest) = c :: utf8Decode .init rest := by
  obtain ⟨hc1, hc2⟩ := hc
  unfold utf8EncodeScalar
  split
  · rw [List.singleton_append, utf8Decode_one _ _ (by simp only [byte]; omega)]
    congr 1
    simp only [byte]; omega
  · split
    · simp only [List.cons_append, List.nil_append]
      rw [utf8Decode_two _ _ _ (by simp only [byte]; omega) (by simp only [byte]; omega)]
      congr 1
      simp only [byte]; omega
    · split
      · simp only [List.cons_append, List.nil_append]
        rw [utf8Decode_three _ _ _ _ (by simp only [byte]; omega)
          (by simp only [byte]; constructor <;> split <;> omega) (by simp only [byte]; omega)]
        congr 1
        simp only [byte]; omega
      · simp only [List.cons_append, List.nil_append]
        rw [utf8Decode_four _ _ _ _ _ (by simp only [byte]; omega)
          (by simp only [byte]; constructor <;> split <;> omega) (by simp only [byte]; omega)
          (by simp only [byte]; omega)]
        congr 1
        simp only [byte]; omega

end Odin

namespace Odin
open WasmMemoryInterface

theorem utf8Decode_flatMap (cs : List ℕ) (h : ∀ c ∈ cs, IsScalarValue c) :
    utf8Decode .init (cs.flatMap utf8EncodeScalar) = cs := by
  induction cs with
  | nil => rfl
  | cons c cs ih =>
    rw [List.flatMap_cons, utf8Decode_encodeScalar c _ (h c (List.mem_cons_self _ _)),
      ih (fun x hx => h x (List.mem_cons_of_mem _ hx))]

theorem toScalarValues_scalar : ∀ (s : JSString), ∀ c ∈ toScalarValues s, IsScalarValue c
  | [] => by intro c hc; simp [toScalarValues] at hc
  | [u] => by
    intro c hc
    have hu := u.isLt
    simp only [toScalarValues, isHighSurrogate, isLowSurrogate, Bool.or_eq_true,
      decide_eq_true_eq] at hc
    split at hc
    · simp only [List.mem_singleton] at hc
      subst hc; unfold IsScalarValue; omega
    · simp only [List.mem_singleton] at hc
      subst hc; unfold IsScalarValue; omega
  | u :: v :: rest => by
    intro c hc
    have ih1 := toScalarValues_scalar rest
    have ih2 := toScalarValues_scalar (v :: rest)
    have hu := u.isLt
    have hv := v.isLt
    simp only [toScalarValues, isHighSurrogate, isLowSurrogate, Bool.or_eq_true,
      Bool.and_eq_true, decide_eq_true_eq] at hc
    split at hc
    · rcases List.mem_cons.mp hc with hc | hc
      · rw [hc]; unfold IsScalarValue; omega
      · exact ih1 c hc
    · split at hc
      · rcases List.mem_cons.mp hc with hc | hc
        · rw [hc]; unfold IsScalarValue; omega
        · exact ih2 c hc
      · rcases List.mem_cons.mp hc with hc | hc
        · rw [hc]; unfold IsScalarValue; omega
        · exact ih2 c hc

/-- Decoding what the encoder produced gives the scalar values of the string. -/
theorem utf8Decode_encode (s : JSString) :
    utf8Decode .init (TextEncoder.encode s) = toScalarValues s :=
  utf8Decode_flatMap _ (toScalarValues_scalar s)

theorem length_utf8EncodeScalar (c : ℕ) : (utf8EncodeScalar c).length = utf8Length c := by
  unfold utf8EncodeScalar utf8Length
  split_ifs <;> rfl

theorem length_encode (s : JSString) : (TextEncoder.encode s).length = byteLength s := by
  unfold TextEncoder.encode byteLength
  induction toScalarValues s with
  | nil => rfl
  | cons c cs ih => simp [List.flatMap_cons, length_utf8EncodeScalar, ih]

end Odin

namespace Odin
open WasmMemoryInterface

theorem codeUnit_val (u : CodeUnit) : codeUnit u.val = u := by
  apply Fin.ext
  simp only [codeUnit]
  exact Nat.mod_eq_of_lt u.isLt

theorem codeUnit_eq (n : ℕ) (u : CodeUnit) (h : n = u.val) : codeUnit n = u := by
  rw [h]; exact codeUnit_val u

theorem fromScalarValues_toScalarValues :
    ∀ (s : JSString), wellFormed s = true → fromScalarValues (toScalarValues s) = s
  | [] => by intro _; rfl
  | [u] => by
    intro h
    have hu := u.isLt
    simp only [wellFormed, Bool.not_eq_true', Bool.or_eq_false_iff] at h
    simp only [toScalarValues, h.1, h.2, Bool.or_self, Bool.false_eq_true, if_false,
      fromScalarValues]
    rw [if_pos (by omega), codeUnit_val]
  | u :: v :: rest => by
    intro h
    have ih1 := fromScalarValues_toScalarValues rest
    have ih2 := fromScalarValues_toScalarValues (v :: rest)
    have hu := u.isLt
    have hv := v.isLt
    rw [wellFormed] at h
    by_cases hh : isHighSurrogate u.val = true
    · rw [if_pos hh, Bool.and_eq_true] at h
      obtain ⟨hl, hw⟩ := h
      rw [toScalarValues, hh, hl]
      simp only [Bool.and_self, if_true, fromScalarValues]
      simp only [isHighSurrogate, isLowSurrogate, decide_eq_true_eq] at hh hl
      rw [if_neg (by omega), ih1 hw,
        codeUnit_eq (0xD800 + (0x10000 + (u.val - 0xD800) * 0x400 + (v.val - 0xDC00) - 0x10000)
          / 0x400) u (by omega),
        codeUnit_eq (0xDC00 + (0x10000 + (u.val - 0xD800) * 0x400 + (v.val - 0xDC00) - 0x10000)
          % 0x400) v (by omega)]
    · rw [if_neg hh, Bool.and_eq_true] at h
      obtain ⟨hl, hw⟩ := h
      simp only [Bool.not_eq_true', Bool.not_eq_true] at hl hh
      rw [toScalarValues, hh, hl]
      simp only [Bool.false_and, Bool.or_self, Bool.false_eq_true, if_false, fromScalarValues]
      rw [if_pos (by omega), ih2 hw, codeUnit_val]

theorem stripBOM_toScalarValues (s : JSString) (h : s.head? ≠ some 0xFEFF) :
    stripBOM (toScalarValues s) = toScalarValues s := by
  have key : ∀ cs : List ℕ, cs.head? ≠ some 0xFEFF → stripBOM cs = cs := by
    intro cs hcs
    unfold stripBOM
    split
    · simp at hcs
    · rfl
  apply key
  match s, h with
  | [], _ => simp [toScalarValues]
  | [u], h =>
    have hu : u.val ≠ 0xFEFF := by
      intro hcon
      apply h
      simp only [List.head?_cons, Option.some.injEq]
      exact Fin.ext hcon
    simp only [toScalarValues]
    split <;> simp [hu]
  | u :: v :: rest, h =>
    have hu : u.val ≠ 0xFEFF := by
      intro hcon
      apply h
      simp only [List.head?_cons, Option.some.injEq]
      exact Fin.ext hcon
    simp only [toScalarValues]
    split
    · simp only [List.head?_cons, ne_eq, Option.some.injEq]
      omega
    · split <;> simp [hu]

/-- What `new TextDecoder().decode(new TextEncoder().encode(s))` is for a
well-formed string whose first code unit is not U+FEFF. -/
theorem decode_encode (s : JSString) (hw : wellFormed s = true) (hb : s.head? ≠ some 0xFEFF) :
    TextDecoder.decode (TextEncoder.encode s) = s := by
  unfold TextDecoder.decode
  rw [utf8Decode_encode, stripBOM_toScalarValues s hb, fromScalarValues_toScalarValues s hw]

end Odin

namespace Odin
open WasmMemoryInterface

theorem bom_not_surrogate :
    isHighSurrogate (0xFEFF : CodeUnit).val = false ∧
    isLowSurrogate (0xFEFF : CodeUnit).val = false := by
  decide

theorem wellFormed_tail_of_bom (rest : JSString)
    (hw : wellFormed ((0xFEFF : CodeUnit) :: rest) = true) : wellFormed rest = true := by
  cases rest with
  | nil => rfl
  | cons v rest =>
    rw [wellFormed, bom_not_surrogate.1, bom_not_surrogate.2] at hw
    simpa using hw

theorem toScalarValues_bom (rest : JSString) :
    toScalarValues ((0xFEFF : CodeUnit) :: rest) = 0xFEFF :: toScalarValues rest := by
  cases rest with
  | nil => decide
  | cons v rest =>
    rw [toScalarValues, bom_not_surrogate.1, bom_not_surrogate.2]
    simp only [Bool.false_and, Bool.or_self, Bool.false_eq_true, if_false]
    rfl

theorem stripBOM_bom (cs : List ℕ) : stripBOM (0xFEFF :: cs) = cs := rfl

/-- What `new TextDecoder().decode(new TextEncoder().encode(s))` is for a
well-formed string whose first code unit is U+FEFF: the string without it. -/
theorem decode_encode_bom (s : JSString) (hw : wellFormed s = true)
    (hb : s.head? = some 0xFEFF) :
    TextDecoder.decode (TextEncoder.encode s) = s.tail := by
  cases s with
  | nil => simp at hb
  | cons u rest =>
    simp only [List.head?_cons, Option.some.injEq] at hb
    subst hb
    unfold TextDecoder.decode
    rw [utf8Decode_encode, toScalarValues_bom, stripBOM_bom, List.tail_cons]
    exact fromScalarValues_toScalarValues rest (wellFormed_tail_of_bom rest hw)

/-- C7 as stated fails on a well-formed string that starts with U+FEFF: the
three bytes ef bb bf are stored and 3 is returned, but loadString(addr, 3)
returns the empty string, because a TextDecoder drops a leading byte order
mark. -/
theorem C7_counterexample_leading_bom :
    wellFormed [0xFEFF] = true ∧
    (storeString 0 [0xFEFF] ⟨List.replicate 4 0, 4⟩).1 = .ok 3 ∧
    (storeString 0 [0xFEFF] ⟨List.replicate 4 0, 4⟩).2.memory = [0xEF, 0xBB, 0xBF, 0] ∧
    loadString (storeString 0 [0xFEFF] ⟨List.replicate 4 0, 4⟩).2 0 3 = .ok [] ∧
    loadString (storeString 0 [0xFEFF] ⟨List.replicate 4 0, 4⟩).2 0 3 ≠ .ok [0xFEFF] := by
  decide

/-- C7 (amended): for every string s and every address with at least
byteLength(s) bytes available, storeString(addr, s) returns the UTF-8 byte
length n of s, writes exactly the UTF-8 bytes of s at [addr, addr + n) and no
others; and when s is well-formed, loadString(addr, n) reproduces s if s does
not start with U+FEFF, and s without that first code unit if it does. -/
theorem C7_storeString_round_trip (wmi : WasmMemoryInterface) (addr : ℕ) (s : JSString)
    (h : addr + byteLength s ≤ wmi.memory.length) :
    (storeString addr s wmi).1 = .ok (byteLength s) ∧
    readBytes (storeString addr s wmi).2.memory addr (byteLength s) = TextEncoder.encode s ∧
    (∀ i, i < addr ∨ addr + byteLength s ≤ i →
      (storeString addr s wmi).2.memory[i]? = wmi.memory[i]?) ∧
    (storeString addr s wmi).2.memory.length = wmi.memory.length ∧
    (wellFormed s = true → s.head? ≠ some 0xFEFF →
      loadString (storeString addr s wmi).2 addr (byteLength s) = .ok s) ∧
    (wellFormed s = true → s.head? = some 0xFEFF →
      loadString (storeString addr s wmi).2 addr (byteLength s) = .ok s.tail) := by
  have hl := length_encode s
  have hst : storeString addr s wmi = (.ok (byteLength s),
      { wmi with memory := writeBytes wmi.memory addr (TextEncoder.encode s) }) := by
    simp only [storeString, hl, h, if_true]
  have hlen := length_writeBytes wmi.memory addr (TextEncoder.encode s) (by omega)
  have hrd := readBytes_writeBytes_same wmi.memory addr (TextEncoder.encode s) (by omega)
  rw [hl] at hrd
  rw [hst]
  refine ⟨rfl, hrd, ?_, hlen, ?_, ?_⟩
  · intro i hi
    exact getElem?_writeBytes_outside _ _ _ _ (by omega) (by omega)
  · intro hw hb
    simp only [loadString, loadBytes, hlen, h, if_true, hrd, bind, Except.bind, pure,
      Except.pure, decode_encode s hw hb]
  · intro hw hb
    simp only [loadString, loadBytes, hlen, h, if_true, hrd, bind, Except.bind, pure,
      Except.pure, decode_encode_bom s hw hb]

/-- Witness of the amended C7 on the string "é€" followed by U+1F600, and on
the same string behind a byte order mark. -/
theorem C7_storeString_round_trip_witness :
    loadString (storeString 1 [0xE9, 0x20AC, 0xD83D, 0xDE00] ⟨List.replicate 12 0, 4⟩).2 1
      (byteLength [0xE9, 0x20AC, 0xD83D, 0xDE00]) = .ok [0xE9, 0x20AC, 0xD83D, 0xDE00] ∧
    loadString (storeString 1 [0xFEFF, 0xE9, 0x20AC, 0xD83D, 0xDE00] ⟨List.replicate 13 0, 4⟩).2
      1 (byteLength [0xFEFF, 0xE9, 0x20AC, 0xD83D, 0xDE00])
      = .ok [0xE9, 0x20AC, 0xD83D, 0xDE00] :=
  ⟨(C7_storeString_round_trip ⟨List.replicate 12 0, 4⟩ 1 [0xE9, 0x20AC, 0xD83D, 0xDE00]
      (by decide)).2.2.2.2.1 (by decide) (by decide),
   (C7_storeString_round_trip ⟨List.replicate 13 0, 4⟩ 1 [0xFEFF, 0xE9, 0x20AC, 0xD83D, 0xDE00]
      (by decide)).2.2.2.2.2 (by decide) (by decide)⟩

end Odin

namespace Odin
open WasmMemoryInterface

set_option maxRecDepth 1000000 in
/-- C8 fails on the code.  With intSize = 4 and ep = 0 the keyboard record is
[0, 140) with `key` at [76, 108) and `code` at [108, 140): for a key and a
code of 40 bytes each the call succeeds and the bytes 140..147, past the end
of the record, hold the tail of `code` (nothing is truncated).  The gamepad
record is [0, 1400) with `id` at [1240, 1336) and `mapping` at [1336, 1400):
an id of 40 and a mapping of 30 code units U+4E2D are not shortened (the
limits count UTF-16 code units), so 120 and 90 bytes are written and the
bytes 1400..1425 past the record hold the tail of `mapping`. -/
theorem C8_string_fields_overflow :
    (init_event_raw quietHost (some longKeyEvent) 0 ⟨List.replicate 160 0, 4⟩).1 = .ok () ∧
    (init_event_raw quietHost (some longKeyEvent) 0 ⟨List.replicate 160 0, 4⟩).2.memory[75]?
      = some 0 ∧
    (init_event_raw quietHost (some longKeyEvent) 0 ⟨List.replicate 160 0, 4⟩).2.memory[76]?
      = some 0x61 ∧
    (init_event_raw quietHost (some longKeyEvent) 0 ⟨List.replicate 160 0, 4⟩).2.memory[107]?
      = some 0x61 ∧
    (init_event_raw quietHost (some longKeyEvent) 0 ⟨List.replicate 160 0, 4⟩).2.memory[108]?
      = some 0x62 ∧
    (init_event_raw quietHost (some longKeyEvent) 0 ⟨List.replicate 160 0, 4⟩).2.memory[140]?
      = some 0x62 ∧
    (init_event_raw quietHost (some longKeyEvent) 0 ⟨List.replicate 160 0, 4⟩).2.memory[147]?
      = some 0x62 ∧
    (init_event_raw quietHost (some longKeyEvent) 0 ⟨List.replicate 160 0, 4⟩).2.memory[148]?
      = some 0 ∧
    (init_event_raw quietHost (some cjkGamepadEvent) 0 ⟨List.replicate 1440 0, 4⟩).1 = .ok () ∧
    (init_event_raw quietHost (some cjkGamepadEvent) 0 ⟨List.replicate 1440 0, 4⟩).2.memory[1232]?
      = some 40 ∧
    (init_event_raw quietHost (some cjkGamepadEvent) 0 ⟨List.replicate 1440 0, 4⟩).2.memory[1240]?
      = some 0xE4 ∧
    (init_event_raw quietHost (some cjkGamepadEvent) 0 ⟨List.replicate 1440 0, 4⟩).2.memory[1400]?
      = some 0xB8 ∧
    (init_event_raw quietHost (some cjkGamepadEvent) 0 ⟨List.replicate 1440 0, 4⟩).2.memory[1425]?
      = some 0xAD ∧
    (init_event_raw quietHost (some cjkGamepadEvent) 0 ⟨List.replicate 1440 0, 4⟩).2.memory[1426]?
      = some 0 := by
  decide!

end Odin

namespace Odin

theorem JS.bind_def {σ α β : Type} (x : JS σ α) (f : α → JS σ β) (s : σ) :
    (x >>= f) s = match x s with
      | (.ok a, s1) => f a s1
      | (.error e, s1) => (.error e, s1) := rfl

theorem JS.pure_def {σ α : Type} (a : α) (s : σ) : (pure a : JS σ α) s = (.ok a, s) := rfl

theorem JS.bind_assoc {σ α β γ : Type} (x : JS σ α) (f : α → JS σ β) (g : β → JS σ γ) :
    x >>= f >>= g = x >>= fun a => f a >>= g := by
  funext s
  simp only [JS.bind_def]
  rcases x s with ⟨r, s1⟩
  cases r <;> rfl

theorem JS.pure_bind {σ α β : Type} (a : α) (f : α → JS σ β) : pure a >>= f = f a := rfl

theorem JS.ite_bind {σ α β : Type} (c : Prop) [Decidable c] (x y : JS σ α) (f : α → JS σ β) :
    (if c then x else y) >>= f = if c then x >>= f else y >>= f := by
  split <;> rfl

theorem init_event_raw_staged_eq (host : Host) (W : ℕ) (data : EventData) :
    init_event_raw_staged host W data
      = (init_event_common W data >>= fun _ => init_event_body host W data.event) := by
  unfold init_event_raw_staged init_event_common init_event_body
  simp only [JS.bind_assoc, JS.pure_bind, JS.ite_bind]

theorem length_patch (buf : List Byte) (addr : ℕ) (bs : List Byte) :
    (patch buf addr bs).length = buf.length := by
  unfold patch
  split
  · exact length_writeBytes _ _ _ (by assumption)
  · rfl

theorem roundUp_of_mod (p a : ℕ) (h : p % a = 0) : roundUp p a = p := by
  simp [roundUp, h]

theorem roundUp_add (p k a : ℕ) (h : p % a = 0) : roundUp (p + k) a = p + roundUp k a := by
  unfold roundUp
  have e : (p + k) % a = k % a := by
    rw [Nat.add_mod, h, Nat.zero_add, Nat.mod_mod]
  rw [e]
  split <;> omega

theorem toNumber_eq_Number (v : JSValue) (h : ∀ z, v ≠ .bigint z) : toNumber v = .ok (Number v) := by
  cases v with
  | number x => rfl
  | bigint z => exact absurd rfl (h z)
  | boolean b => rfl
  | undefined => rfl

open WasmMemoryInterface

theorem Encoder.off_some (W amt a c : ℕ) (wmi : WasmMemoryInterface) (ha : a ≠ 0) :
    Encoder.off W amt (some a) ⟨some c, wmi⟩
      = (.ok (roundUp c a), ⟨some (roundUp c a + amt), wmi⟩) := by
  simp only [Encoder.off, Odin.off, ha, if_false, roundUp]
  split <;> rfl

theorem Encoder.off_none (W amt c : ℕ) (wmi : WasmMemoryInterface) (ha : min amt W ≠ 0) :
    Encoder.off W amt none ⟨some c, wmi⟩
      = (.ok (roundUp c (min amt W)), ⟨some (roundUp c (min amt W) + amt), wmi⟩) := by
  simp only [Encoder.off, Odin.off, ha, if_false, roundUp]
  split <;> rfl

theorem bitAnd_low (k p : ℕ) (hk : k ≤ 31) :
    bitAnd (p : ℤ) (((2 ^ k : ℕ) : ℤ) - 1) = ((p % 2 ^ k : ℕ) : ℤ) := by
  have h2k : 0 < 2 ^ k := Nat.pow_pos (by norm_num)
  have hlt : 2 ^ k ≤ 2 ^ 31 := Nat.pow_le_pow_right (by norm_num) hk
  have hp1 : ((p : ℤ) % 4294967296).toNat = p % 2 ^ 32 := by omega
  have h1 : ((((2 ^ k : ℕ) : ℤ) - 1) % 4294967296).toNat = 2 ^ k - 1 := by omega
  unfold bitAnd
  rw [hp1, h1, Nat.and_pow_two_sub_one_eq_mod]
  have hdvd : 2 ^ k ∣ 2 ^ 32 := Nat.pow_dvd_pow 2 (by omega)
  rw [Nat.mod_mod_of_dvd _ hdvd]
  have hm : p % 2 ^ k < 2 ^ k := Nat.mod_lt _ h2k
  unfold toInt32
  simp only []
  split <;> omega

theorem align_low (k p : ℕ) (hk : k ≤ 31) : align (2 ^ k) (some p) = some (roundUp p (2 ^ k)) := by
  have h2k : 0 < 2 ^ k := Nat.pow_pos (by norm_num)
  have hm : p % 2 ^ k < 2 ^ k := Nat.mod_lt _ h2k
  have hb := bitAnd_low k p hk
  simp only [align, roundUp]
  rw [hb]
  by_cases h : p % 2 ^ k = 0
  · simp [h]
  · have h' : ((p % 2 ^ k : ℕ) : ℤ) ≠ 0 := by exact_mod_cast h
    rw [if_pos h', if_pos h]
    congr 1
    omega

theorem Encoder.align_four (c : ℕ) (wmi : WasmMemoryInterface) :
    Encoder.align 4 ⟨some c, wmi⟩ = (.ok (), ⟨some (roundUp c 4), wmi⟩) := by
  simp only [Encoder.align]
  rw [show (4 : ℕ) = 2 ^ 2 by norm_num, align_low 2 c (by norm_num)]

theorem Encoder.align_eight (c : ℕ) (wmi : WasmMemoryInterface) :
    Encoder.align 8 ⟨some c, wmi⟩ = (.ok (), ⟨some (roundUp c 8), wmi⟩) := by
  simp only [Encoder.align]
  rw [show (8 : ℕ) = 2 ^ 3 by norm_num, align_low 3 c (by norm_num)]

end Odin

namespace Odin

open WasmMemoryInterface

theorem patch_of_le (buf : List Byte) (addr : ℕ) (bs : List Byte)
    (h : addr + bs.length ≤ buf.length) : patch buf addr bs = writeBytes buf addr bs := by
  simp [patch, h]

theorem onMem_setUint (w addr : ℕ) (v : JSValue) (m : List Byte) (W : ℕ)
    (hv : ∀ z, v ≠ .bigint z) (h : addr + w ≤ m.length) :
    onMem (DataView.setUint w addr v) ⟨m, W⟩
      = (.ok (), ⟨patch m addr (leBytes w ((Number v).toUintN (8 * w))), W⟩) := by
  simp only [onMem, DataView.setUint, toNumber_eq_Number v hv, h, if_true]
  rw [patch_of_le _ _ _ (by rw [length_leBytes]; exact h)]

theorem onMem_setInt (w addr : ℕ) (v : JSValue) (m : List Byte) (W : ℕ)
    (hv : ∀ z, v ≠ .bigint z) (h : addr + w ≤ m.length) :
    onMem (DataView.setInt w addr v) ⟨m, W⟩
      = (.ok (), ⟨patch m addr
          (leBytes w (((Number v).toIntN (8 * w)) % (2 ^ (8 * w) : ℕ)).toNat), W⟩) := by
  simp only [onMem, DataView.setInt, toNumber_eq_Number v hv, h, if_true]
  rw [patch_of_le _ _ _ (by rw [length_leBytes]; exact h)]

theorem onMem_setFloat64 (addr : ℕ) (v : JSValue) (m : List Byte) (W : ℕ)
    (hv : ∀ z, v ≠ .bigint z) (h : addr + 8 ≤ m.length) :
    onMem (DataView.setFloat64 addr v) ⟨m, W⟩
      = (.ok (), ⟨patch m addr (leBytes 8 (f64Bits (Number v))), W⟩) := by
  simp only [onMem, DataView.setFloat64, toNumber_eq_Number v hv, h, if_true]
  rw [patch_of_le _ _ _ (by rw [length_leBytes]; exact h)]

theorem number_ne_bigint (x : Num) : ∀ z, JSValue.number x ≠ .bigint z := by
  intro z h; cases h

theorem boolean_ne_bigint (b : Bool) : ∀ z, JSValue.boolean b ≠ .bigint z := by
  intro z h; cases h

/-- The bytes a one-byte store writes. -/
theorem call_storeU8 (a : ℕ) (v : JSValue) (c : Cursor) (m : List Byte) (W : ℕ)
    (hv : ∀ z, v ≠ .bigint z) (h : a + 1 ≤ m.length) :
    Encoder.call (storeU8 a v) ⟨c, ⟨m, W⟩⟩
      = (.ok (), ⟨c, ⟨patch m a (leBytes 1 ((Number v).toUintN 8)), W⟩⟩) := by
  simp only [Encoder.call, storeU8, onMem_setUint 1 a v m W hv h]

theorem call_storeU16 (a : ℕ) (v : JSValue) (c : Cursor) (m : List Byte) (W : ℕ)
    (hv : ∀ z, v ≠ .bigint z) (h : a + 2 ≤ m.length) :
    Encoder.call (storeU16 a v) ⟨c, ⟨m, W⟩⟩
      = (.ok (), ⟨c, ⟨patch m a (leBytes 2 ((Number v).toUintN 16)), W⟩⟩) := by
  simp only [Encoder.call, storeU16, onMem_setUint 2 a v m W hv h]

theorem call_storeI16 (a : ℕ) (v : JSValue) (c : Cursor) (m : List Byte) (W : ℕ)
    (hv : ∀ z, v ≠ .bigint z) (h : a + 2 ≤ m.length) :
    Encoder.call (storeI16 a v) ⟨c, ⟨m, W⟩⟩
      = (.ok (), ⟨c, ⟨patch m a
          (leBytes 2 (((Number v).toIntN 16) % (2 ^ 16 : ℕ)).toNat), W⟩⟩) := by
  simp only [Encoder.call, storeI16, onMem_setInt 2 a v m W hv h]

theorem call_storeU32 (a : ℕ) (v : JSValue) (c : Cursor) (m : List Byte) (W : ℕ)
    (hv : ∀ z, v ≠ .bigint z) (h : a + 4 ≤ m.length) :
    Encoder.call (storeU32 a v) ⟨c, ⟨m, W⟩⟩
      = (.ok (), ⟨c, ⟨patch m a (leBytes 4 ((Number v).toUintN 32)), W⟩⟩) := by
  simp only [Encoder.call, storeU32, onMem_setUint 4 a v m W hv h]

theorem call_storeI32 (a : ℕ) (v : JSValue) (c : Cursor) (m : List Byte) (W : ℕ)
    (hv : ∀ z, v ≠ .bigint z) (h : a + 4 ≤ m.length) :
    Encoder.call (storeI32 a v) ⟨c, ⟨m, W⟩⟩
      = (.ok (), ⟨c, ⟨patch m a
          (leBytes 4 (((Number v).toIntN 32) % (2 ^ 32 : ℕ)).toNat), W⟩⟩) := by
  simp only [Encoder.call, storeI32, onMem_setInt 4 a v m W hv h]

theorem call_storeF64 (a : ℕ) (v : JSValue) (c : Cursor) (m : List Byte) (W : ℕ)
    (hv : ∀ z, v ≠ .bigint z) (h : a + 8 ≤ m.length) :
    Encoder.call (storeF64 a v) ⟨c, ⟨m, W⟩⟩
      = (.ok (), ⟨c, ⟨patch m a (leBytes 8 (f64Bits (Number v))), W⟩⟩) := by
  simp only [Encoder.call, storeF64, onMem_setFloat64 a v m W hv h]

/-- The two words a 64-bit unsigned store writes. -/
theorem call_storeU64 (a : ℕ) (v : JSValue) (c : Cursor) (m : List Byte) (W : ℕ)
    (h : a + 8 ≤ m.length) :
    Encoder.call (storeU64 a v) ⟨c, ⟨m, W⟩⟩
      = (.ok (), ⟨c, ⟨patch (patch m a (leBytes 4 ((Number v).toUintN 32))) (a + 4)
          (leBytes 4 ((Num.floor (Number (divBy4294967296 v))).toUintN 32)), W⟩⟩) := by
  have h1 := length_leBytes 4 ((Number v).toUintN 32)
  have h2 := length_leBytes 4 ((Num.floor (Number (divBy4294967296 v))).toUintN 32)
  simp only [Encoder.call, storeU64_eval ⟨m, W⟩ a v h]
  rw [patch_of_le m a _ (by omega),
    patch_of_le _ (a + 4) _ (by rw [length_writeBytes _ _ _ (by omega)]; omega)]

theorem call_storeI64 (a : ℕ) (v : JSValue) (c : Cursor) (m : List Byte) (W : ℕ)
    (h : a + 8 ≤ m.length) :
    Encoder.call (storeI64 a v) ⟨c, ⟨m, W⟩⟩
      = (.ok (), ⟨c, ⟨patch (patch m a (leBytes 4 ((Number v).toUintN 32))) (a + 4)
          (leBytes 4 (((Num.floor (Number (divBy4294967296 v))).toIntN 32)
            % (2 ^ 32 : ℕ)).toNat), W⟩⟩) := by
  have h1 := length_leBytes 4 ((Number v).toUintN 32)
  have h2 := length_leBytes 4 (((Num.floor (Number (divBy4294967296 v))).toIntN 32)
            % (2 ^ 32 : ℕ)).toNat
  simp only [Encoder.call, storeI64_eval ⟨m, W⟩ a v h]
  rw [patch_of_le m a _ (by omega),
    patch_of_le _ (a + 4) _ (by rw [length_writeBytes _ _ _ (by omega)]; omega)]

end Odin

namespace Odin

open WasmMemoryInterface

theorem init_event_common_eq_flat (W : ℕ) (data : EventData) :
    init_event_common W data = init_event_common_flat W data := by
  obtain ⟨id_ptr, id_len, e, name_code⟩ := data
  obtain ⟨target, currentTarget, timeStamp, eventPhase, bubbles, cancelable, composed,
    isComposing, isTrusted, type, interface⟩ := e
  cases target <;> cases currentTarget <;> cases bubbles <;> cases cancelable <;>
    cases composed <;> rfl

end Odin

namespace Odin

open WasmMemoryInterface

theorem toUintN_ofNat (bits n : ℕ) (h : n < 2 ^ bits) : Num.toUintN bits (Num.ofNat n) = n := by
  have := toUintN_intCast bits (n : ℤ)
  simp only [Int.cast_natCast] at this
  rw [Num.ofNat, this]
  have h' : ((n : ℤ)) % ((2 ^ bits : ℕ) : ℤ) = n := by
    rw [Int.emod_eq_of_lt (by positivity) (by exact_mod_cast h)]
  rw [h']; rfl

theorem Number_boolean (b : Bool) :
    Number (.boolean b) = Num.ofNat (if b then 1 else 0) := by
  cases b <;> simp [Number, Num.ofNat]

theorem storeUint_four (a : ℕ) (v : JSValue) (wmi : WasmMemoryInterface) (h : wmi.intSize = 4) :
    storeUint a v wmi = storeU32 a v wmi := by
  simp [storeUint, h]

theorem storeUint_eight (a : ℕ) (v : JSValue) (wmi : WasmMemoryInterface) (h : wmi.intSize = 8) :
    storeUint a v wmi = storeU64 a v wmi := by
  simp [storeUint, h]

theorem call_storeUint_four (a : ℕ) (v : JSValue) (c : Cursor) (m : List Byte)
    (hv : ∀ z, v ≠ .bigint z) (h : a + 4 ≤ m.length) :
    Encoder.call (storeUint a v) ⟨c, ⟨m, 4⟩⟩
      = (.ok (), ⟨c, ⟨patch m a (leBytes 4 ((Number v).toUintN 32)), 4⟩⟩) := by
  have := call_storeU32 a v c m 4 hv h
  simpa only [Encoder.call, storeUint_four a v ⟨m, 4⟩ rfl] using this

theorem call_storeUint_eight (a : ℕ) (v : JSValue) (c : Cursor) (m : List Byte)
    (h : a + 8 ≤ m.length) :
    Encoder.call (storeUint a v) ⟨c, ⟨m, 8⟩⟩
      = (.ok (), ⟨c, ⟨patch (patch m a (leBytes 4 ((Number v).toUintN 32))) (a + 4)
          (leBytes 4 ((Num.floor (Number (divBy4294967296 v))).toUintN 32)), 8⟩⟩) := by
  have := call_storeU64 a v c m 8 h
  simpa only [Encoder.call, storeUint_eight a v ⟨m, 8⟩ rfl] using this

theorem roundUp_add_lit (p k a : ℕ) (h : p % a = 0) :
    roundUp (p + k) a = p + (if k % a = 0 then k else k + (a - k % a)) := by
  rw [roundUp_add p k a h, roundUp]
  split <;> simp_all

theorem Number_number (x : Num) : Number (.number x) = x := rfl

theorem toUintN_originCode (t : EventTarget) :
    Num.toUintN 32 (Num.ofNat (originCode t)) = originCode t :=
  toUintN_ofNat 32 _ (by cases t <;> decide)

theorem toUintN_optionsByte (e : Event) :
    Num.toUintN 8 (Num.ofNat (optionsByte e)) = optionsByte e :=
  toUintN_ofNat 8 _ (by
    unfold optionsByte
    cases e.bubbles <;> cases e.cancelable <;> cases e.composed <;> decide)

theorem toUintN_bool (b : Bool) :
    Num.toUintN 8 (Num.ofNat (if b then 1 else 0)) = if b then 1 else 0 :=
  toUintN_ofNat 8 _ (by cases b <;> decide)

theorem prefix_flat_run_four (data : EventData) (ep : ℕ) (m : List Byte)
    (hep : ep % 8 = 0) (hlen : ep + 36 ≤ m.length) (hid : ∀ z, data.id_len ≠ .bigint z) :
    init_event_common_flat 4 data ⟨some ep, ⟨m, 4⟩⟩
      = (.ok (), ⟨some (ep + 40), ⟨applyWrites (prefixWrites 4 data ep) m, 4⟩⟩) := by
  simp (disch := (first
      | omega | exact number_ne_bigint _ | exact boolean_ne_bigint _ | assumption
      | (simp only [length_patch]; omega)))
    only [init_event_common_flat, JS.bind_def, Encoder.off_none, Encoder.align_four,
      Encoder.align_eight, call_storeU32, call_storeI32, call_storeF64, call_storeU8,
      call_storeUint_four, originValue, roundUp_of_mod, roundUp_add_lit, Number_number,
      Number_boolean, Nat.add_assoc, Nat.reduceAdd, Nat.reduceMod, Nat.reduceSub,
      Nat.reduceEqDiff, if_true, if_false,
      show min 4 4 = 4 from rfl, show min 8 4 = 4 from rfl, show min 1 4 = 1 from rfl]
  simp only [applyWrites, prefixWrites, guestUintWrites, List.foldl, List.cons_append,
    List.nil_append, toUintN_originCode, toUintN_optionsByte, toUintN_bool, Nat.add_assoc,
    Nat.reduceAdd, Nat.reduceMul, Nat.reduceEqDiff, if_false]

end Odin

namespace Odin

open WasmMemoryInterface

theorem prefix_flat_run_eight (data : EventData) (ep : ℕ) (m : List Byte)
    (hep : ep % 8 = 0) (hlen : ep + 44 ≤ m.length) :
    init_event_common_flat 8 data ⟨some ep, ⟨m, 8⟩⟩
      = (.ok (), ⟨some (ep + 48), ⟨applyWrites (prefixWrites 8 data ep) m, 8⟩⟩) := by
  simp (disch := (first
      | omega | exact number_ne_bigint _ | exact boolean_ne_bigint _ | assumption
      | (simp only [length_patch]; omega)))
    only [init_event_common_flat, JS.bind_def, Encoder.off_none, Encoder.align_four,
      Encoder.align_eight, call_storeU32, call_storeI32, call_storeF64, call_storeU8,
      call_storeUint_eight, originValue, roundUp_of_mod, roundUp_add_lit, Number_number,
      Number_boolean, Nat.add_assoc, Nat.reduceAdd, Nat.reduceMod, Nat.reduceSub,
      Nat.reduceEqDiff, if_true, if_false,
      show min 4 8 = 4 from rfl, show min 8 8 = 8 from rfl, show min 1 8 = 1 from rfl]
  simp only [applyWrites, prefixWrites, guestUintWrites, List.foldl, List.cons_append,
    List.nil_append, toUintN_originCode, toUintN_optionsByte, toUintN_bool, Nat.add_assoc,
    Nat.reduceAdd, Nat.reduceMul, Nat.reduceEqDiff, if_true]

/-- The common prefix, run: for `W` in {4, 8}, `ep` a multiple of 8 and the
prefix in bounds, `init_event_common` succeeds, performs exactly the writes of
`prefixWrites` and leaves the cursor at the start of the body. -/
theorem init_event_common_run (W : ℕ) (data : EventData) (ep : ℕ) (m : List Byte)
    (hW : W = 4 ∨ W = 8) (hep : ep % 8 = 0) (hlen : ep + 28 + 2 * W ≤ m.length)
    (hid : W = 4 → ∀ z, data.id_len ≠ .bigint z) :
    init_event_common W data ⟨some ep, ⟨m, W⟩⟩
      = (.ok (), ⟨some (ep + 32 + 2 * W), ⟨applyWrites (prefixWrites W data ep) m, W⟩⟩) := by
  rw [init_event_common_eq_flat]
  rcases hW with rfl | rfl
  · exact prefix_flat_run_four data ep m hep (by omega) (hid rfl)
  · exact prefix_flat_run_eight data ep m hep (by omega)

end Odin

namespace Odin

open WasmMemoryInterface

theorem getElem?_patch_outside (buf : List Byte) (addr : ℕ) (bs : List Byte) (i : ℕ)
    (hi : i < addr ∨ addr + bs.length ≤ i) : (patch buf addr bs)[i]? = buf[i]? := by
  unfold patch
  split
  · exact getElem?_writeBytes_outside _ _ _ _ (by assumption) hi
  · rfl

theorem storesAbove_bind {α β : Type} (lo : ℕ) (f : JS WasmMemoryInterface α)
    (g : α → JS WasmMemoryInterface β) (hf : StoresAbove lo f) (hg : ∀ a, StoresAbove lo (g a)) :
    StoresAbove lo (f >>= g) := by
  intro wmi
  obtain ⟨h1, h2, h3⟩ := hf wmi
  rw [JS.bind_def]
  rcases hfw : f wmi with ⟨r, w1⟩
  rw [hfw] at h1 h2 h3
  cases r with
  | error e => exact ⟨h1, h2, h3⟩
  | ok a =>
    obtain ⟨g1, g2, g3⟩ := hg a w1
    exact ⟨g1.trans h1, g2.trans h2, fun i hi => (g3 i hi).trans (h3 i hi)⟩

theorem storesAbove_onMem {α : Type} (lo : ℕ) (f : JS (List Byte) α)
    (h : ∀ buf, (f buf).2.length = buf.length ∧ ∀ i, i < lo → (f buf).2[i]? = buf[i]?) :
    StoresAbove lo (onMem f) :=
  fun wmi => ⟨rfl, (h wmi.memory).1, (h wmi.memory).2⟩

theorem storesAbove_setUint (lo w a : ℕ) (v : JSValue) (h : lo ≤ a) :
    StoresAbove lo (onMem (DataView.setUint w a v)) := by
  apply storesAbove_onMem
  intro buf
  unfold DataView.setUint
  split
  · exact ⟨rfl, fun _ _ => rfl⟩
  · rename_i x _
    split
    · have hl := length_leBytes w (x.toUintN (8 * w))
      exact ⟨length_writeBytes _ _ _ (by omega),
        fun i hi => getElem?_writeBytes_outside _ _ _ _ (by omega) (by omega)⟩
    · exact ⟨rfl, fun _ _ => rfl⟩

theorem storesAbove_setInt (lo w a : ℕ) (v : JSValue) (h : lo ≤ a) :
    StoresAbove lo (onMem (DataView.setInt w a v)) := by
  apply storesAbove_onMem
  intro buf
  unfold DataView.setInt
  split
  · exact ⟨rfl, fun _ _ => rfl⟩
  · rename_i x _
    split
    · have hl := length_leBytes w (((x.toIntN (8 * w)) % (2 ^ (8 * w) : ℕ)).toNat)
      exact ⟨length_writeBytes _ _ _ (by omega),
        fun i hi => getElem?_writeBytes_outside _ _ _ _ (by omega) (by omega)⟩
    · exact ⟨rfl, fun _ _ => rfl⟩

theorem storesAbove_setFloat64 (lo a : ℕ) (v : JSValue) (h : lo ≤ a) :
    StoresAbove lo (onMem (DataView.setFloat64 a v)) := by
  apply storesAbove_onMem
  intro buf
  unfold DataView.setFloat64
  split
  · exact ⟨rfl, fun _ _ => rfl⟩
  · rename_i x _
    split
    · have hl := length_leBytes 8 (f64Bits x)
      exact ⟨length_writeBytes _ _ _ (by omega),
        fun i hi => getElem?_writeBytes_outside _ _ _ _ (by omega) (by omega)⟩
    · exact ⟨rfl, fun _ _ => rfl⟩

theorem storesAbove_storeU8 (lo a : ℕ) (v : JSValue) (h : lo ≤ a) :
    StoresAbove lo (storeU8 a v) := storesAbove_setUint lo 1 a v h

theorem storesAbove_storeU16 (lo a : ℕ) (v : JSValue) (h : lo ≤ a) :
    StoresAbove lo (storeU16 a v) := storesAbove_setUint lo 2 a v h

theorem storesAbove_storeI16 (lo a : ℕ) (v : JSValue) (h : lo ≤ a) :
    StoresAbove lo (storeI16 a v) := storesAbove_setInt lo 2 a v h

theorem storesAbove_storeU32 (lo a : ℕ) (v : JSValue) (h : lo ≤ a) :
    StoresAbove lo (storeU32 a v) := storesAbove_setUint lo 4 a v h

theorem storesAbove_storeI32 (lo a : ℕ) (v : JSValue) (h : lo ≤ a) :
    StoresAbove lo (storeI32 a v) := storesAbove_setInt lo 4 a v h

theorem storesAbove_storeF64 (lo a : ℕ) (v : JSValue) (h : lo ≤ a) :
    StoresAbove lo (storeF64 a v) := storesAbove_setFloat64 lo a v h

theorem storesAbove_storeU64 (lo a : ℕ) (v : JSValue) (h : lo ≤ a) :
    StoresAbove lo (storeU64 a v) := by
  unfold WasmMemoryInterface.storeU64
  exact storesAbove_bind lo _ _ (storesAbove_setUint lo 4 _ _ (by omega))
    (fun _ => storesAbove_setUint lo 4 _ _ (by omega))

theorem storesAbove_storeI64 (lo a : ℕ) (v : JSValue) (h : lo ≤ a) :
    StoresAbove lo (storeI64 a v) := by
  unfold WasmMemoryInterface.storeI64
  exact storesAbove_bind lo _ _ (storesAbove_setUint lo 4 _ _ (by omega))
    (fun _ => storesAbove_setInt lo 4 _ _ (by omega))

theorem storesAbove_storeInt (lo a : ℕ) (v : JSValue) (h : lo ≤ a) :
    StoresAbove lo (storeInt a v) := by
  intro wmi
  unfold WasmMemoryInterface.storeInt
  split
  · exact storesAbove_storeI64 lo a v h wmi
  · split
    · exact storesAbove_storeI32 lo a v h wmi
    · exact ⟨rfl, rfl, fun _ _ => rfl⟩

theorem storesAbove_storeUint (lo a : ℕ) (v : JSValue) (h : lo ≤ a) :
    StoresAbove lo (storeUint a v) := by
  intro wmi
  unfold WasmMemoryInterface.storeUint
  split
  · exact storesAbove_storeU64 lo a v h wmi
  · split
    · exact storesAbove_storeU32 lo a v h wmi
    · exact ⟨rfl, rfl, fun _ _ => rfl⟩

theorem storesAbove_storeString (lo a : ℕ) (v : JSString) (h : lo ≤ a) :
    StoresAbove lo (storeString a v) := by
  intro wmi
  unfold WasmMemoryInterface.storeString
  by_cases hb : a + (TextEncoder.encode v).length ≤ wmi.memory.length
  · rw [if_pos hb]
    exact ⟨rfl, length_writeBytes _ _ _ hb,
      fun i hi => getElem?_writeBytes_outside _ _ _ _ hb (by omega)⟩
  · rw [if_neg hb]
    exact ⟨rfl, rfl, fun _ _ => rfl⟩

end Odin

namespace Odin

open WasmMemoryInterface

theorem le_roundUp (p a : ℕ) : p ≤ roundUp p a := by
  unfold roundUp; split <;> omega

theorem writesAbove_pure {α : Type} (lo : ℕ) (a : α) (Q : α → Prop) (h : Q a) :
    WritesAbove lo (pure a : JS Encoder α) Q := by
  intro s hs
  refine ⟨hs, rfl, rfl, fun _ _ => rfl, ?_⟩
  intro b hb
  have : a = b := by
    have := hb
    simp only [JS.pure_def] at this
    exact Except.ok.inj this
  exact this ▸ h

theorem writesAbove_bind {α β : Type} (lo : ℕ) (p : JS Encoder α) (f : α → JS Encoder β)
    (Q : α → Prop) (R : β → Prop) (hp : WritesAbove lo p Q)
    (hf : ∀ a, Q a → WritesAbove lo (f a) R) : WritesAbove lo (p >>= f) R := by
  intro s hs
  obtain ⟨h1, h2, h3, h4, h5⟩ := hp s hs
  rw [JS.bind_def]
  rcases hps : p s with ⟨r, s1⟩
  rw [hps] at h1 h2 h3 h4 h5
  cases r with
  | error e =>
    refine ⟨h1, h2, h3, h4, ?_⟩
    intro a ha
    cases ha
  | ok a =>
    obtain ⟨g1, g2, g3, g4, g5⟩ := hf a (h5 a rfl) s1 h1
    exact ⟨g1, g2.trans h2, g3.trans h3, fun i hi => (g4 i hi).trans (h4 i hi), g5⟩

theorem writesAbove_weaken {α : Type} (lo : ℕ) (p : JS Encoder α) (Q R : α → Prop)
    (hp : WritesAbove lo p Q) (h : ∀ a, Q a → R a) : WritesAbove lo p R := by
  intro s hs
  obtain ⟨h1, h2, h3, h4, h5⟩ := hp s hs
  exact ⟨h1, h2, h3, h4, fun a ha => h a (h5 a ha)⟩

theorem writesAbove_off_some (lo W amt a : ℕ) (ha : a ≠ 0) :
    WritesAbove lo (Encoder.off W amt (some a)) (fun x => lo ≤ x) := by
  rintro ⟨o, wmi⟩ ⟨c, hc, hlo⟩
  simp only at hc
  subst hc
  rw [Encoder.off_some W amt a c wmi ha]
  have hr := le_roundUp c a
  refine ⟨⟨_, rfl, by omega⟩, rfl, rfl, fun _ _ => rfl, ?_⟩
  intro x hx
  have : roundUp c a = x := Except.ok.inj hx
  omega

theorem writesAbove_off_none (lo W amt : ℕ) (ha : min amt W ≠ 0) :
    WritesAbove lo (Encoder.off W amt none) (fun x => lo ≤ x) := by
  rintro ⟨o, wmi⟩ ⟨c, hc, hlo⟩
  simp only at hc
  subst hc
  rw [Encoder.off_none W amt c wmi ha]
  have hr := le_roundUp c (min amt W)
  refine ⟨⟨_, rfl, by omega⟩, rfl, rfl, fun _ _ => rfl, ?_⟩
  intro x hx
  have : roundUp c (min amt W) = x := Except.ok.inj hx
  omega

theorem writesAbove_align (lo k : ℕ) (hk : k ≤ 31) :
    WritesAbove lo (Encoder.align (2 ^ k)) (fun _ => True) := by
  rintro ⟨o, wmi⟩ ⟨c, hc, hlo⟩
  simp only at hc
  subst hc
  have key : Encoder.align (2 ^ k) ⟨some c, wmi⟩ = (.ok (), ⟨some (roundUp c (2 ^ k)), wmi⟩) := by
    simp only [Encoder.align, align_low k c hk]
  rw [key]
  have hr := le_roundUp c (2 ^ k)
  exact ⟨⟨_, rfl, by omega⟩, rfl, rfl, fun _ _ => rfl, fun _ _ => trivial⟩

theorem writesAbove_call {α : Type} (lo : ℕ) (f : JS WasmMemoryInterface α)
    (h : StoresAbove lo f) : WritesAbove lo (Encoder.call f) (fun _ => True) := by
  rintro ⟨o, wmi⟩ hs
  obtain ⟨h1, h2, h3⟩ := h wmi
  exact ⟨hs, h1, h2, h3, fun _ _ => trivial⟩

theorem writesAbove_forIn {α : Type} (lo : ℕ) (l : List α)
    (body : α → PUnit → JS Encoder (ForInStep PUnit))
    (h : ∀ x r, WritesAbove lo (body x r) (fun _ => True)) :
    ∀ r, WritesAbove lo (forIn l r body) (fun _ => True) := by
  induction l with
  | nil => intro r; exact writesAbove_pure lo _ _ trivial
  | cons x xs ih =>
    intro r
    rw [List.forIn_cons]
    apply writesAbove_bind lo _ _ (fun _ => True) _ (h x r)
    intro step _
    cases step with
    | done b => exact writesAbove_pure lo _ _ trivial
    | yield b => exact ih b

end Odin

namespace Odin

open WasmMemoryInterface

set_option maxHeartbeats 4000000 in
theorem init_event_body_writesAbove (host : Host) (W : ℕ) (e : Event) (lo : ℕ) (hW : 0 < W) :
    WritesAbove lo (init_event_body host W e) (fun _ => True) := by
  obtain ⟨target, currentTarget, timeStamp, eventPhase, bubbles, cancelable, composed,
    isComposing, isTrusted, type, interface⟩ := e
  unfold init_event_body
  cases interface <;> dsimp only <;>
    repeat' (first
      | with_reducible exact writesAbove_pure _ _ _ trivial
      | (with_reducible
          refine writesAbove_bind _ _ _ (fun x => lo ≤ x) _
            (writesAbove_off_none _ _ _ ?_) (fun _ _ => ?_)
         omega)
      | (with_reducible
          refine writesAbove_bind _ _ _ (fun x => lo ≤ x) _
            (writesAbove_off_some _ _ _ _ ?_) (fun _ _ => ?_)
         omega)
      | (with_reducible apply writesAbove_call
         with_reducible first
          | exact storesAbove_storeU8 _ _ _ (by assumption)
          | exact storesAbove_storeU16 _ _ _ (by assumption)
          | exact storesAbove_storeI16 _ _ _ (by assumption)
          | exact storesAbove_storeU32 _ _ _ (by assumption)
          | exact storesAbove_storeI32 _ _ _ (by assumption)
          | exact storesAbove_storeF64 _ _ _ (by assumption)
          | exact storesAbove_storeI64 _ _ _ (by assumption)
          | exact storesAbove_storeInt _ _ _ (by assumption)
          | exact storesAbove_storeString _ _ _ (by assumption))
      | (with_reducible
          refine writesAbove_bind _ _ _ (fun _ => True) _
            (writesAbove_forIn _ _ _ (fun _ _ => ?_) _) (fun _ _ => ?_))
      | (with_reducible
          refine writesAbove_bind _ _ _ (fun _ => True) _ ?_ (fun _ _ => ?_))
      | split)

end Odin

namespace Odin

/-! ## The listener registry -/

theorem JS.bind_run {σ α β : Type} (x : JS σ α) (f : α → JS σ β) (s s1 : σ) (a : α)
    (h : x s = (.ok a, s1)) : (x >>= f) s = f a s1 := by
  rw [JS.bind_def, h]

theorem Dom.loadString_eq (ptr : Num) (len : JSValue) (s : Dom) (v : JSString)
    (h : (Dom.loadString ptr len s).1 = .ok v) : Dom.loadString ptr len s = (.ok v, s) := by
  rw [← h]; rfl

theorem Dom.loadString_wmi (ptr : Num) (len : JSValue) (s t : Dom) (h : t.wmi = s.wmi) :
    (Dom.loadString ptr len t).1 = (Dom.loadString ptr len s).1 := by
  simp only [Dom.loadString, h]

theorem any_sameListener_of_fresh (s : Dom) (hfresh : s.Fresh) (target : Target)
    (name : JSString) (l : Listener) (capture : Bool) (hl : l.uid = s.functions) :
    s.attached.any (Dom.sameListener ⟨target, name, l, capture⟩) = false := by
  rw [List.any_eq_false]
  intro a ha
  have := hfresh a ha
  simp only [Dom.sameListener, decide_eq_true_eq, not_and]
  intro _ _ h
  omega

theorem add_event_listener_new (s : Dom) (id_ptr : Num) (id_len : JSValue) (name_ptr : Num)
    (name_len : JSValue) (name_code : Num) (data callback : ℤ) (use_capture : Bool)
    (id name : JSString)
    (hid : (Dom.loadString id_ptr id_len s).1 = .ok id)
    (hname : (Dom.loadString name_ptr name_len s).1 = .ok name)
    (hne : id ≠ []) (hel : id ∈ s.elements)
    (hkey : mapHas s.listenerMap (listener_key id name data callback use_capture) = false)
    (hfresh : s.Fresh) :
    add_event_listener id_ptr id_len name_ptr name_len name_code data callback use_capture s
      = (.ok true, s.registered (.element id)
          (listener_key id name data callback use_capture) name
          ⟨s.functions, id_ptr, id_len, name_code, data, callback⟩ use_capture) := by
  unfold add_event_listener
  rw [JS.bind_run _ _ _ _ _ (Dom.loadString_eq _ _ _ _ hid)]
  rw [JS.bind_run _ _ _ _ _ (Dom.loadString_eq _ _ _ _ hname)]
  have hany := any_sameListener_of_fresh s hfresh (.element id) name
    ⟨s.functions, id_ptr, id_len, name_code, data, callback⟩ use_capture rfl
  simp only [JS.bind_def, Dom.getElement, Dom.has, Dom.closure, Dom.set, Dom.addEventListener,
    hne, hel, hkey, hany, mapSet, ne_eq, not_false_eq_true, if_true, if_false, JS.pure_def,
    Bool.false_eq_true, Dom.registered]

theorem add_event_listener_dup (s : Dom) (id_ptr : Num) (id_len : JSValue) (name_ptr : Num)
    (name_len : JSValue) (name_code : Num) (data callback : ℤ) (use_capture : Bool)
    (id name : JSString)
    (hid : (Dom.loadString id_ptr id_len s).1 = .ok id)
    (hname : (Dom.loadString name_ptr name_len s).1 = .ok name)
    (hkey : mapHas s.listenerMap (listener_key id name data callback use_capture) = true) :
    add_event_listener id_ptr id_len name_ptr name_len name_code data callback use_capture s
      = (.ok false, s) := by
  unfold add_event_listener
  rw [JS.bind_run _ _ _ _ _ (Dom.loadString_eq _ _ _ _ hid)]
  rw [JS.bind_run _ _ _ _ _ (Dom.loadString_eq _ _ _ _ hname)]
  simp only [JS.bind_def, Dom.getElement]
  generalize (if id ≠ [] then (if id ∈ s.elements then some (Target.element id) else none)
    else none) = o
  cases o <;> simp only [JS.bind_def, Dom.has, hkey, if_true, JS.pure_def]

theorem add_event_listener_unresolved (s : Dom) (id_ptr : Num) (id_len : JSValue)
    (name_ptr : Num) (name_len : JSValue) (name_code : Num) (data callback : ℤ)
    (use_capture : Bool) (id name : JSString)
    (hid : (Dom.loadString id_ptr id_len s).1 = .ok id)
    (hname : (Dom.loadString name_ptr name_len s).1 = .ok name)
    (hel : id = [] ∨ id ∉ s.elements) :
    add_event_listener id_ptr id_len name_ptr name_len name_code data callback use_capture s
      = (.ok false, s) := by
  unfold add_event_listener
  rw [JS.bind_run _ _ _ _ _ (Dom.loadString_eq _ _ _ _ hid)]
  rw [JS.bind_run _ _ _ _ _ (Dom.loadString_eq _ _ _ _ hname)]
  have : (if id ≠ [] then (if id ∈ s.elements then some (Target.element id) else none)
      else none) = none := by
    rcases hel with h | h
    · simp [h]
    · simp [h]
  simp only [JS.bind_def, Dom.getElement, this, JS.pure_def]

theorem add_window_event_listener_new (s : Dom) (name_ptr : Num)
    (name_len : JSValue) (name_code : Num) (data callback : ℤ) (use_capture : Bool)
    (name : JSString)
    (hname : (Dom.loadString name_ptr name_len s).1 = .ok name)
    (hkey : mapHas s.listenerMap
      (listener_key (ascii "window") name data callback use_capture) = false)
    (hfresh : s.Fresh) :
    add_window_event_listener name_ptr name_len name_code data callback use_capture s
      = (.ok true, s.registered .window
          (listener_key (ascii "window") name data callback use_capture) name
          ⟨s.functions, .fin 0, .number (.fin 0), name_code, data, callback⟩ use_capture) := by
  unfold add_window_event_listener
  rw [JS.bind_run _ _ _ _ _ (Dom.loadString_eq _ _ _ _ hname)]
  have hany := any_sameListener_of_fresh s hfresh .window name
    ⟨s.functions, .fin 0, .number (.fin 0), name_code, data, callback⟩ use_capture rfl
  simp only [JS.bind_def, Dom.has, Dom.closure, Dom.set, Dom.addEventListener,
    hkey, hany, mapSet, if_false, JS.pure_def, Bool.false_eq_true, Dom.registered]

theorem add_window_event_listener_dup (s : Dom) (name_ptr : Num)
    (name_len : JSValue) (name_code : Num) (data callback : ℤ) (use_capture : Bool)
    (name : JSString)
    (hname : (Dom.loadString name_ptr name_len s).1 = .ok name)
    (hkey : mapHas s.listenerMap
      (listener_key (ascii "window") name data callback use_capture) = true) :
    add_window_event_listener name_ptr name_len name_code data callback use_capture s
      = (.ok false, s) := by
  unfold add_window_event_listener
  rw [JS.bind_run _ _ _ _ _ (Dom.loadString_eq _ _ _ _ hname)]
  simp only [JS.bind_def, Dom.has, hkey, if_true, JS.pure_def]

theorem add_document_event_listener_new (s : Dom) (name_ptr : Num)
    (name_len : JSValue) (name_code : Num) (data callback : ℤ) (use_capture : Bool)
    (name : JSString)
    (hname : (Dom.loadString name_ptr name_len s).1 = .ok name)
    (hkey : mapHas s.listenerMap
      (listener_key (ascii "document") name data callback use_capture) = false)
    (hfresh : s.Fresh) :
    add_document_event_listener name_ptr name_len name_code data callback use_capture s
      = (.ok true, s.registered .document
          (listener_key (ascii "document") name data callback use_capture) name
          ⟨s.functions, .fin 0, .number (.fin 0), name_code, data, callback⟩ use_capture) := by
  unfold add_document_event_listener
  rw [JS.bind_run _ _ _ _ _ (Dom.loadString_eq _ _ _ _ hname)]
  have hany := any_sameListener_of_fresh s hfresh .document name
    ⟨s.functions, .fin 0, .number (.fin 0), name_code, data, callback⟩ use_capture rfl
  simp only [JS.bind_def, Dom.has, Dom.closure, Dom.set, Dom.addEventListener,
    hkey, hany, mapSet, if_false, JS.pure_def, Bool.false_eq_true, Dom.registered]

theorem add_document_event_listener_dup (s : Dom) (name_ptr : Num)
    (name_len : JSValue) (name_code : Num) (data callback : ℤ) (use_capture : Bool)
    (name : JSString)
    (hname : (Dom.loadString name_ptr name_len s).1 = .ok name)
    (hkey : mapHas s.listenerMap
      (listener_key (ascii "document") name data callback use_capture) = true) :
    add_document_event_listener name_ptr name_len name_code data callback use_capture s
      = (.ok false, s) := by
  unfold add_document_event_listener
  rw [JS.bind_run _ _ _ _ _ (Dom.loadString_eq _ _ _ _ hname)]
  simp only [JS.bind_def, Dom.has, hkey, if_true, JS.pure_def]

theorem remove_event_listener_found (s : Dom) (id_ptr : Num) (id_len : JSValue)
    (name_ptr : Num) (name_len : JSValue) (data callback : ℤ) (use_capture : Bool)
    (id name : JSString) (l : Listener)
    (hid : (Dom.loadString id_ptr id_len s).1 = .ok id)
    (hname : (Dom.loadString name_ptr name_len s).1 = .ok name)
    (hne : id ≠ []) (hel : id ∈ s.elements)
    (hkey : mapGet s.listenerMap (listener_key id name data callback use_capture) = some l) :
    remove_event_listener id_ptr id_len name_ptr name_len data callback use_capture s
      = (.ok true, s.unregistered (.element id)
          (listener_key id name data callback use_capture) name l use_capture) := by
  unfold remove_event_listener
  rw [JS.bind_run _ _ _ _ _ (Dom.loadString_eq _ _ _ _ hid)]
  rw [JS.bind_run _ _ _ _ _ (Dom.loadString_eq _ _ _ _ hname)]
  simp only [JS.bind_def, Dom.getElement, Dom.get, Dom.delete, Dom.removeEventListener,
    hne, hel, hkey, ne_eq, not_false_eq_true, if_true, JS.pure_def, Dom.unregistered]

theorem remove_event_listener_missing (s : Dom) (id_ptr : Num) (id_len : JSValue)
    (name_ptr : Num) (name_len : JSValue) (data callback : ℤ) (use_capture : Bool)
    (id name : JSString)
    (hid : (Dom.loadString id_ptr id_len s).1 = .ok id)
    (hname : (Dom.loadString name_ptr name_len s).1 = .ok name)
    (hkey : mapGet s.listenerMap (listener_key id name data callback use_capture) = none ∨
      id = [] ∨ id ∉ s.elements) :
    remove_event_listener id_ptr id_len name_ptr name_len data callback use_capture s
      = (.ok false, s) := by
  unfold remove_event_listener
  rw [JS.bind_run _ _ _ _ _ (Dom.loadString_eq _ _ _ _ hid)]
  rw [JS.bind_run _ _ _ _ _ (Dom.loadString_eq _ _ _ _ hname)]
  simp only [JS.bind_def, Dom.getElement]
  rcases hkey with h | h | h
  · generalize (if id ≠ [] then (if id ∈ s.elements then some (Target.element id) else none)
      else none) = o
    cases o <;> simp only [JS.bind_def, Dom.get, h, JS.pure_def]
  · simp [h, JS.pure_def]
  · simp [h, JS.pure_def]

theorem remove_window_event_listener_found (s : Dom)
    (name_ptr : Num) (name_len : JSValue) (data callback : ℤ) (use_capture : Bool)
    (name : JSString) (l : Listener)
    (hname : (Dom.loadString name_ptr name_len s).1 = .ok name)
    (hkey : mapGet s.listenerMap
      (listener_key (ascii "window") name data callback use_capture) = some l) :
    remove_window_event_listener name_ptr name_len data callback use_capture s
      = (.ok true, s.unregistered .window
          (listener_key (ascii "window") name data callback use_capture) name l
          use_capture) := by
  unfold remove_window_event_listener
  rw [JS.bind_run _ _ _ _ _ (Dom.loadString_eq _ _ _ _ hname)]
  simp only [JS.bind_def, Dom.get, Dom.delete, Dom.removeEventListener,
    hkey, JS.pure_def, Dom.unregistered]

theorem remove_window_event_listener_missing (s : Dom)
    (name_ptr : Num) (name_len : JSValue) (data callback : ℤ) (use_capture : Bool)
    (name : JSString)
    (hname : (Dom.loadString name_ptr name_len s).1 = .ok name)
    (hkey : mapGet s.listenerMap
      (listener_key (ascii "window") name data callback use_capture) = none) :
    remove_window_event_listener name_ptr name_len data callback use_capture s
      = (.ok false, s) := by
  unfold remove_window_event_listener
  rw [JS.bind_run _ _ _ _ _ (Dom.loadString_eq _ _ _ _ hname)]
  simp only [JS.bind_def, Dom.get, hkey, JS.pure_def]

theorem remove_document_event_listener_found (s : Dom)
    (name_ptr : Num) (name_len : JSValue) (data callback : ℤ) (use_capture : Bool)
    (name : JSString) (l : Listener)
    (hname : (Dom.loadString name_ptr name_len s).1 = .ok name)
    (hkey : mapGet s.listenerMap
      (listener_key (ascii "document") name data callback use_capture) = some l) :
    remove_document_event_listener name_ptr name_len data callback use_capture s
      = (.ok true, s.unregistered .document
          (listener_key (ascii "document") name data callback use_capture) name l
          use_capture) := by
  unfold remove_document_event_listener
  rw [JS.bind_run _ _ _ _ _ (Dom.loadString_eq _ _ _ _ hname)]
  simp only [JS.bind_def, Dom.get, Dom.delete, Dom.removeEventListener,
    hkey, JS.pure_def, Dom.unregistered]

theorem remove_document_event_listener_missing (s : Dom)
    (name_ptr : Num) (name_len : JSValue) (data callback : ℤ) (use_capture : Bool)
    (name : JSString)
    (hname : (Dom.loadString name_ptr name_len s).1 = .ok name)
    (hkey : mapGet s.listenerMap
      (listener_key (ascii "document") name data callback use_capture) = none) :
    remove_document_event_listener name_ptr name_len data callback use_capture s
      = (.ok false, s) := by
  unfold remove_document_event_listener
  rw [JS.bind_run _ _ _ _ _ (Dom.loadString_eq _ _ _ _ hname)]
  simp only [JS.bind_def, Dom.get, hkey, JS.pure_def]

/-! ### The map and the listener lists after a registration -/

theorem mapHas_eq_false_iff (m : List (JSString × Listener)) (key : JSString) :
    mapHas m key = false ↔ mapGet m key = none := by
  simp [mapHas, mapGet]

theorem mapGet_append_new (m : List (JSString × Listener)) (key : JSString) (l : Listener)
    (h : mapHas m key = false) : mapGet (m ++ [(key, l)]) key = some l := by
  rw [mapHas_eq_false_iff] at h
  unfold mapGet at *
  induction m with
  | nil => simp [List.lookup]
  | cons p ps ih =>
    obtain ⟨k, v⟩ := p
    simp only [List.cons_append, List.lookup] at h ⊢
    split at h
    · exact absurd h (by simp)
    · exact ih h

theorem mapHas_append_new (m : List (JSString × Listener)) (key : JSString) (l : Listener)
    (h : mapHas m key = false) : mapHas (m ++ [(key, l)]) key = true := by
  simp [mapHas, show (m ++ [(key, l)]).lookup key = some l from mapGet_append_new m key l h]

theorem mapDelete_of_not_has (m : List (JSString × Listener)) (key : JSString)
    (h : mapHas m key = false) : mapDelete m key = m := by
  rw [mapHas_eq_false_iff] at h
  unfold mapGet mapDelete at *
  induction m with
  | nil => rfl
  | cons p ps ih =>
    obtain ⟨k, v⟩ := p
    simp only [List.lookup] at h
    split at h
    · exact absurd h (by simp)
    · rename_i hk
      have hne : k ≠ key := by
        intro e
        rw [e] at hk
        simp at hk
      rw [List.filter_cons_of_pos (by simpa using hne), ih h]

theorem mapDelete_append_new (m : List (JSString × Listener)) (key : JSString) (l : Listener)
    (h : mapHas m key = false) : mapDelete (m ++ [(key, l)]) key = m := by
  have := mapDelete_of_not_has m key h
  unfold mapDelete at *
  rw [List.filter_append, this]
  simp

theorem mapHas_mapDelete (m : List (JSString × Listener)) (key : JSString) :
    mapHas (mapDelete m key) key = false := by
  rw [mapHas_eq_false_iff]
  unfold mapGet mapDelete
  induction m with
  | nil => rfl
  | cons p ps ih =>
    obtain ⟨k, v⟩ := p
    by_cases hk : k = key
    · rw [List.filter_cons_of_neg (by simpa using hk)]
      exact ih
    · rw [List.filter_cons_of_pos (by simpa using hk)]
      simp only [List.lookup]
      have : (key == k) = false := by
        simp only [beq_eq_false_iff_ne, ne_eq]
        exact fun e => hk e.symm
      rw [this]
      exact ih

theorem filter_sameListener_of_fresh (s : Dom) (hfresh : s.Fresh) (target : Target)
    (name : JSString) (l : Listener) (capture : Bool) (hl : l.uid = s.functions) :
    (s.attached ++ [(⟨target, name, l, capture⟩ : Attached)]).filter
      (fun a => !Dom.sameListener ⟨target, name, l, capture⟩ a) = s.attached := by
  have hany := any_sameListener_of_fresh s hfresh target name l capture hl
  rw [List.any_eq_false] at hany
  rw [List.filter_append]
  have h1 : s.attached.filter (fun a => !Dom.sameListener ⟨target, name, l, capture⟩ a)
      = s.attached := by
    rw [List.filter_eq_self]
    intro a ha
    simpa using hany a ha
  have h2 : Dom.sameListener ⟨target, name, l, capture⟩ ⟨target, name, l, capture⟩ = true := by
    simp [Dom.sameListener]
  rw [h1]
  simp [h2]

/-- Registering and then removing restores the map and the listener lists;
only the count of closures created has moved on. -/
theorem unregistered_registered (s : Dom) (hfresh : s.Fresh) (target : Target)
    (key name : JSString) (l : Listener) (capture : Bool) (hl : l.uid = s.functions)
    (hkey : mapHas s.listenerMap key = false) :
    (s.registered target key name l capture).unregistered target key name l capture
      = { s with functions := s.functions + 1 } := by
  simp only [Dom.registered, Dom.unregistered, mapDelete_append_new _ _ _ hkey,
    filter_sameListener_of_fresh s hfresh target name l capture hl]

theorem fresh_succ (s : Dom) (hfresh : s.Fresh) :
    Dom.Fresh { s with functions := s.functions + 1 } := by
  intro a ha
  have := hfresh a ha
  show a.listener.uid < s.functions + 1
  omega

theorem fresh_registered (s : Dom) (hfresh : s.Fresh) (target : Target)
    (key name : JSString) (l : Listener) (capture : Bool) (hl : l.uid = s.functions) :
    (s.registered target key name l capture).Fresh := by
  intro a ha
  simp only [Dom.registered, List.mem_append, List.mem_singleton] at ha ⊢
  rcases ha with ha | ha
  · have := hfresh a ha
    omega
  · rw [ha]
    simp only []
    omega

theorem fresh_unregistered (s : Dom) (hfresh : s.Fresh) (target : Target)
    (key name : JSString) (l : Listener) (capture : Bool) :
    (s.unregistered target key name l capture).Fresh := by
  intro a ha
  simp only [Dom.unregistered, List.mem_filter] at ha ⊢
  exact hfresh a ha.1

theorem registered_wmi (s : Dom) (target : Target) (key name : JSString) (l : Listener)
    (capture : Bool) : (s.registered target key name l capture).wmi = s.wmi := rfl

/-- C18: a registration of a key that is not in the registry returns true,
puts the new closure into the registry under the key and attaches it as one
more native listener; the same call again returns false and changes nothing,
so after both calls exactly one native listener has been attached.  More
generally a registration is rejected, with the state unchanged, whenever its
key is in the registry.  This holds for add_event_listener (when the element
id resolves), add_window_event_listener and add_document_event_listener. -/
theorem C18_idempotent_registration (s : Dom) (id_ptr : Num) (id_len : JSValue)
    (name_ptr : Num) (name_len : JSValue) (name_code : Num) (data callback : ℤ)
    (use_capture : Bool) (id name : JSString)
    (hname : (Dom.loadString name_ptr name_len s).1 = .ok name) :
    ((Dom.loadString id_ptr id_len s).1 = .ok id → id ≠ [] → id ∈ s.elements → s.Fresh →
      mapHas s.listenerMap (listener_key id name data callback use_capture) = false →
      add_event_listener id_ptr id_len name_ptr name_len name_code data callback use_capture s
        = (.ok true, s.registered (.element id)
            (listener_key id name data callback use_capture) name
            ⟨s.functions, id_ptr, id_len, name_code, data, callback⟩ use_capture) ∧
      add_event_listener id_ptr id_len name_ptr name_len name_code data callback use_capture
          (add_event_listener id_ptr id_len name_ptr name_len name_code data callback
            use_capture s).2
        = (.ok false, (add_event_listener id_ptr id_len name_ptr name_len name_code data
            callback use_capture s).2)) ∧
    ((Dom.loadString id_ptr id_len s).1 = .ok id →
      mapHas s.listenerMap (listener_key id name data callback use_capture) = true →
      add_event_listener id_ptr id_len name_ptr name_len name_code data callback use_capture s
        = (.ok false, s)) ∧
    (s.Fresh →
      mapHas s.listenerMap (listener_key (ascii "window") name data callback use_capture)
        = false →
      add_window_event_listener name_ptr name_len name_code data callback use_capture s
        = (.ok true, s.registered .window
            (listener_key (ascii "window") name data callback use_capture) name
            ⟨s.functions, .fin 0, .number (.fin 0), name_code, data, callback⟩ use_capture) ∧
      add_window_event_listener name_ptr name_len name_code data callback use_capture
          (add_window_event_listener name_ptr name_len name_code data callback use_capture s).2
        = (.ok false,
          (add_window_event_listener name_ptr name_len name_code data callback use_capture
            s).2)) ∧
    (mapHas s.listenerMap (listener_key (ascii "window") name data callback use_capture)
        = true →
      add_window_event_listener name_ptr name_len name_code data callback use_capture s
        = (.ok false, s)) ∧
    (s.Fresh →
      mapHas s.listenerMap (listener_key (ascii "document") name data callback use_capture)
        = false →
      add_document_event_listener name_ptr name_len name_code data callback use_capture s
        = (.ok true, s.registered .document
            (listener_key (ascii "document") name data callback use_capture) name
            ⟨s.functions, .fin 0, .number (.fin 0), name_code, data, callback⟩ use_capture) ∧
      add_document_event_listener name_ptr name_len name_code data callback use_capture
          (add_document_event_listener name_ptr name_len name_code data callback use_capture
            s).2
        = (.ok false,
          (add_document_event_listener name_ptr name_len name_code data callback use_capture
            s).2)) ∧
    (mapHas s.listenerMap (listener_key (ascii "document") name data callback use_capture)
        = true →
      add_document_event_listener name_ptr name_len name_code data callback use_capture s
        = (.ok false, s)) := by
  refine ⟨?_, ?_, ?_, ?_, ?_, ?_⟩
  · intro hid hne hel hfresh hkey
    have h1 := add_event_listener_new s id_ptr id_len name_ptr name_len name_code data callback
      use_capture id name hid hname hne hel hkey hfresh
    refine ⟨h1, ?_⟩
    rw [h1]
    exact add_event_listener_dup _ id_ptr id_len name_ptr name_len name_code data callback
      use_capture id name
      ((Dom.loadString_wmi _ _ s _ (registered_wmi ..)).trans hid)
      ((Dom.loadString_wmi _ _ s _ (registered_wmi ..)).trans hname)
      (mapHas_append_new _ _ _ hkey)
  · intro hid hkey
    exact add_event_listener_dup s id_ptr id_len name_ptr name_len name_code data callback
      use_capture id name hid hname hkey
  · intro hfresh hkey
    have h1 := add_window_event_listener_new s name_ptr name_len name_code data callback
      use_capture name hname hkey hfresh
    refine ⟨h1, ?_⟩
    rw [h1]
    exact add_window_event_listener_dup _ name_ptr name_len name_code data callback
      use_capture name
      ((Dom.loadString_wmi _ _ s _ (registered_wmi ..)).trans hname)
      (mapHas_append_new _ _ _ hkey)
  · intro hkey
    exact add_window_event_listener_dup s name_ptr name_len name_code data callback
      use_capture name hname hkey
  · intro hfresh hkey
    have h1 := add_document_event_listener_new s name_ptr name_len name_code data callback
      use_capture name hname hkey hfresh
    refine ⟨h1, ?_⟩
    rw [h1]
    exact add_document_event_listener_dup _ name_ptr name_len name_code data callback
      use_capture name
      ((Dom.loadString_wmi _ _ s _ (registered_wmi ..)).trans hname)
      (mapHas_append_new _ _ _ hkey)
  · intro hkey
    exact add_document_event_listener_dup s name_ptr name_len name_code data callback
      use_capture name hname hkey

theorem unregistered_wmi (s : Dom) (target : Target) (key name : JSString) (l : Listener)
    (capture : Bool) : (s.unregistered target key name l capture).wmi = s.wmi := rfl

theorem mapGet_unregistered (s : Dom) (target : Target) (key name : JSString) (l : Listener)
    (capture : Bool) :
    mapGet (s.unregistered target key name l capture).listenerMap key = none :=
  (mapHas_eq_false_iff _ _).mp (mapHas_mapDelete _ _)

/-- C19: a removal returns true exactly when the key is in the registry (and,
for remove_event_listener, the element id resolves).  On success the key
leaves the registry and the closure found under it is detached from the
target, so the same removal again returns false and changes nothing; a
removal of a key that is not registered returns false and changes nothing.
After a registration the removal detaches exactly the listener that the
registration attached: registry and listener lists are as before the
registration, and the same registration succeeds again.  This holds for
remove_event_listener, remove_window_event_listener and
remove_document_event_listener. -/
theorem C19_removal (s : Dom) (id_ptr : Num) (id_len : JSValue)
    (name_ptr : Num) (name_len : JSValue) (name_code : Num) (data callback : ℤ)
    (use_capture : Bool) (id name : JSString) (l : Listener)
    (hname : (Dom.loadString name_ptr name_len s).1 = .ok name) :
    ((Dom.loadString id_ptr id_len s).1 = .ok id → id ≠ [] → id ∈ s.elements →
      mapGet s.listenerMap (listener_key id name data callback use_capture) = some l →
      remove_event_listener id_ptr id_len name_ptr name_len data callback use_capture s
        = (.ok true, s.unregistered (.element id)
            (listener_key id name data callback use_capture) name l use_capture) ∧
      remove_event_listener id_ptr id_len name_ptr name_len data callback use_capture
          (s.unregistered (.element id) (listener_key id name data callback use_capture)
            name l use_capture)
        = (.ok false, s.unregistered (.element id)
            (listener_key id name data callback use_capture) name l use_capture)) ∧
    ((Dom.loadString id_ptr id_len s).1 = .ok id →
      (mapGet s.listenerMap (listener_key id name data callback use_capture) = none ∨
        id = [] ∨ id ∉ s.elements) →
      remove_event_listener id_ptr id_len name_ptr name_len data callback use_capture s
        = (.ok false, s)) ∧
    ((Dom.loadString id_ptr id_len s).1 = .ok id → id ≠ [] → id ∈ s.elements → s.Fresh →
      mapHas s.listenerMap (listener_key id name data callback use_capture) = false →
      remove_event_listener id_ptr id_len name_ptr name_len data callback use_capture
          (add_event_listener id_ptr id_len name_ptr name_len name_code data callback
            use_capture s).2
        = (.ok true, { s with functions := s.functions + 1 }) ∧
      (add_event_listener id_ptr id_len name_ptr name_len name_code data callback
          use_capture { s with functions := s.functions + 1 }).1 = .ok true) ∧
    (mapGet s.listenerMap (listener_key (ascii "window") name data callback use_capture)
        = some l →
      remove_window_event_listener name_ptr name_len data callback use_capture s
        = (.ok true, s.unregistered .window
            (listener_key (ascii "window") name data callback use_capture) name l
            use_capture) ∧
      remove_window_event_listener name_ptr name_len data callback use_capture
          (s.unregistered .window
            (listener_key (ascii "window") name data callback use_capture) name l
            use_capture)
        = (.ok false, s.unregistered .window
            (listener_key (ascii "window") name data callback use_capture) name l
            use_capture)) ∧
    (mapGet s.listenerMap (listener_key (ascii "window") name data callback use_capture)
        = none →
      remove_window_event_listener name_ptr name_len data callback use_capture s
        = (.ok false, s)) ∧
    (s.Fresh →
      mapHas s.listenerMap (listener_key (ascii "window") name data callback use_capture)
        = false →
      remove_window_event_listener name_ptr name_len data callback use_capture
          (add_window_event_listener name_ptr name_len name_code data callback use_capture
            s).2
        = (.ok true, { s with functions := s.functions + 1 }) ∧
      (add_window_event_listener name_ptr name_len name_code data callback use_capture
          { s with functions := s.functions + 1 }).1 = .ok true) ∧
    (mapGet s.listenerMap (listener_key (ascii "document") name data callback use_capture)
        = some l →
      remove_document_event_listener name_ptr name_len data callback use_capture s
        = (.ok true, s.unregistered .document
            (listener_key (ascii "document") name data callback use_capture) name l
            use_capture) ∧
      remove_document_event_listener name_ptr name_len data callback use_capture
          (s.unregistered .document
            (listener_key (ascii "document") name data callback use_capture) name l
            use_capture)
        = (.ok false, s.unregistered .document
            (listener_key (ascii "document") name data callback use_capture) name l
            use_capture)) ∧
    (mapGet s.listenerMap (listener_key (ascii "document") name data callback use_capture)
        = none →
      remove_document_event_listener name_ptr name_len data callback use_capture s
        = (.ok false, s)) ∧
    (s.Fresh →
      mapHas s.listenerMap (listener_key (ascii "document") name data callback use_capture)
        = false →
      remove_document_event_listener name_ptr name_len data callback use_capture
          (add_document_event_listener name_ptr name_len name_code data callback use_capture
            s).2
        = (.ok true, { s with functions := s.functions + 1 }) ∧
      (add_document_event_listener name_ptr name_len name_code data callback use_capture
          { s with functions := s.functions + 1 }).1 = .ok true) := by
  refine ⟨?_, ?_, ?_, ?_, ?_, ?_, ?_, ?_, ?_⟩
  · intro hid hne hel hkey
    refine ⟨remove_event_listener_found s id_ptr id_len name_ptr name_len data callback
      use_capture id name l hid hname hne hel hkey, ?_⟩
    exact remove_event_listener_missing _ id_ptr id_len name_ptr name_len data callback
      use_capture id name
      ((Dom.loadString_wmi _ _ s _ (unregistered_wmi ..)).trans hid)
      ((Dom.loadString_wmi _ _ s _ (unregistered_wmi ..)).trans hname)
      (Or.inl (mapGet_unregistered ..))
  · intro hid hkey
    exact remove_event_listener_missing s id_ptr id_len name_ptr name_len data callback
      use_capture id name hid hname hkey
  · intro hid hne hel hfresh hkey
    rw [add_event_listener_new s id_ptr id_len name_ptr name_len name_code data callback
      use_capture id name hid hname hne hel hkey hfresh]
    refine ⟨?_, ?_⟩
    · rw [remove_event_listener_found _ id_ptr id_len name_ptr name_len data callback
        use_capture id name ⟨s.functions, id_ptr, id_len, name_code, data, callback⟩
        ((Dom.loadString_wmi _ _ s _ (registered_wmi ..)).trans hid)
        ((Dom.loadString_wmi _ _ s _ (registered_wmi ..)).trans hname) hne hel
        (mapGet_append_new _ _ _ hkey)]
      rw [unregistered_registered s hfresh _ _ _ _ _ rfl hkey]
    · rw [add_event_listener_new { s with functions := s.functions + 1 } id_ptr id_len
        name_ptr name_len name_code data callback use_capture id name hid hname hne hel hkey
        (fresh_succ s hfresh)]
  · intro hkey
    refine ⟨remove_window_event_listener_found s name_ptr name_len data callback
      use_capture name l hname hkey, ?_⟩
    exact remove_window_event_listener_missing _ name_ptr name_len data callback
      use_capture name
      ((Dom.loadString_wmi _ _ s _ (unregistered_wmi ..)).trans hname)
      (mapGet_unregistered ..)
  · intro hkey
    exact remove_window_event_listener_missing s name_ptr name_len data callback
      use_capture name hname hkey
  · intro hfresh hkey
    rw [add_window_event_listener_new s name_ptr name_len name_code data callback
      use_capture name hname hkey hfresh]
    refine ⟨?_, ?_⟩
    · rw [remove_window_event_listener_found _ name_ptr name_len data callback
        use_capture name ⟨s.functions, .fin 0, .number (.fin 0), name_code, data, callback⟩
        ((Dom.loadString_wmi _ _ s _ (registered_wmi ..)).trans hname)
        (mapGet_append_new _ _ _ hkey)]
      rw [unregistered_registered s hfresh _ _ _ _ _ rfl hkey]
    · rw [add_window_event_listener_new { s with functions := s.functions + 1 }
        name_ptr name_len name_code data callback use_capture name hname hkey
        (fresh_succ s hfresh)]
  · intro hkey
    refine ⟨remove_document_event_listener_found s name_ptr name_len data callback
      use_capture name l hname hkey, ?_⟩
    exact remove_document_event_listener_missing _ name_ptr name_len data callback
      use_capture name
      ((Dom.loadString_wmi _ _ s _ (unregistered_wmi ..)).trans hname)
      (mapGet_unregistered ..)
  · intro hkey
    exact remove_document_event_listener_missing s name_ptr name_len data callback
      use_capture name hname hkey
  · intro hfresh hkey
    rw [add_document_event_listener_new s name_ptr name_len name_code data callback
      use_capture name hname hkey hfresh]
    refine ⟨?_, ?_⟩
    · rw [remove_document_event_listener_found _ name_ptr name_len data callback
        use_capture name ⟨s.functions, .fin 0, .number (.fin 0), name_code, data, callback⟩
        ((Dom.loadString_wmi _ _ s _ (registered_wmi ..)).trans hname)
        (mapGet_append_new _ _ _ hkey)]
      rw [unregistered_registered s hfresh _ _ _ _ _ rfl hkey]
    · rw [add_document_event_listener_new { s with functions := s.functions + 1 }
        name_ptr name_len name_code data callback use_capture name hname hkey
        (fresh_succ s hfresh)]

/-- Witness of C18 on a page with the element `btn`: the listener of `click`
is registered once, for the element, the window and the document. -/
theorem C18_idempotent_registration_witness :
    (add_event_listener (.fin 0) (.number (.fin 3)) (.fin 3) (.number (.fin 5)) (.fin 7)
      100 200 false pageDom).1 = .ok true ∧
    (add_event_listener (.fin 0) (.number (.fin 3)) (.fin 3) (.number (.fin 5)) (.fin 7)
      100 200 false
      (add_event_listener (.fin 0) (.number (.fin 3)) (.fin 3) (.number (.fin 5)) (.fin 7)
        100 200 false pageDom).2).1 = .ok false ∧
    (add_window_event_listener (.fin 3) (.number (.fin 5)) (.fin 7) 100 200 false
      pageDom).1 = .ok true ∧
    (add_document_event_listener (.fin 3) (.number (.fin 5)) (.fin 7) 100 200 false
      pageDom).1 = .ok true :=
  have h := C18_idempotent_registration pageDom (.fin 0) (.number (.fin 3)) (.fin 3)
    (.number (.fin 5)) (.fin 7) 100 200 false (ascii "btn") (ascii "click") (by decide!)
  have he := h.1 (by decide!) (by decide) (by decide) (by decide) (by decide)
  ⟨congrArg Prod.fst he.1, congrArg Prod.fst he.2,
   congrArg Prod.fst (h.2.2.1 (by decide) (by decide)).1,
   congrArg Prod.fst (h.2.2.2.2.1 (by decide) (by decide)).1⟩

/-- Witness of C19 on a page with the element `btn`: registered and removed
again, the listener of `click` leaves the page as it was. -/
theorem C19_removal_witness :
    remove_event_listener (.fin 0) (.number (.fin 3)) (.fin 3) (.number (.fin 5)) 100 200 false
      (add_event_listener (.fin 0) (.number (.fin 3)) (.fin 3) (.number (.fin 5)) (.fin 7)
        100 200 false pageDom).2
      = (.ok true, { pageDom with functions := 1 }) ∧
    remove_event_listener (.fin 0) (.number (.fin 3)) (.fin 3) (.number (.fin 5)) 100 200 false
      pageDom = (.ok false, pageDom) ∧
    remove_window_event_listener (.fin 3) (.number (.fin 5)) 100 200 false pageDom
      = (.ok false, pageDom) ∧
    remove_document_event_listener (.fin 3) (.number (.fin 5)) 100 200 false pageDom
      = (.ok false, pageDom) :=
  have h := C19_removal pageDom (.fin 0) (.number (.fin 3)) (.fin 3)
    (.number (.fin 5)) (.fin 7) 100 200 false (ascii "btn") (ascii "click")
    ⟨0, .fin 0, .number (.fin 0), .fin 7, 100, 200⟩ (by decide!)
  ⟨(h.2.2.1 (by decide!) (by decide) (by decide) (by decide) (by decide)).1,
   h.2.1 (by decide!) (Or.inl (by decide)),
   h.2.2.2.2.1 (by decide),
   h.2.2.2.2.2.2.2.1 (by decide)⟩

/-! ## The registry key -/

theorem append_sep_inj {α : Type} (sep : α) :
    ∀ (a a' x x' : List α), sep ∉ a → sep ∉ a' → a ++ sep :: x = a' ++ sep :: x' →
      a = a' ∧ x = x' := by
  intro a
  induction a with
  | nil =>
    intro a' x x' _ h' h
    cases a' with
    | nil => exact ⟨rfl, (List.cons.inj h).2⟩
    | cons b bs =>
      exfalso
      have := (List.cons.inj h).1
      exact h' (by rw [this]; exact List.mem_cons_self _ _)
  | cons c cs ih =>
    intro a' x x' hc h' h
    cases a' with
    | nil =>
      exfalso
      have := (List.cons.inj h).1
      exact hc (by rw [← this]; exact List.mem_cons_self _ _)
    | cons b bs =>
      obtain ⟨h1, h2⟩ := List.cons.inj h
      obtain ⟨h3, h4⟩ := ih bs x x' (fun m => hc (List.mem_cons_of_mem _ m))
        (fun m => h' (List.mem_cons_of_mem _ m)) h2
      exact ⟨by rw [h1, h3], h4⟩

theorem decimalAux_digits : ∀ (fuel n : ℕ), ∀ u ∈ decimalAux fuel n,
    0x30 ≤ u.val ∧ u.val ≤ 0x39 := by
  intro fuel
  induction fuel with
  | zero => intro n u hu; simp [decimalAux] at hu
  | succ f ih =>
    intro n u hu
    unfold decimalAux at hu
    split at hu
    · rename_i h
      simp only [List.mem_singleton] at hu
      subst hu
      simp only [codeUnit]
      omega
    · simp only [List.mem_append, List.mem_singleton] at hu
      rcases hu with hu | hu
      · exact ih _ u hu
      · subst hu
        simp only [codeUnit]
        omega

theorem decimal_digits (n : ℕ) : ∀ u ∈ decimal n, 0x30 ≤ u.val ∧ u.val ≤ 0x39 :=
  decimalAux_digits _ _

theorem decimalAux_value : ∀ (fuel n : ℕ), n < fuel →
    (decimalAux fuel n).foldl (fun acc u => 10 * acc + (u.val - 0x30)) 0 = n := by
  intro fuel
  induction fuel with
  | zero => intro n h; omega
  | succ f ih =>
    intro n h
    unfold decimalAux
    split
    · simp only [List.foldl, codeUnit]
      omega
    · rw [List.foldl_append, ih (n / 10) (by omega)]
      simp only [List.foldl, codeUnit]
      omega

theorem decimal_injective (m n : ℕ) (h : decimal m = decimal n) : m = n := by
  have h1 := decimalAux_value (m + 1) m (by omega)
  have h2 := decimalAux_value (n + 1) n (by omega)
  unfold decimal at h
  rw [h] at h1
  omega

theorem decimal_ne_nil (n : ℕ) : decimal n ≠ [] := by
  unfold decimal decimalAux
  split
  · simp
  · simp

theorem ascii_hyphen : ascii "-" = [0x2D] := by decide

theorem intToString_chars (z : ℤ) : ∀ u ∈ intToString z,
    u.val = 0x2D ∨ (0x30 ≤ u.val ∧ u.val ≤ 0x39) := by
  intro u hu
  unfold intToString at hu
  split at hu
  · rw [ascii_hyphen] at hu
    simp only [List.singleton_append, List.mem_cons] at hu
    rcases hu with hu | hu
    · left; rw [hu]; rfl
    · right; exact decimal_digits _ u hu
  · right; exact decimal_digits _ u hu

theorem intToString_injective (a b : ℤ) (h : intToString a = intToString b) : a = b := by
  unfold intToString at h
  rw [ascii_hyphen] at h
  have key : ∀ n (l : JSString), decimal n ≠ 0x2D :: l := by
    intro n l e
    have := decimal_digits n 0x2D (by rw [e]; exact List.mem_cons_self _ _)
    revert this
    decide
  split at h <;> split at h
  · have := decimal_injective _ _ (List.cons.inj h).2
    omega
  · exact absurd h.symm (key _ _)
  · exact absurd h (key _ _)
  · have := decimal_injective _ _ h
    omega

theorem boolToString_injective (a b : Bool) (h : boolToString a = boolToString b) : a = b := by
  revert h
  cases a <;> cases b <;> decide

theorem append_sep_inj_right {α : Type} (sep : α) (a a' x x' : List α)
    (hx : sep ∉ x) (hx' : sep ∉ x') (h : a ++ sep :: x = a' ++ sep :: x') :
    a = a' ∧ x = x' := by
  have hr := congrArg List.reverse h
  simp only [List.reverse_append, List.reverse_cons, List.append_assoc,
    List.singleton_append] at hr
  obtain ⟨e1, e2⟩ := append_sep_inj sep _ _ _ _
    (fun m => hx (List.mem_reverse.mp m)) (fun m => hx' (List.mem_reverse.mp m)) hr
  exact ⟨List.reverse_injective e2, List.reverse_injective e1⟩

/-- Two ways of cutting one string at a separator are the same cut, unless
the left part of one and the right part of the other both contain the
separator. -/
theorem append_sep_cases {α : Type} (sep : α) (a a' x x' : List α)
    (h : a ++ sep :: x = a' ++ sep :: x') :
    (a = a' ∧ x = x') ∨ (sep ∈ a' ∧ sep ∈ x) ∨ (sep ∈ a ∧ sep ∈ x') := by
  rcases List.append_eq_append_iff.mp h with ⟨c, hc1, hc2⟩ | ⟨c, hc1, hc2⟩
  · cases c with
    | nil =>
      left
      rw [List.append_nil] at hc1
      rw [List.nil_append] at hc2
      exact ⟨hc1.symm, (List.cons.inj hc2).2⟩
    | cons d ds =>
      right; left
      obtain ⟨e1, e2⟩ := List.cons.inj hc2
      subst e1
      exact ⟨by rw [hc1]; simp, by rw [e2]; simp⟩
  · cases c with
    | nil =>
      left
      rw [List.append_nil] at hc1
      rw [List.nil_append] at hc2
      exact ⟨hc1, (List.cons.inj hc2).2.symm⟩
    | cons d ds =>
      right; right
      obtain ⟨e1, e2⟩ := List.cons.inj hc2
      subst e1
      exact ⟨by rw [hc1]; simp, by rw [e2]; simp⟩

theorem listener_key_eq (id name : JSString) (data callback : ℤ) (useCapture : Bool) :
    listener_key id name data callback useCapture
      = ((((((id ++ 0x2D :: name) ++ ascii "-data") ++ 0x3A :: intToString data)
          ++ ascii "-callback") ++ 0x3A :: intToString callback) ++ ascii "-useCapture")
          ++ 0x3A :: boolToString useCapture := by
  have h1 : ascii "-data:" = ascii "-data" ++ [0x3A] := by decide
  have h2 : ascii "-callback:" = ascii "-callback" ++ [0x3A] := by decide
  have h3 : ascii "-useCapture:" = ascii "-useCapture" ++ [0x3A] := by decide
  unfold listener_key
  rw [ascii_hyphen, h1, h2, h3]
  simp only [List.append_assoc, List.cons_append, List.nil_append, List.singleton_append]

theorem colon_not_mem_intToString (z : ℤ) : (0x3A : CodeUnit) ∉ intToString z := by
  intro hm
  have := intToString_chars z _ hm
  revert this
  decide

theorem colon_not_mem_boolToString (b : Bool) : (0x3A : CodeUnit) ∉ boolToString b := by
  cases b <;> decide

/-- The key determines its five components.  Read from the right, the capture
flag, the callback and the data follow the last three `:` (none of them
contains one); what is left is `id-name`, which can be cut in two ways only
when the id of one key and the event name of the other both contain `-`. -/
theorem listener_key_injective (id id' name name' : JSString) (data data' callback callback' : ℤ)
    (capture capture' : Bool)
    (h1 : hyphenFree id ∨ hyphenFree name') (h2 : hyphenFree id' ∨ hyphenFree name)
    (h : listener_key id name data callback capture
      = listener_key id' name' data' callback' capture') :
    id = id' ∧ name = name' ∧ data = data' ∧ callback = callback' ∧ capture = capture' := by
  rw [listener_key_eq, listener_key_eq] at h
  obtain ⟨h, e5⟩ := append_sep_inj_right _ _ _ _ _
    (colon_not_mem_boolToString capture) (colon_not_mem_boolToString capture') h
  have h := List.append_cancel_right h
  obtain ⟨h, e4⟩ := append_sep_inj_right _ _ _ _ _
    (colon_not_mem_intToString callback) (colon_not_mem_intToString callback') h
  have h := List.append_cancel_right h
  obtain ⟨h, e3⟩ := append_sep_inj_right _ _ _ _ _
    (colon_not_mem_intToString data) (colon_not_mem_intToString data') h
  have h := List.append_cancel_right h
  have hcut : id = id' ∧ name = name' := by
    rcases append_sep_cases _ _ _ _ _ h with e | ⟨m1, m2⟩ | ⟨m1, m2⟩
    · exact e
    · rcases h2 with f | f
      · exact absurd m1 f
      · exact absurd m2 f
    · rcases h1 with f | f
      · exact absurd m1 f
      · exact absurd m2 f
  exact ⟨hcut.1, hcut.2, intToString_injective _ _ e3, intToString_injective _ _ e4,
    boolToString_injective _ _ e5⟩

theorem target_id_injective (t t' : Target) (h : t.Unambiguous) (h' : t'.Unambiguous)
    (e : t.id = t'.id) : t = t' := by
  cases t <;> cases t'
  · simp only [Target.id] at e; rw [e]
  · exact absurd e h.1
  · exact absurd e h.2
  · exact absurd e.symm h'.1
  · rfl
  · revert e; decide
  · exact absurd e.symm h'.2
  · revert e; decide
  · rfl

/-- C20 fails as stated: the key is the concatenation of its components with
`-` as separator and nothing is escaped.  The element `a-b` with the event
`c` has the key of the element `a` with the event `b-c`; an element whose id
is `window` has the keys of the window scope.  On a page with an element of
id `window`, once `click` is registered for that element the registration of
the same callback for the window is rejected as a duplicate. -/
theorem C20_counterexample_separator :
    (⟨.element (ascii "a-b"), ascii "c", 1, 2, false⟩ : ListenerKey)
      ≠ ⟨.element (ascii "a"), ascii "b-c", 1, 2, false⟩ ∧
    ListenerKey.key ⟨.element (ascii "a-b"), ascii "c", 1, 2, false⟩
      = ListenerKey.key ⟨.element (ascii "a"), ascii "b-c", 1, 2, false⟩ ∧
    (⟨.element (ascii "window"), ascii "click", 1, 2, false⟩ : ListenerKey)
      ≠ ⟨.window, ascii "click", 1, 2, false⟩ ∧
    ListenerKey.key ⟨.element (ascii "window"), ascii "click", 1, 2, false⟩
      = ListenerKey.key ⟨.window, ascii "click", 1, 2, false⟩ ∧
    (add_event_listener (.fin 0) (.number (.fin 6)) (.fin 6) (.number (.fin 5)) (.fin 7)
      1 2 false windowIdDom).1 = .ok true ∧
    (add_window_event_listener (.fin 6) (.number (.fin 5)) (.fin 7) 1 2 false
      windowIdDom).1 = .ok true ∧
    (add_window_event_listener (.fin 6) (.number (.fin 5)) (.fin 7) 1 2 false
      (add_event_listener (.fin 0) (.number (.fin 6)) (.fin 6) (.number (.fin 5)) (.fin 7)
        1 2 false windowIdDom).2).1 = .ok false := by
  refine ⟨?_, ?_, ?_, ?_, ?_, ?_, ?_⟩
  · decide
  · decide
  · decide
  · decide
  · decide!
  · decide!
  · decide!

/-- C20 (amended): for two ListenerKey tuples whose element ids are not
`window` or `document`, and in which a scope id that contains `-` does not
meet an event name that contains `-` in the other tuple (so whenever the
event names, or the element ids, contain no `-`), the map key tells the
tuples apart: if they differ in a component, they have different keys. -/
theorem C20_key_injective (k k' : ListenerKey)
    (hs : k.scope.Unambiguous) (hs' : k'.scope.Unambiguous)
    (h1 : hyphenFree k.scope.id ∨ hyphenFree k'.name)
    (h2 : hyphenFree k'.scope.id ∨ hyphenFree k.name) (hne : k ≠ k') :
    k.key ≠ k'.key := by
  intro h
  obtain ⟨e1, e2, e3, e4, e5⟩ := listener_key_injective _ _ _ _ _ _ _ _ _ _ h1 h2 h
  apply hne
  obtain ⟨s, n, d, c, u⟩ := k
  obtain ⟨s', n', d', c', u'⟩ := k'
  simp only at e1 e2 e3 e4 e5 hs hs'
  rw [target_id_injective s s' hs hs' e1, e2, e3, e4, e5]

/-- Witness of the amended C20: the element `main-canvas` and the window,
both with the event `click`. -/
theorem C20_key_injective_witness :
    ListenerKey.key ⟨.element (ascii "main-canvas"), ascii "click", 1, 2, false⟩
      ≠ ListenerKey.key ⟨.window, ascii "click", 1, 2, false⟩ :=
  C20_key_injective ⟨.element (ascii "main-canvas"), ascii "click", 1, 2, false⟩
    ⟨.window, ascii "click", 1, 2, false⟩ (by decide) (by decide)
    (Or.inr (by decide)) (Or.inl (by decide)) (by decide)

open WasmMemoryInterface

/-! ## Reading a record back -/

theorem applyWrites_nil (buf : List Byte) : applyWrites [] buf = buf := rfl

theorem applyWrites_cons (w : ℕ × List Byte) (ws : List (ℕ × List Byte)) (buf : List Byte) :
    applyWrites (w :: ws) buf = applyWrites ws (patch buf w.1 w.2) := rfl

theorem applyWrites_append (ws ws' : List (ℕ × List Byte)) (buf : List Byte) :
    applyWrites (ws ++ ws') buf = applyWrites ws' (applyWrites ws buf) := by
  unfold applyWrites
  rw [List.foldl_append]

theorem length_applyWrites (ws : List (ℕ × List Byte)) (buf : List Byte) :
    (applyWrites ws buf).length = buf.length := by
  induction ws generalizing buf with
  | nil => rfl
  | cons w ws ih => rw [applyWrites_cons, ih, length_patch]

theorem getElem?_applyWrites_outside (ws : List (ℕ × List Byte)) (buf : List Byte) (i : ℕ)
    (h : ∀ w ∈ ws, i < w.1 ∨ w.1 + w.2.length ≤ i) : (applyWrites ws buf)[i]? = buf[i]? := by
  induction ws generalizing buf with
  | nil => rfl
  | cons w ws ih =>
    rw [applyWrites_cons, ih _ (fun w' hw' => h w' (List.mem_cons_of_mem _ hw'))]
    exact getElem?_patch_outside _ _ _ _ (h w (List.mem_cons_self _ _))

theorem readBytes_congr (M P : List Byte) (b n : ℕ)
    (h : ∀ i, b ≤ i → i < b + n → M[i]? = P[i]?) : readBytes M b n = readBytes P b n := by
  apply List.ext_getElem?
  intro i
  unfold readBytes
  by_cases hi : i < n
  · rw [List.getElem?_take_of_lt hi, List.getElem?_take_of_lt hi, List.getElem?_drop,
      List.getElem?_drop]
    exact h (b + i) (by omega) (by omega)
  · rw [List.getElem?_eq_none (by simp; omega), List.getElem?_eq_none (by simp; omega)]

theorem readBytes_applyWrites_disjoint (ws : List (ℕ × List Byte)) (buf : List Byte) (b n : ℕ)
    (h : ∀ w ∈ ws, b + n ≤ w.1 ∨ w.1 + w.2.length ≤ b) :
    readBytes (applyWrites ws buf) b n = readBytes buf b n := by
  apply readBytes_congr
  intro i h1 h2
  apply getElem?_applyWrites_outside
  intro w hw
  have := h w hw
  omega

theorem readBytes_patch_same (buf : List Byte) (a : ℕ) (bs : List Byte)
    (h : a + bs.length ≤ buf.length) : readBytes (patch buf a bs) a bs.length = bs := by
  rw [patch_of_le _ _ _ h]
  exact readBytes_writeBytes_same _ _ _ h

/-- A field of a layout table reads back as written when no later write of
the table overlaps it. -/
theorem readBytes_applyWrites_field (pre post : List (ℕ × List Byte)) (a : ℕ) (bs : List Byte)
    (buf : List Byte) (n : ℕ) (hn : bs.length = n) (hin : a + n ≤ buf.length)
    (hpost : ∀ w ∈ post, a + n ≤ w.1 ∨ w.1 + w.2.length ≤ a) :
    readBytes (applyWrites (pre ++ (a, bs) :: post) buf) a n = bs := by
  subst hn
  rw [applyWrites_append, applyWrites_cons, readBytes_applyWrites_disjoint _ _ _ _ hpost]
  exact readBytes_patch_same _ _ _ (by rw [length_applyWrites]; exact hin)

theorem getUint_of_readBytes (w : ℕ) (buf : List Byte) (addr v : ℕ)
    (h : addr + w ≤ buf.length) (hr : readBytes buf addr w = leBytes w v) :
    DataView.getUint w buf addr = .ok (v % 256 ^ w) := by
  unfold DataView.getUint
  rw [if_pos h, hr, leValue_leBytes]

theorem writesAbove_elim {α : Type} (lo : ℕ) (p : JS Encoder α) (Q : α → Prop)
    (h : WritesAbove lo p Q) (c : ℕ) (wmi : WasmMemoryInterface) (hc : lo ≤ c) :
    (p ⟨some c, wmi⟩).2.wmi.memory.length = wmi.memory.length ∧
    (∀ i, i < lo → (p ⟨some c, wmi⟩).2.wmi.memory[i]? = wmi.memory[i]?) :=
  ⟨(h ⟨some c, wmi⟩ ⟨c, rfl, hc⟩).2.2.1, (h ⟨some c, wmi⟩ ⟨c, rfl, hc⟩).2.2.2.1⟩

/-- The state in which `init_event_raw` leaves the common prefix: whatever
the body does, the bytes below the start of the body are those of
`prefixWrites`, and the buffer keeps its length. -/
theorem init_event_raw_eq_body (host : Host) (W : ℕ) (data : EventData) (ep : ℕ)
    (m : List Byte)
    (hW : W = 4 ∨ W = 8) (hep : ep % 8 = 0) (hlen : ep + 28 + 2 * W ≤ m.length)
    (hid : W = 4 → ∀ z, data.id_len ≠ .bigint z) :
    init_event_raw host (some data) ep ⟨m, W⟩
      = ((init_event_body host W data.event
          ⟨some (ep + 32 + 2 * W), ⟨applyWrites (prefixWrites W data ep) m, W⟩⟩).1,
         (init_event_body host W data.event
          ⟨some (ep + 32 + 2 * W), ⟨applyWrites (prefixWrites W data ep) m, W⟩⟩).2.wmi) := by
  have hrun := init_event_common_run W data ep m hW hep hlen hid
  unfold init_event_raw
  simp only []
  rw [init_event_raw_staged_eq, JS.bind_def, hrun]

theorem init_event_raw_keeps_common (host : Host) (W : ℕ) (data : EventData) (ep : ℕ) (m : List Byte)
    (hW : W = 4 ∨ W = 8) (hep : ep % 8 = 0) (hlen : ep + 28 + 2 * W ≤ m.length)
    (hid : W = 4 → ∀ z, data.id_len ≠ .bigint z) :
    (init_event_raw host (some data) ep ⟨m, W⟩).2.memory.length = m.length ∧
    ∀ i, i < ep + 32 + 2 * W →
      (init_event_raw host (some data) ep ⟨m, W⟩).2.memory[i]?
        = (applyWrites (prefixWrites W data ep) m)[i]? := by
  have hbody := writesAbove_elim _ _ _
    (init_event_body_writesAbove host W data.event (ep + 32 + 2 * W)
      (by rcases hW with h | h <;> omega))
    (ep + 32 + 2 * W) ⟨applyWrites (prefixWrites W data ep) m, W⟩ (le_refl _)
  rw [init_event_raw_eq_body host W data ep m hW hep hlen hid]
  obtain ⟨h3, h4⟩ := hbody
  dsimp only at h3 h4 ⊢
  refine ⟨?_, ?_⟩
  · rw [h3]; exact length_applyWrites _ _
  · exact h4

theorem readBytes_patch_other (buf : List Byte) (a : ℕ) (bs : List Byte) (b n : ℕ)
    (h : b + n ≤ a ∨ a + bs.length ≤ b) :
    readBytes (patch buf a bs) b n = readBytes buf b n := by
  apply readBytes_congr
  intro i h1 h2
  exact getElem?_patch_outside _ _ _ _ (by omega)

theorem readBytes_patch_here (buf : List Byte) (a : ℕ) (bs : List Byte) (n : ℕ)
    (hn : bs.length = n) (h : a + n ≤ buf.length) :
    readBytes (patch buf a bs) a n = bs := by
  subst hn
  exact readBytes_patch_same _ _ _ h

theorem prefix_fields (W : ℕ) (data : EventData) (ep : ℕ) (m : List Byte)
    (hW : W = 4 ∨ W = 8) (hlen : ep + 28 + 2 * W ≤ m.length) :
    readBytes (applyWrites (prefixWrites W data ep) m) ep 4
      = leBytes 4 (data.name_code.toUintN 32) ∧
    readBytes (applyWrites (prefixWrites W data ep) m) (ep + 4) 4
      = leBytes 4 (originCode data.event.target) ∧
    readBytes (applyWrites (prefixWrites W data ep) m) (ep + 8) 4
      = leBytes 4 (originCode data.event.currentTarget) ∧
    readBytes (applyWrites (prefixWrites W data ep) m) (ep + 8 + W) 4
      = leBytes 4 ((data.id_ptr.toIntN 32) % (2 ^ 32 : ℕ)).toNat ∧
    readBytes (applyWrites (prefixWrites W data ep) m) (ep + 8 + 2 * W) 4
      = leBytes 4 ((Number data.id_len).toUintN 32) ∧
    (W = 8 → readBytes (applyWrites (prefixWrites W data ep) m) (ep + 8 + 2 * W + 4) 4
      = leBytes 4 ((Num.floor (Number (divBy4294967296 data.id_len))).toUintN 32)) := by
  rcases hW with rfl | rfl
  · simp only [prefixWrites, guestUintWrites, List.cons_append, List.nil_append,
      applyWrites_cons, applyWrites_nil, Nat.reduceEqDiff, if_false]
    refine ⟨?_, ?_, ?_, ?_, ?_, fun h => absurd h (by decide)⟩ <;>
      simp (disch := (first
        | omega
        | (simp only [length_patch, length_leBytes]; first | done | omega)))
        only [readBytes_patch_other, readBytes_patch_here]
  · simp only [prefixWrites, guestUintWrites, List.cons_append, List.nil_append,
      applyWrites_cons, applyWrites_nil, if_true]
    refine ⟨?_, ?_, ?_, ?_, ?_, fun _ => ?_⟩ <;>
      simp (disch := (first
        | omega
        | (simp only [length_patch, length_leBytes]; first | done | omega)))
        only [readBytes_patch_other, readBytes_patch_here]

theorem toUintN_lt (bits : ℕ) (x : Num) : x.toUintN bits < 2 ^ bits := by
  unfold Num.toUintN
  have h : (0 : ℤ) < ((2 ^ bits : ℕ) : ℤ) := by positivity
  have h1 := Int.emod_lt_of_pos x.truncate h
  have h2 := Int.emod_nonneg x.truncate (ne_of_gt h)
  omega

theorem toIntN_32_range (x : Num) : -(2147483648 : ℤ) ≤ x.toIntN 32 ∧ x.toIntN 32 < 2147483648 := by
  unfold Num.toIntN
  have h1 := Int.emod_lt_of_pos x.truncate (show (0 : ℤ) < ((2 ^ 32 : ℕ) : ℤ) by norm_num)
  have h2 := Int.emod_nonneg x.truncate (show ((2 ^ 32 : ℕ) : ℤ) ≠ 0 by norm_num)
  simp only []
  norm_num at h1 h2 ⊢
  split <;> constructor <;> omega

theorem loadU32_of_readBytes (wmi : WasmMemoryInterface) (addr v : ℕ)
    (h : addr + 4 ≤ wmi.memory.length) (hv : v < 2 ^ 32)
    (hr : readBytes wmi.memory addr 4 = leBytes 4 v) : loadU32 wmi addr = .ok (Num.ofNat v) := by
  unfold loadU32
  rw [getUint_of_readBytes 4 _ _ v h hr, Nat.mod_eq_of_lt (by norm_num at hv ⊢; omega)]
  rfl

theorem loadI32_of_readBytes (wmi : WasmMemoryInterface) (addr : ℕ) (z : ℤ)
    (h : addr + 4 ≤ wmi.memory.length) (hz : -(2147483648 : ℤ) ≤ z ∧ z < 2147483648)
    (hr : readBytes wmi.memory addr 4 = leBytes 4 (z % (2 ^ 32 : ℕ)).toNat) :
    loadI32 wmi addr = .ok (Num.ofInt z) := by
  unfold loadI32 DataView.getInt
  rw [getUint_of_readBytes 4 _ _ _ h hr]
  simp only [Except.map]
  congr 2
  have h1 := Int.emod_lt_of_pos z (show (0 : ℤ) < ((2 ^ 32 : ℕ) : ℤ) by norm_num)
  have h2 := Int.emod_nonneg z (show ((2 ^ 32 : ℕ) : ℤ) ≠ 0 by norm_num)
  norm_num at h1 h2 ⊢
  split <;> omega

theorem originCode_lt (t : EventTarget) : originCode t < 2 ^ 32 := by
  cases t <;> decide

theorem listener_call_wmi (ep : ℕ) (l : Listener) (e : Event) (s : Dom) :
    (Listener.call (fun _ _ => Dom.init_event_raw ep) l e s).2.wmi
      = (init_event_raw s.host (some ⟨l.id_ptr, l.id_len, e, l.name_code⟩) ep s.wmi).2 := by
  simp only [Listener.call, onEventReceived, JS.bind_def, Dom.init_event_raw]
  split <;> rename_i heq <;> have h2 := (Prod.mk.inj heq).2 <;> subst h2 <;> rfl

theorem Dom.loadString_err (ptr : Num) (len : JSValue) (s : Dom) (e : JSError)
    (h : (Dom.loadString ptr len s).1 = .error e) : Dom.loadString ptr len s = (.error e, s) := by
  rw [← h]; rfl

theorem JS.bind_err {σ α β : Type} (x : JS σ α) (f : α → JS σ β) (s s1 : σ) (e : JSError)
    (h : x s = (.error e, s1)) : (x >>= f) s = (.error e, s1) := by
  rw [JS.bind_def, h]

/-- A successful add_event_listener attaches the closure that captures the
`id_ptr`, `id_len` and `name_code` of the call. -/
theorem add_event_listener_closure (t : Dom) (id_ptr : Num) (id_len : JSValue) (name_ptr : Num)
    (name_len : JSValue) (name_code : Num) (data callback : ℤ) (use_capture : Bool)
    (hfresh : t.Fresh)
    (h : (add_event_listener id_ptr id_len name_ptr name_len name_code data callback
      use_capture t).1 = .ok true) :
    ∃ id name, (add_event_listener id_ptr id_len name_ptr name_len name_code data callback
      use_capture t).2 = t.registered (.element id)
        (listener_key id name data callback use_capture) name
        ⟨t.functions, id_ptr, id_len, name_code, data, callback⟩ use_capture := by
  rcases hid : (Dom.loadString id_ptr id_len t).1 with e | id
  · rw [show add_event_listener id_ptr id_len name_ptr name_len name_code data callback
        use_capture t = (.error e, t) from by
          unfold add_event_listener
          exact JS.bind_err _ _ _ _ _ (Dom.loadString_err _ _ _ _ hid)] at h
    exact absurd h (by simp)
  rcases hname : (Dom.loadString name_ptr name_len t).1 with e | name
  · rw [show add_event_listener id_ptr id_len name_ptr name_len name_code data callback
        use_capture t = (.error e, t) from by
          unfold add_event_listener
          rw [JS.bind_run _ _ _ _ _ (Dom.loadString_eq _ _ _ _ hid)]
          exact JS.bind_err _ _ _ _ _ (Dom.loadString_err _ _ _ _ hname)] at h
    exact absurd h (by simp)
  by_cases hel : id = [] ∨ id ∉ t.elements
  · rw [add_event_listener_unresolved t id_ptr id_len name_ptr name_len name_code data callback
      use_capture id name hid hname hel] at h
    exact absurd h (by simp)
  by_cases hkey : mapHas t.listenerMap (listener_key id name data callback use_capture) = true
  · rw [add_event_listener_dup t id_ptr id_len name_ptr name_len name_code data callback
      use_capture id name hid hname hkey] at h
    exact absurd h (by simp)
  refine ⟨id, name, ?_⟩
  rw [add_event_listener_new t id_ptr id_len name_ptr name_len name_code data callback
    use_capture id name hid hname (fun e => hel (Or.inl e))
    (by by_contra hc; exact hel (Or.inr hc)) (by simpa using hkey) hfresh]

/-- A successful add_window_event_listener attaches a closure with the
`name_code` of the call and `id_ptr = id_len = 0`. -/
theorem add_window_event_listener_closure (t : Dom) (name_ptr : Num)
    (name_len : JSValue) (name_code : Num) (data callback : ℤ) (use_capture : Bool)
    (hfresh : t.Fresh)
    (h : (add_window_event_listener name_ptr name_len name_code data callback
      use_capture t).1 = .ok true) :
    ∃ name, (add_window_event_listener name_ptr name_len name_code data callback
      use_capture t).2 = t.registered .window
        (listener_key (ascii "window") name data callback use_capture) name
        ⟨t.functions, .fin 0, .number (.fin 0), name_code, data, callback⟩ use_capture := by
  rcases hname : (Dom.loadString name_ptr name_len t).1 with e | name
  · rw [show add_window_event_listener name_ptr name_len name_code data callback
        use_capture t = (.error e, t) from by
          unfold add_window_event_listener
          exact JS.bind_err _ _ _ _ _ (Dom.loadString_err _ _ _ _ hname)] at h
    exact absurd h (by simp)
  by_cases hkey : mapHas t.listenerMap
      (listener_key (ascii "window") name data callback use_capture) = true
  · rw [add_window_event_listener_dup t name_ptr name_len name_code data callback
      use_capture name hname hkey] at h
    exact absurd h (by simp)
  refine ⟨name, ?_⟩
  rw [add_window_event_listener_new t name_ptr name_len name_code data callback
    use_capture name hname (by simpa using hkey) hfresh]

/-- A successful add_document_event_listener attaches a closure with the
`name_code` of the call and `id_ptr = id_len = 0`. -/
theorem add_document_event_listener_closure (t : Dom) (name_ptr : Num)
    (name_len : JSValue) (name_code : Num) (data callback : ℤ) (use_capture : Bool)
    (hfresh : t.Fresh)
    (h : (add_document_event_listener name_ptr name_len name_code data callback
      use_capture t).1 = .ok true) :
    ∃ name, (add_document_event_listener name_ptr name_len name_code data callback
      use_capture t).2 = t.registered .document
        (listener_key (ascii "document") name data callback use_capture) name
        ⟨t.functions, .fin 0, .number (.fin 0), name_code, data, callback⟩ use_capture := by
  rcases hname : (Dom.loadString name_ptr name_len t).1 with e | name
  · rw [show add_document_event_listener name_ptr name_len name_code data callback
        use_capture t = (.error e, t) from by
          unfold add_document_event_listener
          exact JS.bind_err _ _ _ _ _ (Dom.loadString_err _ _ _ _ hname)] at h
    exact absurd h (by simp)
  by_cases hkey : mapHas t.listenerMap
      (listener_key (ascii "document") name data callback use_capture) = true
  · rw [add_document_event_listener_dup t name_ptr name_len name_code data callback
      use_capture name hname hkey] at h
    exact absurd h (by simp)
  refine ⟨name, ?_⟩
  rw [add_document_event_listener_new t name_ptr name_len name_code data callback
    use_capture name hname (by simpa using hkey) hfresh]

/-- C11: with no event staged, init_event_raw(ep) returns without an error and
leaves the whole state as it was - every byte of the buffer, the registry and
the attached listeners - whatever the address `ep` (in range or not) and
whatever intSize. -/
theorem C11_no_staged_event (s : Dom) (ep : ℕ) (h : s.event_temp = none) :
    Dom.init_event_raw ep s = (.ok (), s) := by
  obtain ⟨wmi, listenerMap, event_temp, host, elements, attached, functions⟩ := s
  simp only at h
  subst h
  rfl

/-- Witness of C11: an address far beyond the 8 bytes of the buffer. -/
theorem C11_no_staged_event_witness :
    Dom.init_event_raw 4000000000 pageDom = (.ok (), pageDom) :=
  C11_no_staged_event pageDom 4000000000 rfl

/-- C15: a listener writes the common prefix from what its registration
captured.  After the listener has staged the native event `e` and the guest
has called init_event_raw(ep) (intSize `W` in {4, 8}, `ep` a multiple of 8,
the prefix in bounds), whatever the kind of `e`: the u32 at `ep` is the
listener's name_code, the u32 at `ep + 4` is the origin code of `e.target`,
the u32 at `ep + 8` that of `e.currentTarget` (1 for the document, 2 for the
window, 0 otherwise), the i32 at `ep + 8 + W` is the listener's id_ptr and
the guest uint at `ep + 8 + 2 * W` its id_len (low word, and, for W = 8, high
word).  A successful add_event_listener attaches the closure that captured
the `id_ptr`, `id_len` and `name_code` of the call; add_window_event_listener
and add_document_event_listener attach one with `id_ptr = id_len = 0`. -/
theorem C15_common_fields (s : Dom) (l : Listener) (e : Event) (ep : ℕ)
    (id_ptr : Num) (id_len : JSValue) (name_ptr : Num) (name_len : JSValue) (name_code : Num)
    (data callback : ℤ) (use_capture : Bool)
    (hW : s.wmi.intSize = 4 ∨ s.wmi.intSize = 8) (hep : ep % 8 = 0)
    (hlen : ep + 28 + 2 * s.wmi.intSize ≤ s.wmi.memory.length)
    (hid : s.wmi.intSize = 4 → ∀ z, l.id_len ≠ .bigint z) (hfresh : s.Fresh) :
    loadU32 (recordAfter s l e ep) ep = .ok (Num.ofNat (l.name_code.toUintN 32)) ∧
    loadU32 (recordAfter s l e ep) (ep + 4) = .ok (Num.ofNat (originCode e.target)) ∧
    loadU32 (recordAfter s l e ep) (ep + 8) = .ok (Num.ofNat (originCode e.currentTarget)) ∧
    loadI32 (recordAfter s l e ep) (ep + 8 + s.wmi.intSize)
      = .ok (Num.ofInt (l.id_ptr.toIntN 32)) ∧
    loadU32 (recordAfter s l e ep) (ep + 8 + 2 * s.wmi.intSize)
      = .ok (Num.ofNat ((Number l.id_len).toUintN 32)) ∧
    (s.wmi.intSize = 8 → loadU32 (recordAfter s l e ep) (ep + 8 + 2 * s.wmi.intSize + 4)
      = .ok (Num.ofNat ((Num.floor (Number (divBy4294967296 l.id_len))).toUintN 32))) ∧
    ((add_event_listener id_ptr id_len name_ptr name_len name_code data callback
        use_capture s).1 = .ok true →
      ∃ id name, (add_event_listener id_ptr id_len name_ptr name_len name_code data callback
        use_capture s).2 = s.registered (.element id)
          (listener_key id name data callback use_capture) name
          ⟨s.functions, id_ptr, id_len, name_code, data, callback⟩ use_capture) ∧
    ((add_window_event_listener name_ptr name_len name_code data callback
        use_capture s).1 = .ok true →
      ∃ name, (add_window_event_listener name_ptr name_len name_code data callback
        use_capture s).2 = s.registered .window
          (listener_key (ascii "window") name data callback use_capture) name
          ⟨s.functions, .fin 0, .number (.fin 0), name_code, data, callback⟩ use_capture) ∧
    ((add_document_event_listener name_ptr name_len name_code data callback
        use_capture s).1 = .ok true →
      ∃ name, (add_document_event_listener name_ptr name_len name_code data callback
        use_capture s).2 = s.registered .document
          (listener_key (ascii "document") name data callback use_capture) name
          ⟨s.functions, .fin 0, .number (.fin 0), name_code, data, callback⟩ use_capture) := by
  have hpre := init_event_raw_keeps_common s.host s.wmi.intSize ⟨l.id_ptr, l.id_len, e, l.name_code⟩
    ep s.wmi.memory hW hep hlen hid
  have hf := prefix_fields s.wmi.intSize ⟨l.id_ptr, l.id_len, e, l.name_code⟩ ep s.wmi.memory
    hW hlen
  obtain ⟨hl, hm⟩ := hpre
  have hrd : ∀ a, a + 4 ≤ ep + 32 + 2 * s.wmi.intSize →
      readBytes (recordAfter s l e ep).memory a 4
      = readBytes (applyWrites (prefixWrites s.wmi.intSize
          ⟨l.id_ptr, l.id_len, e, l.name_code⟩ ep) s.wmi.memory) a 4 := by
    intro a ha
    unfold recordAfter
    rw [listener_call_wmi]
    exact readBytes_congr _ _ _ _ (fun i _ hi => hm i (by omega))
  have hlen' : (recordAfter s l e ep).memory.length = s.wmi.memory.length := by
    unfold recordAfter
    rw [listener_call_wmi]
    exact hl
  refine ⟨?_, ?_, ?_, ?_, ?_, ?_, ?_, ?_, ?_⟩
  · exact loadU32_of_readBytes _ _ _ (by omega) (toUintN_lt 32 _)
      ((hrd _ (by omega)).trans hf.1)
  · exact loadU32_of_readBytes _ _ _ (by omega) (originCode_lt _)
      ((hrd _ (by omega)).trans hf.2.1)
  · exact loadU32_of_readBytes _ _ _ (by omega) (originCode_lt _)
      ((hrd _ (by omega)).trans hf.2.2.1)
  · exact loadI32_of_readBytes _ _ _ (by rcases hW with h | h <;> omega) (toIntN_32_range _)
      ((hrd _ (by rcases hW with h | h <;> omega)).trans hf.2.2.2.1)
  · exact loadU32_of_readBytes _ _ _ (by omega) (toUintN_lt 32 _)
      ((hrd _ (by omega)).trans hf.2.2.2.2.1)
  · intro h8
    exact loadU32_of_readBytes _ _ _ (by omega) (toUintN_lt 32 _)
      ((hrd _ (by omega)).trans (hf.2.2.2.2.2 h8))
  · exact add_event_listener_closure _ _ _ _ _ _ _ _ _ hfresh
  · exact add_window_event_listener_closure _ _ _ _ _ _ _ hfresh
  · exact add_document_event_listener_closure _ _ _ _ _ _ _ hfresh

/-- C17: for a staged event of a kind the encoder does not know (not a wheel,
mouse, pointer, keyboard or gamepad event, its type neither `scroll` nor
`visibilitychange`), with intSize `W` in {4, 8}, `ep` a multiple of 8 and the
prefix in bounds, init_event_raw succeeds and performs exactly the writes of
the common prefix; every byte outside `[ep, ep + 28 + 2 * W)` is unchanged. -/
theorem C17_unrecognized_event (host : Host) (W : ℕ) (data : EventData) (ep : ℕ)
    (m : List Byte) (hW : W = 4 ∨ W = 8) (hep : ep % 8 = 0)
    (hlen : ep + 28 + 2 * W ≤ m.length) (hid : W = 4 → ∀ z, data.id_len ≠ .bigint z)
    (hkind : data.event.interface = .other) (hscroll : data.event.type ≠ "scroll")
    (hvis : data.event.type ≠ "visibilitychange") :
    init_event_raw host (some data) ep ⟨m, W⟩
      = (.ok (), ⟨applyWrites (prefixWrites W data ep) m, W⟩) ∧
    ∀ i, i < ep ∨ ep + 28 + 2 * W ≤ i →
      (init_event_raw host (some data) ep ⟨m, W⟩).2.memory[i]? = m[i]? := by
  have hbody : ∀ s, init_event_body host W data.event s = (.ok (), s) := by
    intro s
    unfold init_event_body
    rw [hkind]
    simp only [hscroll, hvis, if_false]
    rfl
  have hrun : init_event_raw host (some data) ep ⟨m, W⟩
      = (.ok (), ⟨applyWrites (prefixWrites W data ep) m, W⟩) := by
    rw [init_event_raw_eq_body host W data ep m hW hep hlen hid, hbody]
  refine ⟨hrun, ?_⟩
  intro i hi
  rw [hrun]
  apply getElem?_applyWrites_outside
  intro w hw
  rcases hW with rfl | rfl
  · simp only [prefixWrites, guestUintWrites, List.cons_append, List.nil_append,
      Nat.reduceEqDiff, if_false, List.mem_cons, List.mem_singleton, List.not_mem_nil,
      or_false] at hw
    rcases hw with h | h | h | h | h | h | h | h | h | h <;> rw [h] <;>
      simp only [length_leBytes] <;> omega
  · simp only [prefixWrites, guestUintWrites, List.cons_append, List.nil_append,
      if_true, List.mem_cons, List.mem_singleton, List.not_mem_nil,
      or_false] at hw
    rcases hw with h | h | h | h | h | h | h | h | h | h | h <;> rw [h] <;>
      simp only [length_leBytes] <;> omega

/-- Witness of C15: the record of a focus event at address 8 of a 64-byte
buffer, intSize 4. -/
theorem C15_common_fields_witness :
    loadU32 (recordAfter blankDom sampleListener focusEvent 8) 8
      = .ok (Num.ofNat (sampleListener.name_code.toUintN 32)) ∧
    loadU32 (recordAfter blankDom sampleListener focusEvent 8) (8 + 4)
      = .ok (Num.ofNat (originCode focusEvent.target)) ∧
    loadU32 (recordAfter blankDom sampleListener focusEvent 8) (8 + 8)
      = .ok (Num.ofNat (originCode focusEvent.currentTarget)) ∧
    loadI32 (recordAfter blankDom sampleListener focusEvent 8) (8 + 8 + blankDom.wmi.intSize)
      = .ok (Num.ofInt (sampleListener.id_ptr.toIntN 32)) ∧
    loadU32 (recordAfter blankDom sampleListener focusEvent 8)
        (8 + 8 + 2 * blankDom.wmi.intSize)
      = .ok (Num.ofNat ((Number sampleListener.id_len).toUintN 32)) :=
  have h := C15_common_fields blankDom sampleListener focusEvent 8 (.fin 0) (.number (.fin 3))
    (.fin 3) (.number (.fin 5)) (.fin 7) 100 200 false (by decide) (by decide) (by decide)
    (fun _ z => number_ne_bigint _ z) (by decide)
  ⟨h.1, h.2.1, h.2.2.1, h.2.2.2.1, h.2.2.2.2.1⟩

/-- Witness of C17: a focus event at address 8 of a 64-byte buffer, intSize
4. -/
theorem C17_unrecognized_event_witness :
    init_event_raw quietHost (some ⟨.fin 16, .number (.fin 3), focusEvent, .fin 7⟩) 8
        ⟨List.replicate 64 0, 4⟩
      = (.ok (), ⟨applyWrites
          (prefixWrites 4 ⟨.fin 16, .number (.fin 3), focusEvent, .fin 7⟩ 8)
          (List.replicate 64 0), 4⟩) :=
  (C17_unrecognized_event quietHost 4 ⟨.fin 16, .number (.fin 3), focusEvent, .fin 7⟩ 8
    (List.replicate 64 0) (by decide) (by decide) (by decide)
    (fun _ z => number_ne_bigint _ z) rfl (by decide) (by decide)).1

/-! ## Doubles read back -/

theorem f64_fields (sgn E f : ℕ) (hs : sgn ≤ 1) (hE2 : E ≤ 2047) (hf : f < 4503599627370496) :
    (sgn * 0x8000000000000000 + (E * 4503599627370496 + f)) / 0x8000000000000000 % 2 = sgn ∧
    (sgn * 0x8000000000000000 + (E * 4503599627370496 + f)) / 0x10000000000000 % 2048 = E ∧
    (sgn * 0x8000000000000000 + (E * 4503599627370496 + f)) % 0x10000000000000 = f := by
  have e1 : sgn * 0x8000000000000000 + (E * 4503599627370496 + f)
      = (sgn * 2048 + E) * 4503599627370496 + f := by ring
  have d1 : (sgn * 0x8000000000000000 + (E * 4503599627370496 + f)) / 0x8000000000000000
      = sgn := by omega
  have d2 : (sgn * 0x8000000000000000 + (E * 4503599627370496 + f)) / 0x10000000000000
      = sgn * 2048 + E := by
    rw [e1]; omega
  refine ⟨?_, ?_, ?_⟩
  · rw [d1]; omega
  · rw [d2]; omega
  · rw [e1]; omega

theorem f64OfBits_normal (sgn E f : ℕ) (hs : sgn ≤ 1) (hE1 : 1 ≤ E) (hE2 : E ≤ 2046)
    (hf : f < 4503599627370496) :
    f64OfBits (sgn * 0x8000000000000000 + (E * 4503599627370496 + f))
      = .fin (if sgn = 1 then -(((4503599627370496 + f : ℕ) : ℚ) * pow2 ((E : ℤ) - 1075))
          else ((4503599627370496 + f : ℕ) : ℚ) * pow2 ((E : ℤ) - 1075)) := by
  obtain ⟨h1, h2, h3⟩ := f64_fields sgn E f hs (by omega) hf
  unfold f64OfBits
  simp only [h1, h2, h3]
  rw [if_neg (show ¬ E = 2047 by omega), if_neg (show ¬ (E = 0 ∧ f = 0) by omega),
    if_neg (show ¬ E = 0 by omega)]

theorem f64OfBits_subnormal (sgn f : ℕ) (hs : sgn ≤ 1) (hf0 : 0 < f)
    (hf : f < 4503599627370496) :
    f64OfBits (sgn * 0x8000000000000000 + f)
      = .fin (if sgn = 1 then -((f : ℚ) * pow2 (-1074)) else (f : ℚ) * pow2 (-1074)) := by
  obtain ⟨h1, h2, h3⟩ := f64_fields sgn 0 f hs (by omega) hf
  simp only [Nat.zero_mul, Nat.zero_add] at h1 h2 h3
  unfold f64OfBits
  simp only [h1, h2, h3]
  simp [show f ≠ 0 by omega]

theorem pow2_53 : pow2 53 = 9007199254740992 := by rw [pow2_eq]; norm_num

theorem pow2_52 : pow2 52 = 4503599627370496 := by rw [pow2_eq]; norm_num

theorem pow2_lt_pow2_imp {a b : ℤ} (h : pow2 a < pow2 b) : a < b := by
  by_contra hc
  exact absurd (pow2_le_pow2 (not_lt.mp hc)) (not_le.mpr h)

/-- The decomposition of a nonzero double: `|q| = m * 2^u` with `u` the
exponent of its last place and `0 < m < 2^53`; `m` has 53 bits unless the
double is subnormal, and `u` is at most 971. -/
theorem double_decomp (q : ℚ) (hq : q ≠ 0) (hrep : roundDouble q = .fin q) :
    |q| = (roundHalfEven (|q| / pow2 (ulpExp q)) : ℚ) * pow2 (ulpExp q) ∧
    0 < roundHalfEven (|q| / pow2 (ulpExp q)) ∧
    roundHalfEven (|q| / pow2 (ulpExp q)) < 9007199254740992 ∧
    -1074 ≤ ulpExp q ∧
    ((4503599627370496 ≤ roundHalfEven (|q| / pow2 (ulpExp q)) ∧ ulpExp q ≤ 971) ∨
      (roundHalfEven (|q| / pow2 (ulpExp q)) < 4503599627370496 ∧ ulpExp q = -1074)) := by
  obtain ⟨hlo, hhi⟩ := floorLog2_spec q hq
  have hpu := pow2_pos (ulpExp q)
  unfold roundDouble at hrep
  rw [if_neg hq] at hrep
  simp only [] at hrep
  by_cases hm0 : roundHalfEven (|q| / pow2 (ulpExp q)) = 0
  · rw [if_pos hm0] at hrep
    split at hrep
    · cases hrep
    · exact absurd (Num.fin.inj hrep).symm hq
  rw [if_neg hm0] at hrep
  by_cases hbig : pow2 1024 ≤ (roundHalfEven (|q| / pow2 (ulpExp q)) : ℚ) * pow2 (ulpExp q)
  · rw [if_pos hbig] at hrep
    split at hrep <;> cases hrep
  rw [if_neg hbig] at hrep
  have hval := Num.fin.inj hrep
  have hqpos : 0 < |q| := abs_pos.mpr hq
  generalize roundHalfEven (|q| / pow2 (ulpExp q)) = m at *
  have habs : |q| = (m : ℚ) * pow2 (ulpExp q) := by
    split at hval
    · rename_i hneg
      rw [abs_of_neg hneg]
      linarith
    · rename_i hneg
      rw [abs_of_nonneg (not_lt.mp hneg)]
      exact hval.symm
  have hmpos : (0 : ℚ) < (m : ℚ) := by
    by_contra hc
    have : (m : ℚ) * pow2 (ulpExp q) ≤ 0 :=
      mul_nonpos_of_nonpos_of_nonneg (not_lt.mp hc) (le_of_lt hpu)
    linarith
  have hmpos' : 0 < m := by exact_mod_cast hmpos
  have hu1 : floorLog2 q - 52 ≤ ulpExp q := by unfold ulpExp; omega
  have hu2 : -1074 ≤ ulpExp q := by unfold ulpExp; omega
  have hu3 : ulpExp q = floorLog2 q - 52 ∨ ulpExp q = -1074 := by unfold ulpExp; omega
  -- m < 2^(fl + 1 - u)
  have hmlt : (m : ℚ) < pow2 (floorLog2 q + 1 - ulpExp q) := by
    have h1 : pow2 (floorLog2 q + 1) = pow2 (floorLog2 q + 1 - ulpExp q) * pow2 (ulpExp q) := by
      rw [← pow2_add]; congr 1; ring
    rw [habs, h1] at hhi
    exact lt_of_mul_lt_mul_right hhi (le_of_lt hpu)
  have hm53 : (m : ℚ) < 9007199254740992 := by
    have := pow2_le_pow2 (show floorLog2 q + 1 - ulpExp q ≤ 53 by omega)
    rw [pow2_53] at this
    linarith
  refine ⟨habs, hmpos', by exact_mod_cast hm53, hu2, ?_⟩
  by_cases hcase : -1074 ≤ floorLog2 q - 52
  · left
    have hu : ulpExp q = floorLog2 q - 52 := by unfold ulpExp; omega
    have h1 : pow2 (floorLog2 q) = pow2 52 * pow2 (ulpExp q) := by
      rw [← pow2_add]; congr 1; omega
    have h2 : (4503599627370496 : ℚ) ≤ (m : ℚ) := by
      rw [habs, h1, pow2_52] at hlo
      exact le_of_mul_le_mul_right hlo hpu
    refine ⟨by exact_mod_cast h2, ?_⟩
    have h3 : pow2 (52 + ulpExp q) < pow2 1024 := by
      rw [pow2_add, pow2_52]
      have := mul_le_mul_of_nonneg_right h2 (le_of_lt hpu)
      linarith [not_le.mp hbig]
    have := pow2_lt_pow2_imp h3
    omega
  · right
    have hu : ulpExp q = -1074 := by unfold ulpExp; omega
    refine ⟨?_, hu⟩
    have := pow2_le_pow2 (show floorLog2 q + 1 - ulpExp q ≤ 52 by omega)
    rw [pow2_52] at this
    have h2 : (m : ℚ) < 4503599627370496 := by linarith
    exact_mod_cast h2

/-- Reading a double back: the number read from the bit pattern of a double
is that double. -/
theorem f64OfBits_f64Bits (x : Num) (hx : x.IsDouble) : f64OfBits (f64Bits x) = x := by
  cases x with
  | negZero => decide!
  | nan => decide!
  | posInf => decide!
  | negInf => decide!
  | fin q =>
    by_cases hq : q = 0
    · subst hq; decide!
    obtain ⟨habs, hm0, hm53, hu, hcase⟩ := double_decomp q hq hx
    have hpu := pow2_pos (ulpExp q)
    simp only [f64Bits, if_neg hq]
    generalize roundHalfEven (|q| / pow2 (ulpExp q)) = m at *
    generalize ulpExp q = u at *
    obtain ⟨mN, rfl⟩ := Int.eq_ofNat_of_zero_le (le_of_lt hm0)
    obtain ⟨U, hU⟩ := Int.eq_ofNat_of_zero_le (show 0 ≤ u + 1074 by omega)
    have hu' : u = (U : ℤ) - 1074 := by omega
    subst hu'
    have hM : (((U : ℤ) - 1074 + 1074) * 4503599627370496 + (mN : ℤ)).toNat
        = U * 4503599627370496 + mN := by omega
    rw [hM]
    have hsign : (if q < 0 then 0x8000000000000000 + min (U * 4503599627370496 + mN)
          0x7FF0000000000000 else min (U * 4503599627370496 + mN) 0x7FF0000000000000)
        = (if q < 0 then 1 else 0) * 0x8000000000000000
          + min (U * 4503599627370496 + mN) 0x7FF0000000000000 := by
      split <;> omega
    rw [hsign]
    have hqval : q = if (if q < 0 then 1 else 0) = 1 then -((mN : ℚ) * pow2 ((U : ℤ) - 1074))
        else (mN : ℚ) * pow2 ((U : ℤ) - 1074) := by
      by_cases hneg : q < 0
      · simp only [hneg, if_true]
        rw [abs_of_neg hneg] at habs
        have : ((mN : ℤ) : ℚ) = (mN : ℚ) := Int.cast_natCast mN
        rw [this] at habs
        linarith
      · simp only [hneg, if_false]
        rw [abs_of_nonneg (not_lt.mp hneg)] at habs
        have : ((mN : ℤ) : ℚ) = (mN : ℚ) := Int.cast_natCast mN
        rw [this] at habs
        simpa using habs
    rcases hcase with ⟨h52, hu971⟩ | ⟨h52, hsub⟩
    · have hmin : min (U * 4503599627370496 + mN) 0x7FF0000000000000
          = (U + 1) * 4503599627370496 + (mN - 4503599627370496) := by omega
      rw [hmin, f64OfBits_normal _ (U + 1) (mN - 4503599627370496) (by split <;> omega)
        (by omega) (by omega) (by omega)]
      conv_rhs => rw [hqval]
      have e1 : (4503599627370496 + (mN - 4503599627370496) : ℕ) = mN := by omega
      have e2 : (((U + 1 : ℕ) : ℤ) - 1075) = (U : ℤ) - 1074 := by push_cast; ring
      rw [e1, e2]
    · have hU0 : U = 0 := by omega
      subst hU0
      have hmin : min (0 * 4503599627370496 + mN) 0x7FF0000000000000 = mN := by omega
      rw [hmin, f64OfBits_subnormal _ mN (by split <;> omega) (by omega) (by omega)]
      conv_rhs => rw [hqval]
      simp

theorem wheel_body_run (host : Host) (W : ℕ) (e : Event) (w : WheelData) (mm : MouseData)
    (B : ℕ) (m : List Byte) (hW : W = 4 ∨ W = 8) (hB : B % 8 = 0) (hlen : B + 28 ≤ m.length)
    (hkind : e.interface = .wheel w mm) :
    init_event_body host W e ⟨some B, ⟨m, W⟩⟩
      = (.ok (), ⟨some (B + 28), ⟨applyWrites (wheelWrites w B) m, W⟩⟩) := by
  unfold init_event_body
  rw [hkind]
  rcases hW with rfl | rfl
  · simp (disch := (first
        | omega | exact number_ne_bigint _ | assumption
        | (simp only [length_patch]; omega)))
      only [JS.bind_def, Encoder.off_none, call_storeU32, call_storeF64,
        roundUp_of_mod, roundUp_add_lit, Number_number,
        Nat.add_assoc, Nat.reduceAdd, Nat.reduceMod, Nat.reduceSub,
        Nat.reduceEqDiff, if_true, if_false,
        show min 4 4 = 4 from rfl, show min 8 4 = 4 from rfl]
    simp only [applyWrites, wheelWrites, List.foldl, Nat.add_assoc, Nat.reduceAdd]
  · simp (disch := (first
        | omega | exact number_ne_bigint _ | assumption
        | (simp only [length_patch]; omega)))
      only [JS.bind_def, Encoder.off_none, call_storeU32, call_storeF64,
        roundUp_of_mod, roundUp_add_lit, Number_number,
        Nat.add_assoc, Nat.reduceAdd, Nat.reduceMod, Nat.reduceSub,
        Nat.reduceEqDiff, if_true, if_false,
        show min 4 8 = 4 from rfl, show min 8 8 = 8 from rfl]
    simp only [applyWrites, wheelWrites, List.foldl, Nat.add_assoc, Nat.reduceAdd]

theorem f64Bits_lt (x : Num) : f64Bits x < 0x10000000000000000 := by
  cases x with
  | fin q =>
    simp only [f64Bits]
    split
    · norm_num
    · split <;> omega
  | negZero => decide
  | nan => decide
  | posInf => decide
  | negInf => decide

theorem loadF64_of_readBytes (wmi : WasmMemoryInterface) (addr : ℕ) (x : Num)
    (h : addr + 8 ≤ wmi.memory.length) (hx : x.IsDouble)
    (hr : readBytes wmi.memory addr 8 = leBytes 8 (f64Bits x)) : loadF64 wmi addr = .ok x := by
  unfold loadF64 DataView.getFloat64
  rw [if_pos h, hr, leValue_leBytes, Nat.mod_eq_of_lt (by have := f64Bits_lt x; norm_num; omega),
    f64OfBits_f64Bits x hx]

/-- C16: a staged wheel event (which is also a mouse event) gets the wheel
body and nothing else.  With intSize `W` in {4, 8}, `ep` a multiple of 8 and
the record in bounds, init_event_raw succeeds and performs exactly the writes
of the common prefix and then deltaX, deltaY, deltaZ as f64 at body + 0, + 8,
+ 16 and deltaMode as u32 at body + 24, where body = ep + 32 + 2 * W; no byte
from body + 28 on (where the mouse fields would go on), none of the padding
before the body and none below `ep` is changed.  The eight bytes at body + 8
are the bit pattern of deltaY, and loadF64 reads deltaX, deltaY and deltaZ
back as the doubles they are. -/
theorem C16_wheel_event (host : Host) (W : ℕ) (data : EventData) (ep : ℕ) (m : List Byte)
    (w : WheelData) (mm : MouseData) (hW : W = 4 ∨ W = 8) (hep : ep % 8 = 0)
    (hlen : ep + 60 + 2 * W ≤ m.length) (hid : W = 4 → ∀ z, data.id_len ≠ .bigint z)
    (hkind : data.event.interface = .wheel w mm) :
    init_event_raw host (some data) ep ⟨m, W⟩
      = (.ok (), ⟨applyWrites (wheelWrites w (ep + 32 + 2 * W))
          (applyWrites (prefixWrites W data ep) m), W⟩) ∧
    (∀ i, i < ep ∨ (ep + 28 + 2 * W ≤ i ∧ i < ep + 32 + 2 * W) ∨ ep + 60 + 2 * W ≤ i →
      (init_event_raw host (some data) ep ⟨m, W⟩).2.memory[i]? = m[i]?) ∧
    readBytes (init_event_raw host (some data) ep ⟨m, W⟩).2.memory (ep + 32 + 2 * W + 8) 8
      = leBytes 8 (f64Bits w.deltaY) ∧
    (w.deltaX.IsDouble →
      loadF64 (init_event_raw host (some data) ep ⟨m, W⟩).2 (ep + 32 + 2 * W) = .ok w.deltaX) ∧
    (w.deltaY.IsDouble →
      loadF64 (init_event_raw host (some data) ep ⟨m, W⟩).2 (ep + 32 + 2 * W + 8)
        = .ok w.deltaY) ∧
    (w.deltaZ.IsDouble →
      loadF64 (init_event_raw host (some data) ep ⟨m, W⟩).2 (ep + 32 + 2 * W + 16)
        = .ok w.deltaZ) ∧
    loadU32 (init_event_raw host (some data) ep ⟨m, W⟩).2 (ep + 32 + 2 * W + 24)
      = .ok (Num.ofNat (w.deltaMode.toUintN 32)) := by
  have hrun : init_event_raw host (some data) ep ⟨m, W⟩
      = (.ok (), ⟨applyWrites (wheelWrites w (ep + 32 + 2 * W))
          (applyWrites (prefixWrites W data ep) m), W⟩) := by
    rw [init_event_raw_eq_body host W data ep m hW hep (by omega) hid,
      wheel_body_run host W data.event w mm (ep + 32 + 2 * W) _ hW (by omega)
        (by rw [length_applyWrites]; omega) hkind]
  rw [hrun]
  dsimp only
  have hlenP : (applyWrites (prefixWrites W data ep) m).length = m.length :=
    length_applyWrites _ _
  have hfld : ∀ (pre post : List (ℕ × List Byte)) (a n : ℕ) (bs : List Byte),
      wheelWrites w (ep + 32 + 2 * W) = pre ++ (a, bs) :: post → bs.length = n →
      a + n ≤ m.length → (∀ x ∈ post, a + n ≤ x.1 ∨ x.1 + x.2.length ≤ a) →
      readBytes (applyWrites (wheelWrites w (ep + 32 + 2 * W))
        (applyWrites (prefixWrites W data ep) m)) a n = bs := by
    intro pre post a n bs he hn ha hp
    rw [he]
    exact readBytes_applyWrites_field pre post a bs _ n hn (by rw [hlenP]; exact ha) hp
  have hX := hfld [] _ (ep + 32 + 2 * W) 8 _ rfl (length_leBytes _ _) (by omega)
    (by simp only [List.mem_cons, List.mem_singleton, List.not_mem_nil, or_false]
        rintro x (h | h | h) <;> rw [h] <;> simp only [length_leBytes] <;> omega)
  have hY := hfld [_] _ (ep + 32 + 2 * W + 8) 8 _ rfl (length_leBytes _ _) (by omega)
    (by simp only [List.mem_cons, List.mem_singleton, List.not_mem_nil, or_false]
        rintro x (h | h) <;> rw [h] <;> simp only [length_leBytes] <;> omega)
  have hZ := hfld [_, _] _ (ep + 32 + 2 * W + 16) 8 _ rfl (length_leBytes _ _) (by omega)
    (by simp only [List.mem_cons, List.mem_singleton, List.not_mem_nil, or_false]
        rintro x h; rw [h]; simp only [length_leBytes]; omega)
  have hM := hfld [_, _, _] [] (ep + 32 + 2 * W + 24) 4 _ rfl (length_leBytes _ _) (by omega)
    (by simp)
  have hlenF : (applyWrites (wheelWrites w (ep + 32 + 2 * W))
      (applyWrites (prefixWrites W data ep) m)).length = m.length := by
    rw [length_applyWrites, hlenP]
  refine ⟨rfl, ?_, hY, ?_, ?_, ?_, ?_⟩
  · intro i hi
    rw [getElem?_applyWrites_outside, getElem?_applyWrites_outside]
    · intro x hx
      rcases hW with rfl | rfl
      · simp only [prefixWrites, guestUintWrites, List.cons_append, List.nil_append,
          Nat.reduceEqDiff, if_false, List.mem_cons, List.mem_singleton, List.not_mem_nil,
          or_false] at hx
        rcases hx with h | h | h | h | h | h | h | h | h | h <;> rw [h] <;>
          simp only [length_leBytes] <;> omega
      · simp only [prefixWrites, guestUintWrites, List.cons_append, List.nil_append,
          if_true, List.mem_cons, List.mem_singleton, List.not_mem_nil,
          or_false] at hx
        rcases hx with h | h | h | h | h | h | h | h | h | h | h <;> rw [h] <;>
          simp only [length_leBytes] <;> omega
    · intro x hx
      simp only [wheelWrites, List.mem_cons, List.mem_singleton, List.not_mem_nil,
        or_false] at hx
      rcases hx with h | h | h | h <;> rw [h] <;> simp only [length_leBytes] <;> omega
  · intro hd
    refine loadF64_of_readBytes ⟨_, W⟩ _ _ ?_ hd ?_
    · dsimp only
      rw [hlenF]; omega
    · dsimp only
      exact hX
  · intro hd
    refine loadF64_of_readBytes ⟨_, W⟩ _ _ ?_ hd ?_
    · dsimp only
      rw [hlenF]; omega
    · dsimp only
      exact hY
  · intro hd
    refine loadF64_of_readBytes ⟨_, W⟩ _ _ ?_ hd ?_
    · dsimp only
      rw [hlenF]; omega
    · dsimp only
      exact hZ
  · refine loadU32_of_readBytes ⟨_, W⟩ _ _ ?_ (toUintN_lt 32 _) ?_
    · dsimp only
      rw [hlenF]; omega
    · dsimp only
      exact hM

set_option maxRecDepth 1000000 in
/-- Witness of C16: a wheel event with deltaY = 120 at address 8 of a
128-byte buffer, intSize 4; the body starts at 48 and deltaY reads back as
120. -/
theorem C16_wheel_event_witness :
    loadF64 (init_event_raw quietHost (some wheelEvent) 8 ⟨List.replicate 128 0, 4⟩).2
      (8 + 32 + 2 * 4 + 8) = .ok (.fin 120) :=
  (C16_wheel_event quietHost 4 wheelEvent 8 (List.replicate 128 0)
    ⟨.fin 0, .fin 120, .fin 0, .fin 0⟩
    { screenX := .fin 11
      screenY := .fin 12
      clientX := .fin 13
      clientY := .fin 14
      offsetX := .fin 15
      offsetY := .fin 16
      pageX := .fin 17
      pageY := .fin 18
      movementX := .fin 0
      movementY := .fin 0
      ctrlKey := false
      shiftKey := false
      altKey := false
      metaKey := false
      button := .fin 0
      buttons := .fin 0
      pointer := none }
    (by decide) (by decide) (by decide) (fun _ z => number_ne_bigint _ z) rfl).2.2.2.2.1
    (by decide!)

set_option maxRecDepth 1000000 in
/-- C12 fails on the code.  The limits are tested on `.length` and the cut is
made with `slice`, both in UTF-16 code units, while the fields are 96 and 64
bytes of UTF-8.  For a gamepad whose id is 120 code units U+4E2D (intSize 4,
ep = 0, so that the id field is [1240, 1336) in the record of init_event_raw
and [1200, 1296) in that of get_gamepad_state) the id written is 93 code
units and `...`, that is 282 bytes: the id field does not end in `...` but in
the bytes e4 b8 ad of a character, and the `...` lands 186 bytes past the end
of the field, beyond the end of the record. -/
theorem C12_truncation_counts_code_units :
    (init_event_raw quietHost (some (padEvent cjkIdPad)) 0 ⟨List.replicate 1536 0, 4⟩).1
      = .ok () ∧
    readBytes (init_event_raw quietHost (some (padEvent cjkIdPad)) 0
      ⟨List.replicate 1536 0, 4⟩).2.memory 1333 3 = [0xE4, 0xB8, 0xAD] ∧
    readBytes (init_event_raw quietHost (some (padEvent cjkIdPad)) 0
      ⟨List.replicate 1536 0, 4⟩).2.memory 1519 4 = [0x2E, 0x2E, 0x2E, 0] ∧
    (get_gamepad_state [some cjkIdPad] 0 0 ⟨List.replicate 1536 0, 4⟩).1 = .ok true ∧
    readBytes (get_gamepad_state [some cjkIdPad] 0 0 ⟨List.replicate 1536 0, 4⟩).2.memory
      1293 3 = [0xE4, 0xB8, 0xAD] ∧
    readBytes (get_gamepad_state [some cjkIdPad] 0 0 ⟨List.replicate 1536 0, 4⟩).2.memory
      1479 4 = [0x2E, 0x2E, 0x2E, 0] := by
  decide!

set_option maxRecDepth 1000000 in
/-- C13 fails on the code.  When the mapping is longer than 64 the code sets
`mappingLength = 61` but stores 61 code units and `...`, 64 bytes for an
ASCII mapping: the length field says 61 while 64 bytes are in the field (the
id path sets `idLength = 96` for its 93 + 3).  For a gamepad whose id is 120
times `b` and whose mapping is 80 times `a` (intSize 4, ep = 0): the id
length field holds 96 and the id field 93 times `b` and `...`; the mapping
length field holds 61 and the mapping field 61 times `a` and `...`. -/
theorem C13_mapping_length_is_61 :
    (init_event_raw quietHost (some (padEvent longAsciiPad)) 0 ⟨List.replicate 1400 0, 4⟩).1
      = .ok () ∧
    loadU32 (init_event_raw quietHost (some (padEvent longAsciiPad)) 0
      ⟨List.replicate 1400 0, 4⟩).2 1232 = .ok (.fin 96) ∧
    readBytes (init_event_raw quietHost (some (padEvent longAsciiPad)) 0
      ⟨List.replicate 1400 0, 4⟩).2.memory 1240 96
      = List.replicate 93 0x62 ++ [0x2E, 0x2E, 0x2E] ∧
    loadU32 (init_event_raw quietHost (some (padEvent longAsciiPad)) 0
      ⟨List.replicate 1400 0, 4⟩).2 1236 = .ok (.fin 61) ∧
    readBytes (init_event_raw quietHost (some (padEvent longAsciiPad)) 0
      ⟨List.replicate 1400 0, 4⟩).2.memory 1336 64
      = List.replicate 61 0x61 ++ [0x2E, 0x2E, 0x2E] ∧
    (get_gamepad_state [some longAsciiPad] 0 0 ⟨List.replicate 1360 0, 4⟩).1 = .ok true ∧
    loadU32 (get_gamepad_state [some longAsciiPad] 0 0 ⟨List.replicate 1360 0, 4⟩).2 1196
      = .ok (.fin 61) ∧
    readBytes (get_gamepad_state [some longAsciiPad] 0 0 ⟨List.replicate 1360 0, 4⟩).2.memory
      1296 64 = List.replicate 61 0x61 ++ [0x2E, 0x2E, 0x2E] := by
  decide!

end Odin

namespace Odin

open WasmMemoryInterface

/-! ## Running the encoder of a gamepad record -/

theorem runs_of_eq {α : Type} (p : JS Encoder α) (s s' : Encoder) (a : α)
    (Q : α → Encoder → Prop) (h : p s = (.ok a, s')) : Runs p s Q ↔ Q a s' := by
  unfold Runs
  rw [h]
  constructor
  · rintro ⟨a', s'', he, hq⟩
    obtain ⟨h1, h2⟩ := Prod.mk.inj he
    rw [Except.ok.inj h1, h2]
    exact hq
  · intro hq
    exact ⟨a, s', rfl, hq⟩

theorem runs_pure {α : Type} (a : α) (s : Encoder) (Q : α → Encoder → Prop) :
    Runs (pure a : JS Encoder α) s Q ↔ Q a s :=
  runs_of_eq _ _ _ _ _ rfl

theorem runs_bind {α β : Type} (p : JS Encoder α) (f : α → JS Encoder β) (s : Encoder)
    (Q : β → Encoder → Prop) :
    Runs (p >>= f) s Q ↔ Runs p s (fun a s' => Runs (f a) s' Q) := by
  unfold Runs
  rw [JS.bind_def]
  rcases hp : p s with ⟨r, s1⟩
  cases r with
  | error e =>
    constructor
    · rintro ⟨b, s2, he, _⟩
      exact absurd (Prod.mk.inj he).1 (by simp)
    · rintro ⟨a, s', he, _⟩
      exact absurd (Prod.mk.inj he).1 (by simp)
  | ok a =>
    constructor
    · rintro ⟨b, s2, he, hq⟩
      exact ⟨a, s1, rfl, b, s2, he, hq⟩
    · rintro ⟨a', s', he, b, s2, he2, hq⟩
      obtain ⟨h1, h2⟩ := Prod.mk.inj he
      rw [← Except.ok.inj h1, ← h2] at he2
      exact ⟨b, s2, he2, hq⟩

theorem runs_off_some (W amt a c : ℕ) (wmi : WasmMemoryInterface) (Q : ℕ → Encoder → Prop)
    (ha : a ≠ 0) :
    Runs (Encoder.off W amt (some a)) ⟨some c, wmi⟩ Q
      ↔ Q (roundUp c a) ⟨some (roundUp c a + amt), wmi⟩ :=
  runs_of_eq _ _ _ _ _ (Encoder.off_some W amt a c wmi ha)

theorem runs_off_none (W amt c : ℕ) (wmi : WasmMemoryInterface) (Q : ℕ → Encoder → Prop)
    (ha : min amt W ≠ 0) :
    Runs (Encoder.off W amt none) ⟨some c, wmi⟩ Q
      ↔ Q (roundUp c (min amt W)) ⟨some (roundUp c (min amt W) + amt), wmi⟩ :=
  runs_of_eq _ _ _ _ _ (Encoder.off_none W amt c wmi ha)

theorem runs_storeU8 (a : ℕ) (v : JSValue) (c : Cursor) (m : List Byte) (W : ℕ)
    (Q : Unit → Encoder → Prop) (hv : ∀ z, v ≠ .bigint z) (h : a + 1 ≤ m.length) :
    Runs (Encoder.call (storeU8 a v)) ⟨c, ⟨m, W⟩⟩ Q
      ↔ Q () ⟨c, ⟨patch m a (leBytes 1 ((Number v).toUintN 8)), W⟩⟩ :=
  runs_of_eq _ _ _ _ _ (call_storeU8 a v c m W hv h)

theorem runs_storeI32 (a : ℕ) (v : JSValue) (c : Cursor) (m : List Byte) (W : ℕ)
    (Q : Unit → Encoder → Prop) (hv : ∀ z, v ≠ .bigint z) (h : a + 4 ≤ m.length) :
    Runs (Encoder.call (storeI32 a v)) ⟨c, ⟨m, W⟩⟩ Q
      ↔ Q () ⟨c, ⟨patch m a (leBytes 4 (((Number v).toIntN 32) % (2 ^ 32 : ℕ)).toNat), W⟩⟩ :=
  runs_of_eq _ _ _ _ _ (call_storeI32 a v c m W hv h)

theorem runs_storeF64 (a : ℕ) (v : JSValue) (c : Cursor) (m : List Byte) (W : ℕ)
    (Q : Unit → Encoder → Prop) (hv : ∀ z, v ≠ .bigint z) (h : a + 8 ≤ m.length) :
    Runs (Encoder.call (storeF64 a v)) ⟨c, ⟨m, W⟩⟩ Q
      ↔ Q () ⟨c, ⟨patch m a (leBytes 8 (f64Bits (Number v))), W⟩⟩ :=
  runs_of_eq _ _ _ _ _ (call_storeF64 a v c m W hv h)

theorem storeInt_four (a : ℕ) (v : JSValue) (wmi : WasmMemoryInterface) (h : wmi.intSize = 4) :
    storeInt a v wmi = storeI32 a v wmi := by
  simp [storeInt, h]

theorem storeInt_eight (a : ℕ) (v : JSValue) (wmi : WasmMemoryInterface) (h : wmi.intSize = 8) :
    storeInt a v wmi = storeI64 a v wmi := by
  simp [storeInt, h]

theorem call_storeInt (a : ℕ) (v : JSValue) (c : Cursor) (m : List Byte) (W : ℕ)
    (hW : W = 4 ∨ W = 8) (hv : ∀ z, v ≠ .bigint z) (h : a + W ≤ m.length) :
    Encoder.call (storeInt a v) ⟨c, ⟨m, W⟩⟩
      = (.ok (), ⟨c, ⟨applyWrites (guestIntWrites W a v) m, W⟩⟩) := by
  rcases hW with rfl | rfl
  · have := call_storeI32 a v c m 4 hv h
    simp only [Encoder.call, storeInt_four a v ⟨m, 4⟩ rfl] at this ⊢
    rw [this]
    rfl
  · have := call_storeI64 a v c m 8 h
    simp only [Encoder.call, storeInt_eight a v ⟨m, 8⟩ rfl] at this ⊢
    rw [this]
    rfl

theorem runs_storeInt (a : ℕ) (v : JSValue) (c : Cursor) (m : List Byte) (W : ℕ)
    (Q : Unit → Encoder → Prop) (hW : W = 4 ∨ W = 8) (hv : ∀ z, v ≠ .bigint z)
    (h : a + W ≤ m.length) :
    Runs (Encoder.call (storeInt a v)) ⟨c, ⟨m, W⟩⟩ Q
      ↔ Q () ⟨c, ⟨applyWrites (guestIntWrites W a v) m, W⟩⟩ :=
  runs_of_eq _ _ _ _ _ (call_storeInt a v c m W hW hv h)

theorem call_storeString (a : ℕ) (v : JSString) (c : Cursor) (m : List Byte) (W : ℕ)
    (h : a + (TextEncoder.encode v).length ≤ m.length) :
    Encoder.call (storeString a v) ⟨c, ⟨m, W⟩⟩
      = (.ok (TextEncoder.encode v).length, ⟨c, ⟨patch m a (TextEncoder.encode v), W⟩⟩) := by
  simp only [Encoder.call, storeString, h, if_true, patch]

theorem runs_storeString (a : ℕ) (v : JSString) (c : Cursor) (m : List Byte) (W : ℕ)
    (Q : ℕ → Encoder → Prop) (h : a + (TextEncoder.encode v).length ≤ m.length) :
    Runs (Encoder.call (storeString a v)) ⟨c, ⟨m, W⟩⟩ Q
      ↔ Q (TextEncoder.encode v).length ⟨c, ⟨patch m a (TextEncoder.encode v), W⟩⟩ :=
  runs_of_eq _ _ _ _ _ (call_storeString a v c m W h)

/-- A loop over `0 .. n - 1` whose body keeps an invariant. -/
theorem runs_forIn_range' (body : ℕ → PUnit → JS Encoder (ForInStep PUnit))
    (Inv : ℕ → Encoder → Prop) (hi : ℕ)
    (step : ∀ i s, i < hi → Inv i s →
      Runs (body i PUnit.unit) s (fun r s' => r = .yield PUnit.unit ∧ Inv (i + 1) s')) :
    ∀ (n k : ℕ) (s : Encoder), k + n ≤ hi → Inv k s →
      Runs (forIn (List.range' k n) PUnit.unit body) s (fun _ s' => Inv (k + n) s') := by
  intro n
  induction n with
  | zero =>
    intro k s _ h0
    exact ⟨PUnit.unit, s, rfl, h0⟩
  | succ n ih =>
    intro k s hk h0
    rw [List.range'_succ, List.forIn_cons, runs_bind]
    obtain ⟨r, s1, hr, hy, hinv⟩ := step k s (by omega) h0
    refine ⟨r, s1, hr, ?_⟩
    rw [hy]
    have := ih (k + 1) s1 (by omega) hinv
    rw [show k + 1 + n = k + (n + 1) by omega] at this
    exact this

theorem runs_forIn_range (body : ℕ → PUnit → JS Encoder (ForInStep PUnit))
    (Inv : ℕ → Encoder → Prop) (n : ℕ) (s : Encoder) (Q : PUnit → Encoder → Prop)
    (step : ∀ i s, i < n → Inv i s →
      Runs (body i PUnit.unit) s (fun r s' => r = .yield PUnit.unit ∧ Inv (i + 1) s'))
    (h0 : Inv 0 s) (hQ : ∀ s', Inv n s' → Q PUnit.unit s') :
    Runs (forIn (List.range n) PUnit.unit body) s Q := by
  rw [List.range_eq_range']
  obtain ⟨a, s', hr, hinv⟩ := runs_forIn_range' body Inv n step n 0 s (by omega) h0
  rw [Nat.zero_add] at hinv
  exact ⟨a, s', hr, hQ s' hinv⟩

theorem buttonWrites_succ (base : ℕ) (buttons : List GamepadButton) (n : ℕ) :
    buttonWrites base buttons (n + 1)
      = buttonWrites base buttons n ++ buttonSlotWrites base buttons n := by
  simp only [buttonWrites, List.range_succ, List.flatMap_append, List.flatMap_singleton]

theorem axisWrites_succ (base : ℕ) (axes : List Num) (n : ℕ) :
    axisWrites base axes (n + 1) = axisWrites base axes n ++ axisSlotWrites base axes n := by
  simp only [axisWrites, List.range_succ, List.flatMap_append, List.flatMap_singleton]

theorem button_step (W base : ℕ) (buttons : List GamepadButton) (m0 : List Byte)
    (hW : W = 4 ∨ W = 8) (hb : base % 8 = 0) (hlen : base + 1024 ≤ m0.length)
    (i : ℕ) (s : Encoder) (hi : i < 64) (hinv : ButtonInv W base buttons m0 i s) :
    Runs (do
        if h : i < buttons.length then
          let b := buttons[i]
          Encoder.call (storeF64 (← Encoder.off W 8 (some 8)) (.number b.value))
          Encoder.call (storeU8 (← Encoder.off W 1 none) (.boolean b.pressed))
          Encoder.call (storeU8 (← Encoder.off W 1 none) (.boolean b.touched))
        else
          let _ ← Encoder.off W 16 (some 8)
        pure (ForInStep.yield PUnit.unit)) s
      (fun r s' => r = .yield PUnit.unit ∧ ButtonInv W base buttons m0 (i + 1) s') := by
  obtain ⟨c, rfl, hc⟩ := hinv
  have hlen' : (applyWrites (buttonWrites base buttons i) m0).length = m0.length :=
    length_applyWrites _ _
  by_cases h : i < buttons.length
  · simp only [h, dite_true]
    have hget : buttons[i]? = some buttons[i] := List.getElem?_eq_getElem h
    have hmin : min 1 W = 1 := by rcases hW with rfl | rfl <;> rfl
    simp (disch := (first
        | omega | exact number_ne_bigint _ | exact boolean_ne_bigint _ | assumption
        | (simp only [length_patch, hlen']; omega)))
      only [runs_bind, runs_pure, runs_off_some, runs_off_none, runs_storeF64, runs_storeU8,
        hc, hmin, roundUp_of_mod, Number_number, Number_boolean, toUintN_bool]
    refine ⟨trivial, base + 16 * i + 8 + 1 + 1, ?_, ?_⟩
    · rw [buttonWrites_succ, applyWrites_append]
      simp only [buttonSlotWrites, hget, applyWrites_cons, applyWrites_nil]
    · unfold roundUp
      split <;> omega
  · simp only [h, dite_false]
    have hget : buttons[i]? = none := List.getElem?_eq_none (by omega)
    simp (disch := (first | omega | assumption))
      only [runs_bind, runs_pure, runs_off_some, hc]
    refine ⟨trivial, base + 16 * i + 16, ?_, ?_⟩
    · rw [buttonWrites_succ, applyWrites_append]
      simp only [buttonSlotWrites, hget, applyWrites_nil]
    · unfold roundUp
      split <;> omega

theorem axis_step (W base : ℕ) (axes : List Num) (m0 : List Byte)
    (hb : base % 8 = 0) (hlen : base + 1152 ≤ m0.length)
    (j : ℕ) (s : Encoder) (hj : j < 16) (hinv : AxisInv W base axes m0 j s) :
    Runs (do
        if h : j < axes.length then
          let a := axes[j]
          Encoder.call (storeF64 (← Encoder.off W 8 (some 8)) (.number a))
        else
          let _ ← Encoder.off W 8 (some 8)
        pure (ForInStep.yield PUnit.unit)) s
      (fun r s' => r = .yield PUnit.unit ∧ AxisInv W base axes m0 (j + 1) s') := by
  obtain ⟨c, rfl, hc, -⟩ := hinv
  have hlen' : (applyWrites (axisWrites base axes j) m0).length = m0.length :=
    length_applyWrites _ _
  by_cases h : j < axes.length
  · simp only [h, dite_true]
    have hget : axes[j]? = some axes[j] := List.getElem?_eq_getElem h
    simp (disch := (first
        | omega | exact number_ne_bigint _ | assumption
        | (simp only [length_patch, hlen']; omega)))
      only [runs_bind, runs_pure, runs_off_some, runs_storeF64, hc, Number_number]
    refine ⟨trivial, base + 1024 + 8 * j + 8, ?_, ?_, fun _ => by omega⟩
    · rw [axisWrites_succ, applyWrites_append]
      simp only [axisSlotWrites, hget, applyWrites_cons, applyWrites_nil]
    · unfold roundUp
      split <;> omega
  · simp only [h, dite_false]
    have hget : axes[j]? = none := List.getElem?_eq_none (by omega)
    simp (disch := (first | omega | assumption))
      only [runs_bind, runs_pure, runs_off_some, hc]
    refine ⟨trivial, base + 1024 + 8 * j + 8, ?_, ?_, fun _ => by omega⟩
    · rw [axisWrites_succ, applyWrites_append]
      simp only [axisSlotWrites, hget, applyWrites_nil]
    · unfold roundUp
      split <;> omega

/-- The loop over the 64 button slots, run: the slots of the buttons the
gamepad has are written, the others are skipped, and the cursor, once
aligned to 8, is at the end of the slots. -/
theorem runs_button_loop (W base : ℕ) (buttons : List GamepadButton) (c : ℕ) (m1 : List Byte)
    (Q : PUnit → Encoder → Prop) (hW : W = 4 ∨ W = 8) (hb : base % 8 = 0)
    (hlen : base + 1024 ≤ m1.length) (hc : roundUp c 8 = base)
    (hQ : ∀ c', roundUp c' 8 = base + 1024 →
      Q PUnit.unit ⟨some c', ⟨applyWrites (buttonWrites base buttons 64) m1, W⟩⟩) :
    Runs (forIn (List.range 64) PUnit.unit (fun i (_ : PUnit) =>
      if h : i < buttons.length then do
        let b := buttons[i]
        Encoder.call (storeF64 (← Encoder.off W 8 (some 8)) (.number b.value))
        Encoder.call (storeU8 (← Encoder.off W 1 none) (.boolean b.pressed))
        Encoder.call (storeU8 (← Encoder.off W 1 none) (.boolean b.touched))
        pure (ForInStep.yield PUnit.unit)
      else do
        let _ ← Encoder.off W 16 (some 8)
        pure PUnit.unit
        pure (ForInStep.yield PUnit.unit))) ⟨some c, ⟨m1, W⟩⟩ Q := by
  refine runs_forIn_range _ (ButtonInv W base buttons m1) 64 _ _ ?_ ?_ ?_
  · intro i s hi hinv
    obtain ⟨c, rfl, hc⟩ := hinv
    have hlen' : (applyWrites (buttonWrites base buttons i) m1).length = m1.length :=
      length_applyWrites _ _
    by_cases h : i < buttons.length
    · simp only [h, dite_true]
      have hget : buttons[i]? = some buttons[i] := List.getElem?_eq_getElem h
      have hmin : min 1 W = 1 := by rcases hW with rfl | rfl <;> rfl
      simp (disch := (first
          | omega | exact number_ne_bigint _ | exact boolean_ne_bigint _ | assumption
          | (simp only [length_patch, hlen']; omega)))
        only [runs_bind, runs_pure, runs_off_some, runs_off_none, runs_storeF64, runs_storeU8,
          hc, hmin, roundUp_of_mod, Number_number, Number_boolean, toUintN_bool]
      refine ⟨trivial, base + 16 * i + 8 + 1 + 1, ?_, ?_⟩
      · rw [buttonWrites_succ, applyWrites_append]
        simp only [buttonSlotWrites, hget, applyWrites_cons, applyWrites_nil]
      · unfold roundUp
        split <;> omega
    · simp only [h, dite_false]
      have hget : buttons[i]? = none := List.getElem?_eq_none (by omega)
      simp (disch := (first | omega | assumption))
        only [runs_bind, runs_pure, runs_off_some, hc]
      refine ⟨trivial, base + 16 * i + 16, ?_, ?_⟩
      · rw [buttonWrites_succ, applyWrites_append]
        simp only [buttonSlotWrites, hget, applyWrites_nil]
      · unfold roundUp
        split <;> omega
  · exact ⟨c, rfl, by omega⟩
  · rintro s' ⟨c', rfl, hc'⟩
    exact hQ c' (by omega)

/-- The loop over the 16 axis slots, run: the slots of the axes the gamepad
has are written, the others are skipped, and the cursor is at the end of the
slots. -/
theorem runs_axis_loop (W base : ℕ) (axes : List Num) (c : ℕ) (m1 : List Byte)
    (Q : PUnit → Encoder → Prop) (hb : base % 8 = 0)
    (hlen : base + 1152 ≤ m1.length) (hc : roundUp c 8 = base + 1024)
    (hQ : Q PUnit.unit ⟨some (base + 1152), ⟨applyWrites (axisWrites base axes 16) m1, W⟩⟩) :
    Runs (forIn (List.range 16) PUnit.unit (fun i (_ : PUnit) =>
      if h : i < axes.length then do
        let a := axes[i]
        Encoder.call (storeF64 (← Encoder.off W 8 (some 8)) (.number a))
        pure (ForInStep.yield PUnit.unit)
      else do
        let _ ← Encoder.off W 8 (some 8)
        pure PUnit.unit
        pure (ForInStep.yield PUnit.unit))) ⟨some c, ⟨m1, W⟩⟩ Q := by
  refine runs_forIn_range _ (AxisInv W base axes m1) 16 _ _ ?_ ?_ ?_
  · intro j s hj hinv
    obtain ⟨c, rfl, hc, -⟩ := hinv
    have hlen' : (applyWrites (axisWrites base axes j) m1).length = m1.length :=
      length_applyWrites _ _
    by_cases h : j < axes.length
    · simp only [h, dite_true]
      have hget : axes[j]? = some axes[j] := List.getElem?_eq_getElem h
      simp (disch := (first
          | omega | exact number_ne_bigint _ | assumption
          | (simp only [length_patch, hlen']; omega)))
        only [runs_bind, runs_pure, runs_off_some, runs_storeF64, hc, Number_number]
      refine ⟨trivial, base + 1024 + 8 * j + 8, ?_, ?_, fun _ => by omega⟩
      · rw [axisWrites_succ, applyWrites_append]
        simp only [axisSlotWrites, hget, applyWrites_cons, applyWrites_nil]
      · unfold roundUp
        split <;> omega
    · simp only [h, dite_false]
      have hget : axes[j]? = none := List.getElem?_eq_none (by omega)
      simp (disch := (first | omega | assumption))
        only [runs_bind, runs_pure, runs_off_some, hc]
      refine ⟨trivial, base + 1024 + 8 * j + 8, ?_, ?_, fun _ => by omega⟩
      · rw [axisWrites_succ, applyWrites_append]
        simp only [axisSlotWrites, hget, applyWrites_nil]
      · unfold roundUp
        split <;> omega
  · exact ⟨c, rfl, by omega, fun h => absurd h (by omega)⟩
  · rintro s' ⟨c', rfl, -, hc'⟩
    have := hc' (by omega)
    subst this
    exact hQ

/-- The encoder of `get_gamepad_state`, run: for `W` in {4, 8}, a record start
that is a multiple of 8 and every write in bounds, it returns true after
exactly the writes of `gamepadWrites`. -/
theorem get_gamepad_state_found_runs (W : ℕ) (g : Gamepad) (B : ℕ) (m : List Byte)
    (hW : W = 4 ∨ W = 8) (hB : B % 8 = 0)
    (hlen : buttonsBase W B + 1152 + 2 * W ≤ m.length)
    (hid : buttonsBase W B + 1152 + 2 * W + (TextEncoder.encode (storedId g)).length
      ≤ m.length)
    (hmap : buttonsBase W B + 1152 + 2 * W + 96 + (TextEncoder.encode (storedMapping g)).length
      ≤ m.length) :
    Runs (get_gamepad_state_found W g) ⟨some B, ⟨m, W⟩⟩
      (fun r s' => r = true ∧ s'.wmi = ⟨applyWrites (gamepadWrites W g B) m, W⟩) := by
  unfold get_gamepad_state_found
  unfold buttonsBase at hlen hid hmap
  have hid' := hid
  have hmap' := hmap
  unfold storedId at hid'
  unfold storedMapping at hmap'
  simp only [runs_bind]
  generalize hQ1 : (fun (a : PUnit) (s' : Encoder) =>
    Runs (forIn (List.range 16) PUnit.unit _) s' _) = Q1
  rcases hW with rfl | rfl
  · simp (disch := (first
        | omega | exact number_ne_bigint _ | exact boolean_ne_bigint _ | assumption | decide
        | (simp only [length_patch, length_applyWrites]; omega)))
      only [runs_off_some, runs_off_none, runs_storeF64, runs_storeU8,
        runs_storeI32, runs_storeInt, roundUp_of_mod, roundUp_add_lit, Number_number,
        Number_boolean, toUintN_bool,
        Nat.add_assoc, Nat.reduceAdd, Nat.reduceMul, Nat.reduceMod, Nat.reduceSub,
        Nat.reduceEqDiff, if_true, if_false,
        show min 4 4 = 4 from rfl, show min 8 4 = 4 from rfl, show min 1 4 = 1 from rfl]
    refine runs_button_loop 4 (B + 40) g.buttons _ _ _ (Or.inl rfl) (by omega)
      (by simp only [length_patch, length_applyWrites]; omega)
      (roundUp_of_mod _ _ (by omega)) ?_
    intro c' hc'
    subst hQ1
    generalize hQ2 : (fun (a : PUnit) (s' : Encoder) =>
      Runs (ite (List.length g.id > 96) _ _) s' _) = Q2
    refine runs_axis_loop 4 (B + 40) g.axes _ _ _ (by omega)
      (by simp only [length_patch, length_applyWrites]; omega) hc' ?_
    subst hQ2
    by_cases h96 : g.id.length > 96 <;> by_cases h64 : g.mapping.length > 64 <;>
      simp only [h96, h64, if_true, if_false] at hid' hmap' ⊢ <;>
      simp (disch := (first
          | omega | exact number_ne_bigint _ | assumption | decide
          | (simp only [length_patch, length_applyWrites]; omega)))
        only [runs_bind, runs_pure, runs_off_some, runs_storeInt, runs_storeString,
          roundUp_of_mod, Nat.add_assoc, Nat.reduceAdd, Nat.reduceMul, true_and] <;>
      simp only [gamepadWrites, buttonsBase, storedId, storedIdLength, storedMapping,
        storedMappingLength, h96, h64, if_true, if_false, applyWrites_append, applyWrites_cons,
        applyWrites_nil, Nat.add_assoc, Nat.reduceAdd, Nat.reduceMul]
  · simp (disch := (first
        | omega | exact number_ne_bigint _ | exact boolean_ne_bigint _ | assumption | decide
        | (simp only [length_patch, length_applyWrites]; omega)))
      only [runs_off_some, runs_off_none, runs_storeF64, runs_storeU8,
        runs_storeI32, runs_storeInt, roundUp_of_mod, roundUp_add_lit, Number_number,
        Number_boolean, toUintN_bool,
        Nat.add_assoc, Nat.reduceAdd, Nat.reduceMul, Nat.reduceMod, Nat.reduceSub,
        Nat.reduceEqDiff, if_true, if_false,
        show min 8 8 = 8 from rfl, show min 1 8 = 1 from rfl]
    refine runs_button_loop 8 (B + 72) g.buttons _ _ _ (Or.inr rfl) (by omega)
      (by simp only [length_patch, length_applyWrites]; omega)
      (roundUp_of_mod _ _ (by omega)) ?_
    intro c' hc'
    subst hQ1
    generalize hQ2 : (fun (a : PUnit) (s' : Encoder) =>
      Runs (ite (List.length g.id > 96) _ _) s' _) = Q2
    refine runs_axis_loop 8 (B + 72) g.axes _ _ _ (by omega)
      (by simp only [length_patch, length_applyWrites]; omega) hc' ?_
    subst hQ2
    by_cases h96 : g.id.length > 96 <;> by_cases h64 : g.mapping.length > 64 <;>
      simp only [h96, h64, if_true, if_false] at hid' hmap' ⊢ <;>
      simp (disch := (first
          | omega | exact number_ne_bigint _ | assumption | decide
          | (simp only [length_patch, length_applyWrites]; omega)))
        only [runs_bind, runs_pure, runs_off_some, runs_storeInt, runs_storeString,
          roundUp_of_mod, Nat.add_assoc, Nat.reduceAdd, Nat.reduceMul, true_and] <;>
      simp only [gamepadWrites, buttonsBase, storedId, storedIdLength, storedMapping,
        storedMappingLength, h96, h64, if_true, if_false, applyWrites_append, applyWrites_cons,
        applyWrites_nil, Nat.add_assoc, Nat.reduceAdd, Nat.reduceMul]

/-- The body of a gamepad event in `init_event_raw`, run: for `W` in {4, 8}, a
body start that is a multiple of 8 and every write in bounds, it returns
after exactly the writes of `gamepadWrites`. -/
theorem gamepad_body_runs (host : Host) (W : ℕ) (e : Event) (g : Gamepad) (B : ℕ)
    (m : List Byte) (hW : W = 4 ∨ W = 8) (hB : B % 8 = 0)
    (hkind : e.interface = .gamepad g) (hscroll : e.type ≠ "scroll")
    (hvis : e.type ≠ "visibilitychange")
    (hlen : buttonsBase W B + 1152 + 2 * W ≤ m.length)
    (hid : buttonsBase W B + 1152 + 2 * W + (TextEncoder.encode (storedId g)).length
      ≤ m.length)
    (hmap : buttonsBase W B + 1152 + 2 * W + 96 + (TextEncoder.encode (storedMapping g)).length
      ≤ m.length) :
    Runs (init_event_body host W e) ⟨some B, ⟨m, W⟩⟩
      (fun _ s' => s'.wmi = ⟨applyWrites (gamepadWrites W g B) m, W⟩) := by
  unfold init_event_body
  rw [hkind]
  simp only [hscroll, hvis, if_false]
  unfold buttonsBase at hlen hid hmap
  have hid' := hid
  have hmap' := hmap
  unfold storedId at hid'
  unfold storedMapping at hmap'
  simp only [runs_bind]
  generalize hQ1 : (fun (a : PUnit) (s' : Encoder) =>
    Runs (forIn (List.range 16) PUnit.unit _) s' _) = Q1
  rcases hW with rfl | rfl
  · simp (disch := (first
        | omega | exact number_ne_bigint _ | exact boolean_ne_bigint _ | assumption | decide
        | (simp only [length_patch, length_applyWrites]; omega)))
      only [runs_off_some, runs_off_none, runs_storeF64, runs_storeU8,
        runs_storeI32, runs_storeInt, roundUp_of_mod, roundUp_add_lit, Number_number,
        Number_boolean, toUintN_bool,
        Nat.add_assoc, Nat.reduceAdd, Nat.reduceMul, Nat.reduceMod, Nat.reduceSub,
        Nat.reduceEqDiff, if_true, if_false,
        show min 4 4 = 4 from rfl, show min 8 4 = 4 from rfl, show min 1 4 = 1 from rfl]
    refine runs_button_loop 4 (B + 40) g.buttons _ _ _ (Or.inl rfl) (by omega)
      (by simp only [length_patch, length_applyWrites]; omega)
      (roundUp_of_mod _ _ (by omega)) ?_
    intro c' hc'
    subst hQ1
    generalize hQ2 : (fun (a : PUnit) (s' : Encoder) =>
      Runs (ite (List.length g.id > 96) _ _) s' _) = Q2
    refine runs_axis_loop 4 (B + 40) g.axes _ _ _ (by omega)
      (by simp only [length_patch, length_applyWrites]; omega) hc' ?_
    subst hQ2
    by_cases h96 : g.id.length > 96 <;> by_cases h64 : g.mapping.length > 64 <;>
      simp only [h96, h64, if_true, if_false] at hid' hmap' ⊢ <;>
      simp (disch := (first
          | omega | exact number_ne_bigint _ | assumption | decide
          | (simp only [length_patch, length_applyWrites]; omega)))
        only [runs_bind, runs_pure, runs_off_some, runs_storeInt, runs_storeString,
          roundUp_of_mod, Nat.add_assoc, Nat.reduceAdd, Nat.reduceMul, true_and] <;>
      simp only [gamepadWrites, buttonsBase, storedId, storedIdLength, storedMapping,
        storedMappingLength, h96, h64, if_true, if_false, applyWrites_append, applyWrites_cons,
        applyWrites_nil, Nat.add_assoc, Nat.reduceAdd, Nat.reduceMul]
  · simp (disch := (first
        | omega | exact number_ne_bigint _ | exact boolean_ne_bigint _ | assumption | decide
        | (simp only [length_patch, length_applyWrites]; omega)))
      only [runs_off_some, runs_off_none, runs_storeF64, runs_storeU8,
        runs_storeI32, runs_storeInt, roundUp_of_mod, roundUp_add_lit, Number_number,
        Number_boolean, toUintN_bool,
        Nat.add_assoc, Nat.reduceAdd, Nat.reduceMul, Nat.reduceMod, Nat.reduceSub,
        Nat.reduceEqDiff, if_true, if_false,
        show min 8 8 = 8 from rfl, show min 1 8 = 1 from rfl]
    refine runs_button_loop 8 (B + 72) g.buttons _ _ _ (Or.inr rfl) (by omega)
      (by simp only [length_patch, length_applyWrites]; omega)
      (roundUp_of_mod _ _ (by omega)) ?_
    intro c' hc'
    subst hQ1
    generalize hQ2 : (fun (a : PUnit) (s' : Encoder) =>
      Runs (ite (List.length g.id > 96) _ _) s' _) = Q2
    refine runs_axis_loop 8 (B + 72) g.axes _ _ _ (by omega)
      (by simp only [length_patch, length_applyWrites]; omega) hc' ?_
    subst hQ2
    by_cases h96 : g.id.length > 96 <;> by_cases h64 : g.mapping.length > 64 <;>
      simp only [h96, h64, if_true, if_false] at hid' hmap' ⊢ <;>
      simp (disch := (first
          | omega | exact number_ne_bigint _ | assumption | decide
          | (simp only [length_patch, length_applyWrites]; omega)))
        only [runs_bind, runs_pure, runs_off_some, runs_storeInt, runs_storeString,
          roundUp_of_mod, Nat.add_assoc, Nat.reduceAdd, Nat.reduceMul, true_and] <;>
      simp only [gamepadWrites, buttonsBase, storedId, storedIdLength, storedMapping,
        storedMappingLength, h96, h64, if_true, if_false, applyWrites_append, applyWrites_cons,
        applyWrites_nil, Nat.add_assoc, Nat.reduceAdd, Nat.reduceMul]

theorem mem_buttonWrites (base : ℕ) (buttons : List GamepadButton) (n : ℕ) (w : ℕ × List Byte)
    (hw : w ∈ buttonWrites base buttons n) :
    ∃ i, i < n ∧ i < buttons.length ∧ base + 16 * i ≤ w.1 ∧
      w.1 + w.2.length ≤ base + 16 * i + 10 := by
  unfold buttonWrites at hw
  rw [List.mem_flatMap] at hw
  obtain ⟨i, hi, hwi⟩ := hw
  rw [List.mem_range] at hi
  unfold buttonSlotWrites at hwi
  rcases hb : buttons[i]? with _ | b
  · rw [hb] at hwi
    exact absurd hwi (List.not_mem_nil _)
  · rw [hb] at hwi
    have hlt : i < buttons.length := by
      by_contra hc
      rw [List.getElem?_eq_none (by omega)] at hb
      cases hb
    refine ⟨i, hi, hlt, ?_⟩
    simp only [List.mem_cons, List.mem_singleton, List.not_mem_nil, or_false] at hwi
    rcases hwi with h | h | h <;> rw [h] <;> simp only [length_leBytes] <;> omega

theorem mem_axisWrites (base : ℕ) (axes : List Num) (n : ℕ) (w : ℕ × List Byte)
    (hw : w ∈ axisWrites base axes n) :
    ∃ j, j < n ∧ j < axes.length ∧ w.1 = base + 1024 + 8 * j ∧ w.2.length = 8 := by
  unfold axisWrites at hw
  rw [List.mem_flatMap] at hw
  obtain ⟨j, hj, hwj⟩ := hw
  rw [List.mem_range] at hj
  unfold axisSlotWrites at hwj
  rcases ha : axes[j]? with _ | a
  · rw [ha] at hwj
    exact absurd hwj (List.not_mem_nil _)
  · rw [ha] at hwj
    have hlt : j < axes.length := by
      by_contra hc
      rw [List.getElem?_eq_none (by omega)] at ha
      cases ha
    refine ⟨j, hj, hlt, ?_⟩
    simp only [List.mem_singleton] at hwj
    rw [hwj]
    exact ⟨rfl, length_leBytes _ _⟩

theorem mem_guestIntWrites (W a : ℕ) (v : JSValue) (hW : W = 4 ∨ W = 8) (w : ℕ × List Byte)
    (hw : w ∈ guestIntWrites W a v) : a ≤ w.1 ∧ w.1 + w.2.length ≤ a + W := by
  unfold guestIntWrites at hw
  rcases hW with rfl | rfl
  · simp only [Nat.reduceEqDiff, if_false, List.mem_singleton] at hw
    rw [hw]
    simp only [length_leBytes]
    omega
  · simp only [if_true, List.mem_cons, List.mem_singleton, List.not_mem_nil, or_false] at hw
    rcases hw with h | h <;> rw [h] <;> simp only [length_leBytes] <;> omega

/-- Where the writes of a gamepad record go: below the slots, into the first
ten bytes of the slot of a button the gamepad has, into the slot of an axis
it has, or above the slots. -/
theorem mem_gamepadWrites (W : ℕ) (g : Gamepad) (body : ℕ) (hW : W = 4 ∨ W = 8)
    (w : ℕ × List Byte) (hw : w ∈ gamepadWrites W g body) :
    w.1 + w.2.length ≤ buttonsBase W body ∨ buttonsBase W body + 1152 ≤ w.1 ∨
    (∃ i, i < 64 ∧ i < g.buttons.length ∧ buttonsBase W body + 16 * i ≤ w.1 ∧
      w.1 + w.2.length ≤ buttonsBase W body + 16 * i + 10) ∨
    (∃ j, j < 16 ∧ j < g.axes.length ∧ w.1 = buttonsBase W body + 1024 + 8 * j ∧
      w.2.length = 8) := by
  unfold gamepadWrites at hw
  simp only [List.mem_append, List.mem_cons, List.mem_singleton, List.not_mem_nil,
    or_false] at hw
  rcases hw with (((((((h | h | h) | h) | h) | h) | h) | h) | h) | (h | h)
  · left; rw [h]; simp only [length_leBytes, buttonsBase]; rcases hW with rfl | rfl <;> omega
  · left; rw [h]; simp only [length_leBytes, buttonsBase]; rcases hW with rfl | rfl <;> omega
  · left; rw [h]; simp only [length_leBytes, buttonsBase]; rcases hW with rfl | rfl <;> omega
  · left
    have := mem_guestIntWrites W _ _ hW w h
    unfold buttonsBase
    omega
  · left
    have := mem_guestIntWrites W _ _ hW w h
    unfold buttonsBase
    omega
  · right; right; left
    exact mem_buttonWrites _ _ _ w h
  · right; right; right
    exact mem_axisWrites _ _ _ w h
  · right; left
    have := mem_guestIntWrites W _ _ hW w h
    omega
  · right; left
    have := mem_guestIntWrites W _ _ hW w h
    omega
  · right; left
    rw [h]
    simp only []
    omega
  · right; left
    rw [h]
    simp only []
    omega

/-- C14: the gamepad record has a fixed layout.  For `W` in {4, 8} and a
record start that is a multiple of 8, both encoders - the gamepad branch of
init_event_raw, whose record starts at the body `ep + 32 + 2 * W`, and
get_gamepad_state, whose record starts at `ep` - succeed (every write in
bounds) with exactly the writes of `gamepadWrites`: button `i` at
`buttonsBase + 16 * i`, axis `j` at `buttonsBase + 1024 + 8 * j`, the id
length at `buttonsBase + 1152`, the mapping length `W` bytes later, then the
id and, 96 bytes later, the mapping, whatever the numbers of buttons and
axes.  These writes leave every byte of an unused button slot, the last six
bytes of a used one and every byte of an unused axis slot as they were. -/
theorem C14_gamepad_layout (host : Host) (W : ℕ) (data : EventData) (g : Gamepad)
    (gps : List (Option Gamepad)) (k ep : ℕ) (m : List Byte)
    (hW : W = 4 ∨ W = 8) (hep : ep % 8 = 0) :
    (data.event.interface = .gamepad g → data.event.type ≠ "scroll" →
      data.event.type ≠ "visibilitychange" → (W = 4 → ∀ z, data.id_len ≠ .bigint z) →
      buttonsBase W (ep + 32 + 2 * W) + 1152 + 2 * W ≤ m.length →
      buttonsBase W (ep + 32 + 2 * W) + 1152 + 2 * W
        + (TextEncoder.encode (storedId g)).length ≤ m.length →
      buttonsBase W (ep + 32 + 2 * W) + 1152 + 2 * W + 96
        + (TextEncoder.encode (storedMapping g)).length ≤ m.length →
      init_event_raw host (some data) ep ⟨m, W⟩
        = (.ok (), ⟨applyWrites (gamepadWrites W g (ep + 32 + 2 * W))
            (applyWrites (prefixWrites W data ep) m), W⟩)) ∧
    (gps[k]? = some (some g) →
      buttonsBase W ep + 1152 + 2 * W ≤ m.length →
      buttonsBase W ep + 1152 + 2 * W + (TextEncoder.encode (storedId g)).length
        ≤ m.length →
      buttonsBase W ep + 1152 + 2 * W + 96 + (TextEncoder.encode (storedMapping g)).length
        ≤ m.length →
      get_gamepad_state gps k ep ⟨m, W⟩
        = (.ok true, ⟨applyWrites (gamepadWrites W g ep) m, W⟩)) ∧
    (∀ (body : ℕ) (M : List Byte) (i x : ℕ), i < 64 →
      buttonsBase W body + 16 * i ≤ x → x < buttonsBase W body + 16 * (i + 1) →
      (g.buttons.length ≤ i ∨ buttonsBase W body + 16 * i + 10 ≤ x) →
      (applyWrites (gamepadWrites W g body) M)[x]? = M[x]?) ∧
    (∀ (body : ℕ) (M : List Byte) (j x : ℕ), j < 16 → g.axes.length ≤ j →
      buttonsBase W body + 1024 + 8 * j ≤ x → x < buttonsBase W body + 1024 + 8 * (j + 1) →
      (applyWrites (gamepadWrites W g body) M)[x]? = M[x]?) := by
  refine ⟨?_, ?_, ?_, ?_⟩
  · intro hkind hscroll hvis hid hlen hidfit hmapfit
    have hpl : ep + 28 + 2 * W ≤ m.length := by unfold buttonsBase at hlen; omega
    obtain ⟨a, s', hrun, hq⟩ := gamepad_body_runs host W data.event g (ep + 32 + 2 * W)
      (applyWrites (prefixWrites W data ep) m) hW (by rcases hW with rfl | rfl <;> omega)
      hkind hscroll hvis
      (by rw [length_applyWrites]; exact hlen) (by rw [length_applyWrites]; exact hidfit)
      (by rw [length_applyWrites]; exact hmapfit)
    rw [init_event_raw_eq_body host W data ep m hW hep hpl hid, hrun]
    dsimp only at hq ⊢
    rw [hq]
  · intro hk hlen hidfit hmapfit
    obtain ⟨a, s', hrun, ha, hq⟩ := get_gamepad_state_found_runs W g ep m hW hep hlen hidfit
      hmapfit
    have hklt : k < gps.length := by
      by_contra hc
      rw [List.getElem?_eq_none (by omega)] at hk
      cases hk
    unfold get_gamepad_state
    dsimp only
    rw [if_pos ⟨by omega, by exact_mod_cast hklt⟩, Int.toNat_natCast, hk]
    dsimp only
    rw [hrun, ha]
    dsimp only
    rw [hq]
  · intro body M i x hi h1 h2 h3
    apply getElem?_applyWrites_outside
    intro w hw
    rcases mem_gamepadWrites W g body hW w hw with h | h | ⟨i', hi', hl', ha, hb⟩ |
      ⟨j, hj, hl', ha, hb⟩
    · omega
    · omega
    · by_cases hii : i' = i
      · subst hii
        omega
      · rcases Nat.lt_or_gt_of_ne hii with hlt | hgt
        · right; omega
        · left; omega
    · omega
  · intro body M j x hj hlen h1 h2
    apply getElem?_applyWrites_outside
    intro w hw
    rcases mem_gamepadWrites W g body hW w hw with h | h | ⟨i', hi', hl', ha, hb⟩ |
      ⟨j', hj', hl', ha, hb⟩
    · omega
    · omega
    · omega
    · have hne : j' ≠ j := by omega
      rcases Nat.lt_or_gt_of_ne hne with hlt | hgt
      · right; omega
      · left; omega

set_option maxRecDepth 1000000 in
/-- Witness of C14: the record of a gamepad with one button and one axis, in
the event at address 0 and in the state at address 0 of a 1400-byte buffer,
intSize 4. -/
theorem C14_gamepad_layout_witness :
    init_event_raw quietHost (some (padEvent longAsciiPad)) 0 ⟨List.replicate 1400 0, 4⟩
      = (.ok (), ⟨applyWrites (gamepadWrites 4 longAsciiPad (0 + 32 + 2 * 4))
          (applyWrites (prefixWrites 4 (padEvent longAsciiPad) 0) (List.replicate 1400 0)),
          4⟩) ∧
    get_gamepad_state [some longAsciiPad] ((0 : ℕ) : ℤ) 0 ⟨List.replicate 1400 0, 4⟩
      = (.ok true, ⟨applyWrites (gamepadWrites 4 longAsciiPad 0) (List.replicate 1400 0), 4⟩) :=
  have h := C14_gamepad_layout quietHost 4 (padEvent longAsciiPad) longAsciiPad
    [some longAsciiPad] 0 0 (List.replicate 1400 0) (by decide) (by decide)
  ⟨h.1 rfl (by decide) (by decide) (fun _ z => number_ne_bigint _ z) (by decide) (by decide!)
      (by decide!),
   h.2.1 rfl (by decide) (by decide!) (by decide!)⟩

end Odin
namespace Odin

open WasmMemoryInterface

set_option maxRecDepth 1000000 in
/-- C22 fails on the code for W = 8.  Both encoders reserve a slot of `W`
bytes for the gamepad index but write it with storeI32, four bytes, while the
counts of buttons and axes next to it are written with storeInt.  With
intSize 8 and a buffer that held the byte 255 everywhere, the record of a
gamepad with index 1 has the bytes 1, 0, 0, 0, 255, 255, 255, 255 in the
index field, and loadInt reads -4294967295 there: in the record of
get_gamepad_state at address 0 (index field at 32) and in the event record of
init_event_raw at address 0 (index field at 80).  With intSize 4 the field
(at 16) is read back as 1. -/
theorem C22_index_keeps_stale_bytes :
    (get_gamepad_state [none, some indexOnePad] 1 0 ⟨List.replicate 1400 255, 8⟩).1
      = .ok true ∧
    readBytes (get_gamepad_state [none, some indexOnePad] 1 0
      ⟨List.replicate 1400 255, 8⟩).2.memory 32 8 = [1, 0, 0, 0, 255, 255, 255, 255] ∧
    loadInt (get_gamepad_state [none, some indexOnePad] 1 0 ⟨List.replicate 1400 255, 8⟩).2 32
      = .ok (.fin (-4294967295)) ∧
    (init_event_raw quietHost (some (padEvent indexOnePad)) 0
      ⟨List.replicate 1448 255, 8⟩).1 = .ok () ∧
    loadInt (init_event_raw quietHost (some (padEvent indexOnePad)) 0
      ⟨List.replicate 1448 255, 8⟩).2 80 = .ok (.fin (-4294967295)) ∧
    loadInt (get_gamepad_state [none, some indexOnePad] 1 0 ⟨List.replicate 1360 255, 4⟩).2 16
      = .ok (.fin 1) := by
  decide!

set_option maxRecDepth 1000000 in
/-- C24 fails on the code.  The low word is `ToUint32(value)`, which drops the
fraction toward zero, while the high word is `Math.floor(value / 2^32)`,
which rounds down: for a negative value that is not an integer and whose
integer part is a multiple of 2^32, the two do not fit together.  After
storeI64(0, -0.5) the low word is 0 and the high word -1, and loadI64 reads
-4294967296 where the integer part of -0.5 is 0; the same happens in the
event record of a mouse event with `offsetX = -0.5` (intSize 4, ep = 0, the
field at 72).  The values 0.5 and -1.5 are read back as 0 and -1. -/
theorem C24_storeI64_negative_fraction :
    (storeI64 0 (.number (.fin (-1 / 2))) ⟨List.replicate 8 0, 4⟩).1 = .ok () ∧
    readBytes (storeI64 0 (.number (.fin (-1 / 2))) ⟨List.replicate 8 0, 4⟩).2.memory 0 8
      = [0, 0, 0, 0, 255, 255, 255, 255] ∧
    loadI64 (storeI64 0 (.number (.fin (-1 / 2))) ⟨List.replicate 8 0, 4⟩).2 0
      = .ok (.fin (-4294967296)) ∧
    (init_event_raw quietHost (some mouseLeftOfEdge) 0 ⟨List.replicate 128 0, 4⟩).1
      = .ok () ∧
    loadI64 (init_event_raw quietHost (some mouseLeftOfEdge) 0 ⟨List.replicate 128 0, 4⟩).2 72
      = .ok (.fin (-4294967296)) ∧
    loadI64 (storeI64 0 (.number (.fin (1 / 2))) ⟨List.replicate 8 0, 4⟩).2 0
      = .ok (.fin 0) ∧
    loadI64 (storeI64 0 (.number (.fin (-3 / 2))) ⟨List.replicate 8 0, 4⟩).2 0
      = .ok (.fin (-1)) := by
  decide!

/-! ## loadCstring -/

theorem getUint_one (buf : List Byte) (a : ℕ) (b : Byte) (h : buf[a]? = some b) :
    DataView.getUint 1 buf a = .ok b.val := by
  have hlt : a < buf.length := by
    by_contra hc
    rw [List.getElem?_eq_none (by omega)] at h
    cases h
  have hb : buf[a] = b := by
    rw [List.getElem?_eq_getElem hlt] at h
    exact Option.some.inj h
  unfold DataView.getUint
  rw [if_pos (by omega)]
  have hr : readBytes buf a 1 = [b] := by
    unfold readBytes
    rw [List.drop_eq_getElem_cons hlt, hb]
    rfl
  rw [hr]
  simp [leValue]

theorem loadCstring_scan_spec (wmi : WasmMemoryInterface) (ptr k : ℕ)
    (hzero : wmi.memory[ptr + k]? = some 0)
    (hfirst : ∀ j, j < k → wmi.memory[ptr + j]? ≠ some 0) :
    ∀ (fuel len : ℕ), len ≤ k → k - len < fuel →
      loadCstring.scan wmi ptr fuel len = some (.ok k) := by
  have hklt : ptr + k < wmi.memory.length := by
    by_contra hc
    rw [List.getElem?_eq_none (by omega)] at hzero
    cases hzero
  intro fuel
  induction fuel with
  | zero => intro len _ h; omega
  | succ fuel ih =>
    intro len hle hfuel
    unfold loadCstring.scan
    have hlt : ptr + len < wmi.memory.length := by omega
    rw [getUint_one wmi.memory (ptr + len) wmi.memory[ptr + len]
      (List.getElem?_eq_getElem hlt)]
    dsimp only
    by_cases hk : len = k
    · subst hk
      have hb : wmi.memory[ptr + len] = 0 := by
        rw [List.getElem?_eq_getElem hlt] at hzero
        exact Option.some.inj hzero
      rw [hb, if_neg (by decide)]
    · have hne : wmi.memory[ptr + len] ≠ 0 := by
        intro hb
        apply hfirst len (by omega)
        rw [List.getElem?_eq_getElem hlt, hb]
      have hv : (wmi.memory[ptr + len]).val ≠ 0 := by
        intro hv0
        exact hne (Fin.ext hv0)
      rw [if_pos hv]
      exact ih (len + 1) (by omega) (by omega)

/-- C23: loadCstring returns `null` for the pointer 0, whatever the buffer
holds.  For a pointer that is not 0 and the least `k` with a zero byte at
`ptr + k`, the loop ends after `k + 1` tests of its condition and the result
is what loadString gives for the `k` bytes from `ptr`: the decoding of
exactly the bytes [ptr, ptr + k), the empty string when the byte at `ptr` is
zero.  The method only reads: it is a function of the buffer. -/
theorem C23_loadCstring (wmi : WasmMemoryInterface) (ptr : ℕ) :
    (∀ fuel, loadCstring fuel wmi 0 = some (.ok none)) ∧
    (∀ k fuel, ptr ≠ 0 → wmi.memory[ptr + k]? = some 0 →
      (∀ j, j < k → wmi.memory[ptr + j]? ≠ some 0) → k < fuel →
      loadCstring fuel wmi ptr
        = some (.ok (some (TextDecoder.decode (readBytes wmi.memory ptr k)))) ∧
      wmi.loadString ptr k = .ok (TextDecoder.decode (readBytes wmi.memory ptr k))) ∧
    (∀ fuel, ptr ≠ 0 → wmi.memory[ptr]? = some 0 → 0 < fuel →
      loadCstring fuel wmi ptr = some (.ok (some []))) := by
  have hmain : ∀ k fuel, ptr ≠ 0 → wmi.memory[ptr + k]? = some 0 →
      (∀ j, j < k → wmi.memory[ptr + j]? ≠ some 0) → k < fuel →
      loadCstring fuel wmi ptr
        = some (.ok (some (TextDecoder.decode (readBytes wmi.memory ptr k)))) ∧
      wmi.loadString ptr k = .ok (TextDecoder.decode (readBytes wmi.memory ptr k)) := by
    intro k fuel hptr hzero hfirst hfuel
    have hklt : ptr + k < wmi.memory.length := by
      by_contra hc
      rw [List.getElem?_eq_none (by omega)] at hzero
      cases hzero
    have hload : wmi.loadString ptr k
        = .ok (TextDecoder.decode (readBytes wmi.memory ptr k)) := by
      unfold loadString loadBytes
      rw [if_pos (by omega)]
      rfl
    refine ⟨?_, hload⟩
    unfold loadCstring
    rw [if_neg hptr, loadCstring_scan_spec wmi ptr k hzero hfirst fuel 0 (by omega) (by omega)]
    dsimp only
    rw [hload]
    rfl
  refine ⟨?_, hmain, ?_⟩
  · intro fuel
    unfold loadCstring
    rw [if_pos rfl]
  · intro fuel hptr hzero hfuel
    have h := (hmain 0 fuel hptr hzero (fun j hj => absurd hj (Nat.not_lt_zero j)) hfuel).1
    rw [h]
    rfl

/-- Witness of C23: in the buffer 0, 104, 105, 0, 33 the string at 1 is `hi`
(the zero byte at offset 2 is the first one), the string at 3 is empty. -/
theorem C23_loadCstring_witness :
    loadCstring 3 ⟨[0, 104, 105, 0, 33], 4⟩ 1 = some (.ok (some [104, 105])) ∧
    loadCstring 1 ⟨[0, 104, 105, 0, 33], 4⟩ 3 = some (.ok (some [])) ∧
    loadCstring 0 ⟨[0, 104, 105, 0, 33], 4⟩ 0 = some (.ok none) :=
  have h := C23_loadCstring ⟨[0, 104, 105, 0, 33], 4⟩ 1
  have h3 := C23_loadCstring ⟨[0, 104, 105, 0, 33], 4⟩ 3
  ⟨(h.2.1 2 3 (by decide) (by decide) (by decide) (by decide)).1,
   h3.2.2 1 (by decide) (by decide) (by decide),
   h.1 0⟩

/-! ## The HTML console -/

set_option maxRecDepth 1000000 in
/-- C26 fails on the code.  One call pushes an entry for every piece of the
line, and the trimming step `infoConsoleLines.shift(MAX_INFO_CONSOLE_LINES)`
removes one entry, since `shift` takes no argument.  With a console element
and an empty console, one call with a line of 513 newlines leaves 513
entries, more than the 512 of MAX_INFO_CONSOLE_LINES; a second call with one
more piece of text of three lines leaves 514. -/
theorem C26_console_exceeds_bound :
    (writeToConsole true (List.replicate 513 newline) false ⟨[], []⟩).infoConsoleLines.length
      = 513 ∧
    MAX_INFO_CONSOLE_LINES = 512 ∧
    (writeToConsole true (ascii "a\nb\nc") false
      (writeToConsole true (List.replicate 513 newline) false ⟨[], []⟩)).infoConsoleLines.length
      = 514 := by
  decide!

/-! ## The two gamepad encoders write one layout -/

theorem placeAt_append (b : ℕ) (u v : List (ℕ × List Byte)) :
    placeAt b (u ++ v) = placeAt b u ++ placeAt b v := List.map_append _ _ _

theorem guestIntWrites_placeAt (W b a : ℕ) (v : JSValue) :
    guestIntWrites W (b + a) v = placeAt b (guestIntWrites W a v) := by
  unfold guestIntWrites placeAt
  split
  · simp only [List.map_cons, List.map_nil, Nat.add_assoc]
  · simp only [List.map_cons, List.map_nil]

theorem buttonWrites_placeAt (b a : ℕ) (buttons : List GamepadButton) (n : ℕ) :
    buttonWrites (b + a) buttons n = placeAt b (buttonWrites a buttons n) := by
  unfold buttonWrites placeAt
  rw [List.map_flatMap]
  congr 1
  funext i
  unfold buttonSlotWrites
  cases buttons[i]? with
  | none => rfl
  | some x => simp only [List.map_cons, List.map_nil, Nat.add_assoc]

theorem axisWrites_placeAt (b a : ℕ) (axes : List Num) (n : ℕ) :
    axisWrites (b + a) axes n = placeAt b (axisWrites a axes n) := by
  unfold axisWrites placeAt
  rw [List.map_flatMap]
  congr 1
  funext j
  unfold axisSlotWrites
  cases axes[j]? with
  | none => rfl
  | some x => simp only [List.map_cons, List.map_nil, Nat.add_assoc]

/-- The layout of a gamepad record does not depend on where the record
starts: the writes of the record at `body` are those of the record at 0,
moved by `body`. -/
theorem gamepadWrites_eq_placeAt (W : ℕ) (g : Gamepad) (body : ℕ) :
    gamepadWrites W g body = placeAt body (gamepadWrites W g 0) := by
  unfold gamepadWrites buttonsBase
  simp only [placeAt_append]
  refine congrArg₂ _ (congrArg₂ _ (congrArg₂ _ (congrArg₂ _ (congrArg₂ _ (congrArg₂ _
    (congrArg₂ _ ?_ ?_) ?_) ?_) ?_) ?_) ?_) ?_
  · simp only [placeAt, List.map_cons, List.map_nil, Nat.zero_add]
  · rw [← guestIntWrites_placeAt, show body + (0 + 6 * W + 8) = body + 6 * W + 8 by omega]
  · rw [← guestIntWrites_placeAt, show body + (0 + 7 * W + 8) = body + 7 * W + 8 by omega]
  · rw [← buttonWrites_placeAt, show body + (0 + 8 * W + 8) = body + 8 * W + 8 by omega]
  · rw [← axisWrites_placeAt, show body + (0 + 8 * W + 8) = body + 8 * W + 8 by omega]
  · rw [← guestIntWrites_placeAt,
      show body + (0 + 8 * W + 8 + 1152) = body + 8 * W + 8 + 1152 by omega]
  · rw [← guestIntWrites_placeAt,
      show body + (0 + 8 * W + 8 + 1152 + W) = body + 8 * W + 8 + 1152 + W by omega]
  · simp only [placeAt, List.map_cons, List.map_nil]
    rw [show body + (0 + 8 * W + 8 + 1152 + 2 * W) = body + 8 * W + 8 + 1152 + 2 * W by omega,
      show body + (0 + 8 * W + 8 + 1152 + 2 * W + 96)
        = body + 8 * W + 8 + 1152 + 2 * W + 96 by omega]

theorem getElem?_patch_inside (buf : List Byte) (addr : ℕ) (bs : List Byte) (k : ℕ)
    (h : addr + bs.length ≤ buf.length) (hk : k < bs.length) :
    (patch buf addr bs)[addr + k]? = bs[k]? := by
  unfold patch
  rw [if_pos h]
  exact getElem?_writeBytes_inside buf addr bs k h hk

/-- Two buffers that hold the same byte at an offset of two records hold the
same byte there after the same writes, placed at each record. -/
theorem getElem?_placeAt_agree (ws : List (ℕ × List Byte)) (b c i : ℕ) :
    ∀ (M N : List Byte), (∀ w ∈ ws, b + w.1 + w.2.length ≤ M.length) →
      (∀ w ∈ ws, c + w.1 + w.2.length ≤ N.length) → M[b + i]? = N[c + i]? →
      (applyWrites (placeAt b ws) M)[b + i]? = (applyWrites (placeAt c ws) N)[c + i]? := by
  induction ws with
  | nil => intro M N _ _ h; exact h
  | cons w ws ih =>
    intro M N hM hN h
    have hwM := hM w (List.mem_cons_self _ _)
    have hwN := hN w (List.mem_cons_self _ _)
    simp only [placeAt, List.map_cons, applyWrites_cons]
    apply ih
    · intro x hx
      rw [length_patch]
      exact hM x (List.mem_cons_of_mem _ hx)
    · intro x hx
      rw [length_patch]
      exact hN x (List.mem_cons_of_mem _ hx)
    · dsimp only
      by_cases hin : w.1 ≤ i ∧ i < w.1 + w.2.length
      · rw [show b + i = b + w.1 + (i - w.1) by omega,
          show c + i = c + w.1 + (i - w.1) by omega,
          getElem?_patch_inside _ _ _ _ hwM (by omega),
          getElem?_patch_inside _ _ _ _ hwN (by omega)]
      · rw [getElem?_patch_outside _ _ _ _ (by omega),
          getElem?_patch_outside _ _ _ _ (by omega)]
        exact h

/-- Every write of a gamepad record ends where the header, the id or the
mapping ends. -/
theorem gamepadWrites_fit (W : ℕ) (g : Gamepad) (body L : ℕ) (hW : W = 4 ∨ W = 8)
    (hlen : buttonsBase W body + 1152 + 2 * W ≤ L)
    (hid : buttonsBase W body + 1152 + 2 * W + (TextEncoder.encode (storedId g)).length ≤ L)
    (hmap : buttonsBase W body + 1152 + 2 * W + 96
      + (TextEncoder.encode (storedMapping g)).length ≤ L)
    (w : ℕ × List Byte) (hw : w ∈ gamepadWrites W g body) : w.1 + w.2.length ≤ L := by
  have hcases := mem_gamepadWrites W g body hW w hw
  unfold gamepadWrites at hw
  simp only [List.mem_append, List.mem_cons, List.mem_singleton, List.not_mem_nil,
    or_false] at hw
  rcases hw with (((((((h | h | h) | h) | h) | h) | h) | h) | h) | (h | h)
  · rcases hcases with h1 | h1 | ⟨i, _, _, _, _⟩ | ⟨j, _, _, _, _⟩ <;>
      first
      | omega
      | (rw [h] at *; simp only [length_leBytes, buttonsBase] at *; omega)
  · rw [h]; simp only [length_leBytes]; unfold buttonsBase at hlen; omega
  · rw [h]; simp only [length_leBytes]; unfold buttonsBase at hlen; omega
  · have := mem_guestIntWrites W _ _ hW w h
    unfold buttonsBase at hlen
    omega
  · have := mem_guestIntWrites W _ _ hW w h
    unfold buttonsBase at hlen
    omega
  · obtain ⟨i, hi, _, _, h2⟩ := mem_buttonWrites _ _ _ w h
    omega
  · obtain ⟨j, hj, _, h1, h2⟩ := mem_axisWrites _ _ _ w h
    omega
  · have := mem_guestIntWrites W _ _ hW w h
    omega
  · have := mem_guestIntWrites W _ _ hW w h
    omega
  · rw [h]
    exact hid
  · rw [h]
    exact hmap

/-- The writes of the common prefix end below the body. -/
theorem prefixWrites_below (W : ℕ) (data : EventData) (ep : ℕ) (hW : W = 4 ∨ W = 8)
    (w : ℕ × List Byte) (hw : w ∈ prefixWrites W data ep) :
    w.1 + w.2.length ≤ ep + 28 + 2 * W := by
  rcases hW with rfl | rfl
  · simp only [prefixWrites, guestUintWrites, List.cons_append, List.nil_append,
      Nat.reduceEqDiff, if_false, List.mem_cons, List.mem_singleton, List.not_mem_nil,
      or_false] at hw
    rcases hw with h | h | h | h | h | h | h | h | h | h <;> rw [h] <;>
      simp only [length_leBytes] <;> omega
  · simp only [prefixWrites, guestUintWrites, List.cons_append, List.nil_append,
      if_true, List.mem_cons, List.mem_singleton, List.not_mem_nil,
      or_false] at hw
    rcases hw with h | h | h | h | h | h | h | h | h | h | h <;> rw [h] <;>
      simp only [length_leBytes] <;> omega

/-- C25: the two gamepad encoders agree.  There is one table of writes,
`gamepadWrites W g 0`, with addresses relative to the start of the record,
such that for `W` in {4, 8}, an event address `ep` and a state address `sp`
that are multiples of 8, and buffers that hold the records: the gamepad event
encoder succeeds with the writes of the common prefix and then this table
placed at its body `ep + 32 + 2 * W`; get_gamepad_state succeeds with this
table placed at `sp`.  So every field has the same offset and the same bytes
in both records, and at every offset `i` at which the two buffers held the
same byte before, they hold the same byte after. -/
theorem C25_gamepad_encoders_agree (host : Host) (W : ℕ) (data : EventData) (g : Gamepad)
    (gps : List (Option Gamepad)) (k ep sp : ℕ) (m n : List Byte)
    (hW : W = 4 ∨ W = 8) (hep : ep % 8 = 0) (hsp : sp % 8 = 0)
    (hkind : data.event.interface = .gamepad g) (hscroll : data.event.type ≠ "scroll")
    (hvis : data.event.type ≠ "visibilitychange")
    (hid : W = 4 → ∀ z, data.id_len ≠ .bigint z) (hk : gps[k]? = some (some g))
    (hm : gamepadRecordEnd W g (ep + 32 + 2 * W) ≤ m.length)
    (hn : gamepadRecordEnd W g sp ≤ n.length) :
    init_event_raw host (some data) ep ⟨m, W⟩
      = (.ok (), ⟨applyWrites (placeAt (ep + 32 + 2 * W) (gamepadWrites W g 0))
          (applyWrites (prefixWrites W data ep) m), W⟩) ∧
    get_gamepad_state gps k sp ⟨n, W⟩
      = (.ok true, ⟨applyWrites (placeAt sp (gamepadWrites W g 0)) n, W⟩) ∧
    ∀ i, m[ep + 32 + 2 * W + i]? = n[sp + i]? →
      (init_event_raw host (some data) ep ⟨m, W⟩).2.memory[ep + 32 + 2 * W + i]?
        = (get_gamepad_state gps k sp ⟨n, W⟩).2.memory[sp + i]? := by
  unfold gamepadRecordEnd at hm hn
  have hlen : buttonsBase W (ep + 32 + 2 * W) + 1152 + 2 * W ≤ m.length := by omega
  have hidfit : buttonsBase W (ep + 32 + 2 * W) + 1152 + 2 * W
      + (TextEncoder.encode (storedId g)).length ≤ m.length := by omega
  have hmapfit : buttonsBase W (ep + 32 + 2 * W) + 1152 + 2 * W + 96
      + (TextEncoder.encode (storedMapping g)).length ≤ m.length := by omega
  have hlen2 : buttonsBase W sp + 1152 + 2 * W ≤ n.length := by omega
  have hidfit2 : buttonsBase W sp + 1152 + 2 * W
      + (TextEncoder.encode (storedId g)).length ≤ n.length := by omega
  have hmapfit2 : buttonsBase W sp + 1152 + 2 * W + 96
      + (TextEncoder.encode (storedMapping g)).length ≤ n.length := by omega
  have hpl : ep + 28 + 2 * W ≤ m.length := by unfold buttonsBase at hlen; omega
  have hev : init_event_raw host (some data) ep ⟨m, W⟩
      = (.ok (), ⟨applyWrites (placeAt (ep + 32 + 2 * W) (gamepadWrites W g 0))
          (applyWrites (prefixWrites W data ep) m), W⟩) := by
    obtain ⟨a, s', hrun, hq⟩ := gamepad_body_runs host W data.event g (ep + 32 + 2 * W)
      (applyWrites (prefixWrites W data ep) m) hW (by rcases hW with rfl | rfl <;> omega)
      hkind hscroll hvis
      (by rw [length_applyWrites]; exact hlen) (by rw [length_applyWrites]; exact hidfit)
      (by rw [length_applyWrites]; exact hmapfit)
    rw [init_event_raw_eq_body host W data ep m hW hep hpl hid, hrun]
    dsimp only at hq ⊢
    rw [hq, gamepadWrites_eq_placeAt]
  have hst : get_gamepad_state gps k sp ⟨n, W⟩
      = (.ok true, ⟨applyWrites (placeAt sp (gamepadWrites W g 0)) n, W⟩) := by
    obtain ⟨a, s', hrun, ha, hq⟩ := get_gamepad_state_found_runs W g sp n hW hsp hlen2
      hidfit2 hmapfit2
    have hklt : k < gps.length := by
      by_contra hc
      rw [List.getElem?_eq_none (by omega)] at hk
      cases hk
    unfold get_gamepad_state
    dsimp only
    rw [if_pos ⟨by omega, by exact_mod_cast hklt⟩, Int.toNat_natCast, hk]
    dsimp only
    rw [hrun, ha]
    dsimp only
    rw [hq, gamepadWrites_eq_placeAt]
  refine ⟨hev, hst, ?_⟩
  intro i hi
  rw [hev, hst]
  dsimp only
  apply getElem?_placeAt_agree
  · intro w hw
    have hw2 : (ep + 32 + 2 * W + w.1, w.2) ∈ gamepadWrites W g (ep + 32 + 2 * W) := by
      rw [gamepadWrites_eq_placeAt]
      exact List.mem_map_of_mem _ hw
    have := gamepadWrites_fit W g (ep + 32 + 2 * W) m.length hW hlen hidfit hmapfit _ hw2
    rw [length_applyWrites]
    exact this
  · intro w hw
    have hw2 : (sp + w.1, w.2) ∈ gamepadWrites W g sp := by
      rw [gamepadWrites_eq_placeAt]
      exact List.mem_map_of_mem _ hw
    exact gamepadWrites_fit W g sp n.length hW hlen2 hidfit2 hmapfit2 _ hw2
  · rw [getElem?_applyWrites_outside _ _ _ (fun w hw => by
      have := prefixWrites_below W data ep hW w hw
      right
      omega)]
    exact hi

set_option maxRecDepth 1000000 in
/-- Witness of C25: the gamepad with index 1 in the event record at address
0 of a buffer of 1400 zero bytes (body at 40) and in the state record at
address 8 of a buffer of 1368 zero bytes, intSize 4. -/
theorem C25_gamepad_encoders_agree_witness :
    init_event_raw quietHost (some (padEvent indexOnePad)) 0 ⟨List.replicate 1400 0, 4⟩
      = (.ok (), ⟨applyWrites (placeAt (0 + 32 + 2 * 4) (gamepadWrites 4 indexOnePad 0))
          (applyWrites (prefixWrites 4 (padEvent indexOnePad) 0) (List.replicate 1400 0)),
          4⟩) ∧
    get_gamepad_state [some indexOnePad] ((0 : ℕ) : ℤ) 8 ⟨List.replicate 1368 0, 4⟩
      = (.ok true, ⟨applyWrites (placeAt 8 (gamepadWrites 4 indexOnePad 0))
          (List.replicate 1368 0), 4⟩) ∧
    ∀ i, (List.replicate 1400 (0 : Byte))[0 + 32 + 2 * 4 + i]?
        = (List.replicate 1368 (0 : Byte))[8 + i]? →
      (init_event_raw quietHost (some (padEvent indexOnePad)) 0
        ⟨List.replicate 1400 0, 4⟩).2.memory[0 + 32 + 2 * 4 + i]?
        = (get_gamepad_state [some indexOnePad] ((0 : ℕ) : ℤ) 8
          ⟨List.replicate 1368 0, 4⟩).2.memory[8 + i]? :=
  C25_gamepad_encoders_agree quietHost 4 (padEvent indexOnePad) indexOnePad
    [some indexOnePad] 0 0 8 (List.replicate 1400 0) (List.replicate 1368 0)
    (by decide) (by decide) (by decide) rfl (by decide) (by decide)
    (fun _ z => number_ne_bigint _ z) rfl (by decide!) (by decide!)

end Odin
namespace Odin

/-! ## The staged event while a guest callback runs -/

theorem domKeeps_pure {α : Type} (a : α) : DomKeeps (pure a : JS Dom α) := fun _ => rfl

theorem domKeeps_bind {α β : Type} (x : JS Dom α) (f : α → JS Dom β) (hx : DomKeeps x)
    (hf : ∀ a, DomKeeps (f a)) : DomKeeps (x >>= f) := by
  intro s
  rw [JS.bind_def]
  have h1 := hx s
  rcases hxs : x s with ⟨r, s1⟩
  rw [hxs] at h1
  cases r with
  | error err => exact h1
  | ok a => exact (hf a s1).trans h1

theorem domKeeps_loadString (ptr : Num) (len : JSValue) : DomKeeps (Dom.loadString ptr len) :=
  fun _ => rfl

theorem domKeeps_getElement (name : JSString) : DomKeeps (Dom.getElement name) := fun _ => rfl

theorem domKeeps_has (key : JSString) : DomKeeps (Dom.has key) := fun _ => rfl

theorem domKeeps_get (key : JSString) : DomKeeps (Dom.get key) := fun _ => rfl

theorem domKeeps_set (key : JSString) (l : Listener) : DomKeeps (Dom.set key l) := fun _ => rfl

theorem domKeeps_delete (key : JSString) : DomKeeps (Dom.delete key) := fun _ => rfl

theorem domKeeps_closure (id_ptr : Num) (id_len : JSValue) (name_code : Num)
    (data callback : ℤ) : DomKeeps (Dom.closure id_ptr id_len name_code data callback) :=
  fun _ => rfl

theorem domKeeps_addEventListener (element : Target) (name : JSString) (l : Listener)
    (capture : Bool) : DomKeeps (Dom.addEventListener element name l capture) := by
  intro s
  unfold Dom.addEventListener
  split <;> rfl

theorem domKeeps_removeEventListener (element : Target) (name : JSString) (l : Listener)
    (capture : Bool) : DomKeeps (Dom.removeEventListener element name l capture) :=
  fun _ => rfl

theorem domKeeps_init_event_raw (ep : ℕ) : DomKeeps (Dom.init_event_raw ep) := fun _ => rfl

theorem domKeeps_add_tail (element : Target) (key name : JSString) (id_ptr : Num)
    (id_len : JSValue) (name_code : Num) (data callback : ℤ) (use_capture : Bool) :
    DomKeeps (do
      if ← Dom.has key then pure false
      else
        let listener ← Dom.closure id_ptr id_len name_code data callback
        Dom.set key listener
        Dom.addEventListener element name listener use_capture
        pure true) := by
  refine domKeeps_bind _ _ (domKeeps_has _) (fun b => ?_)
  cases b
  · exact domKeeps_bind _ _ (domKeeps_closure _ _ _ _ _) (fun l =>
      domKeeps_bind _ _ (domKeeps_set _ _) (fun _ =>
        domKeeps_bind _ _ (domKeeps_addEventListener _ _ _ _) (fun _ => domKeeps_pure _)))
  · exact domKeeps_pure _

theorem domKeeps_remove_tail (element : Target) (key name : JSString) (use_capture : Bool) :
    DomKeeps (do
      match ← Dom.get key with
      | none => pure false
      | some listener =>
        Dom.delete key
        Dom.removeEventListener element name listener use_capture
        pure true) := by
  refine domKeeps_bind _ _ (domKeeps_get _) (fun o => ?_)
  cases o
  · exact domKeeps_pure _
  · exact domKeeps_bind _ _ (domKeeps_delete _) (fun _ =>
      domKeeps_bind _ _ (domKeeps_removeEventListener _ _ _ _) (fun _ => domKeeps_pure _))

theorem domKeeps_add_event_listener (id_ptr : Num) (id_len : JSValue) (name_ptr : Num)
    (name_len : JSValue) (name_code : Num) (data callback : ℤ) (use_capture : Bool) :
    DomKeeps (add_event_listener id_ptr id_len name_ptr name_len name_code data callback
      use_capture) := by
  unfold add_event_listener
  refine domKeeps_bind _ _ (domKeeps_loadString _ _) (fun id => ?_)
  refine domKeeps_bind _ _ (domKeeps_loadString _ _) (fun name => ?_)
  refine domKeeps_bind _ _ (domKeeps_getElement _) (fun o => ?_)
  cases o
  · exact domKeeps_pure _
  · exact domKeeps_add_tail _ _ _ _ _ _ _ _ _

theorem domKeeps_add_window_event_listener (name_ptr : Num) (name_len : JSValue)
    (name_code : Num) (data callback : ℤ) (use_capture : Bool) :
    DomKeeps (add_window_event_listener name_ptr name_len name_code data callback
      use_capture) := by
  unfold add_window_event_listener
  refine domKeeps_bind _ _ (domKeeps_loadString _ _) (fun name => ?_)
  exact domKeeps_add_tail _ _ _ _ _ _ _ _ _

theorem domKeeps_add_document_event_listener (name_ptr : Num) (name_len : JSValue)
    (name_code : Num) (data callback : ℤ) (use_capture : Bool) :
    DomKeeps (add_document_event_listener name_ptr name_len name_code data callback
      use_capture) := by
  unfold add_document_event_listener
  refine domKeeps_bind _ _ (domKeeps_loadString _ _) (fun name => ?_)
  exact domKeeps_add_tail _ _ _ _ _ _ _ _ _

theorem domKeeps_remove_event_listener (id_ptr : Num) (id_len : JSValue) (name_ptr : Num)
    (name_len : JSValue) (data callback : ℤ) (use_capture : Bool) :
    DomKeeps (remove_event_listener id_ptr id_len name_ptr name_len data callback
      use_capture) := by
  unfold remove_event_listener
  refine domKeeps_bind _ _ (domKeeps_loadString _ _) (fun id => ?_)
  refine domKeeps_bind _ _ (domKeeps_loadString _ _) (fun name => ?_)
  refine domKeeps_bind _ _ (domKeeps_getElement _) (fun o => ?_)
  cases o
  · exact domKeeps_pure _
  · exact domKeeps_remove_tail _ _ _ _

theorem domKeeps_remove_window_event_listener (name_ptr : Num) (name_len : JSValue)
    (data callback : ℤ) (use_capture : Bool) :
    DomKeeps (remove_window_event_listener name_ptr name_len data callback use_capture) := by
  unfold remove_window_event_listener
  refine domKeeps_bind _ _ (domKeeps_loadString _ _) (fun name => ?_)
  exact domKeeps_remove_tail _ _ _ _

theorem domKeeps_remove_document_event_listener (name_ptr : Num) (name_len : JSValue)
    (data callback : ℤ) (use_capture : Bool) :
    DomKeeps (remove_document_event_listener name_ptr name_len data callback
      use_capture) := by
  unfold remove_document_event_listener
  refine domKeeps_bind _ _ (domKeeps_loadString _ _) (fun name => ?_)
  exact domKeeps_remove_tail _ _ _ _

theorem pageKeeps_pure {α : Type} (l : Listener) (k : ℕ) (e : Event) (a : α) :
    PageKeeps l k e (pure a : JS Page α) := fun _ h => h

theorem pageKeeps_bind {α β : Type} (l : Listener) (k : ℕ) (e : Event) (x : JS Page α)
    (f : α → JS Page β) (hx : PageKeeps l k e x) (hf : ∀ a, PageKeeps l k e (f a)) :
    PageKeeps l k e (x >>= f) := by
  intro s hs
  rw [JS.bind_def]
  have h1 := hx s hs
  rcases hxs : x s with ⟨r, s1⟩
  rw [hxs] at h1
  cases r with
  | error err => exact h1
  | ok a => exact hf a s1 h1

theorem pageKeeps_lift {α : Type} (l : Listener) (k : ℕ) (e : Event) (p : JS Dom α)
    (hp : DomKeeps p) : PageKeeps l k e (Page.lift p) := by
  intro s hs
  unfold Page.Staged Page.lift at *
  dsimp only
  rw [hp s.dom]
  exact hs

theorem pageKeeps_onStaged (l : Listener) (k : ℕ) (e : Event)
    (f : Event → EventFlags → EventFlags) : PageKeeps l k e (Page.onStaged f) := by
  intro s hs
  unfold Page.onStaged
  split
  · exact hs
  · exact hs

theorem pageKeeps_get_gamepad_state (l : Listener) (k : ℕ) (e : Event) (gamepad_id : ℤ)
    (ep : ℕ) : PageKeeps l k e (Page.get_gamepad_state gamepad_id ep) := fun _ h => h

/-- The listeners of a stop are not called when none of them has the type of
the event. -/
theorem innerInvoke_quiet (guest : ℤ → ℤ → JS Page Unit) (k : ℕ) (name : JSString)
    (e : Event) (capture : Bool) (listeners : List Attached) (s : Page)
    (h : ∀ a ∈ listeners, a.type ≠ name) :
    Page.innerInvoke guest k name e capture listeners s = (.ok (), s) := by
  induction listeners with
  | nil => rfl
  | cons a rest ih =>
    unfold Page.innerInvoke
    rw [if_neg (fun hc => h a (List.mem_cons_self _ _) hc.2.1)]
    exact ih (fun b hb => h b (List.mem_cons_of_mem _ hb))

theorem invoke_quiet (guest : ℤ → ℤ → JS Page Unit) (k : ℕ) (name : JSString) (e : Event)
    (stop : PathStop) (s : Page)
    (h : ∀ a ∈ s.dom.attached, a.type = name → a.target ≠ stop.object) :
    Page.invoke guest k name e stop s = (.ok (), s) := by
  unfold Page.invoke
  split
  · rfl
  · apply innerInvoke_quiet
    intro a ha hty
    rw [List.mem_filter] at ha
    exact h a ha.1 hty (of_decide_eq_true ha.2)

theorem invokeAll_quiet (guest : ℤ → ℤ → JS Page Unit) (k : ℕ) (name : JSString) (e : Event)
    (stops : List PathStop) (s : Page)
    (h : ∀ a ∈ s.dom.attached, a.type = name → ∀ stop ∈ stops, a.target ≠ stop.object) :
    Page.invokeAll guest k name e stops s = (.ok (), s) := by
  induction stops with
  | nil => rfl
  | cons stop rest ih =>
    unfold Page.invokeAll
    rw [JS.bind_def, invoke_quiet guest k name e stop s
      (fun a ha hty => h a ha hty stop (List.mem_cons_self _ _))]
    exact ih (fun a ha hty st hst => h a ha hty st (List.mem_cons_of_mem _ hst))

/-- Every stop of a dispatch is at an object of the path. -/
theorem mem_pathStops (bubbles : Bool) (path : List Target) (stop : PathStop)
    (h : stop ∈ Page.pathStops bubbles path) : stop.object ∈ path := by
  cases path with
  | nil => exact absurd h (List.not_mem_nil _)
  | cons target above =>
    unfold Page.pathStops at h
    simp only [List.mem_append, List.mem_map, List.mem_reverse, List.mem_cons,
      List.mem_singleton, List.not_mem_nil, or_false] at h
    rcases h with (⟨o, ho, rfl⟩ | rfl | rfl) | h
    · exact List.mem_cons_of_mem _ ho
    · exact List.mem_cons_self _ _
    · exact List.mem_cons_self _ _
    · cases bubbles with
      | false => simp at h
      | true =>
        simp only [if_true, List.mem_map] at h
        obtain ⟨o, ho, rfl⟩ := h
        exact List.mem_cons_of_mem _ ho

/-- A dispatch that reaches no listener of the type of the event only
creates the event object. -/
theorem dispatchEvent_quiet (guest : ℤ → ℤ → JS Page Unit) (target : Target)
    (name : JSString) (e : Event) (s : Page)
    (h : ∀ a ∈ s.dom.attached, a.type = name → a.target ∉ s.eventPath target) :
    Page.dispatchEvent guest target name e s
      = (.ok (), { s with flags := s.flags ++ [⟨false, false, false, false⟩] }) := by
  unfold Page.dispatchEvent
  apply invokeAll_quiet
  intro a ha hty stop hstop heq
  apply h a ha hty
  rw [heq]
  exact mem_pathStops _ _ _ hstop

/-- The import dispatch_custom_event keeps the staged event staged when it
reaches no bridging listener. -/
theorem dispatch_custom_event_keeps (nested : ℤ → ℤ → JS Page Unit) (l : Listener) (k : ℕ)
    (e : Event) (id_ptr : Num) (id_len : JSValue) (name_ptr : Num) (name_len : JSValue)
    (options_bits : ℤ) (s : Page) (hs : Page.Staged l k e s)
    (hq : Page.Quiet (.dispatch_custom_event id_ptr id_len name_ptr name_len options_bits) s) :
    Page.Staged l k e
      (Page.dispatch_custom_event nested id_ptr id_len name_ptr name_len options_bits s).2 := by
  have hlift : ∀ (ptr : Num) (len : JSValue),
      Page.lift (Dom.loadString ptr len) s = ((Dom.loadString ptr len s.dom).1, s) :=
    fun _ _ => rfl
  unfold Page.dispatch_custom_event
  rw [JS.bind_def, hlift]
  rcases hid : (Dom.loadString id_ptr id_len s.dom).1 with err | id
  · exact hs
  · dsimp only
    rw [JS.bind_def, hlift]
    rcases hname : (Dom.loadString name_ptr name_len s.dom).1 with err | name
    · exact hs
    · dsimp only
      simp only [Page.Quiet, Page.quietDispatch, hid, hname] at hq
      have hget : Page.lift (Dom.getElement id) s
          = (.ok (if id ≠ [] then (if id ∈ s.dom.elements then some (.element id) else none)
              else none), s) := rfl
      rw [JS.bind_def, hget]
      dsimp only
      by_cases h1 : id ≠ []
      · by_cases h2 : id ∈ s.dom.elements
        · rw [if_pos h1, if_pos h2]
          dsimp only
          rw [JS.bind_def]
          dsimp only
          rw [JS.bind_def, dispatchEvent_quiet _ _ _ _ _ hq]
          exact hs
        · rw [if_pos h1, if_neg h2]
          exact hs
      · rw [if_neg h1]
        exact hs

/-- A change made by code of the page keeps the staged event staged. -/
theorem staged_outside (l : Listener) (k : ℕ) (e : Event) (f : Page → Page) (s : Page)
    (hs : Page.Staged l k e s) : Page.Staged l k e (s.outside f) := hs

/-- Code of the page that reaches no bridging listener keeps the staged event
staged, whether it ends normally or by an exception. -/
theorem runScript_keeps (nested : ℤ → ℤ → JS Page Unit) (l : Listener) (k : ℕ) (e : Event)
    (script : List ScriptStep) :
    ∀ s, Page.Staged l k e s → Page.QuietScript script s →
      Page.Staged l k e (Page.runScript nested script s).2 := by
  induction script with
  | nil => intro s hs _; exact hs
  | cons step rest ih =>
    intro s hs hq
    cases step with
    | dispatchEvent target name ev =>
      simp only [Page.QuietScript] at hq
      simp only [Page.runScript]
      rw [JS.bind_def, dispatchEvent_quiet nested target name ev s hq.1]
      exact ih _ hs hq.2
    | update f =>
      simp only [Page.QuietScript] at hq
      simp only [Page.runScript]
      rw [JS.bind_def]
      exact ih _ (staged_outside l k e f s hs) hq
    | throw err =>
      simp only [Page.runScript]
      exact hs

/-- The import evaluate keeps the staged event staged when its script reaches
no bridging listener. -/
theorem evaluate_keeps (nested : ℤ → ℤ → JS Page Unit) (l : Listener) (k : ℕ) (e : Event)
    (str_ptr : Num) (str_len : JSValue) (script : List ScriptStep) (s : Page)
    (hs : Page.Staged l k e s) (hq : Page.Quiet (.evaluate str_ptr str_len script) s) :
    Page.Staged l k e (Page.evaluate nested str_ptr str_len script s).2 := by
  have hlift : Page.lift (Dom.loadString str_ptr str_len) s
      = ((Dom.loadString str_ptr str_len s.dom).1, s) := rfl
  unfold Page.evaluate
  rw [JS.bind_def, hlift]
  rcases hstr : (Dom.loadString str_ptr str_len s.dom).1 with err | str
  · exact hs
  · simp only [Page.Quiet, Page.quietEvaluate, hstr] at hq
    exact runScript_keeps nested l k e script s hs hq

/-- Every import keeps the staged event staged, unless it reaches a bridging
listener (by dispatch_custom_event, or through code of the page). -/
theorem hostCall_keeps (nested : ℤ → ℤ → JS Page Unit) (l : Listener) (k : ℕ) (e : Event)
    (c : HostCall) (s : Page) (hs : Page.Staged l k e s) (hq : Page.Quiet c s) :
    Page.Staged l k e (Page.hostCall nested c s).2 := by
  have hdrop : ∀ (p : JS Page Bool), Page.Staged l k e (p s).2 →
      Page.Staged l k e ((do let _ ← p : JS Page Unit) s).2 := by
    intro p hp
    rw [JS.bind_def]
    rcases hrun : p s with ⟨r, s1⟩
    rw [hrun] at hp
    cases r with
    | error err => exact hp
    | ok b => exact hp
  cases c with
  | init_event_raw ep => exact pageKeeps_lift l k e _ (domKeeps_init_event_raw ep) s hs
  | event_stop_propagation => exact pageKeeps_onStaged l k e _ s hs
  | event_stop_immediate_propagation => exact pageKeeps_onStaged l k e _ s hs
  | event_prevent_default => exact pageKeeps_onStaged l k e _ s hs
  | dispatch_custom_event id_ptr id_len name_ptr name_len options_bits =>
    exact hdrop _ (dispatch_custom_event_keeps nested l k e id_ptr id_len name_ptr name_len
      options_bits s hs hq)
  | add_event_listener a b c d f g h i =>
    exact hdrop _ (pageKeeps_lift l k e _ (domKeeps_add_event_listener a b c d f g h i) s hs)
  | add_window_event_listener a b c d f g =>
    exact hdrop _
      (pageKeeps_lift l k e _ (domKeeps_add_window_event_listener a b c d f g) s hs)
  | add_document_event_listener a b c d f g =>
    exact hdrop _
      (pageKeeps_lift l k e _ (domKeeps_add_document_event_listener a b c d f g) s hs)
  | remove_event_listener a b c d f g h =>
    exact hdrop _ (pageKeeps_lift l k e _ (domKeeps_remove_event_listener a b c d f g h) s hs)
  | remove_window_event_listener a b c d f =>
    exact hdrop _
      (pageKeeps_lift l k e _ (domKeeps_remove_window_event_listener a b c d f) s hs)
  | remove_document_event_listener a b c d f =>
    exact hdrop _
      (pageKeeps_lift l k e _ (domKeeps_remove_document_event_listener a b c d f) s hs)
  | get_gamepad_state gamepad_id ep =>
    exact hdrop _ (pageKeeps_get_gamepad_state l k e gamepad_id ep s hs)
  | evaluate str_ptr str_len script =>
    exact evaluate_keeps nested l k e str_ptr str_len script s hs hq
  | other effect => exact runScript_keeps nested l k e effect s hs hq

/-- The staged event stays staged through a list of quiet imports. -/
theorem stagedAtEveryCall_of_quiet (nested : ℤ → ℤ → JS Page Unit) (l : Listener) (k : ℕ)
    (e : Event) (cs : List HostCall) :
    ∀ s, Page.Staged l k e s → Page.QuietCalls nested cs s →
      Page.StagedAtEveryCall nested l k e cs s := by
  induction cs with
  | nil => intro s hs _; exact hs
  | cons c cs ih =>
    intro s hs hq
    unfold Page.QuietCalls at hq
    unfold Page.StagedAtEveryCall
    refine ⟨hs, ?_⟩
    have hkeep := hostCall_keeps nested l k e c s hs hq.1
    have hrest := hq.2
    rcases hrun : Page.hostCall nested c s with ⟨r, s1⟩
    rw [hrun] at hkeep hrest
    cases r with
    | error err => trivial
    | ok a => exact ih s1 hkeep hrest

/-- The state a list of quiet imports ends in, normally or by an exception,
has the event staged. -/
theorem runCalls_keeps (nested : ℤ → ℤ → JS Page Unit) (l : Listener) (k : ℕ)
    (e : Event) (cs : List HostCall) :
    ∀ s, Page.Staged l k e s → Page.QuietCalls nested cs s →
      Page.Staged l k e (Page.runCalls nested cs s).2 := by
  induction cs with
  | nil => intro s hs _; exact hs
  | cons c cs ih =>
    intro s hs hq
    unfold Page.QuietCalls at hq
    unfold Page.runCalls
    rw [JS.bind_def]
    have hkeep := hostCall_keeps nested l k e c s hs hq.1
    have hrest := hq.2
    rcases hrun : Page.hostCall nested c s with ⟨r, s1⟩
    rw [hrun] at hkeep hrest
    cases r with
    | error err => exact hkeep
    | ok a => exact ih s1 hkeep hrest

/-- A call of a listener whose guest callback returns ends with nothing
staged. -/
theorem call_of_ok (guest : ℤ → ℤ → JS Page Unit) (l : Listener) (k : ℕ) (e : Event)
    (s s1 : Page) (a : Unit)
    (h : guest l.data l.callback (Page.staging l k e s) = (.ok a, s1)) :
    Page.call guest l k e s
      = (.ok (), { s1 with dom := { s1.dom with event_temp := none }, staged := none }) := by
  unfold Page.call Page.onEventReceived
  rw [JS.bind_run _ _ s (Page.staging l k e s) () rfl, JS.bind_run _ _ _ s1 a h]

/-- A call of a listener whose guest callback throws ends in the state of the
exception. -/
theorem call_of_error (guest : ℤ → ℤ → JS Page Unit) (l : Listener) (k : ℕ) (e : Event)
    (s s1 : Page) (err : JSError)
    (h : guest l.data l.callback (Page.staging l k e s) = (.error err, s1)) :
    Page.call guest l k e s = (.error err, s1) := by
  unfold Page.call Page.onEventReceived
  rw [JS.bind_run _ _ s (Page.staging l k e s) () rfl, JS.bind_err _ _ _ s1 err h]

set_option maxRecDepth 1000000 in
/-- The `wheel` listener of the window is passive, that of the form is not:
when the window is the target, event_prevent_default called from the
callback does not cancel the event; when the form is the target, the
listener of the form is called too and its event_prevent_default cancels the
event. -/
theorem prevent_default_in_passive_listener :
    (((Page.dispatchEvent (Page.callback cancellingGuest 2) .window (ascii "wheel") nativeWheel
      wheelPage).2).flagsOf 1).canceled = false ∧
    (((Page.dispatchEvent (Page.callback cancellingGuest 2) (.element (ascii "form"))
      (ascii "wheel") nativeWheel wheelPage).2).flagsOf 1).canceled = true := by
  decide!

set_option maxRecDepth 1000000 in
/-- C21 fails on the code when a callback dispatches a custom event that a
bridging listener is registered for.  On the page with a form, the callback
of the `submit` listener calls dispatch_custom_event(form, `ping`),
event_prevent_default and init_event_raw(64).  The dispatch calls the `ping`
listener at once; its onEventReceived stages the custom event and sets
`event_temp.data = null` when the nested callback returns.  So the `submit`
event is not staged at every call: after the first one nothing is staged
although the `submit` callback has not returned, event_prevent_default does
not cancel the `submit` event and init_event_raw writes nothing.  The same
happens when the callback calls evaluate with a script that dispatches
`ping` on the form. -/
theorem C21_counterexample_nested_dispatch :
    ¬ Page.StagedAtEveryCall (Page.callback (dispatchingGuest 4) 1) submitListener 0
        submitEvent (dispatchingGuest 4 1 10)
        (Page.staging submitListener 0 submitEvent formPage) ∧
    (Page.hostCall (Page.callback (dispatchingGuest 4) 1)
      (.dispatch_custom_event (.fin 0) (.number (.fin 4)) (Num.ofNat 4) (.number (.fin 4)) 0)
      (Page.staging submitListener 0 submitEvent formPage)).2.dom.event_temp = none ∧
    (Page.call (Page.callback (dispatchingGuest 4) 2) submitListener 0 submitEvent formPage).1
      = .ok () ∧
    (Page.call (Page.callback (dispatchingGuest 4) 2) submitListener 0 submitEvent
      formPage).2.dom.wmi.memory = formPage.dom.wmi.memory ∧
    ((Page.call (Page.callback (dispatchingGuest 4) 2) submitListener 0 submitEvent
      formPage).2.flagsOf 0).canceled = false ∧
    ¬ Page.StagedAtEveryCall (Page.callback (evaluatingGuest (ascii "ping")) 1) submitListener 0
        submitEvent (evaluatingGuest (ascii "ping") 1 10)
        (Page.staging submitListener 0 submitEvent formPage) ∧
    ((Page.call (Page.callback (evaluatingGuest (ascii "ping")) 2) submitListener 0 submitEvent
      formPage).2.flagsOf 0).canceled = false := by
  decide!

/-- C21, amended: while the callback of a bridging listener runs, the event
that fired the listener is the staged one at every import the callback
calls, and still when the last import has returned, provided that no import
reaches a bridging listener: for every event that dispatch_custom_event, the
script of an evaluate or page code run by another import dispatches, no
listener of the type of the event is attached to the target, its ancestors,
the document or the window at that moment.  The event is unstaged when the
callback has returned: the call of the listener then ends with nothing
staged; when one of the imports throws, the callback ends there and the event
stays staged.  This holds for every guest, every room on the call stack,
every listener, event and page. -/
theorem C21_staged_until_callback_returns (guest : Guest) (depth : ℕ) (l : Listener) (k : ℕ)
    (e : Event) (s : Page)
    (hquiet : Page.QuietCalls (Page.callback guest depth) (guest l.data l.callback)
      (Page.staging l k e s)) :
    Page.StagedAtEveryCall (Page.callback guest depth) l k e (guest l.data l.callback)
      (Page.staging l k e s) ∧
    ((Page.call (Page.callback guest (depth + 1)) l k e s).1 = .ok () →
      (Page.call (Page.callback guest (depth + 1)) l k e s).2.dom.event_temp = none ∧
      (Page.call (Page.callback guest (depth + 1)) l k e s).2.staged = none) ∧
    (∀ err, (Page.call (Page.callback guest (depth + 1)) l k e s).1 = .error err →
      Page.Staged l k e (Page.call (Page.callback guest (depth + 1)) l k e s).2) := by
  have hstaged : Page.Staged l k e (Page.staging l k e s) := ⟨rfl, rfl⟩
  have hend := runCalls_keeps (Page.callback guest depth) l k e (guest l.data l.callback)
    (Page.staging l k e s) hstaged hquiet
  have hcb : Page.callback guest (depth + 1) l.data l.callback
      = Page.runCalls (Page.callback guest depth) (guest l.data l.callback) := rfl
  refine ⟨stagedAtEveryCall_of_quiet _ l k e _ _ hstaged hquiet, ?_, ?_⟩
  · intro hok
    rcases hrun : Page.runCalls (Page.callback guest depth) (guest l.data l.callback)
      (Page.staging l k e s) with ⟨r, s1⟩
    cases r with
    | error err =>
      rw [call_of_error _ l k e s s1 err (by rw [hcb]; exact hrun)] at hok
      cases hok
    | ok a =>
      rw [call_of_ok _ l k e s s1 a (by rw [hcb]; exact hrun)]
      exact ⟨rfl, rfl⟩
  · intro err herr
    rcases hrun : Page.runCalls (Page.callback guest depth) (guest l.data l.callback)
      (Page.staging l k e s) with ⟨r, s1⟩
    rw [hrun] at hend
    cases r with
    | error err1 =>
      rw [call_of_error _ l k e s s1 err1 (by rw [hcb]; exact hrun)]
      exact hend
    | ok a =>
      rw [call_of_ok _ l k e s s1 a (by rw [hcb]; exact hrun)] at herr
      cases herr

set_option maxRecDepth 1000000 in
/-- Witness of C21: on the page with a form, the callback of the `submit`
listener calls evaluate with a script that dispatches the event `idle`,
which nothing listens to, and moves the clock, then another import that
moves the clock, then event_prevent_default and init_event_raw(64).  The
`submit` event is staged at every call, and the call of the listener ends
with nothing staged. -/
theorem C21_staged_until_callback_returns_witness :
    Page.QuietCalls (Page.callback (evaluatingGuest (ascii "idle")) 1)
      (evaluatingGuest (ascii "idle") 1 10)
      (Page.staging submitListener 0 submitEvent formPage) ∧
    Page.StagedAtEveryCall (Page.callback (evaluatingGuest (ascii "idle")) 1) submitListener 0
      submitEvent (evaluatingGuest (ascii "idle") 1 10)
      (Page.staging submitListener 0 submitEvent formPage) ∧
    (Page.call (Page.callback (evaluatingGuest (ascii "idle")) (1 + 1)) submitListener 0
      submitEvent formPage).2.dom.event_temp = none ∧
    (Page.call (Page.callback (evaluatingGuest (ascii "idle")) (1 + 1)) submitListener 0
      submitEvent formPage).2.staged = none :=
  have hq : Page.QuietCalls (Page.callback (evaluatingGuest (ascii "idle")) 1)
      (evaluatingGuest (ascii "idle") 1 10)
      (Page.staging submitListener 0 submitEvent formPage) := by decide!
  have h := C21_staged_until_callback_returns (evaluatingGuest (ascii "idle")) 1 submitListener
    0 submitEvent formPage hq
  ⟨hq, h.1, h.2.1 (by decide!)⟩

end Odin
